import Mathlib

/-
  Verification of the Akaros arena resource allocator and slab cache
  (kern/src/arena.c and kern/src/slab.c as present in this repository,
  headers kern/include/arena.h and kern/include/slab.h).

  The embedding models the arena state as the in-order traversal of the
  all_segs red-black tree (a list of boundary tags sorted by start address,
  with SPAN tags ordered before co-starting regular tags), the 64 power-of-two
  free lists and the 193 allocation hash chains as lists of segment start
  addresses (the intrusive lists link the very tags that live in the tree, so
  a start address identifies the linked tag), and the accounting counters.

  Machine integers (uintptr_t and size_t) are modelled as Nat with explicit
  reduction modulo W = 2^64 at the points where the C code can wrap around;
  the code under scrutiny checks for wraparound explicitly, and those checks
  are reproduced.

  panic() and failed assert() calls are modelled by returning none.

  Boundary-tag bookkeeping (__add_more_btags and friends) is not modelled:
  the model behaves like an arena whose btag pool never runs dry, which is the
  behaviour of any non-base arena whose base arena can always supply a page.
  The only observable difference is the MEM_ATOMIC btag-exhaustion failure
  path, which none of the examined claims depend on.
-/

/-! ## Machine arithmetic -/

/-- Word size of the modelled machine: uintptr_t and size_t arithmetic is
modulo 2^64. -/
def W : Nat := 2 ^ 64

def PGSIZE : Nat := 4096
def ARENA_NR_FREE_LISTS : Nat := 64
def ARENA_NR_HASH_LISTS : Nat := 193

/-- Modelled from the spec: ROUNDUP from ros/common.h is not under src/; the
spec describes sizes "rounded up to quantum" and addresses rounded up to a
power-of-two alignment, i.e. the least multiple of n that is at least a.
For the power-of-two arguments used throughout the arena this agrees with the
mask-based C macro (modulo 2^64, which callers apply explicitly). -/
def ROUNDUP (a n : Nat) : Nat := if n = 0 then a else (a + n - 1) / n * n

/-- C evaluation of ROUNDUP in 64-bit arithmetic. -/
def rup64 (a n : Nat) : Nat := ROUNDUP a n % W

/-- C unsigned 64-bit subtraction. -/
def sub64 (a b : Nat) : Nat := (a % W + (W - b % W)) % W

/-- floor(log2) computed by at most f halvings (the C macro is a 64-bit bit
scan, so 64 steps are exact for every machine value). -/
def log2w : Nat → Nat → Nat
  | 0, _ => 0
  | f + 1, n => if 2 ≤ n then log2w f (n / 2) + 1 else 0

/-- Modelled from the spec: LOG2_DOWN from ros/common.h is not under src/;
the spec indexes free lists by floor(log2(size)). -/
def LOG2_DOWN (x : Nat) : Nat := log2w 64 x

/-- Modelled from the spec: LOG2_UP from ros/common.h is not under src/;
the spec has instant fit start at ceil(log2(size)). -/
def LOG2_UP (x : Nat) : Nat :=
  if 2 ^ LOG2_DOWN x = x then LOG2_DOWN x else LOG2_DOWN x + 1

/-- Modelled from the spec: IS_PWR2 from ros/common.h is not under src/;
arena_xalloc requires align and nocross to be powers of two. -/
def IS_PWR2 (x : Nat) : Prop := x ≠ 0 ∧ 2 ^ LOG2_DOWN x = x

instance (x : Nat) : Decidable (IS_PWR2 x) := by unfold IS_PWR2; infer_instance

/-! ## Boundary tags and the arena state -/

/-- btag_status_t from arena.h. -/
inductive BtStatus
  | free
  | alloc
  | span
deriving DecidableEq, Repr

/-- struct btag: one contiguous segment [start, start + size) and its status.
The intrusive links (all_link, misc_link) are represented by the position of
the tag in the state lists below. -/
structure Btag where
  start : Nat
  size : Nat
  status : BtStatus
deriving DecidableEq, Repr

/-- struct arena.  segs is the in-order traversal of the all_segs tree;
freeSegs and allocHash store the start addresses of the tags linked on each
free list bucket and hash chain (list head first, matching
BSD_LIST_INSERT_HEAD and in-order traversal). -/
structure ArenaState where
  quantum : Nat
  hasSource : Bool
  importScale : Nat
  segs : List Btag
  freeSegs : List (List Nat)
  allocHash : List (List Nat)
  amt_total_segs : Nat
  amt_alloc_segs : Nat
  nr_allocs : Nat
  last_nextfit_alloc : Nat
deriving DecidableEq, Repr

/-- allocation style bits of the flags argument. -/
inductive AllocStyle
  | bestfit
  | instantfit
  | nextfit
deriving DecidableEq, Repr

/-- flags: allocation style plus the MEM_ATOMIC / MEM_WAIT discipline. -/
structure MemFlags where
  style : AllocStyle
  atomic : Bool
deriving DecidableEq, Repr

/-- arena state right after arena_init (no segments, zeroed counters,
import_scale 0). -/
def initArena (quantum : Nat) (hasSource : Bool) : ArenaState :=
  { quantum := quantum
    hasSource := hasSource
    importScale := 0
    segs := []
    freeSegs := List.replicate ARENA_NR_FREE_LISTS []
    allocHash := List.replicate ARENA_NR_HASH_LISTS []
    amt_total_segs := 0
    amt_alloc_segs := 0
    nr_allocs := 0
    last_nextfit_alloc := 0 }

/-! ## Small list helpers -/

/-- Update the i-th element of a list in place. -/
def listUpd {α : Type} : List α → Nat → (α → α) → List α
  | [], _, _ => []
  | x :: xs, 0, f => f x :: xs
  | x :: xs, n + 1, f => x :: listUpd xs n f

/-- BSD_LIST_REMOVE of the tag with the given start from an intrusive list
(the first occurrence; a well-formed list has at most one). -/
def removeFirst (a : Nat) : List Nat → List Nat
  | [] => []
  | x :: xs => if x = a then xs else x :: removeFirst a xs

/-! ## The all_segs tree -/

/-- __insert_btag: insert into the tree ordered by start, with SPAN tags
ahead of (less than) regular tags that have the same start.  Inserting a
regular tag at the start of an existing regular tag panics in the source;
that is the none case. -/
def insertBtag (bt : Btag) : List Btag → Option (List Btag)
  | [] => some [bt]
  | x :: xs =>
    if bt.start < x.start then some (bt :: x :: xs)
    else if x.start < bt.start then (insertBtag bt xs).map (x :: ·)
    else if x.status = BtStatus.span then (insertBtag bt xs).map (x :: ·)
    else none

/-- Locate and unlink the first non-SPAN tag with the given start address.
In the source a free list or hash entry is a pointer to the tag itself; in a
well-formed arena the non-SPAN tag of a given start is unique, so the start
address identifies it. -/
def extractSeg (a : Nat) : List Btag → Option (Btag × List Btag)
  | [] => none
  | x :: xs =>
    if x.start = a ∧ x.status ≠ BtStatus.span then some (x, xs)
    else (extractSeg a xs).map fun p => (p.1, x :: p.2)

/-- Read-only variant of extractSeg. -/
def findSeg (a : Nat) (l : List Btag) : Option Btag := (extractSeg a l).map (·.1)

/-- Locate the first ALLOC tag with the given start address, as the hash
chain lookup in __untrack_alloc_seg does (chains only hold ALLOC tags). -/
def extractAllocSeg (a : Nat) : List Btag → Option (Btag × List Btag)
  | [] => none
  | x :: xs =>
    if x.start = a ∧ x.status = BtStatus.alloc then some (x, xs)
    else (extractAllocSeg a xs).map fun p => (p.1, x :: p.2)

/-- Split the tree traversal at the first non-SPAN tag with the given start:
the result is (tags before it, the tag, tags after it), so that the list
neighbours model rb_prev and rb_next. -/
def splitSeg (a : Nat) : List Btag → Option (List Btag × Btag × List Btag)
  | [] => none
  | x :: xs =>
    if x.start = a ∧ x.status ≠ BtStatus.span then some ([], x, xs)
    else (splitSeg a xs).map fun p => (x :: p.1, p.2.1, p.2.2)

/-! ## Free lists and the allocation hash -/

/-- free list bucket index of a segment size (LOG2_DOWN in __track_free_seg). -/
def bucketIdx (sz : Nat) : Nat := LOG2_DOWN sz

/-- Modelled from the spec: __generic_hash (hashtable.h) is not under src/;
the spec only requires chains keyed by hash(start) mod 193, and no claim
depends on the mixing function, so the identity hash is used. -/
def hashIdx (a : Nat) : Nat := a % ARENA_NR_HASH_LISTS

/-- Read bucket i. -/
def getBucket (fs : List (List Nat)) (i : Nat) : List Nat := fs.getD i []

/-- __track_free_seg without the status write: push the tag on the free list
for its size (the status change is applied to the tag where it is built). -/
def bucketPush (fs : List (List Nat)) (bt : Btag) : List (List Nat) :=
  listUpd fs (bucketIdx bt.size) (bt.start :: ·)

/-- __untrack_free_seg: unlink the tag from the free list it is on (a FREE
tag of size sz lives on bucket LOG2_DOWN sz). -/
def bucketRemove (fs : List (List Nat)) (bt : Btag) : List (List Nat) :=
  listUpd fs (bucketIdx bt.size) (removeFirst bt.start)

/-- __track_alloc_seg hash push. -/
def hashPush (hs : List (List Nat)) (a : Nat) : List (List Nat) :=
  listUpd hs (hashIdx a) (a :: ·)

/-- __untrack_alloc_seg hash unlink. -/
def hashRemove (hs : List (List Nat)) (a : Nat) : List (List Nat) :=
  listUpd hs (hashIdx a) (removeFirst a)

/-! ## __find_sufficient -/

/-- body of __find_sufficient with the self call fuelled.  The single
recursive call retries from the first nocross boundary inside the segment
with nocross cleared, so the recursion depth is at most two and fuel 2 is
exact; the fuel keeps the definition computing by kernel reduction. -/
def findSufficientF : Nat → Nat → Nat → Nat → Nat → Nat → Nat → Nat
  | 0, _, _, _, _, _, _ => 0
  | fuel + 1, btStart, btSize, size, align, phase, nocross =>
    let t := (rup64 btStart align + phase) % W
    if t < btStart then 0
    else if (t + size) % W < t then 0
    else if (btStart + btSize) % W < (t + size) % W then 0
    else if nocross = 0 then t
    else if t + size ≤ rup64 t nocross then t
    else
      let t2 := rup64 btStart nocross
      let trySize := sub64 btSize (sub64 t2 btStart)
      if btSize < trySize then 0
      else if (t2 + trySize) % W < t2 then 0
      else findSufficientF fuel t2 trySize size align phase 0

/-- __find_sufficient: given a candidate segment [btStart, btStart + btSize),
return a start address inside it satisfying size, align, phase and nocross,
or 0 on failure.  All arithmetic follows the 64-bit evaluation of the source,
including its explicit wraparound checks. -/
def findSufficient (btStart btSize size align phase nocross : Nat) : Nat :=
  findSufficientF 2 btStart btSize size align phase nocross

/-! ## Allocation accounting and splitting -/

/-- __account_alloc: we want size units of the FREE tag at btStart, which is
already off the free lists.  If the tag is larger, split off the remainder as
a new FREE tag (which goes back on the free lists and into the tree), then
mark the tag ALLOC, hash it, and bump the counters.  The failed-assert cases
(tag not FREE, tag smaller than the request) are none.  The manual btag
handoff used only by the base arena btag bootstrap is not modelled. -/
def account_alloc (s : ArenaState) (btStart reqSize : Nat) : Option ArenaState :=
  match extractSeg btStart s.segs with
  | none => none
  | some (bt, rest) =>
    if bt.status = BtStatus.free then
      if bt.size = reqSize then
        match insertBtag ⟨bt.start, bt.size, BtStatus.alloc⟩ rest with
        | none => none
        | some segs1 =>
          some { s with segs := segs1
                        allocHash := hashPush s.allocHash bt.start
                        amt_alloc_segs := s.amt_alloc_segs + reqSize
                        nr_allocs := s.nr_allocs + 1 }
      else if reqSize < bt.size then
        let nw : Btag := ⟨bt.start + reqSize, bt.size - reqSize, BtStatus.free⟩
        match insertBtag ⟨bt.start, reqSize, BtStatus.alloc⟩ rest with
        | none => none
        | some segs1 =>
          match insertBtag nw segs1 with
          | none => none
          | some segs2 =>
            some { s with segs := segs2
                          freeSegs := bucketPush s.freeSegs nw
                          allocHash := hashPush s.allocHash bt.start
                          amt_alloc_segs := s.amt_alloc_segs + reqSize
                          nr_allocs := s.nr_allocs + 1 }
      else none
    else none

/-- __split_bt_at: split the tag at btStart (off any free list, status FREE)
at address mid; the front part [start, mid) becomes a new FREE tag on the
free lists, the tag itself keeps its status and becomes [mid, old end).  The
source relies on callers passing a nonzero __find_sufficient result strictly
inside the tag; the range test makes that reliance explicit. -/
def split_bt_at (s : ArenaState) (btStart mid : Nat) : Option ArenaState :=
  match extractSeg btStart s.segs with
  | none => none
  | some (bt, rest) =>
    if bt.start < mid ∧ mid < bt.start + bt.size then
      let front : Btag := ⟨bt.start, mid - bt.start, BtStatus.free⟩
      let moved : Btag := ⟨mid, bt.size - (mid - bt.start), bt.status⟩
      match insertBtag front rest with
      | none => none
      | some segs1 =>
        match insertBtag moved segs1 with
        | none => none
        | some segs2 =>
          some { s with segs := segs2, freeSegs := bucketPush s.freeSegs front }
    else none

/-! ## The allocation policies -/

/-- __get_from_freelists: pop the first tag of the smallest populated free
list with index at least idx. -/
def getFromFreelistsAux (fs : List (List Nat)) : Nat → Nat → Option (Nat × List (List Nat))
  | _, 0 => none
  | i, fuel + 1 =>
    match getBucket fs i with
    | a :: _ => some (a, listUpd fs i List.tail)
    | [] => getFromFreelistsAux fs (i + 1) fuel

/-- __get_from_freelists entry point. -/
def getFromFreelists (fs : List (List Nat)) (idx : Nat) : Option (Nat × List (List Nat)) :=
  getFromFreelistsAux fs idx (ARENA_NR_FREE_LISTS - idx)

/-- The best-fit scan of __alloc_bestfit over one free list: keep the first
tag of strictly smallest size among those with size at least reqSize.
Bucket entries that resolve to no tag cannot arise in a well-formed arena and
are skipped. -/
def bestfitScan (segs : List Btag) (reqSize : Nat) (cands : List Nat) : Option Btag :=
  cands.foldl
    (fun best a =>
      match findSeg a segs with
      | none => best
      | some t =>
        if reqSize ≤ t.size then
          match best with
          | none => some t
          | some b => if t.size < b.size then some t else best
        else best)
    none

/-- __alloc_bestfit.  Note that when the scan of free_segs[LOG2_DOWN size]
finds the tag, the source does not call __untrack_free_seg before
__account_alloc: the stale entry stays on the bucket.  Only the fallback that
goes through __get_from_freelists unlinks the tag. -/
def alloc_bestfit (s : ArenaState) (size : Nat) : Option (Option Nat × ArenaState) :=
  let idx := LOG2_DOWN size
  match bestfitScan s.segs size (getBucket s.freeSegs idx) with
  | some bt => (account_alloc s bt.start size).map fun s1 => (some bt.start, s1)
  | none =>
    match getFromFreelists s.freeSegs (idx + 1) with
    | none => some (none, s)
    | some (a, fs1) =>
      (account_alloc { s with freeSegs := fs1 } a size).map fun s1 => (some a, s1)

/-- __alloc_instantfit: first tag of the first populated list from
LOG2_UP size, guaranteed big enough. -/
def alloc_instantfit (s : ArenaState) (size : Nat) : Option (Option Nat × ArenaState) :=
  match getFromFreelists s.freeSegs (LOG2_UP size) with
  | none => some (none, s)
  | some (a, fs1) =>
    (account_alloc { s with freeSegs := fs1 } a size).map fun s1 => (some a, s1)

/-! ## Coalescing and free -/

/-- the test of __merge_right_to_left: both neighbours FREE and the segments
adjacent.  SPAN tags are never merged because their status is not FREE. -/
def mergeOk (l r : Btag) : Prop :=
  l.status = BtStatus.free ∧ r.status = BtStatus.free ∧ l.start + l.size = r.start

instance (l r : Btag) : Decidable (mergeOk l r) := by unfold mergeOk; infer_instance

/-- free list effect of __merge_right_to_left: both tags leave their free
lists and the grown left tag is pushed on the list for its new size. -/
def mergeBuckets (fs : List (List Nat)) (l r : Btag) : List (List Nat) :=
  bucketPush (bucketRemove (bucketRemove fs l) r) ⟨l.start, l.size + r.size, BtStatus.free⟩

/-- first block of __coalesce_free_seg: try to merge the freed tag with its
tree successor (the head of the tags after it).  Returns the possibly grown
tag, the remaining successor tags, and the updated free lists. -/
def coalesceRight (b0 : Btag) (post0 : List Btag) (fs : List (List Nat)) :
    Btag × List Btag × List (List Nat) :=
  match post0 with
  | n :: post1 =>
    if mergeOk b0 n then
      (⟨b0.start, b0.size + n.size, BtStatus.free⟩, post1, mergeBuckets fs b0 n)
    else (b0, post0, fs)
  | [] => (b0, post0, fs)

/-- second block of __coalesce_free_seg: try to merge the predecessor into
the tag.  The predecessor tags are passed nearest-first (reversed prefix). -/
def coalesceLeft (preR0 : List Btag) (b1 : Btag) (fs1 : List (List Nat)) :
    Btag × List Btag × List (List Nat) :=
  match preR0 with
  | p :: preR1 =>
    if mergeOk p b1 then
      (⟨p.start, p.size + b1.size, BtStatus.free⟩, preR1, mergeBuckets fs1 p b1)
    else (b1, preR0, fs1)
  | [] => (b1, preR0, fs1)

/-- third block of __coalesce_free_seg: if the predecessor of the merged tag
is a SPAN of identical extent, the span is entirely free: both tags leave
the tree and the extent is reported for the deferred ffunc call. -/
def coalesceSpan (preR : List Btag) (b2 : Btag) (post : List Btag) (fs2 : List (List Nat)) :
    List Btag × List (List Nat) × Option (Nat × Nat) :=
  match preR with
  | sp :: preR2 =>
    if sp.status = BtStatus.span ∧ sp.start = b2.start ∧ sp.size = b2.size then
      (preR2.reverse ++ post, bucketRemove fs2 b2, some (sp.start, sp.size))
    else (preR.reverse ++ b2 :: post, fs2, none)
  | [] => (b2 :: post, fs2, none)

/-- __coalesce_free_seg on the tree traversal and free lists: the tag with
start a (just marked FREE) is merged with its tree successor and predecessor
when possible; if its predecessor then is a SPAN of identical extent, the
whole span is free: both tags leave the tree and the extent is reported for
the ffunc call of the caller. -/
def coalesce_free_seg (segs : List Btag) (fs : List (List Nat)) (a : Nat) :
    Option (List Btag × List (List Nat) × Option (Nat × Nat)) :=
  match splitSeg a segs with
  | none => none
  | some (pre, b0, post0) =>
    match coalesceRight b0 post0 fs with
    | (b1, post, fs1) =>
      match coalesceLeft pre.reverse b1 fs1 with
      | (b2, preR, fs2) => some (coalesceSpan preR b2 post fs2)

/-- free_from_arena: look the address up in the allocation hash (panic if it
is not there), panic if the recorded size differs from the caller size, then
undo the accounting, mark the tag FREE, put it on its free list, and
coalesce.  The second component is the deferred source.ffunc call: the span
extent when a whole span was freed (the source only makes the call when the
returned to_free_addr is nonzero). -/
def free_from_arena (s : ArenaState) (addr size : Nat) :
    Option (ArenaState × Option (Nat × Nat)) :=
  if addr ∈ getBucket s.allocHash (hashIdx addr) then
    match extractAllocSeg addr s.segs with
    | none => none
    | some (bt, rest) =>
      if bt.size = size then
        let btF : Btag := ⟨bt.start, bt.size, BtStatus.free⟩
        match insertBtag btF rest with
        | none => none
        | some segs1 =>
          match coalesce_free_seg segs1 (bucketPush s.freeSegs btF) addr with
          | none => none
          | some (segs2, fs2, ret) =>
            let freedSz := match ret with | some (_, z) => z | none => 0
            some ({ s with segs := segs2
                           freeSegs := fs2
                           allocHash := hashRemove s.allocHash addr
                           amt_alloc_segs := s.amt_alloc_segs - size
                           nr_allocs := s.nr_allocs - 1
                           amt_total_segs := s.amt_total_segs - freedSz },
                  match ret with
                  | some (adr, z) => if adr ≠ 0 then some (adr, z) else none
                  | none => none)
      else none
  else none

/-- arena_free: sizes are rounded up to the quantum before the lookup. -/
def arena_free (s : ArenaState) (addr size0 : Nat) :
    Option (ArenaState × Option (Nat × Nat)) :=
  free_from_arena s addr (ROUNDUP size0 s.quantum % W)

/-- arena_xfree is arena_free without the (unimplemented) qcache hook. -/
def arena_xfree (s : ArenaState) (addr size0 : Nat) :
    Option (ArenaState × Option (Nat × Nat)) :=
  free_from_arena s addr (ROUNDUP size0 s.quantum % W)

/-! ## Constrained allocation -/

/-- the scan loop of __xalloc_min_max over the tree traversal from the least
upper tag: try every tag (the source does not check the status here), stop
with NULL as soon as maxaddr is exceeded, and on the first fitting tag
unlink it, split off the front if needed, and account the allocation.  When
the fitting tag is not FREE the assert inside __account_alloc fires; panic. -/
def xallocMinMaxWalk (s : ArenaState) (size align phase nocross maxaddr : Nat) :
    List Btag → Option (Option Nat × ArenaState)
  | [] => some (none, s)
  | bt :: rest =>
    let t := findSufficient bt.start bt.size size align phase nocross
    if t = 0 then xallocMinMaxWalk s size align phase nocross maxaddr rest
    else if maxaddr ≠ 0 ∧ maxaddr < t + size then some (none, s)
    else if bt.status = BtStatus.free then
      let s1 := { s with freeSegs := bucketRemove s.freeSegs bt }
      match (if t = bt.start then some s1 else split_bt_at s1 bt.start t) with
      | none => none
      | some s2 => (account_alloc s2 t size).map fun s3 => (some t, s3)
    else none

/-- __xalloc_min_max: on the sorted all_segs tree the descent of the source
finds exactly the first tag whose start is at least minaddr; the scan then
walks the tree in order from there. -/
def xalloc_min_max (s : ArenaState) (size align phase nocross minaddr maxaddr : Nat) :
    Option (Option Nat × ArenaState) :=
  xallocMinMaxWalk s size align phase nocross maxaddr
    (s.segs.dropWhile fun bt => bt.start < minaddr)

/-- the bucket scan of __xalloc_from_freelists: walk the free lists from
list_idx upward, testing each tag with __find_sufficient; the result is the
chosen start address, the bucket it was found on, and the try address.
Entries that resolve to no tag cannot arise in a well-formed arena. -/
def xallocScanBucket (segs : List Btag) (size align phase nocross : Nat) :
    List Nat → Option (Nat × Nat)
  | [] => none
  | a :: rest =>
    match findSeg a segs with
    | none => xallocScanBucket segs size align phase nocross rest
    | some bt =>
      let t := findSufficient bt.start bt.size size align phase nocross
      if t ≠ 0 then some (a, t)
      else xallocScanBucket segs size align phase nocross rest

/-- bucket loop of __xalloc_from_freelists. -/
def xallocScanAux (segs : List Btag) (fs : List (List Nat)) (size align phase nocross : Nat) :
    Nat → Nat → Option (Nat × Nat × Nat)
  | _, 0 => none
  | i, fuel + 1 =>
    match xallocScanBucket segs size align phase nocross (fs.getD i []) with
    | some (a, t) => some (a, t, i)
    | none => xallocScanAux segs fs size align phase nocross (i + 1) fuel

/-- __xalloc_from_freelists: compute the starting list index from the worst
case rounded size, optionally bump it for the instant fit variant, scan, then
unlink the winner from its bucket, split off the front and account. -/
def xalloc_from_freelists (s : ArenaState) (size align phase nocross : Nat)
    (tryInstant : Bool) : Option (Option Nat × ArenaState) :=
  if (rup64 size align + phase) % W < size then some (none, s)
  else
    let li0 := LOG2_DOWN ((rup64 size align + phase) % W)
    let li := li0 + (if tryInstant then 1 else 0)
    match xallocScanAux s.segs s.freeSegs size align phase nocross li
        (ARENA_NR_FREE_LISTS - li) with
    | none => some (none, s)
    | some (a, t, i) =>
      let s1 := { s with freeSegs := listUpd s.freeSegs i (removeFirst a) }
      match (if t = a then some s1 else split_bt_at s1 a t) with
      | none => none
      | some s2 => (account_alloc s2 t size).map fun s3 => (some t, s3)

/-- __xalloc_nextfit: a min/max search from last_nextfit_alloc + quantum,
retried from quantum (skipping 0) on failure; the cursor is updated to the
successful address. -/
def xalloc_nextfit (s : ArenaState) (size align phase nocross : Nat) :
    Option (Option Nat × ArenaState) :=
  match xalloc_min_max s size align phase nocross
      ((s.last_nextfit_alloc + s.quantum) % W) 0 with
  | none => none
  | some (some p, s1) => some (some p, { s1 with last_nextfit_alloc := p })
  | some (none, _) =>
    match xalloc_min_max s size align phase nocross s.quantum 0 with
    | none => none
    | some (some p, s1) => some (some p, { s1 with last_nextfit_alloc := p })
    | some (none, s1) => some (none, s1)

/-! ## Span import and the public entry points -/

/-- size actually requested from the source:
MAX(size, size << import_scale), evaluated in 64 bits. -/
def importSize (s : ArenaState) (size : Nat) : Nat :=
  max size ((size <<< s.importScale) % W)

/-- __arena_add: sanity-check alignment and overflow (panics), then install a
SPAN tag (sourced arenas only) and a FREE tag covering [base, base + size),
and grow amt_total_segs.  The NULL return of the source needs a MEM_ATOMIC
btag shortage, which the model cannot produce. -/
def arena_add_inner (s : ArenaState) (base size : Nat) : Option ArenaState :=
  if base % s.quantum = 0 ∧ size % s.quantum = 0 ∧ base < (base + size) % W then
    match (if s.hasSource then insertBtag ⟨base, size, BtStatus.span⟩ s.segs
           else some s.segs) with
    | none => none
    | some segs1 =>
      match insertBtag ⟨base, size, BtStatus.free⟩ segs1 with
      | none => none
      | some segs2 =>
        some { s with segs := segs2
                      amt_total_segs := s.amt_total_segs + size
                      freeSegs := bucketPush s.freeSegs ⟨base, size, BtStatus.free⟩ }
  else none

/-- arena_add: panics on arenas with a source. -/
def arena_add (s : ArenaState) (base size : Nat) : Option (Nat × ArenaState) :=
  if s.hasSource then none
  else (arena_add_inner s base size).map fun s1 => (base, s1)

/-- get_more_resources.  The span granted by source.afunc is an oracle input
(spanq; none or address 0 model an afunc failure, since afunc signals failure
by returning NULL).  Without a source the arena panics unless MEM_ATOMIC is
set.  The returned Bool is TRUE when resources were added. -/
def get_more_resources (s : ArenaState) (size : Nat) (f : MemFlags) (spanq : Option Nat) :
    Option (Bool × ArenaState) :=
  if s.hasSource then
    match spanq with
    | none => some (false, s)
    | some a =>
      if a = 0 then some (false, s)
      else
        match arena_add_inner s a (importSize s size) with
        | none => none
        | some s1 => some (true, s1)
  else if f.atomic then some (false, s) else none

/-- alloc_from_arena: dispatch on the style bits as the source does
(BESTFIT, else NEXTFIT, else INSTANTFIT). -/
def alloc_from_arena (s : ArenaState) (size : Nat) (f : MemFlags) :
    Option (Option Nat × ArenaState) :=
  match f.style with
  | AllocStyle.bestfit => alloc_bestfit s size
  | AllocStyle.nextfit => xalloc_nextfit s size s.quantum 0 0
  | AllocStyle.instantfit => alloc_instantfit s size

/-- the retry loop of arena_alloc: try, and when the arena is out of
segments, import a span (one oracle entry per source.afunc call) and retry. -/
def arenaAllocLoop (size : Nat) (f : MemFlags) (s : ArenaState) :
    List Nat → Option (Option Nat × ArenaState)
  | [] =>
    (match alloc_from_arena s size f with
     | none => none
     | some (some p, s1) => some (some p, s1)
     | some (none, s1) =>
       match get_more_resources s1 size f none with
       | none => none
       | some (_, s2) => some (none, s2))
  | a :: rest =>
    (match alloc_from_arena s size f with
     | none => none
     | some (some p, s1) => some (some p, s1)
     | some (none, s1) =>
       match get_more_resources s1 size f (some a) with
       | none => none
       | some (false, s2) => some (none, s2)
       | some (true, s2) => arenaAllocLoop size f s2 rest)

/-- arena_alloc: round the size up to the quantum (zero requests panic),
then run the allocate/import loop. -/
def arena_alloc (s : ArenaState) (size0 : Nat) (f : MemFlags) (oracle : List Nat) :
    Option (Option Nat × ArenaState) :=
  let size := ROUNDUP size0 s.quantum % W
  if size = 0 then none
  else arenaAllocLoop size f s oracle

/-- xalloc_from_arena: min/max search when either bound is set, otherwise the
style-specific free list search. -/
def xalloc_from_arena (s : ArenaState) (size align phase nocross minaddr maxaddr : Nat)
    (f : MemFlags) : Option (Option Nat × ArenaState) :=
  if minaddr ≠ 0 ∨ maxaddr ≠ 0 then
    xalloc_min_max s size align phase nocross minaddr maxaddr
  else
    match f.style with
    | AllocStyle.bestfit => xalloc_from_freelists s size align phase nocross false
    | AllocStyle.nextfit => xalloc_nextfit s size align phase nocross
    | AllocStyle.instantfit => xalloc_from_freelists s size align phase nocross true

/-- the retry loop of arena_xalloc: on failure import size + align + phase
(panicking if that overflows) and retry with the style downgraded to
BESTFIT. -/
def arenaXallocLoop (size align phase nocross minaddr maxaddr : Nat) (f : MemFlags)
    (s : ArenaState) : List Nat → Option (Option Nat × ArenaState)
  | [] =>
    (match xalloc_from_arena s size align phase nocross minaddr maxaddr f with
     | none => none
     | some (some p, s1) => some (some p, s1)
     | some (none, s1) =>
       if (size + align + phase) % W < size then none
       else
         match get_more_resources s1 ((size + align + phase) % W) f none with
         | none => none
         | some (_, s2) => some (none, s2))
  | a :: rest =>
    (match xalloc_from_arena s size align phase nocross minaddr maxaddr f with
     | none => none
     | some (some p, s1) => some (some p, s1)
     | some (none, s1) =>
       if (size + align + phase) % W < size then none
       else
         match get_more_resources s1 ((size + align + phase) % W) f (some a) with
         | none => none
         | some (false, s2) => some (none, s2)
         | some (true, s2) =>
           arenaXallocLoop size align phase nocross minaddr maxaddr
             { f with style := AllocStyle.bestfit } s2 rest)

/-- arena_xalloc: the entry asserts of the source (size, power-of-two and
alignment checks, pairwise overflow checks, and the refusal to combine a
source with nocross or address bounds), then the allocate/import loop. -/
def arena_xalloc (s : ArenaState) (size0 align phase nocross minaddr maxaddr : Nat)
    (f : MemFlags) (oracle : List Nat) : Option (Option Nat × ArenaState) :=
  let size := ROUNDUP size0 s.quantum % W
  if size = 0 then none
  else if ¬ IS_PWR2 align then none
  else if nocross ≠ 0 ∧ ¬ IS_PWR2 nocross then none
  else if ¬ (align % s.quantum = 0) then none
  else if ¬ (nocross % s.quantum = 0) then none
  else if ¬ (phase % s.quantum = 0) then none
  else if (size + align) % W < size then none
  else if (size + phase) % W < size then none
  else if (align + phase) % W < align then none
  else if s.hasSource ∧ (nocross ≠ 0 ∨ minaddr ≠ 0 ∨ maxaddr ≠ 0) then none
  else arenaXallocLoop size align phase nocross minaddr maxaddr f s oracle

/-! ## Operation sequences and reachability -/

/-- the public arena mutators named by the claims.  Import spans handed out
by source.afunc are oracle data carried by the operation. -/
inductive ArenaOp
  | add (base size : Nat)
  | alloc (size : Nat) (f : MemFlags) (oracle : List Nat)
  | xalloc (size align phase nocross minaddr maxaddr : Nat) (f : MemFlags) (oracle : List Nat)
  | free (addr size : Nat)
  | xfree (addr size : Nat)

/-- the state after one public operation; none when the operation panics. -/
def applyOp (s : ArenaState) : ArenaOp → Option ArenaState
  | ArenaOp.add b n => (arena_add s b n).map (·.2)
  | ArenaOp.alloc n f oracle => (arena_alloc s n f oracle).map (·.2)
  | ArenaOp.xalloc n al ph nc mi ma f oracle =>
    (arena_xalloc s n al ph nc mi ma f oracle).map (·.2)
  | ArenaOp.free a n => (arena_free s a n).map (·.1)
  | ArenaOp.xfree a n => (arena_xfree s a n).map (·.1)

/-- run a list of operations. -/
def runOps (s : ArenaState) : List ArenaOp → Option ArenaState
  | [] => some s
  | op :: rest =>
    match applyOp s op with
    | none => none
    | some s1 => runOps s1 rest

/-- states reachable from s0 by some sequence of public operations. -/
inductive ArenaReach (s0 : ArenaState) : ArenaState → Prop
  | refl : ArenaReach s0 s0
  | step {s s1 : ArenaState} (op : ArenaOp) :
      ArenaReach s0 s → applyOp s op = some s1 → ArenaReach s0 s1

/-! ## Claim-level predicates -/

/-- sum of the sizes of the FREE tags in the tree. -/
def sumFree (l : List Btag) : Nat :=
  (l.map fun t => if t.status = BtStatus.free then t.size else 0).sum

/-- sum of the sizes of the ALLOC tags in the tree. -/
def sumAlloc (l : List Btag) : Nat :=
  (l.map fun t => if t.status = BtStatus.alloc then t.size else 0).sum

/-- number of ALLOC tags in the tree. -/
def nrAlloc (l : List Btag) : Nat :=
  (l.map fun t => if t.status = BtStatus.alloc then 1 else 0).sum

/-- the accounting identities of __arena_asserter. -/
def countersOk (s : ArenaState) : Prop :=
  s.amt_total_segs = sumFree s.segs + sumAlloc s.segs ∧
  s.amt_alloc_segs = sumAlloc s.segs ∧
  s.nr_allocs = nrAlloc s.segs

/-- no two boundary tags adjacent in address order are both FREE. -/
def noAdjFree (l : List Btag) : Prop :=
  ∀ t ∈ l, ∀ u ∈ l, t.status = BtStatus.free → u.status = BtStatus.free →
    t.start + t.size ≠ u.start

/-- equality of two arena states with respect to the segment tree, the free
list buckets, the allocation hash, and the counters.  Buckets and chains are
intrusive lists, so their identity is the multiset of linked tags. -/
def stateRestored (a b : ArenaState) : Prop :=
  a.segs = b.segs ∧
  (∀ i < ARENA_NR_FREE_LISTS, (getBucket a.freeSegs i).Perm (getBucket b.freeSegs i)) ∧
  (∀ i < ARENA_NR_HASH_LISTS, (getBucket a.allocHash i).Perm (getBucket b.allocHash i)) ∧
  a.amt_total_segs = b.amt_total_segs ∧
  a.amt_alloc_segs = b.amt_alloc_segs ∧
  a.nr_allocs = b.nr_allocs

/-- the constraints an arena_xalloc result is supposed to satisfy, stated
from the words of the spec. -/
def xallocSat (p size align phase nocross minaddr maxaddr : Nat) : Prop :=
  p % align = phase % align ∧
  (minaddr ≠ 0 → minaddr ≤ p) ∧
  (maxaddr ≠ 0 → p + size ≤ maxaddr) ∧
  (nocross ≠ 0 → p / nocross = (p + size - 1) / nocross)

instance (s : ArenaState) : Decidable (countersOk s) := by
  unfold countersOk; infer_instance

instance (l : List Btag) : Decidable (noAdjFree l) := by
  unfold noAdjFree; infer_instance

instance (a b : ArenaState) : Decidable (stateRestored a b) := by
  unfold stateRestored; infer_instance

instance (p size align phase nocross minaddr maxaddr : Nat) :
    Decidable (xallocSat p size align phase nocross minaddr maxaddr) := by
  unfold xallocSat; infer_instance

/-! ## Concrete scenario states -/

/-- default MEM_WAIT instant fit flags. -/
def fWait : MemFlags := ⟨AllocStyle.instantfit, false⟩

/-- MEM_ATOMIC instant fit flags. -/
def fAtomic : MemFlags := ⟨AllocStyle.instantfit, true⟩

/-- MEM_WAIT next fit flags. -/
def fNext : MemFlags := ⟨AllocStyle.nextfit, false⟩

/-- MEM_ATOMIC next fit flags. -/
def fNextAtomic : MemFlags := ⟨AllocStyle.nextfit, true⟩

/-- MEM_WAIT best fit flags. -/
def fBest : MemFlags := ⟨AllocStyle.bestfit, false⟩

/-- the arena of the next-fit scenario of the claim: quantum 0x100, only
segment [0x0, 0x1000). -/
def c6Arena : ArenaState :=
  (runOps (initArena 0x100 false) [ArenaOp.add 0 0x1000]).getD (initArena 0x100 false)

/-- the same arena shifted up by one quantum: only segment [0x100, 0x1100). -/
def c6ArenaS : ArenaState :=
  (runOps (initArena 0x100 false) [ArenaOp.add 0x100 0x1000]).getD (initArena 0x100 false)

/-- run a number of equally sized allocations, returning the addresses. -/
def allocSeq (f : MemFlags) (size : Nat) : Nat → ArenaState → Option (List Nat × ArenaState)
  | 0, s => some ([], s)
  | n + 1, s =>
    match arena_alloc s size f [] with
    | some (some p, s1) =>
      (allocSeq f size n s1).map fun q => (p :: q.1, q.2)
    | _ => none

/-- the shifted next-fit trace: two allocations, free the first, then
fifteen more allocations. -/
def c6Trace : Option (List Nat × List Nat × ArenaState) :=
  match allocSeq fNext 0x100 2 c6ArenaS with
  | some (ps, s1) =>
    match arena_free s1 0x100 0x100 with
    | some (s2, _) =>
      match allocSeq fNext 0x100 15 s2 with
      | some (qs, s3) => some (ps, qs, s3)
      | none => none
    | none => none
  | _ => none

/-- the nocross scenario arena of the claim: quantum 1, only free segment
[0x0, 0x3000). -/
def c7Arena : ArenaState :=
  (runOps (initArena 1 false) [ArenaOp.add 0 0x3000]).getD (initArena 1 false)

/-- the nocross scenario arena shifted off address 0: only free segment
[0x1000, 0x4000). -/
def c7ArenaS : ArenaState :=
  (runOps (initArena 1 false) [ArenaOp.add 0x1000 0x3000]).getD (initArena 1 false)

/-- arena with a stray alignment/phase/nocross combination that the search
helper accepts: quantum 1, only free segment [0x100, 0x3100). -/
def c1Arena : ArenaState :=
  (runOps (initArena 1 false) [ArenaOp.add 0x100 0x3000]).getD (initArena 1 false)

/-- quantum 1 arena made of two manually added, address-adjacent spans
[0x0, 0x100) and [0x100, 0x200). -/
def c5Arena : ArenaState :=
  (runOps (initArena 1 false) [ArenaOp.add 0 0x100, ArenaOp.add 0x100 0x100]).getD
    (initArena 1 false)

/-- allocate 0x100 from the two-adjacent-spans arena and free it again. -/
def c3RoundTrip : Option ArenaState :=
  match arena_alloc c5Arena 0x100 fWait [] with
  | some (some p, s1) => (arena_free s1 p 0x100).map (·.1)
  | _ => none

/-- the state after that round trip. -/
def c3After : ArenaState := c3RoundTrip.getD (initArena 1 false)

/-- quantum 1 arena with the single free segment [0x100, 0x400): a best-fit
request of 0x200 is found by the scan of free_segs[9] itself. -/
def cBFArena : ArenaState :=
  (runOps (initArena 1 false) [ArenaOp.add 0x100 0x300]).getD (initArena 1 false)

/-- best-fit round trip on that arena. -/
def cBFRoundTrip : Option ArenaState :=
  match arena_alloc cBFArena 0x200 fBest [] with
  | some (some p, s1) => (arena_free s1 p 0x200).map (·.1)
  | _ => none

/-- the state after the best-fit round trip. -/
def cBFAfter : ArenaState := cBFRoundTrip.getD (initArena 1 false)

/-- quantum 0x100 arena with the single free segment [0x1300, 0x1400). -/
def c3SrcBase : ArenaState :=
  (runOps (initArena 0x100 false) [ArenaOp.add 0x1300 0x100]).getD (initArena 0x100 false)

/-- the same state on an arena with a source: well formed, with free space
that no SPAN tag covers. -/
def c3SrcArena : ArenaState := { c3SrcBase with hasSource := true }

/-- round trip that needs an import: a 0x200 instant-fit allocation (the
present 0x100 of free space is too small, so a 0x200 span at 0x1100 is
imported from the source) and the free of the returned address. -/
def c3SrcRoundTrip : Option ArenaState :=
  match arena_alloc c3SrcArena 0x200 fWait [0x1100] with
  | some (some p, s1) => (arena_free s1 p 0x200).map (·.1)
  | _ => none

/-- the state after the import-assisted round trip. -/
def c3SrcAfter : ArenaState := c3SrcRoundTrip.getD (initArena 1 false)

/-- quantum 0x100 arena holding one allocated segment [0x100, 0x200) and one
free segment [0x200, 0x300). -/
def c8Arena : ArenaState :=
  (runOps (initArena 0x100 false)
    [ArenaOp.add 0x100 0x200, ArenaOp.alloc 0x100 fWait []]).getD (initArena 0x100 false)

/-! ## Tree order -/

/-- the all_segs tree order: strictly increasing start address, except that a
SPAN tag precedes tags with the same start. -/
def segBefore (t u : Btag) : Prop :=
  t.start < u.start ∨ (t.start = u.start ∧ t.status = BtStatus.span)

instance (t u : Btag) : Decidable (segBefore t u) := by unfold segBefore; infer_instance

/-- the segment list is an in-order tree traversal. -/
def SegsSorted (l : List Btag) : Prop := l.Pairwise segBefore

instance (l : List Btag) : Decidable (SegsSorted l) := by
  unfold SegsSorted; infer_instance

/-- size reported by a deferred span return (0 when there is none). -/
def retSz (r : Option (Nat × Nat)) : Nat :=
  match r with
  | some q => q.2
  | none => 0

/-- a short lifecycle exercising add, alloc, xalloc and free, used to show the
asserter invariant on a state other than the initial one. -/
def c2Ops : List ArenaOp :=
  [ArenaOp.add 0x1000 0x2000,
   ArenaOp.alloc 0x180 fWait [],
   ArenaOp.xalloc 0x100 0x200 0 0 0 0 fBest [],
   ArenaOp.free 0x1000 0x180,
   ArenaOp.alloc 0x100 fNext []]

/-- the state c2Ops reaches from a fresh quantum-0x100 arena. -/
def c2State : ArenaState :=
  (runOps (initArena 0x100 false) c2Ops).getD (initArena 0x100 false)

/-- well-formedness of an arena state, as maintained by the source between
public calls: the tree is ordered; segments are pairwise disjoint; no SPAN
tags (unsourced arenas never create them); no two adjacent FREE tags;
segment starts are quantum-aligned and segments fit in the address space;
every free-list entry names a FREE tag whose size belongs on that bucket and
every FREE tag is on its bucket; and the bucket and chain arrays have their
fixed lengths. -/
def arenaWF (s : ArenaState) : Prop :=
  SegsSorted s.segs ∧
  List.Pairwise (fun x y => x.start + x.size ≤ y.start) s.segs ∧
  (∀ x ∈ s.segs, x.status ≠ BtStatus.span) ∧
  noAdjFree s.segs ∧
  (∀ x ∈ s.segs, x.start % s.quantum = 0 ∧ x.start + x.size < W) ∧
  (∀ i < ARENA_NR_FREE_LISTS, ∀ a ∈ getBucket s.freeSegs i,
    ∃ bt ∈ s.segs, bt.start = a ∧ bt.status = BtStatus.free ∧ bucketIdx bt.size = i) ∧
  (∀ bt ∈ s.segs, bt.status = BtStatus.free →
    bt.start ∈ getBucket s.freeSegs (bucketIdx bt.size)) ∧
  s.freeSegs.length = ARENA_NR_FREE_LISTS ∧
  s.allocHash.length = ARENA_NR_HASH_LISTS

instance (s : ArenaState) : Decidable (arenaWF s) := by
  unfold arenaWF; infer_instance

/-- MEM_ATOMIC best fit flags. -/
def fBestAtomic : MemFlags := ⟨AllocStyle.bestfit, true⟩

/-- an arena with the single free segment [0x100, 0x500), used to exhibit a
successful constrained allocation at a nonzero address. -/
def c10ArenaW : ArenaState :=
  (runOps (initArena 0x100 false) [ArenaOp.add 0x100 0x400]).getD (initArena 0x100 false)

/-- the state after the witness xalloc on c10ArenaW. -/
def c10SX : ArenaState :=
  ((arena_xalloc c10ArenaW 0x200 0x200 0 0 0 0 fBestAtomic []).getD (none, c10ArenaW)).2

/-- the state after the witness next-fit alloc on c6ArenaS. -/
def c10SN : ArenaState :=
  ((arena_alloc c6ArenaS 0x100 fNext []).getD (none, c6ArenaS)).2

/-- state after the witness nocross xalloc from c7ArenaS. -/
def c1WS : ArenaState :=
  ((arena_xalloc c7ArenaS 0x800 0x100 0 0x1000 0 0 fWait []).getD (none, c7ArenaS)).2

/-- state after an instant-fit allocation of 0x180 bytes from c6ArenaS, used
to witness the allocation round trip. -/
def c3W1 : ArenaState :=
  ((arena_alloc c6ArenaS 0x180 fWait []).getD (none, c6ArenaS)).2

/-- the tags inside a span tile its extent: starts are consecutive, sizes
are positive, the tags are the non-SPAN kind, and the last tag ends at the
span's end.  This is the shape __arena_add creates and splitting and
merging preserve. -/
def tiles : Nat → List Btag → Nat → Prop
  | a, [], b => a = b
  | a, t :: ts, b =>
    t.start = a ∧ t.status ≠ BtStatus.span ∧ 0 < t.size ∧ tiles (a + t.size) ts b

instance tilesDecidable : ∀ (a : Nat) (l : List Btag) (b : Nat), Decidable (tiles a l b)
  | a, [], b => inferInstanceAs (Decidable (a = b))
  | a, t :: ts, b =>
    have : Decidable (tiles (a + t.size) ts b) := tilesDecidable (a + t.size) ts b
    inferInstanceAs (Decidable (_ ∧ _ ∧ _ ∧ _))

/-- a sourced arena that imported the span [0x1000, 0x1100) and allocated
all of it: the segment tree is the SPAN tag followed by one ALLOC tag of the
same extent. -/
def c4Arena : ArenaState :=
  (runOps (initArena 0x100 true) [ArenaOp.alloc 0x100 fWait [0x1000]]).getD
    (initArena 0x100 true)

/-- the state after freeing the whole imported span of c4Arena. -/
def c4S2 : ArenaState :=
  ((free_from_arena c4Arena 0x1000 0x100).getD (c4Arena, none)).1

/-- the segment tree invariant of an unsourced arena: ordered, pairwise
disjoint, no SPAN tags, positive sizes, and no two address-adjacent FREE
tags. -/
def segsOkay (s : ArenaState) : Prop :=
  SegsSorted s.segs ∧
  List.Pairwise (fun x y => x.start + x.size ≤ y.start) s.segs ∧
  (∀ x ∈ s.segs, x.status ≠ BtStatus.span) ∧
  (∀ x ∈ s.segs, 0 < x.size) ∧
  noAdjFree s.segs

instance (s : ArenaState) : Decidable (segsOkay s) := by
  unfold segsOkay
  infer_instance

/-- the segment being added is strictly separated from every present
segment: disjoint and not address-adjacent.  Non-add operations carry no
condition. -/
def addSep (s : ArenaState) : ArenaOp → Prop
  | ArenaOp.add b n => ∀ t ∈ s.segs, t.start + t.size < b ∨ b + n < t.start
  | ArenaOp.alloc _ _ _ => True
  | ArenaOp.xalloc _ _ _ _ _ _ _ _ => True
  | ArenaOp.free _ _ => True
  | ArenaOp.xfree _ _ => True

instance : ∀ (s : ArenaState) (op : ArenaOp), Decidable (addSep s op)
  | s, ArenaOp.add b n =>
    inferInstanceAs (Decidable (∀ t ∈ s.segs, t.start + t.size < b ∨ b + n < t.start))
  | _, ArenaOp.alloc _ _ _ => inferInstanceAs (Decidable True)
  | _, ArenaOp.xalloc _ _ _ _ _ _ _ _ => inferInstanceAs (Decidable True)
  | _, ArenaOp.free _ _ => inferInstanceAs (Decidable True)
  | _, ArenaOp.xfree _ _ => inferInstanceAs (Decidable True)

/-- reachability by public operations whose arena_add calls are strictly
separated from the present coverage. -/
inductive ArenaReachSep (s0 : ArenaState) : ArenaState → Prop
  | refl : ArenaReachSep s0 s0
  | step {s s1 : ArenaState} (op : ArenaOp) :
      ArenaReachSep s0 s → addSep s op → applyOp s op = some s1 → ArenaReachSep s0 s1

/-- state after a separated add of [0x100, 0x200). -/
def c5W1 : ArenaState :=
  (applyOp (initArena 0x100 false) (ArenaOp.add 0x100 0x100)).getD (initArena 0x100 false)

/-- state after a second separated add of [0x300, 0x400). -/
def c5W2 : ArenaState :=
  (applyOp c5W1 (ArenaOp.add 0x300 0x100)).getD c5W1

/-! ## Slab allocator (kmem_cache): kmem_cache_alloc / kmem_cache_free

The three slab lists hold slab records; an object is identified by the id of
its owning slab, since the code recovers the owning slab from the object
address in O(1) (page masking for small slabs, the bufctl back-pointer for
large ones) without consulting the lists, and only the owning slab and the
counters drive the list moves.  kmem_cache_grow computes the object count
from page-layout constants that the sources use but never define, so a grown
slab enters kmem_cache_alloc as an explicit argument: a slab with no busy
objects, matching grow installing one empty slab on the empty list. -/

/-- struct kmem_slab: identity plus the busy/total object counters. -/
structure KmemSlab where
  sid : Nat
  num_busy_obj : Nat
  num_total_obj : Nat
deriving DecidableEq, Repr

/-- struct kmem_cache: the three slab lists (head first) and nr_cur_alloc. -/
structure KmemCache where
  full_slab_list : List KmemSlab
  partial_slab_list : List KmemSlab
  empty_slab_list : List KmemSlab
  nr_cur_alloc : Nat
deriving DecidableEq, Repr

/-- TAILQ_REMOVE of the slab with the given id. -/
def removeKSlab : List KmemSlab → Nat → List KmemSlab
  | [], _ => []
  | sl :: rest, i => if sl.sid = i then rest else sl :: removeKSlab rest i

/-- in-place update of the slab with the given id, wherever it sits. -/
def updKSlab (l : List KmemSlab) (i : Nat) (sl2 : KmemSlab) : List KmemSlab :=
  l.map fun sl => if sl.sid = i then sl2 else sl

/-- whether the slab with the given id is linked on the list. -/
def onKList (l : List KmemSlab) (i : Nat) : Bool :=
  l.any fun sl => sl.sid == i

/-- recover the owning slab of an object (the ROUNDDOWN page arithmetic for
small slabs, the bufctl back-pointer for large ones): the slab record with
the object's slab id, on whichever list the cache holds it. -/
def findKSlab (cp : KmemCache) (i : Nat) : Option KmemSlab :=
  (cp.full_slab_list ++ cp.partial_slab_list ++ cp.empty_slab_list).find?
    fun sl => sl.sid == i

/-- tail of kmem_cache_alloc once a_slab heads the partial list (prest is
the rest of that list): pop one object (there must be a free object on the
slab), num_busy_obj++, move the slab to the full list when the busy count
hits the total, nr_cur_alloc++.  Returns the object (identified by its slab
id) and the new cache. -/
def kmem_alloc_from (a_slab : KmemSlab) (prest full empty : List KmemSlab)
    (nr : Nat) : Option (Nat × KmemCache) :=
  if a_slab.num_busy_obj < a_slab.num_total_obj then
    let sl2 : KmemSlab :=
      ⟨a_slab.sid, a_slab.num_busy_obj + 1, a_slab.num_total_obj⟩
    if sl2.num_busy_obj = sl2.num_total_obj then
      some (a_slab.sid, ⟨sl2 :: full, prest, empty, nr + 1⟩)
    else
      some (a_slab.sid, ⟨full, sl2 :: prest, empty, nr + 1⟩)
  else none

/-- kmem_cache_alloc: take the first partial slab; if none, take the first
empty slab (grown, i.e. the argument, when the empty list is empty too —
none models the grow failure path, error or panic), move it to the head of
the partial list, and allocate from it. -/
def kmem_cache_alloc (cp : KmemCache) (grown : Option KmemSlab) :
    Option (Nat × KmemCache) :=
  match cp.partial_slab_list with
  | a_slab :: prest =>
    kmem_alloc_from a_slab prest cp.full_slab_list cp.empty_slab_list
      cp.nr_cur_alloc
  | [] =>
    match cp.empty_slab_list, grown with
    | a_slab :: erest, _ =>
      kmem_alloc_from a_slab [] cp.full_slab_list erest cp.nr_cur_alloc
    | [], some ns =>
      if ns.num_busy_obj = 0 then
        kmem_alloc_from ns [] cp.full_slab_list [] cp.nr_cur_alloc
      else none
    | [], none => none

/-- kmem_cache_free: locate the owning slab, push the object back (tracked
by the counter), num_busy_obj--, nr_cur_alloc--; if the slab was full
(num_busy_obj + 1 == num_total_obj after the decrement) unlink it from the
full list and push it on the partial list; ELSE if the busy count reached
zero, unlink it from the partial list and push it on the empty list;
otherwise the slab stays in place with the decremented counter.  none models
the undefined behaviour of freeing into an inconsistent cache (no such
object live, or TAILQ_REMOVE from a list not holding the slab). -/
def kmem_cache_free (cp : KmemCache) (obj : Nat) : Option KmemCache :=
  match findKSlab cp obj with
  | none => none
  | some a_slab =>
    if a_slab.num_busy_obj = 0 then none
    else
      let sl2 : KmemSlab :=
        ⟨a_slab.sid, a_slab.num_busy_obj - 1, a_slab.num_total_obj⟩
      if sl2.num_busy_obj + 1 = sl2.num_total_obj then
        if onKList cp.full_slab_list obj then
          some ⟨removeKSlab cp.full_slab_list obj,
                sl2 :: cp.partial_slab_list,
                cp.empty_slab_list, cp.nr_cur_alloc - 1⟩
        else none
      else if sl2.num_busy_obj = 0 then
        if onKList cp.partial_slab_list obj then
          some ⟨cp.full_slab_list,
                removeKSlab cp.partial_slab_list obj,
                sl2 :: cp.empty_slab_list, cp.nr_cur_alloc - 1⟩
        else none
      else
        some ⟨updKSlab cp.full_slab_list obj sl2,
              updKSlab cp.partial_slab_list obj sl2,
              updKSlab cp.empty_slab_list obj sl2, cp.nr_cur_alloc - 1⟩

/-- n kmem_cache_alloc calls in a row (no growing). -/
def kallocN : Nat → KmemCache → Option KmemCache
  | 0, cp => some cp
  | n + 1, cp =>
    match kmem_cache_alloc cp none with
    | none => none
    | some (_, cp2) => kallocN n cp2

/-- n kmem_cache_free calls of objects of the slab with id i. -/
def kfreeN : Nat → Nat → KmemCache → Option KmemCache
  | 0, _, cp => some cp
  | n + 1, i, cp =>
    match kmem_cache_free cp i with
    | none => none
    | some cp2 => kfreeN n i cp2

/-- a cache holding one empty slab of 64 objects (the obj_size=64 lifecycle
scenario). -/
def c9Cache : KmemCache := ⟨[], [], [⟨7, 0, 64⟩], 0⟩

/-! # Theorems -/

/-- reachability composes. -/
theorem arenaReach_trans {s0 s1 s2 : ArenaState}
    (h1 : ArenaReach s0 s1) (h2 : ArenaReach s1 s2) : ArenaReach s0 s2 := by
  induction h2 with
  | refl => exact h1
  | step op _ e ih => exact ArenaReach.step op ih e

/-- a successful operation run witnesses reachability. -/
theorem runOps_reach : ∀ {ops : List ArenaOp} {s s1 : ArenaState},
    runOps s ops = some s1 → ArenaReach s s1 := by
  intro ops
  induction ops with
  | nil =>
    intro s s1 h
    simp only [runOps, Option.some.injEq] at h
    exact h ▸ ArenaReach.refl
  | cons op rest ih =>
    intro s s1 h
    simp only [runOps] at h
    cases he : applyOp s op with
    | none => rw [he] at h; cases h
    | some s2 =>
      rw [he] at h
      exact arenaReach_trans (ArenaReach.step op ArenaReach.refl he) (ih h)

/-- C6 counterexample: in an arena whose only span is [0x0, 0x1000) with
quantum 0x100, the first arena_alloc(0x100, NEXTFIT) does not return 0x0 as
the claim states: next fit searches from minaddr = last_nextfit_alloc +
quantum = 0x100 and, on the wraparound retry, from quantum, so a tag starting
at address 0 is never even considered; the allocation finds nothing and the
arena panics OOM under MEM_WAIT (and returns NULL under MEM_ATOMIC). -/
theorem c6_counterexample :
    arena_alloc c6Arena 0x100 fNext [] = none ∧
    (arena_alloc c6Arena 0x100 fNextAtomic []).map (·.1) = some none := by decide

/-- C6 amended: the next-fit cursor scenario holds one quantum up, where no
allocation would need address 0 (the failure sentinel).  With the only
segment [0x100, 0x1100) and quantum 0x100: two NEXTFIT allocations return
0x100 then 0x200; after freeing 0x100, the next NEXTFIT allocation returns
0x300 (the cursor advances past freed lower addresses), and 0x100 is found
again exactly after the fourteen remaining tail chunks are exhausted. -/
theorem c6_nextfit_cursor :
    c6Trace.map (fun q => (q.1, q.2.1)) =
      some ([0x100, 0x200],
            [0x300, 0x400, 0x500, 0x600, 0x700, 0x800, 0x900, 0xa00, 0xb00,
             0xc00, 0xd00, 0xe00, 0xf00, 0x1000, 0x100]) := by decide

/-- C7 counterexample: on the claimed arena, whose only free segment is
[0x0, 0x3000), the xalloc does not return any address at all: the only
placements satisfying align=0x100, phase=0, nocross=0x1000 for size 0x800
start at 0x0, 0x1000 or 0x2000, but __find_sufficient reports a placement at
address 0 with its failure sentinel 0, and for the tags starting at 0 the
nocross retry also lands on 0; the allocation fails (OOM panic under
MEM_WAIT, NULL under MEM_ATOMIC) instead of returning 0x0/0x1000/0x2000. -/
theorem c7_counterexample :
    arena_xalloc c7Arena 0x800 0x100 0 0x1000 0 0 fWait [] = none ∧
    (arena_xalloc c7Arena 0x800 0x100 0 0x1000 0 0 fAtomic []).map (·.1) = some none := by
  decide

/-- C7 amended: off address 0 the nocross behaviour is as claimed: with the
only free segment [0x1000, 0x4000), xalloc(size=0x800, align=0x100, phase=0,
nocross=0x1000) returns one of 0x1000, 0x2000, 0x3000 (concretely 0x1000),
which crosses no 0x1000 boundary, and never 0x1800. -/
theorem c7_nocross :
    (arena_xalloc c7ArenaS 0x800 0x100 0 0x1000 0 0 fWait []).map (·.1) =
      some (some 0x1000) ∧
    ((0x1000 : Nat) = 0x1000 ∨ (0x1000 : Nat) = 0x2000 ∨ (0x1000 : Nat) = 0x3000) ∧
    xallocSat 0x1000 0x800 0x100 0 0x1000 0 0 ∧
    (0x1000 : Nat) ≠ 0x1800 := by decide

/-- C1 counterexample: an arena_xalloc return can cross a nocross boundary
when phase + size exceeds nocross.  Quantum 1, free segment [0x100, 0x3100),
xalloc(size=0xa00, align=0x100, phase=0xa00, nocross=0x1000) returns 0x1a00,
and [0x1a00, 0x2400) crosses the boundary 0x2000. -/
theorem c1_counterexample :
    (arena_xalloc c1Arena 0xa00 0x100 0xa00 0x1000 0 0 fWait []).map (·.1) =
      some (some 0x1a00) ∧
    ¬ xallocSat 0x1a00 0xa00 0x100 0xa00 0x1000 0 0 := by decide

/-- C5 counterexample: a reachable state with two address-adjacent FREE
tags.  arena_add does not coalesce, so adding [0x0, 0x100) and then
[0x100, 0x200) leaves two adjacent FREE tags in the tree. -/
theorem c5_counterexample :
    ArenaReach (initArena 1 false) c5Arena ∧ ¬ noAdjFree c5Arena.segs :=
  ⟨@runOps_reach [ArenaOp.add 0 0x100, ArenaOp.add 0x100 0x100] _ _ (by decide),
   by decide⟩

set_option maxRecDepth 8000 in
/-- C3 counterexample, in three parts.  First, from the reachable state with
two adjacent FREE tags, an INSTANTFIT allocation of 0x100 (returning 0x100)
followed by its free does not restore the state: the free merges the two
manually added spans into a single FREE tag.  Second, a BESTFIT allocation
that is satisfied by the scan of its own size bucket leaves the chosen tag
linked on that free list (the source omits __untrack_free_seg there), so
after the free the bucket holds the tag twice; the round trip changes the
free lists.  Third, an INSTANTFIT allocation that succeeds only after
importing a span is not undone by its free either: on the well-formed
sourced state with free segment [0x1300, 0x1400), allocating 0x200 imports
the span [0x1100, 0x1300) and returns 0x1100, and the free merges the freed
segment across the imported span's boundary with the pre-existing free
space, stranding the SPAN tag over a FREE tag of the wrong extent instead
of restoring the tree. -/
theorem c3_counterexample :
    (arena_alloc c5Arena 0x100 fWait []).map (·.1) = some (some 0x100) ∧
    c3RoundTrip = some c3After ∧
    ¬ stateRestored c3After c5Arena ∧
    (arena_alloc cBFArena 0x200 fBest []).map (·.1) = some (some 0x100) ∧
    cBFRoundTrip = some cBFAfter ∧
    ¬ stateRestored cBFAfter cBFArena ∧
    arenaWF c3SrcArena ∧
    (arena_alloc c3SrcArena 0x200 fWait [0x1100]).map (·.1) = some (some 0x1100) ∧
    c3SrcRoundTrip = some c3SrcAfter ∧
    c3SrcAfter.segs = [⟨0x1100, 0x200, BtStatus.span⟩, ⟨0x1100, 0x300, BtStatus.free⟩] ∧
    ¬ stateRestored c3SrcAfter c3SrcArena := by decide

/-- C8 counterexample, in two parts.  First, arena_free does not panic
whenever the caller size differs from the recorded size: sizes are rounded
up to the quantum first, so freeing the recorded [0x100, 0x200) segment with
caller size 0x1 (quantum 0x100) succeeds.  Second, after a successful free
the tag is not necessarily left on the bucket for its size: freeing 0x100
coalesces the tag with the adjacent free segment [0x200, 0x300), leaving
bucket 8 (sizes 0x100..0x1ff) empty and the merged tag on bucket 9. -/
theorem c8_counterexample :
    (arena_free c8Arena 0x100 0x1).isSome = true ∧
    (arena_free c8Arena 0x100 0x100).map
      (fun q => (getBucket q.1.freeSegs 8, getBucket q.1.freeSegs 9)) =
      some ([], [0x100]) := by decide

/-! ## Sum bookkeeping -/

theorem sumFree_nil : sumFree [] = 0 := rfl

theorem sumFree_cons (x : Btag) (l : List Btag) :
    sumFree (x :: l) = (if x.status = BtStatus.free then x.size else 0) + sumFree l := by
  simp [sumFree]

theorem sumFree_append (a b : List Btag) :
    sumFree (a ++ b) = sumFree a + sumFree b := by
  simp [sumFree]

theorem sumAlloc_nil : sumAlloc [] = 0 := rfl

theorem sumAlloc_cons (x : Btag) (l : List Btag) :
    sumAlloc (x :: l) = (if x.status = BtStatus.alloc then x.size else 0) + sumAlloc l := by
  simp [sumAlloc]

theorem sumAlloc_append (a b : List Btag) :
    sumAlloc (a ++ b) = sumAlloc a + sumAlloc b := by
  simp [sumAlloc]

theorem nrAlloc_nil : nrAlloc [] = 0 := rfl

theorem nrAlloc_cons (x : Btag) (l : List Btag) :
    nrAlloc (x :: l) = (if x.status = BtStatus.alloc then 1 else 0) + nrAlloc l := by
  simp [nrAlloc]

theorem nrAlloc_append (a b : List Btag) :
    nrAlloc (a ++ b) = nrAlloc a + nrAlloc b := by
  simp [nrAlloc]

/-! ## Structure of the segment-list operations -/

theorem insertBtag_eq {bt : Btag} :
    ∀ {l l2 : List Btag}, insertBtag bt l = some l2 →
      ∃ pre post, l = pre ++ post ∧ l2 = pre ++ bt :: post ∧
        (∀ x ∈ pre, x.start < bt.start ∨ (x.start = bt.start ∧ x.status = BtStatus.span)) ∧
        (∀ y ∈ post.head?, bt.start < y.start) := by
  intro l
  induction l with
  | nil =>
    intro l2 h
    simp only [insertBtag, Option.some.injEq] at h
    exact ⟨[], [], by simp, by simp [← h], by simp, by simp⟩
  | cons x xs ih =>
    intro l2 h
    by_cases h1 : bt.start < x.start
    · simp only [insertBtag, if_pos h1, Option.some.injEq] at h
      refine ⟨[], x :: xs, by simp, by simp [← h], by simp, ?_⟩
      intro y hy
      simp only [List.head?_cons, Option.mem_def, Option.some.injEq] at hy
      exact hy ▸ h1
    · by_cases h2 : x.start < bt.start
      · simp only [insertBtag, if_neg h1, if_pos h2] at h
        cases he : insertBtag bt xs with
        | none => rw [he] at h; cases h
        | some l3 =>
          rw [he] at h
          replace h : some (x :: l3) = some l2 := h
          injection h with h
          obtain ⟨pre, post, hl, hl2, hpre, hpost⟩ := ih he
          refine ⟨x :: pre, post, by simp [hl], by simp [← h, hl2], ?_, hpost⟩
          intro z hz
          rcases List.mem_cons.mp hz with rfl | hz
          · exact Or.inl h2
          · exact hpre z hz
      · by_cases h3 : x.status = BtStatus.span
        · simp only [insertBtag, if_neg h1, if_neg h2, if_pos h3] at h
          cases he : insertBtag bt xs with
          | none => rw [he] at h; cases h
          | some l3 =>
            rw [he] at h
            replace h : some (x :: l3) = some l2 := h
            injection h with h
            obtain ⟨pre, post, hl, hl2, hpre, hpost⟩ := ih he
            have hx : x.start = bt.start := Nat.le_antisymm (Nat.not_lt.mp h1) (Nat.not_lt.mp h2)
            refine ⟨x :: pre, post, by simp [hl], by simp [← h, hl2], ?_, hpost⟩
            intro z hz
            rcases List.mem_cons.mp hz with rfl | hz
            · exact Or.inr ⟨hx, h3⟩
            · exact hpre z hz
        · simp only [insertBtag, if_neg h1, if_neg h2, if_neg h3] at h
          cases h

theorem extractSeg_eq {a : Nat} :
    ∀ {l : List Btag} {bt : Btag} {rest : List Btag}, extractSeg a l = some (bt, rest) →
      ∃ pre post, l = pre ++ bt :: post ∧ rest = pre ++ post ∧
        (∀ x ∈ pre, ¬(x.start = a ∧ x.status ≠ BtStatus.span)) ∧
        bt.start = a ∧ bt.status ≠ BtStatus.span := by
  intro l
  induction l with
  | nil => intro bt rest h; cases h
  | cons x xs ih =>
    intro bt rest h
    by_cases h1 : x.start = a ∧ x.status ≠ BtStatus.span
    · simp only [extractSeg, if_pos h1, Option.some.injEq, Prod.mk.injEq] at h
      exact ⟨[], xs, by simp [h.1], by simp [h.2], by simp, h.1 ▸ h1.1, h.1 ▸ h1.2⟩
    · simp only [extractSeg, if_neg h1] at h
      cases he : extractSeg a xs with
      | none => rw [he] at h; cases h
      | some p =>
        obtain ⟨b2, r2⟩ := p
        rw [he] at h
        replace h : some (b2, x :: r2) = some (bt, rest) := h
        injection h with h
        injection h with hA hB
        obtain ⟨pre, post, hl, hrest, hpre, hstart, hstatus⟩ := ih he
        refine ⟨x :: pre, post, ?_, ?_, ?_, ?_, ?_⟩
        · simp [hl, hA]
        · simp [← hB, hrest]
        · intro z hz
          rcases List.mem_cons.mp hz with rfl | hz
          · exact h1
          · exact hpre z hz
        · rw [← hA]; exact hstart
        · rw [← hA]; exact hstatus

theorem extractAllocSeg_eq {a : Nat} :
    ∀ {l : List Btag} {bt : Btag} {rest : List Btag}, extractAllocSeg a l = some (bt, rest) →
      ∃ pre post, l = pre ++ bt :: post ∧ rest = pre ++ post ∧
        (∀ x ∈ pre, ¬(x.start = a ∧ x.status = BtStatus.alloc)) ∧
        bt.start = a ∧ bt.status = BtStatus.alloc := by
  intro l
  induction l with
  | nil => intro bt rest h; cases h
  | cons x xs ih =>
    intro bt rest h
    by_cases h1 : x.start = a ∧ x.status = BtStatus.alloc
    · simp only [extractAllocSeg, if_pos h1, Option.some.injEq, Prod.mk.injEq] at h
      exact ⟨[], xs, by simp [h.1], by simp [h.2], by simp, h.1 ▸ h1.1, h.1 ▸ h1.2⟩
    · simp only [extractAllocSeg, if_neg h1] at h
      cases he : extractAllocSeg a xs with
      | none => rw [he] at h; cases h
      | some p =>
        obtain ⟨b2, r2⟩ := p
        rw [he] at h
        replace h : some (b2, x :: r2) = some (bt, rest) := h
        injection h with h
        injection h with hA hB
        obtain ⟨pre, post, hl, hrest, hpre, hstart, hstatus⟩ := ih he
        refine ⟨x :: pre, post, ?_, ?_, ?_, ?_, ?_⟩
        · simp [hl, hA]
        · simp [← hB, hrest]
        · intro z hz
          rcases List.mem_cons.mp hz with rfl | hz
          · exact h1
          · exact hpre z hz
        · rw [← hA]; exact hstart
        · rw [← hA]; exact hstatus

theorem splitSeg_eq {a : Nat} :
    ∀ {l : List Btag} {pre : List Btag} {bt : Btag} {post : List Btag},
      splitSeg a l = some (pre, bt, post) →
      l = pre ++ bt :: post ∧
      (∀ x ∈ pre, ¬(x.start = a ∧ x.status ≠ BtStatus.span)) ∧
      bt.start = a ∧ bt.status ≠ BtStatus.span := by
  intro l
  induction l with
  | nil => intro pre bt post h; cases h
  | cons x xs ih =>
    intro pre bt post h
    by_cases h1 : x.start = a ∧ x.status ≠ BtStatus.span
    · simp only [splitSeg, if_pos h1, Option.some.injEq, Prod.mk.injEq] at h
      obtain ⟨hp, hb, hq⟩ := h
      subst hp; subst hb; subst hq
      exact ⟨by simp, by simp, h1.1, h1.2⟩
    · simp only [splitSeg, if_neg h1] at h
      cases he : splitSeg a xs with
      | none => rw [he] at h; cases h
      | some p =>
        obtain ⟨p1, b2, r2⟩ := p
        rw [he] at h
        replace h : some (x :: p1, b2, r2) = some (pre, bt, post) := h
        injection h with h
        injection h with hA h
        injection h with hB hC
        obtain ⟨hl, hpre, hstart, hstatus⟩ := ih he
        refine ⟨?_, ?_, ?_, ?_⟩
        · simp [← hA, ← hB, ← hC, hl]
        · intro y hy
          rw [← hA] at hy
          simp only [List.mem_cons] at hy
          rcases hy with rfl | hy
          · exact h1
          · exact hpre y hy
        · rw [← hB]; exact hstart
        · rw [← hB]; exact hstatus

/-! ## Tree-order lemmas -/

theorem segBefore_start_le {t u : Btag} (h : segBefore t u) : t.start ≤ u.start := by
  rcases h with h | ⟨h, _⟩
  · exact Nat.le_of_lt h
  · exact Nat.le_of_eq h

theorem segBefore_of_head {post : List Btag} {b : Btag}
    (hs : post.Pairwise segBefore) (hh : ∀ y ∈ post.head?, b.start < y.start) :
    ∀ y ∈ post, segBefore b y := by
  cases post with
  | nil => simp
  | cons y0 ys =>
    intro y hy
    have h0 : b.start < y0.start := hh y0 (by simp)
    rcases List.mem_cons.mp hy with rfl | hy
    · exact Or.inl h0
    · have h1 : segBefore y0 y := (List.pairwise_cons.mp hs).1 y hy
      exact Or.inl (Nat.lt_of_lt_of_le h0 (segBefore_start_le h1))

theorem sortedSub {l l2 : List Btag} (h : l2.Sublist l) (hs : SegsSorted l) :
    SegsSorted l2 := List.Pairwise.sublist h hs

theorem sorted_extract {pre post : List Btag} {bt : Btag}
    (hs : SegsSorted (pre ++ bt :: post)) : SegsSorted (pre ++ post) :=
  sortedSub (List.Sublist.append_left (List.sublist_cons_self bt post) pre) hs

theorem insertBtag_sorted {bt : Btag} {l l2 : List Btag}
    (hs : SegsSorted l) (h : insertBtag bt l = some l2) : SegsSorted l2 := by
  obtain ⟨pre, post, hl, hl2, hpre, hpost⟩ := insertBtag_eq h
  subst hl; subst hl2
  rw [SegsSorted, List.pairwise_append] at hs ⊢
  obtain ⟨hsPre, hsPost, hCross⟩ := hs
  refine ⟨hsPre, ?_, ?_⟩
  · rw [List.pairwise_cons]
    exact ⟨segBefore_of_head hsPost hpost, hsPost⟩
  · intro x hx y hy
    rcases List.mem_cons.mp hy with rfl | hy
    · rcases hpre x hx with h1 | ⟨h1, h2⟩
      · exact Or.inl h1
      · exact Or.inr ⟨h1, h2⟩
    · exact hCross x hx y hy

theorem insertBtag_unique {bt : Btag} {l l2 : List Btag}
    (hs : SegsSorted l) (h : insertBtag bt l = some l2) :
    ∀ x ∈ l, x.start = bt.start → x.status = BtStatus.span := by
  obtain ⟨pre, post, hl, hl2, hpre, hpost⟩ := insertBtag_eq h
  subst hl
  rw [SegsSorted, List.pairwise_append] at hs
  intro x hx hxs
  rcases List.mem_append.mp hx with hx | hx
  · rcases hpre x hx with h1 | ⟨_, h2⟩
    · exact absurd hxs (Nat.ne_of_lt h1)
    · exact h2
  · cases post with
    | nil => cases hx
    | cons y0 ys =>
      have h0 : bt.start < y0.start := hpost y0 (by simp)
      have hle : y0.start ≤ x.start := by
        rcases List.mem_cons.mp hx with rfl | hx2
        · exact Nat.le_refl _
        · exact segBefore_start_le ((List.pairwise_cons.mp hs.2.1).1 x hx2)
      exact absurd hxs (by omega)

theorem extractSeg_mem_sorted {l : List Btag} {bt : Btag}
    (hs : SegsSorted l) (hm : bt ∈ l) (hns : bt.status ≠ BtStatus.span) :
    ∃ rest, extractSeg bt.start l = some (bt, rest) := by
  induction l with
  | nil => cases hm
  | cons x xs ih =>
    rcases List.mem_cons.mp hm with rfl | hm
    · exact ⟨xs, by simp [extractSeg, hns]⟩
    · have hb : segBefore x bt := (List.pairwise_cons.mp hs).1 bt hm
      have hcond : ¬(x.start = bt.start ∧ x.status ≠ BtStatus.span) := by
        rcases hb with h1 | ⟨h1, h2⟩
        · exact fun hc => Nat.ne_of_lt h1 hc.1
        · exact fun hc => hc.2 h2
      obtain ⟨rest, hr⟩ := ih (List.pairwise_cons.mp hs).2 hm
      exact ⟨x :: rest, by simp [extractSeg, hcond, hr]⟩

/-! ## Effect of __account_alloc -/

theorem account_alloc_spec {s s1 : ArenaState} {a n : Nat}
    (h : account_alloc s a n = some s1) :
    (∃ bt rest, extractSeg a s.segs = some (bt, rest) ∧
       bt.status = BtStatus.free ∧ n ≤ bt.size) ∧
    sumFree s.segs = sumFree s1.segs + n ∧
    sumAlloc s1.segs = sumAlloc s.segs + n ∧
    nrAlloc s1.segs = nrAlloc s.segs + 1 ∧
    s1.amt_total_segs = s.amt_total_segs ∧
    s1.amt_alloc_segs = s.amt_alloc_segs + n ∧
    s1.nr_allocs = s.nr_allocs + 1 ∧
    s1.quantum = s.quantum ∧ s1.hasSource = s.hasSource ∧
    s1.importScale = s.importScale ∧ s1.last_nextfit_alloc = s.last_nextfit_alloc ∧
    (SegsSorted s.segs → SegsSorted s1.segs) := by
  unfold account_alloc at h
  cases he : extractSeg a s.segs with
  | none => rw [he] at h; cases h
  | some p =>
    obtain ⟨bt, rest⟩ := p
    rw [he] at h
    dsimp only at h
    obtain ⟨pre, post, e1, e2, -, -, -⟩ := extractSeg_eq he
    by_cases hf : bt.status = BtStatus.free
    swap
    · rw [if_neg hf] at h; cases h
    rw [if_pos hf] at h
    by_cases hsz : bt.size = n
    · rw [if_pos hsz] at h
      cases hi : insertBtag ⟨bt.start, bt.size, BtStatus.alloc⟩ rest with
      | none => rw [hi] at h; cases h
      | some segs1 =>
        rw [hi] at h
        replace h : some
            { s with segs := segs1
                     allocHash := hashPush s.allocHash bt.start
                     amt_alloc_segs := s.amt_alloc_segs + n
                     nr_allocs := s.nr_allocs + 1 } = some s1 := h
        injection h with h
        subst h
        obtain ⟨pre2, post2, e3, e4, -, -⟩ := insertBtag_eq hi
        have qF : sumFree pre + sumFree post = sumFree pre2 + sumFree post2 := by
          have q := congrArg sumFree (e2.symm.trans e3)
          simpa [sumFree_append] using q
        have qA : sumAlloc pre + sumAlloc post = sumAlloc pre2 + sumAlloc post2 := by
          have q := congrArg sumAlloc (e2.symm.trans e3)
          simpa [sumAlloc_append] using q
        have qN : nrAlloc pre + nrAlloc post = nrAlloc pre2 + nrAlloc post2 := by
          have q := congrArg nrAlloc (e2.symm.trans e3)
          simpa [nrAlloc_append] using q
        refine ⟨?_, ?_, ?_, ?_, rfl, rfl, rfl, rfl, rfl, rfl, rfl, ?_⟩
        · exact ⟨bt, rest, rfl, hf, Nat.le_of_eq hsz.symm⟩
        · rw [e1, e4]
          simp [sumFree_append, sumFree_cons, hf]
          omega
        · rw [e1, e4]
          simp [sumAlloc_append, sumAlloc_cons, hf]
          omega
        · rw [e1, e4]
          simp [nrAlloc_append, nrAlloc_cons, hf]
          omega
        · intro hs
          rw [e1] at hs
          have hrs : SegsSorted rest := e2 ▸ sorted_extract hs
          exact insertBtag_sorted hrs hi
    · rw [if_neg hsz] at h
      by_cases hlt : n < bt.size
      swap
      · rw [if_neg hlt] at h; cases h
      rw [if_pos hlt] at h
      cases hi : insertBtag ⟨bt.start, n, BtStatus.alloc⟩ rest with
      | none => rw [hi] at h; cases h
      | some segs1 =>
        rw [hi] at h
        dsimp only at h
        cases hj : insertBtag ⟨bt.start + n, bt.size - n, BtStatus.free⟩ segs1 with
        | none => rw [hj] at h; cases h
        | some segs2 =>
          rw [hj] at h
          replace h : some
              { s with segs := segs2
                       freeSegs := bucketPush s.freeSegs
                         ⟨bt.start + n, bt.size - n, BtStatus.free⟩
                       allocHash := hashPush s.allocHash bt.start
                       amt_alloc_segs := s.amt_alloc_segs + n
                       nr_allocs := s.nr_allocs + 1 } = some s1 := h
          injection h with h
          subst h
          obtain ⟨pre2, post2, e3, e4, -, -⟩ := insertBtag_eq hi
          obtain ⟨pre3, post3, e5, e6, -, -⟩ := insertBtag_eq hj
          have qF : sumFree pre + sumFree post = sumFree pre2 + sumFree post2 := by
            have q := congrArg sumFree (e2.symm.trans e3)
            simpa [sumFree_append] using q
          have qA : sumAlloc pre + sumAlloc post = sumAlloc pre2 + sumAlloc post2 := by
            have q := congrArg sumAlloc (e2.symm.trans e3)
            simpa [sumAlloc_append] using q
          have qN : nrAlloc pre + nrAlloc post = nrAlloc pre2 + nrAlloc post2 := by
            have q := congrArg nrAlloc (e2.symm.trans e3)
            simpa [nrAlloc_append] using q
          have sF : sumFree pre2 + sumFree post2 = sumFree pre3 + sumFree post3 := by
            have q := congrArg sumFree (e4.symm.trans e5)
            simp [sumFree_append, sumFree_cons] at q
            simpa using q
          have sA : sumAlloc pre2 + n + sumAlloc post2 = sumAlloc pre3 + sumAlloc post3 := by
            have q := congrArg sumAlloc (e4.symm.trans e5)
            simp [sumAlloc_append, sumAlloc_cons] at q
            omega
          have sN : nrAlloc pre2 + 1 + nrAlloc post2 = nrAlloc pre3 + nrAlloc post3 := by
            have q := congrArg nrAlloc (e4.symm.trans e5)
            simp [nrAlloc_append, nrAlloc_cons] at q
            omega
          refine ⟨?_, ?_, ?_, ?_, rfl, rfl, rfl, rfl, rfl, rfl, rfl, ?_⟩
          · exact ⟨bt, rest, rfl, hf, Nat.le_of_lt hlt⟩
          · rw [e1, e6]
            simp [sumFree_append, sumFree_cons, hf]
            omega
          · rw [e1, e6]
            simp [sumAlloc_append, sumAlloc_cons, hf]
            omega
          · rw [e1, e6]
            simp [nrAlloc_append, nrAlloc_cons, hf]
            omega
          · intro hs
            rw [e1] at hs
            have hrs : SegsSorted rest := e2 ▸ sorted_extract hs
            exact insertBtag_sorted (insertBtag_sorted hrs hi) hj

/-! ## Effect of __split_bt_at -/

theorem split_bt_at_spec {s s1 : ArenaState} {a mid : Nat}
    (hsort : SegsSorted s.segs) (h : split_bt_at s a mid = some s1) :
    ∃ bt rest, extractSeg a s.segs = some (bt, rest) ∧
      bt.start < mid ∧ mid < bt.start + bt.size ∧
      (∃ rest2, extractSeg mid s1.segs =
         some (⟨mid, bt.size - (mid - bt.start), bt.status⟩, rest2)) ∧
      (bt.status = BtStatus.free →
        sumFree s1.segs = sumFree s.segs ∧ sumAlloc s1.segs = sumAlloc s.segs ∧
        nrAlloc s1.segs = nrAlloc s.segs) ∧
      SegsSorted s1.segs ∧
      s1.amt_total_segs = s.amt_total_segs ∧ s1.amt_alloc_segs = s.amt_alloc_segs ∧
      s1.nr_allocs = s.nr_allocs ∧ s1.allocHash = s.allocHash ∧
      s1.quantum = s.quantum ∧ s1.hasSource = s.hasSource ∧
      s1.importScale = s.importScale ∧ s1.last_nextfit_alloc = s.last_nextfit_alloc := by
  unfold split_bt_at at h
  cases he : extractSeg a s.segs with
  | none => rw [he] at h; cases h
  | some p =>
    obtain ⟨bt, rest⟩ := p
    rw [he] at h
    dsimp only at h
    obtain ⟨pre, post, e1, e2, -, hstart, hnspan⟩ := extractSeg_eq he
    by_cases hg : bt.start < mid ∧ mid < bt.start + bt.size
    swap
    · rw [if_neg hg] at h; cases h
    rw [if_pos hg] at h
    cases hi : insertBtag ⟨bt.start, mid - bt.start, BtStatus.free⟩ rest with
    | none => rw [hi] at h; cases h
    | some segs1 =>
      rw [hi] at h
      dsimp only at h
      cases hj : insertBtag ⟨mid, bt.size - (mid - bt.start), bt.status⟩ segs1 with
      | none => rw [hj] at h; cases h
      | some segs2 =>
        rw [hj] at h
        replace h : some
            { s with segs := segs2
                     freeSegs := bucketPush s.freeSegs
                       ⟨bt.start, mid - bt.start, BtStatus.free⟩ } = some s1 := h
        injection h with h
        subst h
        have hrs : SegsSorted rest := by
          rw [e1] at hsort
          exact e2 ▸ sorted_extract hsort
        have hs1 : SegsSorted segs1 := insertBtag_sorted hrs hi
        have hs2 : SegsSorted segs2 := insertBtag_sorted hs1 hj
        obtain ⟨pre2, post2, e3, e4, -, -⟩ := insertBtag_eq hi
        obtain ⟨pre3, post3, e5, e6, -, -⟩ := insertBtag_eq hj
        have hmem : (⟨mid, bt.size - (mid - bt.start), bt.status⟩ : Btag) ∈ segs2 := by
          rw [e6]; simp
        have hex := extractSeg_mem_sorted hs2 hmem
          (by simpa using hnspan)
        refine ⟨bt, rest, rfl, hg.1, hg.2, hex, ?_, hs2, rfl, rfl, rfl, rfl, rfl,
                rfl, rfl, rfl⟩
        intro hfree
        have qF : sumFree pre + sumFree post = sumFree pre2 + sumFree post2 := by
          have q := congrArg sumFree (e2.symm.trans e3)
          simpa [sumFree_append] using q
        have qA : sumAlloc pre + sumAlloc post = sumAlloc pre2 + sumAlloc post2 := by
          have q := congrArg sumAlloc (e2.symm.trans e3)
          simpa [sumAlloc_append] using q
        have qN : nrAlloc pre + nrAlloc post = nrAlloc pre2 + nrAlloc post2 := by
          have q := congrArg nrAlloc (e2.symm.trans e3)
          simpa [nrAlloc_append] using q
        have sF : sumFree pre2 + (mid - bt.start) + sumFree post2 =
            sumFree pre3 + sumFree post3 := by
          have q := congrArg sumFree (e4.symm.trans e5)
          simp [sumFree_append, sumFree_cons] at q
          omega
        have sA : sumAlloc pre2 + sumAlloc post2 = sumAlloc pre3 + sumAlloc post3 := by
          have q := congrArg sumAlloc (e4.symm.trans e5)
          simp [sumAlloc_append, sumAlloc_cons] at q
          omega
        have sN : nrAlloc pre2 + nrAlloc post2 = nrAlloc pre3 + nrAlloc post3 := by
          have q := congrArg nrAlloc (e4.symm.trans e5)
          simp [nrAlloc_append, nrAlloc_cons] at q
          omega
        refine ⟨?_, ?_, ?_⟩
        · rw [e1, e6]
          simp [sumFree_append, sumFree_cons, hfree]
          omega
        · rw [e1, e6]
          simp [sumAlloc_append, sumAlloc_cons, hfree]
          omega
        · rw [e1, e6]
          simp [nrAlloc_append, nrAlloc_cons, hfree]
          omega

/-! ## Effect of __coalesce_free_seg -/

theorem coalesceRight_cases {b0 : Btag} {post0 : List Btag} {fs : List (List Nat)}
    {b1 : Btag} {post : List Btag} {fs1 : List (List Nat)}
    (h : coalesceRight b0 post0 fs = (b1, post, fs1)) :
    (∃ n post1, post0 = n :: post1 ∧ mergeOk b0 n ∧
       b1 = ⟨b0.start, b0.size + n.size, BtStatus.free⟩ ∧ post = post1 ∧
       fs1 = mergeBuckets fs b0 n) ∨
    (b1 = b0 ∧ post = post0 ∧ fs1 = fs ∧
       ∀ n post1, post0 = n :: post1 → ¬ mergeOk b0 n) := by
  cases post0 with
  | nil =>
    simp only [coalesceRight, Prod.mk.injEq] at h
    exact Or.inr ⟨h.1.symm, h.2.1.symm, h.2.2.symm, by intro n p1 hp; cases hp⟩
  | cons n post1 =>
    by_cases hm : mergeOk b0 n
    · simp only [coalesceRight, if_pos hm, Prod.mk.injEq] at h
      exact Or.inl ⟨n, post1, rfl, hm, h.1.symm, h.2.1.symm, h.2.2.symm⟩
    · simp only [coalesceRight, if_neg hm, Prod.mk.injEq] at h
      refine Or.inr ⟨h.1.symm, h.2.1.symm, h.2.2.symm, ?_⟩
      intro n2 p2 hp
      injection hp with hp1 hp2
      subst hp1
      exact hm

theorem coalesceLeft_cases {preR0 : List Btag} {b1 : Btag} {fs1 : List (List Nat)}
    {b2 : Btag} {preR : List Btag} {fs2 : List (List Nat)}
    (h : coalesceLeft preR0 b1 fs1 = (b2, preR, fs2)) :
    (∃ p preR1, preR0 = p :: preR1 ∧ mergeOk p b1 ∧
       b2 = ⟨p.start, p.size + b1.size, BtStatus.free⟩ ∧ preR = preR1 ∧
       fs2 = mergeBuckets fs1 p b1) ∨
    (b2 = b1 ∧ preR = preR0 ∧ fs2 = fs1 ∧
       ∀ p preR1, preR0 = p :: preR1 → ¬ mergeOk p b1) := by
  cases preR0 with
  | nil =>
    simp only [coalesceLeft, Prod.mk.injEq] at h
    exact Or.inr ⟨h.1.symm, h.2.1.symm, h.2.2.symm, by intro p p1 hp; cases hp⟩
  | cons p preR1 =>
    by_cases hm : mergeOk p b1
    · simp only [coalesceLeft, if_pos hm, Prod.mk.injEq] at h
      exact Or.inl ⟨p, preR1, rfl, hm, h.1.symm, h.2.1.symm, h.2.2.symm⟩
    · simp only [coalesceLeft, if_neg hm, Prod.mk.injEq] at h
      refine Or.inr ⟨h.1.symm, h.2.1.symm, h.2.2.symm, ?_⟩
      intro p2 p3 hp
      injection hp with hp1 hp2
      subst hp1
      exact hm

theorem coalesceSpan_cases {preR : List Btag} {b2 : Btag} {post : List Btag}
    {fs2 : List (List Nat)} {segs2 : List Btag} {fs3 : List (List Nat)}
    {ret : Option (Nat × Nat)}
    (h : coalesceSpan preR b2 post fs2 = (segs2, fs3, ret)) :
    (∃ sp preR2, preR = sp :: preR2 ∧ sp.status = BtStatus.span ∧
       sp.start = b2.start ∧ sp.size = b2.size ∧
       segs2 = preR2.reverse ++ post ∧ fs3 = bucketRemove fs2 b2 ∧
       ret = some (sp.start, sp.size)) ∨
    (segs2 = preR.reverse ++ b2 :: post ∧ fs3 = fs2 ∧ ret = none) := by
  cases preR with
  | nil =>
    simp only [coalesceSpan, Prod.mk.injEq] at h
    exact Or.inr ⟨by simp [← h.1], h.2.1.symm, h.2.2.symm⟩
  | cons sp preR2 =>
    by_cases hc : sp.status = BtStatus.span ∧ sp.start = b2.start ∧ sp.size = b2.size
    · simp only [coalesceSpan, if_pos hc, Prod.mk.injEq] at h
      exact Or.inl ⟨sp, preR2, rfl, hc.1, hc.2.1, hc.2.2, h.1.symm, h.2.1.symm, h.2.2.symm⟩
    · simp only [coalesceSpan, if_neg hc, Prod.mk.injEq] at h
      exact Or.inr ⟨h.1.symm, h.2.1.symm, h.2.2.symm⟩

/-- keys are all that the tree order sees. -/
theorem segBefore_congr {b b' : Btag} (h1 : b'.start = b.start) (h2 : b'.status = b.status) :
    ∀ x : Btag, (segBefore x b' ↔ segBefore x b) ∧ (segBefore b' x ↔ segBefore b x) := by
  intro x
  unfold segBefore
  rw [h1, h2]
  exact ⟨Iff.rfl, Iff.rfl⟩

theorem sorted_replace {pre post : List Btag} {b b' : Btag}
    (hs : SegsSorted (pre ++ b :: post)) (h1 : b'.start = b.start)
    (h2 : b'.status = b.status) : SegsSorted (pre ++ b' :: post) := by
  rw [SegsSorted, List.pairwise_append] at hs ⊢
  obtain ⟨hsPre, hsMid, hCross⟩ := hs
  rw [List.pairwise_cons] at hsMid ⊢
  refine ⟨hsPre, ⟨?_, hsMid.2⟩, ?_⟩
  · intro y hy
    exact ((segBefore_congr h1 h2 y).2).mpr (hsMid.1 y hy)
  · intro x hx y hy
    rcases List.mem_cons.mp hy with rfl | hy
    · exact ((segBefore_congr h1 h2 x).1).mpr (hCross x hx b (by simp))
    · exact hCross x hx y (by simp [hy])

theorem pairwise_two_mem {R : Btag → Btag → Prop} {l : List Btag} (hp : l.Pairwise R)
    {b c : Btag} (hb : b ∈ l) (hc : c ∈ l) (hne : b ≠ c) : R b c ∨ R c b := by
  have hp2 : l.Pairwise fun x y => R x y ∨ R y x := hp.imp Or.inl
  exact List.Pairwise.forall (fun x y hxy => hxy.symm) hp2 hb hc hne

/-- in a tree-ordered list there is at most one non-SPAN tag per start. -/
theorem nonspan_unique {l : List Btag} (hs : SegsSorted l) {b c : Btag}
    (hb : b ∈ l) (hc : c ∈ l) (hbs : b.status ≠ BtStatus.span)
    (hcs : c.status ≠ BtStatus.span) (heq : b.start = c.start) : b = c := by
  by_cases hbc : b = c
  · exact hbc
  · rcases pairwise_two_mem hs hb hc hbc with h | h
    · rcases h with h | ⟨-, h⟩
      · exact absurd heq (Nat.ne_of_lt h)
      · exact absurd h hbs
    · rcases h with h | ⟨-, h⟩
      · exact absurd heq.symm (Nat.ne_of_lt h)
      · exact absurd h hcs

theorem coalesce_sums {segs : List Btag} {fs : List (List Nat)} {a : Nat}
    {segs2 : List Btag} {fs2 : List (List Nat)} {ret : Option (Nat × Nat)}
    (hsort : SegsSorted segs)
    (hfree : ∀ pre b0 post0, splitSeg a segs = some (pre, b0, post0) →
       b0.status = BtStatus.free)
    (h : coalesce_free_seg segs fs a = some (segs2, fs2, ret)) :
    sumFree segs = sumFree segs2 + retSz ret ∧
    sumAlloc segs2 = sumAlloc segs ∧
    nrAlloc segs2 = nrAlloc segs ∧
    SegsSorted segs2 := by
  unfold coalesce_free_seg at h
  cases hsp : splitSeg a segs with
  | none => rw [hsp] at h; cases h
  | some trip =>
    obtain ⟨pre, b0, post0⟩ := trip
    rw [hsp] at h
    dsimp only at h
    rcases hCR : coalesceRight b0 post0 fs with ⟨b1, post, fs1⟩
    rw [hCR] at h
    dsimp only at h
    rcases hCL : coalesceLeft pre.reverse b1 fs1 with ⟨b2, preR, fsL⟩
    rw [hCL] at h
    dsimp only at h
    injection h with h
    obtain ⟨e0, -, hb0start, hb0ns⟩ := splitSeg_eq hsp
    have hb0free : b0.status = BtStatus.free := hfree pre b0 post0 hsp
    have stage1 : SegsSorted (pre ++ b1 :: post) ∧
        sumFree (pre ++ b1 :: post) = sumFree segs ∧
        sumAlloc (pre ++ b1 :: post) = sumAlloc segs ∧
        nrAlloc (pre ++ b1 :: post) = nrAlloc segs ∧
        b1.status = BtStatus.free := by
      rcases coalesceRight_cases hCR with
        ⟨nn, post1, hpost0, hm, hb1, hpost, -⟩ | ⟨hb1, hpost, -, -⟩
      · obtain ⟨-, hmn, -⟩ := hm
        rw [hpost0] at e0
        rw [hb1, hpost]
        rw [e0] at hsort
        have hsub : SegsSorted (pre ++ b0 :: post1) :=
          sortedSub (List.Sublist.append_left
            (List.Sublist.cons₂ b0 (List.sublist_cons_self nn post1)) pre) hsort
        refine ⟨sorted_replace hsub rfl (by simp [hb0free]), ?_, ?_, ?_, rfl⟩
        · rw [e0]
          simp [sumFree_append, sumFree_cons, hb0free, hmn]
          omega
        · rw [e0]
          simp [sumAlloc_append, sumAlloc_cons, hb0free, hmn]
        · rw [e0]
          simp [nrAlloc_append, nrAlloc_cons, hb0free, hmn]
      · rw [hb1, hpost]
        exact ⟨e0 ▸ hsort, by rw [e0], by rw [e0], by rw [e0], hb0free⟩
    have stage2 : SegsSorted (preR.reverse ++ b2 :: post) ∧
        sumFree (preR.reverse ++ b2 :: post) = sumFree segs ∧
        sumAlloc (preR.reverse ++ b2 :: post) = sumAlloc segs ∧
        nrAlloc (preR.reverse ++ b2 :: post) = nrAlloc segs ∧
        b2.status = BtStatus.free := by
      obtain ⟨hst1, hF1, hA1, hN1, hb1free⟩ := stage1
      rcases coalesceLeft_cases hCL with
        ⟨p, preR1, hrev, hm, hb2, hpreR, -⟩ | ⟨hb2, hpreR, -, -⟩
      · obtain ⟨hpf, -, -⟩ := hm
        rw [hb2, hpreR]
        have hpre : pre = preR1.reverse ++ [p] := by
          have q := congrArg List.reverse hrev
          simpa using q
        rw [hpre] at hst1 hF1 hA1 hN1
        have hsub : SegsSorted (preR1.reverse ++ p :: post) := by
          refine sortedSub ?_ (by simpa [List.append_assoc] using hst1)
          refine List.Sublist.append_left ?_ preR1.reverse
          exact List.Sublist.cons₂ p (List.sublist_cons_self b1 post)
        refine ⟨sorted_replace hsub rfl (by simp [hpf]), ?_, ?_, ?_, rfl⟩
        · rw [← hF1]
          simp [sumFree_append, sumFree_cons, hpf, hb1free]
          omega
        · rw [← hA1]
          simp [sumAlloc_append, sumAlloc_cons, hpf, hb1free]
        · rw [← hN1]
          simp [nrAlloc_append, nrAlloc_cons, hpf, hb1free]
      · rw [hb2, hpreR]
        simpa using ⟨hst1, hF1, hA1, hN1, hb1free⟩
    obtain ⟨hst2, hF2, hA2, hN2, hb2free⟩ := stage2
    rcases coalesceSpan_cases h with
      ⟨sp, preR2, hpreR, hsps, hspst, hspsz, hsegs2, -, hret⟩ | ⟨hsegs2, -, hret⟩
    · subst hret
      subst hsegs2
      have hrev2 : preR.reverse = preR2.reverse ++ [sp] := by
        rw [hpreR]; simp
      rw [hrev2] at hst2 hF2 hA2 hN2
      have hsub : SegsSorted (preR2.reverse ++ post) := by
        refine sortedSub ?_ (by simpa [List.append_assoc] using hst2)
        refine List.Sublist.append_left ?_ preR2.reverse
        exact List.Sublist.trans (List.sublist_cons_self sp post)
          (List.Sublist.cons₂ sp (List.sublist_cons_self b2 post))
      refine ⟨?_, ?_, ?_, hsub⟩
      · rw [← hF2]
        simp only [retSz, List.append_assoc]
        simp [sumFree_append, sumFree_cons, hsps, hb2free, hspsz]
        omega
      · rw [← hA2]
        simp [sumAlloc_append, sumAlloc_cons, hsps, hb2free]
      · rw [← hN2]
        simp [nrAlloc_append, nrAlloc_cons, hsps, hb2free]
    · subst hret
      subst hsegs2
      exact ⟨by simpa [retSz] using hF2.symm, hA2, hN2, hst2⟩

/-! ## Preservation through free_from_arena -/

theorem free_preserves {s s1 : ArenaState} {addr size : Nat} {ret : Option (Nat × Nat)}
    (h : free_from_arena s addr size = some (s1, ret))
    (hc : countersOk s) (hs : SegsSorted s.segs) :
    countersOk s1 ∧ SegsSorted s1.segs := by
  unfold free_from_arena at h
  by_cases hmem : addr ∈ getBucket s.allocHash (hashIdx addr)
  swap
  · rw [if_neg hmem] at h; cases h
  rw [if_pos hmem] at h
  cases he : extractAllocSeg addr s.segs with
  | none => rw [he] at h; cases h
  | some p =>
    obtain ⟨bt, rest⟩ := p
    rw [he] at h
    dsimp only at h
    obtain ⟨pre, post, e1, e2, -, hstart, halloc⟩ := extractAllocSeg_eq he
    by_cases hsz : bt.size = size
    swap
    · rw [if_neg hsz] at h; cases h
    rw [if_pos hsz] at h
    cases hi : insertBtag ⟨bt.start, bt.size, BtStatus.free⟩ rest with
    | none => rw [hi] at h; cases h
    | some segs1 =>
      rw [hi] at h
      dsimp only at h
      have hrs : SegsSorted rest := by
        rw [e1] at hs
        exact e2 ▸ sorted_extract hs
      have hs1 : SegsSorted segs1 := insertBtag_sorted hrs hi
      obtain ⟨pre2, post2, e3, e4, -, -⟩ := insertBtag_eq hi
      have hbtF : (⟨bt.start, bt.size, BtStatus.free⟩ : Btag) ∈ segs1 := by
        rw [e4]; simp
      cases hco : coalesce_free_seg segs1
          (bucketPush s.freeSegs ⟨bt.start, bt.size, BtStatus.free⟩) addr with
      | none => rw [hco] at h; cases h
      | some trip =>
        obtain ⟨segs2, fs2, ret0⟩ := trip
        rw [hco] at h
        dsimp only at h
        have hfree : ∀ pre0 b0 post0,
            splitSeg addr segs1 = some (pre0, b0, post0) →
            b0.status = BtStatus.free := by
          intro pre0 b0 post0 hspl
          obtain ⟨f0, -, f2, f3⟩ := splitSeg_eq hspl
          have hb0mem : b0 ∈ segs1 := by rw [f0]; simp
          have : b0 = (⟨bt.start, bt.size, BtStatus.free⟩ : Btag) :=
            nonspan_unique hs1 hb0mem hbtF f3 (by simp) (by simp [f2, hstart])
          rw [this]
        obtain ⟨cF, cA, cN, cS⟩ := coalesce_sums hs1 hfree hco
        obtain ⟨c1, c2, c3⟩ := hc
        have dF : sumFree s.segs = sumFree pre + sumFree post := by
          rw [e1]
          simp [sumFree_append, sumFree_cons, halloc]
        have dA : sumAlloc s.segs = sumAlloc pre + bt.size + sumAlloc post := by
          rw [e1]
          simp [sumAlloc_append, sumAlloc_cons, halloc]
          omega
        have dN : nrAlloc s.segs = nrAlloc pre + 1 + nrAlloc post := by
          rw [e1]
          simp [nrAlloc_append, nrAlloc_cons, halloc]
          omega
        have gF : sumFree segs1 = sumFree pre2 + bt.size + sumFree post2 := by
          rw [e4]
          simp [sumFree_append, sumFree_cons]
          omega
        have gA : sumAlloc segs1 = sumAlloc pre2 + sumAlloc post2 := by
          rw [e4]
          simp [sumAlloc_append, sumAlloc_cons]
        have gN : nrAlloc segs1 = nrAlloc pre2 + nrAlloc post2 := by
          rw [e4]
          simp [nrAlloc_append, nrAlloc_cons]
        have qF : sumFree pre + sumFree post = sumFree pre2 + sumFree post2 := by
          have q := congrArg sumFree (e2.symm.trans e3)
          simpa [sumFree_append] using q
        have qA : sumAlloc pre + sumAlloc post = sumAlloc pre2 + sumAlloc post2 := by
          have q := congrArg sumAlloc (e2.symm.trans e3)
          simpa [sumAlloc_append] using q
        have qN : nrAlloc pre + nrAlloc post = nrAlloc pre2 + nrAlloc post2 := by
          have q := congrArg nrAlloc (e2.symm.trans e3)
          simpa [nrAlloc_append] using q
        cases ret0 with
        | none =>
          replace h : some
              ({ s with segs := segs2
                        freeSegs := fs2
                        allocHash := hashRemove s.allocHash addr
                        amt_alloc_segs := s.amt_alloc_segs - size
                        nr_allocs := s.nr_allocs - 1
                        amt_total_segs := s.amt_total_segs - 0 },
               (none : Option (Nat × Nat))) = some (s1, ret) := h
          injection h with h
          injection h with h hret
          subst h
          simp only [retSz] at cF
          exact ⟨⟨by show s.amt_total_segs - 0 = sumFree segs2 + sumAlloc segs2; omega,
                  by show s.amt_alloc_segs - size = sumAlloc segs2; omega,
                  by show s.nr_allocs - 1 = nrAlloc segs2; omega⟩, cS⟩
        | some q =>
          obtain ⟨adr, z⟩ := q
          replace h : some
              ({ s with segs := segs2
                        freeSegs := fs2
                        allocHash := hashRemove s.allocHash addr
                        amt_alloc_segs := s.amt_alloc_segs - size
                        nr_allocs := s.nr_allocs - 1
                        amt_total_segs := s.amt_total_segs - z },
               if adr ≠ 0 then some (adr, z) else none) = some (s1, ret) := h
          injection h with h
          injection h with h hret
          subst h
          simp only [retSz] at cF
          exact ⟨⟨by show s.amt_total_segs - z = sumFree segs2 + sumAlloc segs2; omega,
                  by show s.amt_alloc_segs - size = sumAlloc segs2; omega,
                  by show s.nr_allocs - 1 = nrAlloc segs2; omega⟩, cS⟩

/-! ## Preservation through the allocation paths -/

theorem account_preserves {s s1 : ArenaState} {a n : Nat}
    (h : account_alloc s a n = some s1) (hc : countersOk s) (hs : SegsSorted s.segs) :
    countersOk s1 ∧ SegsSorted s1.segs := by
  obtain ⟨-, hF, hA, hN, hT, hAl, hNr, -, -, -, -, hsp⟩ := account_alloc_spec h
  obtain ⟨c1, c2, c3⟩ := hc
  exact ⟨⟨by omega, by omega, by omega⟩, hsp hs⟩

theorem add_preserves {s s1 : ArenaState} {base n : Nat}
    (h : arena_add_inner s base n = some s1) (hc : countersOk s) (hs : SegsSorted s.segs) :
    countersOk s1 ∧ SegsSorted s1.segs := by
  unfold arena_add_inner at h
  by_cases hg : base % s.quantum = 0 ∧ n % s.quantum = 0 ∧ base < (base + n) % W
  swap
  · rw [if_neg hg] at h; cases h
  rw [if_pos hg] at h
  have hmid : ∀ segs1, (if s.hasSource then insertBtag ⟨base, n, BtStatus.span⟩ s.segs
      else some s.segs) = some segs1 →
      SegsSorted segs1 ∧ sumFree segs1 = sumFree s.segs ∧
      sumAlloc segs1 = sumAlloc s.segs ∧ nrAlloc segs1 = nrAlloc s.segs := by
    intro segs1 hm
    by_cases hsrc : s.hasSource
    · rw [if_pos hsrc] at hm
      obtain ⟨pre, post, f1, f2, -, -⟩ := insertBtag_eq hm
      refine ⟨insertBtag_sorted hs hm, ?_, ?_, ?_⟩
      · rw [f2, f1]
        simp [sumFree_append, sumFree_cons]
      · rw [f2, f1]
        simp [sumAlloc_append, sumAlloc_cons]
      · rw [f2, f1]
        simp [nrAlloc_append, nrAlloc_cons]
    · rw [if_neg hsrc] at hm
      injection hm with hm
      subst hm
      exact ⟨hs, rfl, rfl, rfl⟩
  cases hm : (if s.hasSource then insertBtag ⟨base, n, BtStatus.span⟩ s.segs
      else some s.segs) with
  | none => rw [hm] at h; cases h
  | some segs1 =>
    rw [hm] at h
    dsimp only at h
    obtain ⟨hs1, mF, mA, mN⟩ := hmid segs1 hm
    cases hj : insertBtag ⟨base, n, BtStatus.free⟩ segs1 with
    | none => rw [hj] at h; cases h
    | some segs2 =>
      rw [hj] at h
      replace h : some
          { s with segs := segs2
                   amt_total_segs := s.amt_total_segs + n
                   freeSegs := bucketPush s.freeSegs ⟨base, n, BtStatus.free⟩ } = some s1 := h
      injection h with h
      subst h
      obtain ⟨pre2, post2, f3, f4, -, -⟩ := insertBtag_eq hj
      obtain ⟨c1, c2, c3⟩ := hc
      have gF : sumFree segs2 = sumFree pre2 + n + sumFree post2 := by
        rw [f4]
        simp [sumFree_append, sumFree_cons]
        omega
      have gA : sumAlloc segs2 = sumAlloc pre2 + sumAlloc post2 := by
        rw [f4]
        simp [sumAlloc_append, sumAlloc_cons]
      have gN : nrAlloc segs2 = nrAlloc pre2 + nrAlloc post2 := by
        rw [f4]
        simp [nrAlloc_append, nrAlloc_cons]
      have qF : sumFree segs1 = sumFree pre2 + sumFree post2 := by
        have q := congrArg sumFree f3
        simpa [sumFree_append] using q
      have qA : sumAlloc segs1 = sumAlloc pre2 + sumAlloc post2 := by
        have q := congrArg sumAlloc f3
        simpa [sumAlloc_append] using q
      have qN : nrAlloc segs1 = nrAlloc pre2 + nrAlloc post2 := by
        have q := congrArg nrAlloc f3
        simpa [nrAlloc_append] using q
      refine ⟨⟨?_, ?_, ?_⟩, insertBtag_sorted hs1 hj⟩
      · show s.amt_total_segs + n = sumFree segs2 + sumAlloc segs2
        omega
      · show s.amt_alloc_segs = sumAlloc segs2
        omega
      · show s.nr_allocs = nrAlloc segs2
        omega

theorem split_account_preserves {s s2 s3 : ArenaState} {a t n : Nat}
    (hsp : (if t = a then some s else split_bt_at s a t) = some s2)
    (hac : account_alloc s2 t n = some s3)
    (hc : countersOk s) (hs : SegsSorted s.segs) :
    countersOk s3 ∧ SegsSorted s3.segs := by
  by_cases hta : t = a
  · rw [if_pos hta] at hsp
    injection hsp with hsp
    subst hsp
    exact account_preserves hac hc hs
  · rw [if_neg hta] at hsp
    obtain ⟨bt, rest, hext, -, -, ⟨rest2, hexm⟩, hsums, hsort2, hT, hAl, hNr, -, -, -, -, -⟩ :=
      split_bt_at_spec hs hsp
    obtain ⟨⟨bt2, rest3, hext2, hfree2, -⟩, -⟩ := account_alloc_spec hac
    have hbt2 : bt2 = ⟨t, bt.size - (t - bt.start), bt.status⟩ := by
      rw [hexm] at hext2
      injection hext2 with q
      injection q with q1 q2
      exact q1.symm
    have hbtfree : bt.status = BtStatus.free := by
      have : bt2.status = BtStatus.free := hfree2
      rw [hbt2] at this
      exact this
    obtain ⟨eF, eA, eN⟩ := hsums hbtfree
    have hc2 : countersOk s2 := by
      obtain ⟨c1, c2, c3⟩ := hc
      exact ⟨by rw [hT, eF, eA]; omega, by rw [hAl, eA]; omega, by rw [hNr, eN]; omega⟩
    exact account_preserves hac hc2 hsort2

theorem walk_preserves {size align phase nocross maxaddr : Nat} {s : ArenaState} :
    ∀ {l : List Btag} {p : Option Nat} {s1 : ArenaState},
    xallocMinMaxWalk s size align phase nocross maxaddr l = some (p, s1) →
    countersOk s → SegsSorted s.segs → countersOk s1 ∧ SegsSorted s1.segs := by
  intro l
  induction l with
  | nil =>
    intro p s1 h hc hs
    unfold xallocMinMaxWalk at h
    injection h with h
    injection h with h1 h2
    subst h2
    exact ⟨hc, hs⟩
  | cons bt rest ih =>
    intro p s1 h hc hs
    unfold xallocMinMaxWalk at h
    by_cases ht : findSufficient bt.start bt.size size align phase nocross = 0
    · rw [if_pos ht] at h
      exact ih h hc hs
    rw [if_neg ht] at h
    by_cases hmax : maxaddr ≠ 0 ∧
        maxaddr < findSufficient bt.start bt.size size align phase nocross + size
    · rw [if_pos hmax] at h
      injection h with h
      injection h with h1 h2
      subst h2
      exact ⟨hc, hs⟩
    rw [if_neg hmax] at h
    by_cases hstf : bt.status = BtStatus.free
    swap
    · rw [if_neg hstf] at h; cases h
    rw [if_pos hstf] at h
    dsimp only at h
    cases hspq : (if findSufficient bt.start bt.size size align phase nocross = bt.start
        then some { s with freeSegs := bucketRemove s.freeSegs bt }
        else split_bt_at { s with freeSegs := bucketRemove s.freeSegs bt } bt.start
          (findSufficient bt.start bt.size size align phase nocross)) with
    | none => rw [hspq] at h; cases h
    | some s2 =>
      rw [hspq] at h
      dsimp only at h
      cases hac : account_alloc s2
          (findSufficient bt.start bt.size size align phase nocross) size with
      | none => rw [hac] at h; cases h
      | some s3 =>
        rw [hac] at h
        replace h : some (some (findSufficient bt.start bt.size size align phase nocross),
            s3) = some (p, s1) := h
        injection h with h
        injection h with h1 h2
        subst h2
        exact split_account_preserves hspq hac hc hs

theorem min_max_preserves {s : ArenaState}
    {size align phase nocross minaddr maxaddr : Nat} {p : Option Nat} {s1 : ArenaState}
    (h : xalloc_min_max s size align phase nocross minaddr maxaddr = some (p, s1))
    (hc : countersOk s) (hs : SegsSorted s.segs) :
    countersOk s1 ∧ SegsSorted s1.segs :=
  walk_preserves h hc hs

theorem nextfit_preserves {s : ArenaState} {size align phase nocross : Nat}
    {p : Option Nat} {s1 : ArenaState}
    (h : xalloc_nextfit s size align phase nocross = some (p, s1))
    (hc : countersOk s) (hs : SegsSorted s.segs) :
    countersOk s1 ∧ SegsSorted s1.segs := by
  unfold xalloc_nextfit at h
  cases h1 : xalloc_min_max s size align phase nocross
      ((s.last_nextfit_alloc + s.quantum) % W) 0 with
  | none => rw [h1] at h; cases h
  | some q =>
    obtain ⟨p0, sA⟩ := q
    rw [h1] at h
    cases p0 with
    | some pv =>
      replace h : some (some pv, { sA with last_nextfit_alloc := pv }) = some (p, s1) := h
      injection h with h
      injection h with hp hs1
      subst hs1
      obtain ⟨hcA, hsA⟩ := min_max_preserves h1 hc hs
      exact ⟨hcA, hsA⟩
    | none =>
      replace h : (match xalloc_min_max s size align phase nocross s.quantum 0 with
        | none => none
        | some (some p2, s2) => some (some p2, { s2 with last_nextfit_alloc := p2 })
        | some (none, s2) => some (none, s2)) = some (p, s1) := h
      cases h2 : xalloc_min_max s size align phase nocross s.quantum 0 with
      | none => rw [h2] at h; cases h
      | some q2 =>
        obtain ⟨p2, sB⟩ := q2
        rw [h2] at h
        cases p2 with
        | some pv2 =>
          replace h : some (some pv2, { sB with last_nextfit_alloc := pv2 }) =
              some (p, s1) := h
          injection h with h
          injection h with hp hs1
          subst hs1
          obtain ⟨hcB, hsB⟩ := min_max_preserves h2 hc hs
          exact ⟨hcB, hsB⟩
        | none =>
          replace h : some ((none : Option Nat), sB) = some (p, s1) := h
          injection h with h
          injection h with hp hs1
          subst hs1
          exact min_max_preserves h2 hc hs

theorem instantfit_preserves {s : ArenaState} {n : Nat} {p : Option Nat} {s1 : ArenaState}
    (h : alloc_instantfit s n = some (p, s1))
    (hc : countersOk s) (hs : SegsSorted s.segs) :
    countersOk s1 ∧ SegsSorted s1.segs := by
  unfold alloc_instantfit at h
  cases hg : getFromFreelists s.freeSegs (LOG2_UP n) with
  | none =>
    rw [hg] at h
    injection h with h
    injection h with h1 h2
    subst h2
    exact ⟨hc, hs⟩
  | some q =>
    obtain ⟨a, fs1⟩ := q
    rw [hg] at h
    dsimp only at h
    cases hac : account_alloc { s with freeSegs := fs1 } a n with
    | none => rw [hac] at h; cases h
    | some s2 =>
      rw [hac] at h
      replace h : some (some a, s2) = some (p, s1) := h
      injection h with h
      injection h with h1 h2
      subst h2
      exact account_preserves hac hc hs

theorem bestfit_preserves {s : ArenaState} {n : Nat} {p : Option Nat} {s1 : ArenaState}
    (h : alloc_bestfit s n = some (p, s1))
    (hc : countersOk s) (hs : SegsSorted s.segs) :
    countersOk s1 ∧ SegsSorted s1.segs := by
  unfold alloc_bestfit at h
  dsimp only at h
  cases hb : bestfitScan s.segs n (getBucket s.freeSegs (LOG2_DOWN n)) with
  | some bt =>
    rw [hb] at h
    dsimp only at h
    cases hac : account_alloc s bt.start n with
    | none => rw [hac] at h; cases h
    | some s2 =>
      rw [hac] at h
      replace h : some (some bt.start, s2) = some (p, s1) := h
      injection h with h
      injection h with h1 h2
      subst h2
      exact account_preserves hac hc hs
  | none =>
    rw [hb] at h
    dsimp only at h
    cases hg : getFromFreelists s.freeSegs (LOG2_DOWN n + 1) with
    | none =>
      rw [hg] at h
      injection h with h
      injection h with h1 h2
      subst h2
      exact ⟨hc, hs⟩
    | some q =>
      obtain ⟨a, fs1⟩ := q
      rw [hg] at h
      dsimp only at h
      cases hac : account_alloc { s with freeSegs := fs1 } a n with
      | none => rw [hac] at h; cases h
      | some s2 =>
        rw [hac] at h
        replace h : some (some a, s2) = some (p, s1) := h
        injection h with h
        injection h with h1 h2
        subst h2
        exact account_preserves hac hc hs

theorem alloc_from_arena_preserves {s : ArenaState} {n : Nat} {f : MemFlags}
    {p : Option Nat} {s1 : ArenaState}
    (h : alloc_from_arena s n f = some (p, s1))
    (hc : countersOk s) (hs : SegsSorted s.segs) :
    countersOk s1 ∧ SegsSorted s1.segs := by
  unfold alloc_from_arena at h
  cases hst : f.style with
  | bestfit => rw [hst] at h; exact bestfit_preserves h hc hs
  | nextfit => rw [hst] at h; exact nextfit_preserves h hc hs
  | instantfit => rw [hst] at h; exact instantfit_preserves h hc hs

theorem get_more_preserves {s : ArenaState} {n : Nat} {f : MemFlags} {spanq : Option Nat}
    {got : Bool} {s1 : ArenaState}
    (h : get_more_resources s n f spanq = some (got, s1))
    (hc : countersOk s) (hs : SegsSorted s.segs) :
    countersOk s1 ∧ SegsSorted s1.segs := by
  unfold get_more_resources at h
  by_cases hsrc : s.hasSource
  · rw [if_pos hsrc] at h
    cases spanq with
    | none =>
      injection h with h
      injection h with h1 h2
      subst h2
      exact ⟨hc, hs⟩
    | some a =>
      dsimp only at h
      by_cases ha : a = 0
      · rw [if_pos ha] at h
        injection h with h
        injection h with h1 h2
        subst h2
        exact ⟨hc, hs⟩
      · rw [if_neg ha] at h
        cases hadd : arena_add_inner s a (importSize s n) with
        | none => rw [hadd] at h; cases h
        | some s2 =>
          rw [hadd] at h
          replace h : some (true, s2) = some (got, s1) := h
          injection h with h
          injection h with h1 h2
          subst h2
          exact add_preserves hadd hc hs
  · rw [if_neg hsrc] at h
    by_cases hat : f.atomic
    · rw [if_pos hat] at h
      injection h with h
      injection h with h1 h2
      subst h2
      exact ⟨hc, hs⟩
    · rw [if_neg hat] at h; cases h

theorem allocLoop_preserves {n : Nat} {f : MemFlags} :
    ∀ {oracle : List Nat} {s : ArenaState} {p : Option Nat} {s1 : ArenaState},
    arenaAllocLoop n f s oracle = some (p, s1) →
    countersOk s → SegsSorted s.segs → countersOk s1 ∧ SegsSorted s1.segs := by
  intro oracle
  induction oracle with
  | nil =>
    intro s p s1 h hc hs
    unfold arenaAllocLoop at h
    cases ha : alloc_from_arena s n f with
    | none => rw [ha] at h; cases h
    | some q =>
      obtain ⟨p0, sA⟩ := q
      rw [ha] at h
      cases p0 with
      | some pv =>
        replace h : some (some pv, sA) = some (p, s1) := h
        injection h with h
        injection h with h1 h2
        subst h2
        exact alloc_from_arena_preserves ha hc hs
      | none =>
        obtain ⟨hcA, hsA⟩ := alloc_from_arena_preserves ha hc hs
        replace h : (match get_more_resources sA n f none with
          | none => none
          | some (_, s2) => some ((none : Option Nat), s2)) = some (p, s1) := h
        cases hg : get_more_resources sA n f none with
        | none => rw [hg] at h; cases h
        | some q2 =>
          obtain ⟨g, sB⟩ := q2
          rw [hg] at h
          replace h : some ((none : Option Nat), sB) = some (p, s1) := h
          injection h with h
          injection h with h1 h2
          subst h2
          exact get_more_preserves hg hcA hsA
  | cons a rest ih =>
    intro s p s1 h hc hs
    unfold arenaAllocLoop at h
    cases ha : alloc_from_arena s n f with
    | none => rw [ha] at h; cases h
    | some q =>
      obtain ⟨p0, sA⟩ := q
      rw [ha] at h
      cases p0 with
      | some pv =>
        replace h : some (some pv, sA) = some (p, s1) := h
        injection h with h
        injection h with h1 h2
        subst h2
        exact alloc_from_arena_preserves ha hc hs
      | none =>
        obtain ⟨hcA, hsA⟩ := alloc_from_arena_preserves ha hc hs
        replace h : (match get_more_resources sA n f (some a) with
          | none => none
          | some (false, s2) => some ((none : Option Nat), s2)
          | some (true, s2) => arenaAllocLoop n f s2 rest) = some (p, s1) := h
        cases hg : get_more_resources sA n f (some a) with
        | none => rw [hg] at h; cases h
        | some q2 =>
          obtain ⟨g, sB⟩ := q2
          rw [hg] at h
          obtain ⟨hcB, hsB⟩ := get_more_preserves hg hcA hsA
          cases g with
          | false =>
            replace h : some ((none : Option Nat), sB) = some (p, s1) := h
            injection h with h
            injection h with h1 h2
            subst h2
            exact ⟨hcB, hsB⟩
          | true => exact ih h hcB hsB

theorem arena_alloc_preserves {s : ArenaState} {n : Nat} {f : MemFlags}
    {oracle : List Nat} {p : Option Nat} {s1 : ArenaState}
    (h : arena_alloc s n f oracle = some (p, s1))
    (hc : countersOk s) (hs : SegsSorted s.segs) :
    countersOk s1 ∧ SegsSorted s1.segs := by
  unfold arena_alloc at h
  by_cases hz : ROUNDUP n s.quantum % W = 0
  · rw [if_pos hz] at h; cases h
  · rw [if_neg hz] at h
    exact allocLoop_preserves h hc hs

theorem xalloc_freelists_preserves {s : ArenaState} {size align phase nocross : Nat}
    {ti : Bool} {p : Option Nat} {s1 : ArenaState}
    (h : xalloc_from_freelists s size align phase nocross ti = some (p, s1))
    (hc : countersOk s) (hs : SegsSorted s.segs) :
    countersOk s1 ∧ SegsSorted s1.segs := by
  unfold xalloc_from_freelists at h
  by_cases hlt : (rup64 size align + phase) % W < size
  · rw [if_pos hlt] at h
    injection h with h
    injection h with h1 h2
    subst h2
    exact ⟨hc, hs⟩
  · rw [if_neg hlt] at h
    dsimp only at h
    cases hsc : xallocScanAux s.segs s.freeSegs size align phase nocross
        (LOG2_DOWN ((rup64 size align + phase) % W) + if ti then 1 else 0)
        (ARENA_NR_FREE_LISTS -
          (LOG2_DOWN ((rup64 size align + phase) % W) + if ti then 1 else 0)) with
    | none =>
      rw [hsc] at h
      injection h with h
      injection h with h1 h2
      subst h2
      exact ⟨hc, hs⟩
    | some q =>
      obtain ⟨a, q2⟩ := q
      obtain ⟨t, i⟩ := q2
      rw [hsc] at h
      dsimp only at h
      cases hspl : (if t = a then
          some { s with freeSegs := listUpd s.freeSegs i (removeFirst a) }
        else split_bt_at { s with freeSegs := listUpd s.freeSegs i (removeFirst a) } a t) with
      | none => rw [hspl] at h; cases h
      | some s2 =>
        rw [hspl] at h
        dsimp only at h
        cases hac : account_alloc s2 t size with
        | none => rw [hac] at h; cases h
        | some s3 =>
          rw [hac] at h
          replace h : some (some t, s3) = some (p, s1) := h
          injection h with h
          injection h with h1 h2
          subst h2
          exact split_account_preserves hspl hac hc hs

theorem xalloc_from_arena_preserves {s : ArenaState}
    {size align phase nocross minaddr maxaddr : Nat} {f : MemFlags}
    {p : Option Nat} {s1 : ArenaState}
    (h : xalloc_from_arena s size align phase nocross minaddr maxaddr f = some (p, s1))
    (hc : countersOk s) (hs : SegsSorted s.segs) :
    countersOk s1 ∧ SegsSorted s1.segs := by
  unfold xalloc_from_arena at h
  by_cases hb : minaddr ≠ 0 ∨ maxaddr ≠ 0
  · rw [if_pos hb] at h
    exact min_max_preserves h hc hs
  · rw [if_neg hb] at h
    cases hst : f.style with
    | bestfit => rw [hst] at h; exact xalloc_freelists_preserves h hc hs
    | nextfit => rw [hst] at h; exact nextfit_preserves h hc hs
    | instantfit => rw [hst] at h; exact xalloc_freelists_preserves h hc hs

theorem xallocLoop_preserves {size align phase nocross minaddr maxaddr : Nat} :
    ∀ {oracle : List Nat} {f : MemFlags} {s : ArenaState} {p : Option Nat} {s1 : ArenaState},
    arenaXallocLoop size align phase nocross minaddr maxaddr f s oracle = some (p, s1) →
    countersOk s → SegsSorted s.segs → countersOk s1 ∧ SegsSorted s1.segs := by
  intro oracle
  induction oracle with
  | nil =>
    intro f s p s1 h hc hs
    unfold arenaXallocLoop at h
    cases ha : xalloc_from_arena s size align phase nocross minaddr maxaddr f with
    | none => rw [ha] at h; cases h
    | some q =>
      obtain ⟨p0, sA⟩ := q
      rw [ha] at h
      cases p0 with
      | some pv =>
        replace h : some (some pv, sA) = some (p, s1) := h
        injection h with h
        injection h with h1 h2
        subst h2
        exact xalloc_from_arena_preserves ha hc hs
      | none =>
        obtain ⟨hcA, hsA⟩ := xalloc_from_arena_preserves ha hc hs
        replace h : (if (size + align + phase) % W < size then none
          else match get_more_resources sA ((size + align + phase) % W) f none with
            | none => none
            | some (_, s2) => some ((none : Option Nat), s2)) = some (p, s1) := h
        by_cases hov : (size + align + phase) % W < size
        · rw [if_pos hov] at h; cases h
        · rw [if_neg hov] at h
          cases hg : get_more_resources sA ((size + align + phase) % W) f none with
          | none => rw [hg] at h; cases h
          | some q2 =>
            obtain ⟨g, sB⟩ := q2
            rw [hg] at h
            replace h : some ((none : Option Nat), sB) = some (p, s1) := h
            injection h with h
            injection h with h1 h2
            subst h2
            exact get_more_preserves hg hcA hsA
  | cons a rest ih =>
    intro f s p s1 h hc hs
    unfold arenaXallocLoop at h
    cases ha : xalloc_from_arena s size align phase nocross minaddr maxaddr f with
    | none => rw [ha] at h; cases h
    | some q =>
      obtain ⟨p0, sA⟩ := q
      rw [ha] at h
      cases p0 with
      | some pv =>
        replace h : some (some pv, sA) = some (p, s1) := h
        injection h with h
        injection h with h1 h2
        subst h2
        exact xalloc_from_arena_preserves ha hc hs
      | none =>
        obtain ⟨hcA, hsA⟩ := xalloc_from_arena_preserves ha hc hs
        replace h : (if (size + align + phase) % W < size then none
          else match get_more_resources sA ((size + align + phase) % W) f (some a) with
            | none => none
            | some (false, s2) => some ((none : Option Nat), s2)
            | some (true, s2) =>
              arenaXallocLoop size align phase nocross minaddr maxaddr
                { f with style := AllocStyle.bestfit } s2 rest) = some (p, s1) := h
        by_cases hov : (size + align + phase) % W < size
        · rw [if_pos hov] at h; cases h
        · rw [if_neg hov] at h
          cases hg : get_more_resources sA ((size + align + phase) % W) f (some a) with
          | none => rw [hg] at h; cases h
          | some q2 =>
            obtain ⟨g, sB⟩ := q2
            rw [hg] at h
            obtain ⟨hcB, hsB⟩ := get_more_preserves hg hcA hsA
            cases g with
            | false =>
              replace h : some ((none : Option Nat), sB) = some (p, s1) := h
              injection h with h
              injection h with h1 h2
              subst h2
              exact ⟨hcB, hsB⟩
            | true => exact ih h hcB hsB

theorem arena_xalloc_eq_loop {s : ArenaState}
    {size0 align phase nocross minaddr maxaddr : Nat} {f : MemFlags}
    {oracle : List Nat} {r : Option Nat × ArenaState}
    (h : arena_xalloc s size0 align phase nocross minaddr maxaddr f oracle = some r) :
    arenaXallocLoop (ROUNDUP size0 s.quantum % W) align phase nocross minaddr maxaddr
      f s oracle = some r := by
  unfold arena_xalloc at h
  dsimp only at h
  by_cases g1 : ROUNDUP size0 s.quantum % W = 0
  · rw [if_pos g1] at h; cases h
  rw [if_neg g1] at h
  by_cases g2 : ¬ IS_PWR2 align
  · rw [if_pos g2] at h; cases h
  rw [if_neg g2] at h
  by_cases g3 : nocross ≠ 0 ∧ ¬ IS_PWR2 nocross
  · rw [if_pos g3] at h; cases h
  rw [if_neg g3] at h
  by_cases g4 : ¬ (align % s.quantum = 0)
  · rw [if_pos g4] at h; cases h
  rw [if_neg g4] at h
  by_cases g5 : ¬ (nocross % s.quantum = 0)
  · rw [if_pos g5] at h; cases h
  rw [if_neg g5] at h
  by_cases g6 : ¬ (phase % s.quantum = 0)
  · rw [if_pos g6] at h; cases h
  rw [if_neg g6] at h
  by_cases g7 : (ROUNDUP size0 s.quantum % W + align) % W < ROUNDUP size0 s.quantum % W
  · rw [if_pos g7] at h; cases h
  rw [if_neg g7] at h
  by_cases g8 : (ROUNDUP size0 s.quantum % W + phase) % W < ROUNDUP size0 s.quantum % W
  · rw [if_pos g8] at h; cases h
  rw [if_neg g8] at h
  by_cases g9 : (align + phase) % W < align
  · rw [if_pos g9] at h; cases h
  rw [if_neg g9] at h
  by_cases g10 : s.hasSource ∧ (nocross ≠ 0 ∨ minaddr ≠ 0 ∨ maxaddr ≠ 0)
  · rw [if_pos g10] at h; cases h
  rw [if_neg g10] at h
  exact h

theorem arena_xalloc_preserves {s : ArenaState}
    {size0 align phase nocross minaddr maxaddr : Nat} {f : MemFlags}
    {oracle : List Nat} {p : Option Nat} {s1 : ArenaState}
    (h : arena_xalloc s size0 align phase nocross minaddr maxaddr f oracle = some (p, s1))
    (hc : countersOk s) (hs : SegsSorted s.segs) :
    countersOk s1 ∧ SegsSorted s1.segs :=
  xallocLoop_preserves (arena_xalloc_eq_loop h) hc hs

theorem applyOp_preserves {s s1 : ArenaState} {op : ArenaOp}
    (h : applyOp s op = some s1) (hc : countersOk s) (hs : SegsSorted s.segs) :
    countersOk s1 ∧ SegsSorted s1.segs := by
  cases op with
  | add b n =>
    replace h : (arena_add s b n).map (fun x => x.2) = some s1 := h
    cases ha : arena_add s b n with
    | none => rw [ha] at h; cases h
    | some q =>
      obtain ⟨b2, s2⟩ := q
      rw [ha] at h
      replace h : some s2 = some s1 := h
      injection h with h
      subst h
      unfold arena_add at ha
      by_cases hsrc : s.hasSource
      · rw [if_pos hsrc] at ha; cases ha
      · rw [if_neg hsrc] at ha
        cases hi : arena_add_inner s b n with
        | none => rw [hi] at ha; cases ha
        | some s3 =>
          rw [hi] at ha
          replace ha : some (b, s3) = some (b2, s2) := ha
          injection ha with ha
          injection ha with ha1 ha2
          subst ha2
          exact add_preserves hi hc hs
  | alloc n f oracle =>
    replace h : (arena_alloc s n f oracle).map (fun x => x.2) = some s1 := h
    cases ha : arena_alloc s n f oracle with
    | none => rw [ha] at h; cases h
    | some q =>
      obtain ⟨p, s2⟩ := q
      rw [ha] at h
      replace h : some s2 = some s1 := h
      injection h with h
      subst h
      exact arena_alloc_preserves ha hc hs
  | xalloc n al ph nc mi ma f oracle =>
    replace h : (arena_xalloc s n al ph nc mi ma f oracle).map (fun x => x.2) = some s1 := h
    cases ha : arena_xalloc s n al ph nc mi ma f oracle with
    | none => rw [ha] at h; cases h
    | some q =>
      obtain ⟨p, s2⟩ := q
      rw [ha] at h
      replace h : some s2 = some s1 := h
      injection h with h
      subst h
      exact arena_xalloc_preserves ha hc hs
  | free a n =>
    replace h : (arena_free s a n).map (fun x => x.1) = some s1 := h
    cases ha : arena_free s a n with
    | none => rw [ha] at h; cases h
    | some q =>
      obtain ⟨s2, ret⟩ := q
      rw [ha] at h
      replace h : some s2 = some s1 := h
      injection h with h
      subst h
      exact free_preserves ha hc hs
  | xfree a n =>
    replace h : (arena_xfree s a n).map (fun x => x.1) = some s1 := h
    cases ha : arena_xfree s a n with
    | none => rw [ha] at h; cases h
    | some q =>
      obtain ⟨s2, ret⟩ := q
      rw [ha] at h
      replace h : some s2 = some s1 := h
      injection h with h
      subst h
      exact free_preserves ha hc hs

theorem reach_countersOk_sorted {q : Nat} {src : Bool} {s : ArenaState}
    (h : ArenaReach (initArena q src) s) : countersOk s ∧ SegsSorted s.segs := by
  induction h with
  | refl => exact ⟨⟨rfl, rfl, rfl⟩, List.Pairwise.nil⟩
  | step op hr he ih => exact applyOp_preserves he ih.1 ih.2

/-- C2: in every arena state reachable from a fresh arena by any sequence of
arena_add, arena_alloc, arena_xalloc, arena_free and arena_xfree,
amt_total_segs equals the sum of the sizes of the FREE tags plus the sum of
the sizes of the ALLOC tags, amt_alloc_segs equals the sum of the sizes of
the ALLOC tags, and nr_allocs equals the number of ALLOC tags — the three
identities checked by __arena_asserter. -/
theorem c2_asserter_invariant {q : Nat} {src : Bool} {s : ArenaState}
    (h : ArenaReach (initArena q src) s) : countersOk s :=
  (reach_countersOk_sorted h).1

set_option maxRecDepth 8000 in
/-- C2 witness: the invariant instantiated on the concrete state reached by a
lifecycle of add, alloc, xalloc, free and a next-fit alloc. -/
theorem c2_asserter_invariant_witness : countersOk c2State :=
  c2_asserter_invariant
    (runOps_reach (show runOps (initArena 0x100 false) c2Ops = some c2State by decide))

theorem walk_ret_nz {s : ArenaState} {size align phase nocross maxaddr : Nat} :
    ∀ {l : List Btag} {p : Nat} {s1 : ArenaState},
    xallocMinMaxWalk s size align phase nocross maxaddr l = some (some p, s1) → p ≠ 0 := by
  intro l
  induction l with
  | nil =>
    intro p s1 h
    replace h : some ((none : Option Nat), s) = some (some p, s1) := h
    injection h with h
    injection h with h1 h2
    cases h1
  | cons bt rest ih =>
    intro p s1 h
    unfold xallocMinMaxWalk at h
    by_cases ht : findSufficient bt.start bt.size size align phase nocross = 0
    · rw [if_pos ht] at h
      exact ih h
    · rw [if_neg ht] at h
      by_cases hmx : maxaddr ≠ 0 ∧
          maxaddr < findSufficient bt.start bt.size size align phase nocross + size
      · rw [if_pos hmx] at h
        replace h : some ((none : Option Nat), s) = some (some p, s1) := h
        injection h with h
        injection h with h1 h2
        cases h1
      · rw [if_neg hmx] at h
        by_cases hfr : bt.status = BtStatus.free
        · rw [if_pos hfr] at h
          dsimp only at h
          cases hspl : (if findSufficient bt.start bt.size size align phase nocross = bt.start
              then some { s with freeSegs := bucketRemove s.freeSegs bt }
              else split_bt_at { s with freeSegs := bucketRemove s.freeSegs bt } bt.start
                (findSufficient bt.start bt.size size align phase nocross)) with
          | none => rw [hspl] at h; cases h
          | some s2 =>
            rw [hspl] at h
            dsimp only at h
            cases hac : account_alloc s2
                (findSufficient bt.start bt.size size align phase nocross) size with
            | none => rw [hac] at h; cases h
            | some s3 =>
              rw [hac] at h
              replace h : some
                  (some (findSufficient bt.start bt.size size align phase nocross), s3) =
                  some (some p, s1) := h
              injection h with h
              injection h with h1 h2
              injection h1 with h1
              subst h1
              exact ht
        · rw [if_neg hfr] at h; cases h

theorem min_max_ret_nz {s : ArenaState}
    {size align phase nocross minaddr maxaddr p : Nat} {s1 : ArenaState}
    (h : xalloc_min_max s size align phase nocross minaddr maxaddr = some (some p, s1)) :
    p ≠ 0 :=
  walk_ret_nz h

theorem nextfit_ret_nz {s : ArenaState} {size align phase nocross p : Nat} {s1 : ArenaState}
    (h : xalloc_nextfit s size align phase nocross = some (some p, s1)) : p ≠ 0 := by
  unfold xalloc_nextfit at h
  cases h1 : xalloc_min_max s size align phase nocross
      ((s.last_nextfit_alloc + s.quantum) % W) 0 with
  | none => rw [h1] at h; cases h
  | some q =>
    obtain ⟨p0, sA⟩ := q
    rw [h1] at h
    cases p0 with
    | some pv =>
      replace h : some (some pv, { sA with last_nextfit_alloc := pv }) =
          some (some p, s1) := h
      injection h with h
      injection h with hp hs2
      injection hp with hp
      subst hp
      exact min_max_ret_nz h1
    | none =>
      dsimp only at h
      cases h2 : xalloc_min_max s size align phase nocross s.quantum 0 with
      | none => rw [h2] at h; cases h
      | some q2 =>
        obtain ⟨p0, sB⟩ := q2
        rw [h2] at h
        cases p0 with
        | some pv =>
          replace h : some (some pv, { sB with last_nextfit_alloc := pv }) =
              some (some p, s1) := h
          injection h with h
          injection h with hp hs2
          injection hp with hp
          subst hp
          exact min_max_ret_nz h2
        | none =>
          replace h : some ((none : Option Nat), sB) = some (some p, s1) := h
          injection h with h
          injection h with hp hs2
          cases hp

theorem scanBucket_ret_nz {segs : List Btag} {size align phase nocross : Nat} :
    ∀ {l : List Nat} {a t : Nat},
    xallocScanBucket segs size align phase nocross l = some (a, t) → t ≠ 0 := by
  intro l
  induction l with
  | nil =>
    intro a t h
    replace h : (none : Option (Nat × Nat)) = some (a, t) := h
    cases h
  | cons x rest ih =>
    intro a t h
    unfold xallocScanBucket at h
    cases hf : findSeg x segs with
    | none => rw [hf] at h; exact ih h
    | some bt =>
      rw [hf] at h
      dsimp only at h
      by_cases ht : findSufficient bt.start bt.size size align phase nocross ≠ 0
      · rw [if_pos ht] at h
        replace h : some (x, findSufficient bt.start bt.size size align phase nocross) =
            some (a, t) := h
        injection h with h
        injection h with h1 h2
        subst h2
        exact ht
      · rw [if_neg ht] at h
        exact ih h

theorem scanAux_ret_nz {segs : List Btag} {fs : List (List Nat)}
    {size align phase nocross : Nat} :
    ∀ {fuel i a t j : Nat},
    xallocScanAux segs fs size align phase nocross i fuel = some (a, t, j) → t ≠ 0 := by
  intro fuel
  induction fuel with
  | zero =>
    intro i a t j h
    replace h : (none : Option (Nat × Nat × Nat)) = some (a, t, j) := h
    cases h
  | succ n ih =>
    intro i a t j h
    unfold xallocScanAux at h
    cases hb : xallocScanBucket segs size align phase nocross (fs.getD i []) with
    | some q =>
      obtain ⟨a0, t0⟩ := q
      rw [hb] at h
      replace h : some (a0, t0, i) = some (a, t, j) := h
      injection h with h
      injection h with h1 h2
      injection h2 with h2a h2b
      subst h2a
      exact scanBucket_ret_nz hb
    | none =>
      rw [hb] at h
      exact ih h

theorem freelists_ret_nz {s : ArenaState} {size align phase nocross : Nat} {ti : Bool}
    {p : Nat} {s1 : ArenaState}
    (h : xalloc_from_freelists s size align phase nocross ti = some (some p, s1)) :
    p ≠ 0 := by
  unfold xalloc_from_freelists at h
  by_cases hlt : (rup64 size align + phase) % W < size
  · rw [if_pos hlt] at h
    replace h : some ((none : Option Nat), s) = some (some p, s1) := h
    injection h with h
    injection h with h1 h2
    cases h1
  · rw [if_neg hlt] at h
    dsimp only at h
    cases hsc : xallocScanAux s.segs s.freeSegs size align phase nocross
        (LOG2_DOWN ((rup64 size align + phase) % W) + if ti then 1 else 0)
        (ARENA_NR_FREE_LISTS -
          (LOG2_DOWN ((rup64 size align + phase) % W) + if ti then 1 else 0)) with
    | none =>
      rw [hsc] at h
      replace h : some ((none : Option Nat), s) = some (some p, s1) := h
      injection h with h
      injection h with h1 h2
      cases h1
    | some q =>
      obtain ⟨a, q2⟩ := q
      obtain ⟨t, i⟩ := q2
      rw [hsc] at h
      dsimp only at h
      cases hspl : (if t = a then
          some { s with freeSegs := listUpd s.freeSegs i (removeFirst a) }
        else split_bt_at { s with freeSegs := listUpd s.freeSegs i (removeFirst a) } a t) with
      | none => rw [hspl] at h; cases h
      | some s2 =>
        rw [hspl] at h
        dsimp only at h
        cases hac : account_alloc s2 t size with
        | none => rw [hac] at h; cases h
        | some s3 =>
          rw [hac] at h
          replace h : some (some t, s3) = some (some p, s1) := h
          injection h with h
          injection h with h1 h2
          injection h1 with h1
          subst h1
          exact scanAux_ret_nz hsc

theorem xalloc_from_arena_ret_nz {s : ArenaState}
    {size align phase nocross minaddr maxaddr : Nat} {f : MemFlags}
    {p : Nat} {s1 : ArenaState}
    (h : xalloc_from_arena s size align phase nocross minaddr maxaddr f = some (some p, s1)) :
    p ≠ 0 := by
  unfold xalloc_from_arena at h
  by_cases hb : minaddr ≠ 0 ∨ maxaddr ≠ 0
  · rw [if_pos hb] at h
    exact min_max_ret_nz h
  · rw [if_neg hb] at h
    cases hst : f.style with
    | bestfit => rw [hst] at h; exact freelists_ret_nz h
    | nextfit => rw [hst] at h; exact nextfit_ret_nz h
    | instantfit => rw [hst] at h; exact freelists_ret_nz h

theorem xallocLoop_ret_nz {size align phase nocross minaddr maxaddr : Nat} :
    ∀ {oracle : List Nat} {f : MemFlags} {s : ArenaState} {p : Nat} {s1 : ArenaState},
    arenaXallocLoop size align phase nocross minaddr maxaddr f s oracle =
      some (some p, s1) → p ≠ 0 := by
  intro oracle
  induction oracle with
  | nil =>
    intro f s p s1 h
    unfold arenaXallocLoop at h
    cases ha : xalloc_from_arena s size align phase nocross minaddr maxaddr f with
    | none => rw [ha] at h; cases h
    | some q =>
      obtain ⟨p0, sA⟩ := q
      rw [ha] at h
      cases p0 with
      | some pv =>
        replace h : some (some pv, sA) = some (some p, s1) := h
        injection h with h
        injection h with h1 h2
        injection h1 with h1
        subst h1
        exact xalloc_from_arena_ret_nz ha
      | none =>
        replace h : (if (size + align + phase) % W < size then none
          else match get_more_resources sA ((size + align + phase) % W) f none with
            | none => none
            | some (_, s2) => some ((none : Option Nat), s2)) = some (some p, s1) := h
        by_cases hov : (size + align + phase) % W < size
        · rw [if_pos hov] at h; cases h
        · rw [if_neg hov] at h
          cases hg : get_more_resources sA ((size + align + phase) % W) f none with
          | none => rw [hg] at h; cases h
          | some q2 =>
            obtain ⟨g, sB⟩ := q2
            rw [hg] at h
            replace h : some ((none : Option Nat), sB) = some (some p, s1) := h
            injection h with h
            injection h with h1 h2
            cases h1
  | cons a rest ih =>
    intro f s p s1 h
    unfold arenaXallocLoop at h
    cases ha : xalloc_from_arena s size align phase nocross minaddr maxaddr f with
    | none => rw [ha] at h; cases h
    | some q =>
      obtain ⟨p0, sA⟩ := q
      rw [ha] at h
      cases p0 with
      | some pv =>
        replace h : some (some pv, sA) = some (some p, s1) := h
        injection h with h
        injection h with h1 h2
        injection h1 with h1
        subst h1
        exact xalloc_from_arena_ret_nz ha
      | none =>
        replace h : (if (size + align + phase) % W < size then none
          else match get_more_resources sA ((size + align + phase) % W) f (some a) with
            | none => none
            | some (false, s2) => some ((none : Option Nat), s2)
            | some (true, s2) =>
              arenaXallocLoop size align phase nocross minaddr maxaddr
                { f with style := AllocStyle.bestfit } s2 rest) = some (some p, s1) := h
        by_cases hov : (size + align + phase) % W < size
        · rw [if_pos hov] at h; cases h
        · rw [if_neg hov] at h
          cases hg : get_more_resources sA ((size + align + phase) % W) f (some a) with
          | none => rw [hg] at h; cases h
          | some q2 =>
            obtain ⟨g, sB⟩ := q2
            rw [hg] at h
            cases g with
            | false =>
              replace h : some ((none : Option Nat), sB) = some (some p, s1) := h
              injection h with h
              injection h with h1 h2
              cases h1
            | true => exact ih h

theorem arena_xalloc_ret_nz {s : ArenaState}
    {size0 align phase nocross minaddr maxaddr : Nat} {f : MemFlags}
    {oracle : List Nat} {p : Nat} {s1 : ArenaState}
    (h : arena_xalloc s size0 align phase nocross minaddr maxaddr f oracle =
      some (some p, s1)) : p ≠ 0 :=
  xallocLoop_ret_nz (arena_xalloc_eq_loop h)

theorem allocLoop_nextfit_ret_nz {size : Nat} :
    ∀ {oracle : List Nat} {f : MemFlags} {s : ArenaState} {p : Nat} {s1 : ArenaState},
    f.style = AllocStyle.nextfit →
    arenaAllocLoop size f s oracle = some (some p, s1) → p ≠ 0 := by
  intro oracle
  induction oracle with
  | nil =>
    intro f s p s1 hst h
    unfold arenaAllocLoop at h
    cases ha : alloc_from_arena s size f with
    | none => rw [ha] at h; cases h
    | some q =>
      obtain ⟨p0, sA⟩ := q
      rw [ha] at h
      cases p0 with
      | some pv =>
        replace h : some (some pv, sA) = some (some p, s1) := h
        injection h with h
        injection h with h1 h2
        injection h1 with h1
        subst h1
        unfold alloc_from_arena at ha
        rw [hst] at ha
        exact nextfit_ret_nz ha
      | none =>
        replace h : (match get_more_resources sA size f none with
          | none => none
          | some (_, s2) => some ((none : Option Nat), s2)) = some (some p, s1) := h
        cases hg : get_more_resources sA size f none with
        | none => rw [hg] at h; cases h
        | some q2 =>
          obtain ⟨g, sB⟩ := q2
          rw [hg] at h
          replace h : some ((none : Option Nat), sB) = some (some p, s1) := h
          injection h with h
          injection h with h1 h2
          cases h1
  | cons a rest ih =>
    intro f s p s1 hst h
    unfold arenaAllocLoop at h
    cases ha : alloc_from_arena s size f with
    | none => rw [ha] at h; cases h
    | some q =>
      obtain ⟨p0, sA⟩ := q
      rw [ha] at h
      cases p0 with
      | some pv =>
        replace h : some (some pv, sA) = some (some p, s1) := h
        injection h with h
        injection h with h1 h2
        injection h1 with h1
        subst h1
        unfold alloc_from_arena at ha
        rw [hst] at ha
        exact nextfit_ret_nz ha
      | none =>
        replace h : (match get_more_resources sA size f (some a) with
          | none => none
          | some (false, s2) => some ((none : Option Nat), s2)
          | some (true, s2) => arenaAllocLoop size f s2 rest) = some (some p, s1) := h
        cases hg : get_more_resources sA size f (some a) with
        | none => rw [hg] at h; cases h
        | some q2 =>
          obtain ⟨g, sB⟩ := q2
          rw [hg] at h
          cases g with
          | false =>
            replace h : some ((none : Option Nat), sB) = some (some p, s1) := h
            injection h with h
            injection h with h1 h2
            cases h1
          | true => exact ih hst h

theorem arena_alloc_nextfit_ret_nz {s : ArenaState} {size0 : Nat} {f : MemFlags}
    {oracle : List Nat} {p : Nat} {s1 : ArenaState}
    (hst : f.style = AllocStyle.nextfit)
    (h : arena_alloc s size0 f oracle = some (some p, s1)) : p ≠ 0 := by
  unfold arena_alloc at h
  dsimp only at h
  by_cases hz : ROUNDUP size0 s.quantum % W = 0
  · rw [if_pos hz] at h; cases h
  · rw [if_neg hz] at h
    exact allocLoop_nextfit_ret_nz hst h

/-- C10: address 0 is __find_sufficient's failure signal, so no xalloc-style
allocation (arena_xalloc, or arena_alloc under ARENA_NEXTFIT) ever reports
success with address 0; and on an arena whose only free segment is
[0x0, 0x1000), a whole-segment xalloc whose constraints the placement 0x0
satisfies is nevertheless treated as not fitting: the allocation fails and
the arena is unchanged. -/
theorem c10_zero_is_failure :
    (∀ (s : ArenaState) (size0 align phase nocross minaddr maxaddr : Nat) (f : MemFlags)
       (oracle : List Nat) (p : Nat) (s1 : ArenaState),
      arena_xalloc s size0 align phase nocross minaddr maxaddr f oracle =
        some (some p, s1) → p ≠ 0) ∧
    (∀ (s : ArenaState) (size0 : Nat) (f : MemFlags) (oracle : List Nat)
       (p : Nat) (s1 : ArenaState),
      f.style = AllocStyle.nextfit →
      arena_alloc s size0 f oracle = some (some p, s1) → p ≠ 0) ∧
    (xallocSat 0 0x1000 0x100 0 0 0 0 ∧
     (∃ bt, bt ∈ c6Arena.segs ∧ bt.status = BtStatus.free ∧ bt.start = 0 ∧
       0x1000 ≤ bt.size) ∧
     arena_xalloc c6Arena 0x1000 0x100 0 0 0 0 fBestAtomic [] = some (none, c6Arena)) := by
  refine ⟨fun s size0 align phase nocross minaddr maxaddr f oracle p s1 h =>
            arena_xalloc_ret_nz h,
          fun s size0 f oracle p s1 hst h => arena_alloc_nextfit_ret_nz hst h,
          by decide, ⟨⟨0, 0x1000, BtStatus.free⟩, by decide, rfl, rfl, by decide⟩,
          by decide⟩

/-- C10 witness: a successful constrained allocation (address 0x200 on the
segment [0x100, 0x500)) and a successful next-fit allocation (address 0x100
on the segment [0x100, 0x1100)) both return nonzero addresses. -/
theorem c10_zero_is_failure_witness : (0x200 : Nat) ≠ 0 ∧ (0x100 : Nat) ≠ 0 :=
  ⟨c10_zero_is_failure.1 c10ArenaW 0x200 0x200 0 0 0 0 fBestAtomic [] 0x200 c10SX
     (by decide),
   c10_zero_is_failure.2.1 c6ArenaS 0x100 fNext [] 0x100 c10SN rfl (by decide)⟩

theorem extractAllocSeg_some_of_mem {a : Nat} :
    ∀ {l : List Btag}, (∃ bt ∈ l, bt.start = a ∧ bt.status = BtStatus.alloc) →
      ∃ bt rest, extractAllocSeg a l = some (bt, rest) := by
  intro l
  induction l with
  | nil =>
    rintro ⟨bt, hm, -⟩
    cases hm
  | cons x xs ih =>
    rintro ⟨bt, hm, h1, h2⟩
    by_cases hx : x.start = a ∧ x.status = BtStatus.alloc
    · exact ⟨x, xs, by simp [extractAllocSeg, hx]⟩
    · rcases List.mem_cons.mp hm with rfl | hm
      · exact absurd ⟨h1, h2⟩ hx
      · obtain ⟨bt2, rest, hr⟩ := ih ⟨bt, hm, h1, h2⟩
        exact ⟨bt2, x :: rest, by simp [extractAllocSeg, hx, hr]⟩

theorem insertBtag_some_of {bt : Btag} :
    ∀ {l : List Btag}, (∀ x ∈ l, x.start = bt.start → x.status = BtStatus.span) →
      ∃ l2, insertBtag bt l = some l2 := by
  intro l
  induction l with
  | nil => intro h; exact ⟨[bt], rfl⟩
  | cons x xs ih =>
    intro h
    by_cases h1 : bt.start < x.start
    · exact ⟨bt :: x :: xs, by simp [insertBtag, h1]⟩
    · by_cases h2 : x.start < bt.start
      · obtain ⟨l2, hl⟩ := ih fun y hy => h y (List.mem_cons_of_mem x hy)
        exact ⟨x :: l2, by simp [insertBtag, h1, h2, hl]⟩
      · have hx : x.start = bt.start := by omega
        have hsp := h x (List.mem_cons_self x xs) hx
        obtain ⟨l2, hl⟩ := ih fun y hy => h y (List.mem_cons_of_mem x hy)
        exact ⟨x :: l2, by simp [insertBtag, h1, h2, hsp, hl]⟩

theorem splitSeg_some_of_mem {a : Nat} :
    ∀ {l : List Btag}, (∃ x ∈ l, x.start = a ∧ x.status ≠ BtStatus.span) →
      ∃ r, splitSeg a l = some r := by
  intro l
  induction l with
  | nil =>
    rintro ⟨x, hm, -⟩
    cases hm
  | cons x xs ih =>
    rintro ⟨y, hm, h1, h2⟩
    by_cases hx : x.start = a ∧ x.status ≠ BtStatus.span
    · exact ⟨([], x, xs), by simp [splitSeg, hx]⟩
    · rcases List.mem_cons.mp hm with rfl | hm
      · exact absurd ⟨h1, h2⟩ hx
      · obtain ⟨r0, hr⟩ := ih ⟨y, hm, h1, h2⟩
        obtain ⟨p, b, q⟩ := r0
        exact ⟨(x :: p, b, q), by simp [splitSeg, hx, hr]⟩

theorem coalesce_some {segs : List Btag} {fs : List (List Nat)} {a : Nat}
    (h : ∃ x ∈ segs, x.start = a ∧ x.status ≠ BtStatus.span) :
    ∃ r, coalesce_free_seg segs fs a = some r := by
  obtain ⟨r0, hsp⟩ := splitSeg_some_of_mem h
  obtain ⟨pre, b0, post0⟩ := r0
  unfold coalesce_free_seg
  rw [hsp]
  exact ⟨_, rfl⟩

theorem free_no_panic {s : ArenaState} {addr : Nat} {bt : Btag} {rest : List Btag}
    (hs : SegsSorted s.segs)
    (hmem : addr ∈ getBucket s.allocHash (hashIdx addr))
    (hex : extractAllocSeg addr s.segs = some (bt, rest)) :
    ∃ out, free_from_arena s addr bt.size = some out := by
  obtain ⟨pre, post, hseg, hrest, hpre0, hst, hal⟩ := extractAllocSeg_eq hex
  have hcond : ∀ x ∈ rest,
      x.start = (⟨addr, bt.size, BtStatus.free⟩ : Btag).start → x.status = BtStatus.span := by
    intro x hx hxs
    replace hxs : x.start = addr := hxs
    rw [hrest] at hx
    rw [hseg, SegsSorted, List.pairwise_append] at hs
    rcases List.mem_append.mp hx with hx | hx
    · rcases hs.2.2 x hx bt (by simp) with h1 | ⟨h1, h2⟩
      · rw [hst] at h1; omega
      · exact h2
    · rcases (List.pairwise_cons.mp hs.2.1).1 x hx with h1 | ⟨h1, h2⟩
      · rw [hst] at h1; omega
      · rw [hal] at h2; cases h2
  obtain ⟨segs1, hins⟩ := insertBtag_some_of hcond
  obtain ⟨pre2, post2, hl2a, hl2b, -, -⟩ := insertBtag_eq hins
  have hmem2 : (⟨addr, bt.size, BtStatus.free⟩ : Btag) ∈ segs1 := by
    rw [hl2b]; simp
  obtain ⟨out, hco⟩ := @coalesce_some segs1
    (bucketPush s.freeSegs ⟨addr, bt.size, BtStatus.free⟩) addr
    ⟨⟨addr, bt.size, BtStatus.free⟩, hmem2, rfl, by simp⟩
  obtain ⟨segs2, q2⟩ := out
  obtain ⟨fs2, ret0⟩ := q2
  have hsome : (free_from_arena s addr bt.size).isSome = true := by
    unfold free_from_arena
    rw [if_pos hmem, hex]
    dsimp only
    rw [hst, if_pos rfl, hins]
    dsimp only
    rw [hco]
    rfl
  exact Option.isSome_iff_exists.mp hsome

/-- C8 (amended): on a tree-ordered arena whose alloc hash agrees with the
tree, arena_free(addr, size) panics exactly when addr is not the start of an
ALLOC segment whose recorded size equals size rounded up to the quantum; on
success the segment leaves the alloc accounting, is reinserted as a FREE tag,
is pushed on the free-list bucket for its size, and the final tree, free
lists and span-return value are those produced by __coalesce_free_seg from
that point (the freed tag may therefore end up merged on another bucket, or
leave the tree entirely with its span reported to the source). -/
theorem c8_free_round_and_coalesce {s : ArenaState} {addr size0 : Nat}
    (hs : SegsSorted s.segs)
    (hh : addr ∈ getBucket s.allocHash (hashIdx addr) ↔
      ∃ bt, bt ∈ s.segs ∧ bt.start = addr ∧ bt.status = BtStatus.alloc) :
    (arena_free s addr size0 = none ↔
      ¬ ∃ bt, bt ∈ s.segs ∧ bt.start = addr ∧ bt.status = BtStatus.alloc ∧
        bt.size = ROUNDUP size0 s.quantum % W) ∧
    (∀ s1 ret, arena_free s addr size0 = some (s1, ret) →
      ∃ bt rest segs1 ret0,
        extractAllocSeg addr s.segs = some (bt, rest) ∧
        bt.start = addr ∧ bt.status = BtStatus.alloc ∧
        bt.size = ROUNDUP size0 s.quantum % W ∧
        insertBtag ⟨addr, bt.size, BtStatus.free⟩ rest = some segs1 ∧
        coalesce_free_seg segs1 (bucketPush s.freeSegs ⟨addr, bt.size, BtStatus.free⟩)
          addr = some (s1.segs, s1.freeSegs, ret0) ∧
        s1.amt_alloc_segs = s.amt_alloc_segs - bt.size ∧
        s1.nr_allocs = s.nr_allocs - 1 ∧
        ret = (match ret0 with
               | some q => if q.1 ≠ 0 then some q else none
               | none => none)) := by
  constructor
  · constructor
    · intro h hex
      obtain ⟨bt0, hm0, hst0, hal0, hsz0⟩ := hex
      have hmem : addr ∈ getBucket s.allocHash (hashIdx addr) :=
        hh.mpr ⟨bt0, hm0, hst0, hal0⟩
      obtain ⟨bt, rest, hex2⟩ := extractAllocSeg_some_of_mem ⟨bt0, hm0, hst0, hal0⟩
      obtain ⟨pre, post, hseg, hrest, -, hst, hal⟩ := extractAllocSeg_eq hex2
      have hbmem : bt ∈ s.segs := by rw [hseg]; simp
      have hbe : bt = bt0 := by
        refine nonspan_unique hs hbmem hm0 ?_ ?_ (by rw [hst, hst0])
        · rw [hal]; simp
        · rw [hal0]; simp
      obtain ⟨out, hsome⟩ := free_no_panic hs hmem hex2
      rw [hbe, hsz0] at hsome
      unfold arena_free at h
      rw [h] at hsome
      cases hsome
    · intro hn
      by_cases hmem : addr ∈ getBucket s.allocHash (hashIdx addr)
      swap
      · unfold arena_free free_from_arena
        rw [if_neg hmem]
      · obtain ⟨bt0, hm0, hst0, hal0⟩ := hh.mp hmem
        obtain ⟨bt, rest, hex2⟩ := extractAllocSeg_some_of_mem ⟨bt0, hm0, hst0, hal0⟩
        obtain ⟨pre, post, hseg, hrest, -, hst, hal⟩ := extractAllocSeg_eq hex2
        have hbmem : bt ∈ s.segs := by rw [hseg]; simp
        have hne : ¬ bt.size = ROUNDUP size0 s.quantum % W := by
          intro hsz
          exact hn ⟨bt, hbmem, hst, hal, hsz⟩
        unfold arena_free free_from_arena
        rw [if_pos hmem, hex2]
        dsimp only
        rw [if_neg hne]
  · intro s1 ret h
    unfold arena_free free_from_arena at h
    by_cases hmem : addr ∈ getBucket s.allocHash (hashIdx addr)
    swap
    · rw [if_neg hmem] at h; cases h
    rw [if_pos hmem] at h
    cases hex : extractAllocSeg addr s.segs with
    | none => rw [hex] at h; cases h
    | some q =>
      obtain ⟨bt, rest⟩ := q
      rw [hex] at h
      dsimp only at h
      obtain ⟨pre, post, hseg, hrest, -, hst, hal⟩ := extractAllocSeg_eq hex
      rw [hst] at h
      by_cases hsz : bt.size = ROUNDUP size0 s.quantum % W
      swap
      · rw [if_neg hsz] at h; cases h
      rw [if_pos hsz] at h
      cases hins : insertBtag ⟨addr, bt.size, BtStatus.free⟩ rest with
      | none => rw [hins] at h; cases h
      | some segs1 =>
        rw [hins] at h
        dsimp only at h
        cases hco : coalesce_free_seg segs1
            (bucketPush s.freeSegs ⟨addr, bt.size, BtStatus.free⟩) addr with
        | none => rw [hco] at h; cases h
        | some out =>
          obtain ⟨segs2, q2⟩ := out
          obtain ⟨fs2, ret0⟩ := q2
          rw [hco] at h
          dsimp only at h
          cases ret0 with
          | none =>
            replace h : some ({ s with
                segs := segs2
                freeSegs := fs2
                allocHash := hashRemove s.allocHash addr
                amt_alloc_segs := s.amt_alloc_segs - ROUNDUP size0 s.quantum % W
                nr_allocs := s.nr_allocs - 1
                amt_total_segs := s.amt_total_segs - 0 },
                (none : Option (Nat × Nat))) = some (s1, ret) := h
            injection h with h
            injection h with h1 h2
            subst h1
            subst h2
            refine ⟨bt, rest, segs1, none, rfl, hst, hal, hsz, hins, hco, ?_, rfl, rfl⟩
            show s.amt_alloc_segs - ROUNDUP size0 s.quantum % W =
              s.amt_alloc_segs - bt.size
            rw [hsz]
          | some adz =>
            obtain ⟨adr, z⟩ := adz
            replace h : some ({ s with
                segs := segs2
                freeSegs := fs2
                allocHash := hashRemove s.allocHash addr
                amt_alloc_segs := s.amt_alloc_segs - ROUNDUP size0 s.quantum % W
                nr_allocs := s.nr_allocs - 1
                amt_total_segs := s.amt_total_segs - z },
                if adr ≠ 0 then some (adr, z) else none) = some (s1, ret) := h
            injection h with h
            injection h with h1 h2
            subst h1
            subst h2
            refine ⟨bt, rest, segs1, some (adr, z), rfl, hst, hal, hsz, hins, hco,
              ?_, rfl, rfl⟩
            show s.amt_alloc_segs - ROUNDUP size0 s.quantum % W =
              s.amt_alloc_segs - bt.size
            rw [hsz]

/-- C8 witness: on the arena holding the allocated segment [0x100, 0x200)
(quantum 0x100) next to the free segment [0x200, 0x300), the panic
characterization is instantiated concretely: freeing 0x100 with caller size
0x1 does not panic, because the recorded size 0x100 equals the rounded
caller size. -/
theorem c8_free_round_and_coalesce_witness :
    arena_free c8Arena 0x100 0x1 = none ↔
      ¬ ∃ bt, bt ∈ c8Arena.segs ∧ bt.start = 0x100 ∧ bt.status = BtStatus.alloc ∧
        bt.size = ROUNDUP 0x1 c8Arena.quantum % W :=
  (@c8_free_round_and_coalesce c8Arena 0x100 0x1 (by decide) (by decide)).1

theorem log2w_lt : ∀ {f n : Nat}, 0 < f → n < 2 ^ f → log2w f n < f := by
  intro f
  induction f with
  | zero => intro n h; omega
  | succ g ih =>
    intro n h hn
    unfold log2w
    by_cases h2 : 2 ≤ n
    · rw [if_pos h2]
      have hg : 0 < g := by
        by_contra hg0
        have : g = 0 := by omega
        subst this
        simp [pow_succ] at hn
        omega
      have : n / 2 < 2 ^ g := by
        rw [Nat.div_lt_iff_lt_mul (by norm_num : 0 < 2)]
        calc n < 2 ^ (g + 1) := hn
        _ = 2 ^ g * 2 := by rw [pow_succ]
      have := ih hg this
      omega
    · rw [if_neg h2]; omega

theorem bucketIdx_lt {sz : Nat} (h : sz < W) : bucketIdx sz < ARENA_NR_FREE_LISTS :=
  log2w_lt (by norm_num) h

theorem listUpd_listUpd {α : Type} :
    ∀ (l : List α) (i : Nat) (f g : α → α),
    listUpd (listUpd l i f) i g = listUpd l i (fun x => g (f x)) := by
  intro l
  induction l with
  | nil => intro i f g; rfl
  | cons x xs ih =>
    intro i f g
    cases i with
    | zero => rfl
    | succ n => simp [listUpd, ih]

theorem listUpd_self {α : Type} :
    ∀ (l : List α) (i : Nat) (f : α → α),
    (∀ x, l.get? i = some x → f x = x) → listUpd l i f = l := by
  intro l
  induction l with
  | nil => intro i f h; rfl
  | cons x xs ih =>
    intro i f h
    cases i with
    | zero =>
      have := h x rfl
      simp [listUpd, this]
    | succ n =>
      simp only [listUpd, List.cons.injEq, true_and]
      exact ih n f fun y hy => h y hy

theorem get_eq_of_getBucket {fs : List (List Nat)} {i : Nat} (h : i < fs.length) :
    fs.get? i = some (getBucket fs i) := by
  unfold getBucket
  rw [List.getD_eq_getElem?_getD, List.get?_eq_getElem?]
  rw [List.getElem?_eq_getElem h]
  rfl

theorem getBucket_listUpd_same :
    ∀ (fs : List (List Nat)) (i : Nat) (f : List Nat → List Nat), i < fs.length →
    getBucket (listUpd fs i f) i = f (getBucket fs i) := by
  intro fs
  induction fs with
  | nil => intro i f h; cases h
  | cons x xs ih =>
    intro i f h
    cases i with
    | zero => rfl
    | succ n =>
      simp only [listUpd]
      have : getBucket (x :: listUpd xs n f) (n + 1) = getBucket (listUpd xs n f) n := rfl
      rw [this]
      have : getBucket (x :: xs) (n + 1) = getBucket xs n := rfl
      rw [this]
      exact ih n f (by simpa using h)

theorem getBucket_listUpd_other :
    ∀ (fs : List (List Nat)) (i j : Nat) (f : List Nat → List Nat), j ≠ i →
    getBucket (listUpd fs i f) j = getBucket fs j := by
  intro fs
  induction fs with
  | nil => intro i j f h; rfl
  | cons x xs ih =>
    intro i j f h
    cases i with
    | zero =>
      cases j with
      | zero => exact absurd rfl h
      | succ m => rfl
    | succ n =>
      cases j with
      | zero => rfl
      | succ m =>
        simp only [listUpd]
        have : getBucket (x :: listUpd xs n f) (m + 1) = getBucket (listUpd xs n f) m := rfl
        rw [this]
        have : getBucket (x :: xs) (m + 1) = getBucket xs m := rfl
        rw [this]
        exact ih n m f (by omega)

theorem listUpd_length {α : Type} :
    ∀ (l : List α) (i : Nat) (f : α → α), (listUpd l i f).length = l.length := by
  intro l
  induction l with
  | nil => intro i f; rfl
  | cons x xs ih =>
    intro i f
    cases i with
    | zero => rfl
    | succ n => simp [listUpd, ih]

theorem cons_removeFirst_perm {a : Nat} :
    ∀ {l : List Nat}, a ∈ l → (a :: removeFirst a l).Perm l := by
  intro l
  induction l with
  | nil => intro h; cases h
  | cons x xs ih =>
    intro h
    by_cases hx : x = a
    · subst hx
      simp [removeFirst]
    · have hm : a ∈ xs := by
        rcases List.mem_cons.mp h with h1 | h1
        · exact absurd h1.symm hx
        · exact h1
      have : removeFirst a (x :: xs) = x :: removeFirst a xs := by simp [removeFirst, hx]
      rw [this]
      have h1 : (a :: x :: removeFirst a xs).Perm (x :: a :: removeFirst a xs) :=
        List.Perm.swap x a _
      have h2 : (x :: a :: removeFirst a xs).Perm (x :: xs) := List.Perm.cons x (ih hm)
      exact h1.trans h2

theorem insert_between {b : Btag} :
    ∀ {pre post : List Btag},
    (∀ x ∈ pre, x.start < b.start) → (∀ y ∈ post, b.start < y.start) →
    insertBtag b (pre ++ post) = some (pre ++ b :: post) := by
  intro pre
  induction pre with
  | nil =>
    intro post hpre hpost
    cases post with
    | nil => rfl
    | cons y ys =>
      have := hpost y (by simp)
      simp [insertBtag, this]
  | cons x xs ih =>
    intro post hpre hpost
    have hx : x.start < b.start := hpre x (by simp)
    have h1 : ¬ b.start < x.start := by omega
    simp only [List.cons_append, insertBtag, if_neg h1, if_pos hx, List.append_eq]
    rw [ih (fun z hz => hpre z (by simp [hz])) hpost]
    rfl

theorem extractAlloc_middle {a : Nat} {A : Btag} (hA : A.start = a)
    (hAs : A.status = BtStatus.alloc) :
    ∀ {pre post : List Btag}, (∀ x ∈ pre, x.start ≠ a) →
    extractAllocSeg a (pre ++ A :: post) = some (A, pre ++ post) := by
  intro pre
  induction pre with
  | nil =>
    intro post hpre
    simp [extractAllocSeg, hA, hAs]
  | cons x xs ih =>
    intro post hpre
    have hx : ¬ (x.start = a ∧ x.status = BtStatus.alloc) := by
      intro hc
      exact hpre x (by simp) hc.1
    simp only [List.cons_append, extractAllocSeg, if_neg hx, List.append_eq]
    rw [ih fun z hz => hpre z (by simp [hz])]
    rfl

theorem split_middle {a : Nat} {F : Btag} (hF : F.start = a)
    (hFs : F.status ≠ BtStatus.span) :
    ∀ {pre post : List Btag}, (∀ x ∈ pre, x.start ≠ a) →
    splitSeg a (pre ++ F :: post) = some (pre, F, post) := by
  intro pre
  induction pre with
  | nil =>
    intro post hpre
    simp [splitSeg, hF, hFs]
  | cons x xs ih =>
    intro post hpre
    have hx : ¬ (x.start = a ∧ x.status ≠ BtStatus.span) := by
      intro hc
      exact hpre x (by simp) hc.1
    simp only [List.cons_append, splitSeg, if_neg hx, List.append_eq]
    rw [ih fun z hz => hpre z (by simp [hz])]
    rfl

theorem getFromFreelistsAux_spec {fs : List (List Nat)} :
    ∀ {fuel i : Nat} {a : Nat} {fs1 : List (List Nat)},
    getFromFreelistsAux fs i fuel = some (a, fs1) →
    ∃ j, i ≤ j ∧ j < i + fuel ∧ (∃ tl, getBucket fs j = a :: tl) ∧
      fs1 = listUpd fs j List.tail := by
  intro fuel
  induction fuel with
  | zero =>
    intro i a fs1 h
    cases h
  | succ n ih =>
    intro i a fs1 h
    unfold getFromFreelistsAux at h
    cases hb : getBucket fs i with
    | cons x tl =>
      rw [hb] at h
      replace h : some (x, listUpd fs i List.tail) = some (a, fs1) := h
      injection h with h
      injection h with h1 h2
      subst h1
      subst h2
      exact ⟨i, le_refl i, by omega, ⟨tl, hb⟩, rfl⟩
    | nil =>
      rw [hb] at h
      obtain ⟨j, hj1, hj2, hj3, hj4⟩ := ih h
      exact ⟨j, by omega, by omega, hj3, hj4⟩

theorem getFromFreelists_spec {fs : List (List Nat)} {idx a : Nat} {fs1 : List (List Nat)}
    (h : getFromFreelists fs idx = some (a, fs1)) :
    ∃ j, idx ≤ j ∧ j < ARENA_NR_FREE_LISTS ∧ (∃ tl, getBucket fs j = a :: tl) ∧
      fs1 = listUpd fs j List.tail := by
  obtain ⟨j, hj1, hj2, hj3, hj4⟩ := getFromFreelistsAux_spec h
  have hA : ARENA_NR_FREE_LISTS = 64 := rfl
  refine ⟨j, hj1, ?_, hj3, hj4⟩
  by_cases hle : idx ≤ 64
  · omega
  · exfalso
    have h0 : ARENA_NR_FREE_LISTS - idx = 0 := by omega
    rw [getFromFreelists, h0] at h
    cases h

theorem insert_conflict {b A : Btag} (hA : A.start = b.start) (hAs : A.status ≠ BtStatus.span) :
    ∀ {pre post : List Btag}, (∀ x ∈ pre, x.start < b.start) →
    insertBtag b (pre ++ A :: post) = none := by
  intro pre
  induction pre with
  | nil =>
    intro post hpre
    have h1 : ¬ b.start < A.start := by omega
    have h2 : ¬ A.start < b.start := by omega
    simp [insertBtag, h1, h2, hAs]
  | cons x xs ih =>
    intro post hpre
    have hx : x.start < b.start := hpre x (by simp)
    have h1 : ¬ b.start < x.start := by omega
    simp only [List.cons_append, insertBtag, if_neg h1, if_pos hx, List.append_eq]
    rw [ih fun z hz => hpre z (by simp [hz])]
    rfl

theorem push_remove_cancel (fs : List (List Nat)) (bt : Btag) :
    bucketRemove (bucketPush fs bt) bt = fs := by
  unfold bucketRemove bucketPush
  rw [listUpd_listUpd]
  exact listUpd_self fs (bucketIdx bt.size) _ fun x hx => by simp [removeFirst]

theorem hash_push_remove_cancel (hs : List (List Nat)) (a : Nat) :
    hashRemove (hashPush hs a) a = hs := by
  unfold hashRemove hashPush
  rw [listUpd_listUpd]
  exact listUpd_self hs (hashIdx a) _ fun x hx => by simp [removeFirst]


theorem rt_core {sp : ArenaState} {a size : Nat} {s1 : ArenaState}
    (hsort : SegsSorted sp.segs)
    (hdisj : List.Pairwise (fun x y => x.start + x.size ≤ y.start) sp.segs)
    (hnospan : ∀ x ∈ sp.segs, x.status ≠ BtStatus.span)
    (hnadj : noAdjFree sp.segs)
    (hhlen : sp.allocHash.length = ARENA_NR_HASH_LISTS)
    (hacc : account_alloc sp a size = some s1) :
    ∃ bt rest, extractSeg a sp.segs = some (bt, rest) ∧ bt.status = BtStatus.free ∧
      bt.start = a ∧ size ≤ bt.size ∧
      ∃ s2, free_from_arena s1 a size = some (s2, none) ∧
        s2.segs = sp.segs ∧
        s2.freeSegs = bucketPush sp.freeSegs ⟨a, bt.size, BtStatus.free⟩ ∧
        s2.allocHash = sp.allocHash ∧
        s2.amt_total_segs = sp.amt_total_segs ∧
        s2.amt_alloc_segs = sp.amt_alloc_segs ∧
        s2.nr_allocs = sp.nr_allocs ∧
        s2.quantum = sp.quantum ∧
        s2.hasSource = sp.hasSource ∧
        s2.last_nextfit_alloc = s1.last_nextfit_alloc := by
  unfold account_alloc at hacc
  cases hex : extractSeg a sp.segs with
  | none => rw [hex] at hacc; cases hacc
  | some q =>
    obtain ⟨bt, rest⟩ := q
    rw [hex] at hacc
    dsimp only at hacc
    by_cases hfr : bt.status = BtStatus.free
    swap
    · rw [if_neg hfr] at hacc; cases hacc
    rw [if_pos hfr] at hacc
    obtain ⟨pre, post, hseg, hrest, hpre0, hstA, hns⟩ := extractSeg_eq hex
    have hsort2 := hsort
    rw [hseg, SegsSorted, List.pairwise_append] at hsort2
    have hdisj2 := hdisj
    rw [hseg, List.pairwise_append] at hdisj2
    have hmempre : ∀ x ∈ pre, x ∈ sp.segs := fun x hx => by
      rw [hseg]; exact List.mem_append_left _ hx
    have hmempost : ∀ y ∈ post, y ∈ sp.segs := fun y hy => by
      rw [hseg]; exact List.mem_append_right _ (List.mem_cons_of_mem _ hy)
    have hbtmem : bt ∈ sp.segs := by
      rw [hseg]; exact List.mem_append_right _ (List.mem_cons_self _ _)
    have hpreLT : ∀ x ∈ pre, x.start < bt.start := by
      intro x hx
      rcases hsort2.2.2 x hx bt (by simp) with h1 | ⟨h1, h2⟩
      · exact h1
      · exact absurd h2 (hnospan x (hmempre x hx))
    have hpostGT : ∀ y ∈ post, bt.start < y.start := by
      intro y hy
      rcases (List.pairwise_cons.mp hsort2.2.1).1 y hy with h1 | ⟨h1, h2⟩
      · exact h1
      · exact absurd h2 (hnospan bt hbtmem)
    have hpostDisj : ∀ y ∈ post, bt.start + bt.size ≤ y.start :=
      fun y hy => (List.pairwise_cons.mp hdisj2.2.1).1 y hy
    have hNoMR : ∀ y ∈ post, ¬ (y.status = BtStatus.free ∧ bt.start + bt.size = y.start) := by
      intro y hy hc
      exact hnadj bt hbtmem y (hmempost y hy) hfr hc.1 hc.2
    have hNoML : ∀ L ∈ pre, ¬ (L.status = BtStatus.free ∧ L.start + L.size = bt.start) := by
      intro L hL hc
      exact hnadj L (hmempre L hL) bt hbtmem hc.1 hfr hc.2
    have hhb : hashIdx a < ARENA_NR_HASH_LISTS := Nat.mod_lt _ (by decide)
    have hmem0 : a ∈ getBucket (hashPush sp.allocHash bt.start) (hashIdx a) := by
      unfold hashPush
      rw [hstA]
      rw [getBucket_listUpd_same _ _ _ (by rw [hhlen]; exact hhb)]
      exact List.mem_cons_self _ _
    by_cases heq : bt.size = size
    · -- exact-size allocation: the tag is reused in place
      rw [if_pos heq] at hacc
      have hinsA : insertBtag ⟨bt.start, bt.size, BtStatus.alloc⟩ (pre ++ post) =
          some (pre ++ ⟨bt.start, bt.size, BtStatus.alloc⟩ :: post) :=
        insert_between (fun x hx => hpreLT x hx) (fun y hy => hpostGT y hy)
      rw [hrest, hinsA] at hacc
      replace hacc : some { sp with
          segs := pre ++ ⟨bt.start, bt.size, BtStatus.alloc⟩ :: post
          allocHash := hashPush sp.allocHash bt.start
          amt_alloc_segs := sp.amt_alloc_segs + size
          nr_allocs := sp.nr_allocs + 1 } = some s1 := hacc
      injection hacc with hacc
      refine ⟨bt, rest, rfl, hfr, hstA, le_of_eq heq.symm, ?_⟩
      have hexA : extractAllocSeg a
          (pre ++ ⟨bt.start, bt.size, BtStatus.alloc⟩ :: post) =
          some (⟨bt.start, bt.size, BtStatus.alloc⟩, pre ++ post) :=
        extractAlloc_middle (A := ⟨bt.start, bt.size, BtStatus.alloc⟩) hstA rfl
          fun x hx => by rw [← hstA]; exact Nat.ne_of_lt (hpreLT x hx)
      have hinsF : insertBtag ⟨bt.start, bt.size, BtStatus.free⟩ (pre ++ post) =
          some (pre ++ ⟨bt.start, bt.size, BtStatus.free⟩ :: post) :=
        insert_between (fun x hx => hpreLT x hx) (fun y hy => hpostGT y hy)
      have hcr : ∀ fsx, coalesceRight ⟨bt.start, bt.size, BtStatus.free⟩ post fsx =
          (⟨bt.start, bt.size, BtStatus.free⟩, post, fsx) := by
        intro fsx
        cases hpc : post with
        | nil => rfl
        | cons y ys =>
          have hy : ¬ mergeOk ⟨bt.start, bt.size, BtStatus.free⟩ y := by
            intro hc
            exact hNoMR y (by rw [hpc]; simp) ⟨hc.2.1, hc.2.2⟩
          simp [coalesceRight, hy]
      have hcl : ∀ fsx, coalesceLeft pre.reverse ⟨bt.start, bt.size, BtStatus.free⟩ fsx =
          (⟨bt.start, bt.size, BtStatus.free⟩, pre.reverse, fsx) := by
        intro fsx
        cases hpc : pre.reverse with
        | nil => rfl
        | cons L Ls =>
          have hLmem : L ∈ pre := by
            have : L ∈ pre.reverse := by rw [hpc]; simp
            exact List.mem_reverse.mp this
          have hL : ¬ mergeOk L ⟨bt.start, bt.size, BtStatus.free⟩ := by
            intro hc
            exact hNoML L hLmem ⟨hc.1, hc.2.2⟩
          simp [coalesceLeft, hL]
      have hcs : ∀ fsx, coalesceSpan pre.reverse ⟨bt.start, bt.size, BtStatus.free⟩ post fsx =
          (pre ++ ⟨bt.start, bt.size, BtStatus.free⟩ :: post, fsx, none) := by
        intro fsx
        cases hpc : pre.reverse with
        | nil =>
          have : pre = [] := by
            have := congrArg List.reverse hpc
            simpa using this
          subst this
          rfl
        | cons L Ls =>
          have hLmem : L ∈ pre := by
            have : L ∈ pre.reverse := by rw [hpc]; simp
            exact List.mem_reverse.mp this
          have hL : ¬ ((L.status = BtStatus.span) ∧ L.start = bt.start ∧ L.size = bt.size) := by
            intro hc
            exact hnospan L (hmempre L hLmem) hc.1
          simp only [coalesceSpan, if_neg hL]
          rw [← hpc]
          simp
      have hsplit : splitSeg a (pre ++ ⟨bt.start, bt.size, BtStatus.free⟩ :: post) =
          some (pre, ⟨bt.start, bt.size, BtStatus.free⟩, post) :=
        split_middle (a := a) (F := ⟨bt.start, bt.size, BtStatus.free⟩) hstA (by simp)
          fun x hx => by rw [← hstA]; exact Nat.ne_of_lt (hpreLT x hx)
      have hcoal : ∀ fsx, coalesce_free_seg (pre ++ ⟨bt.start, bt.size, BtStatus.free⟩ :: post)
          fsx a = some (pre ++ ⟨bt.start, bt.size, BtStatus.free⟩ :: post, fsx, none) := by
        intro fsx
        unfold coalesce_free_seg
        rw [hsplit]
        dsimp only
        rw [hcr, hcl, hcs]
      have hbtEq : (⟨bt.start, bt.size, BtStatus.free⟩ : Btag) = bt := by
        obtain ⟨s0, z0, st0⟩ := bt
        show Btag.mk s0 z0 BtStatus.free = Btag.mk s0 z0 st0
        rw [← hfr]
      have hfree : free_from_arena s1 a size =
          some ({ s1 with
            segs := pre ++ ⟨bt.start, bt.size, BtStatus.free⟩ :: post
            freeSegs := bucketPush s1.freeSegs ⟨bt.start, bt.size, BtStatus.free⟩
            allocHash := hashRemove s1.allocHash a
            amt_alloc_segs := s1.amt_alloc_segs - size
            nr_allocs := s1.nr_allocs - 1
            amt_total_segs := s1.amt_total_segs - 0 }, none) := by
        unfold free_from_arena
        rw [← hacc]
        rw [if_pos hmem0, hexA]
        dsimp only
        rw [if_pos heq, hinsF]
        dsimp only
        rw [hcoal]
      refine ⟨_, hfree, ?_, ?_, ?_, ?_, ?_, ?_, ?_, ?_, ?_⟩
      · show pre ++ ⟨bt.start, bt.size, BtStatus.free⟩ :: post = sp.segs
        rw [hseg, hbtEq]
      · show bucketPush s1.freeSegs ⟨bt.start, bt.size, BtStatus.free⟩ =
          bucketPush sp.freeSegs ⟨a, bt.size, BtStatus.free⟩
        rw [← hacc, hstA]
      · show hashRemove s1.allocHash a = sp.allocHash
        rw [← hacc]
        show hashRemove (hashPush sp.allocHash bt.start) a = sp.allocHash
        rw [hstA]
        exact hash_push_remove_cancel sp.allocHash a
      · have h1 := congrArg ArenaState.amt_total_segs hacc.symm
        replace h1 : s1.amt_total_segs = sp.amt_total_segs := h1
        show s1.amt_total_segs - 0 = sp.amt_total_segs
        omega
      · show s1.amt_alloc_segs - size = sp.amt_alloc_segs
        rw [← hacc]
        show sp.amt_alloc_segs + size - size = sp.amt_alloc_segs
        omega
      · show s1.nr_allocs - 1 = sp.nr_allocs
        rw [← hacc]
        show sp.nr_allocs + 1 - 1 = sp.nr_allocs
        omega
      · rw [← hacc]
      · rw [← hacc]
      · rfl
    · -- the tag is split: an allocated front and a FREE remainder
      rw [if_neg heq] at hacc
      by_cases hlt : size < bt.size
      swap
      · rw [if_neg hlt] at hacc; cases hacc
      rw [if_pos hlt] at hacc
      have hinsA : insertBtag ⟨bt.start, size, BtStatus.alloc⟩ (pre ++ post) =
          some (pre ++ ⟨bt.start, size, BtStatus.alloc⟩ :: post) :=
        insert_between (fun x hx => hpreLT x hx) (fun y hy => hpostGT y hy)
      rw [hrest, hinsA] at hacc
      dsimp only at hacc
      by_cases hpos : 0 < size
      swap
      · exfalso
        have hz : size = 0 := by omega
        have hconf : insertBtag ⟨bt.start + size, bt.size - size, BtStatus.free⟩
            (pre ++ ⟨bt.start, size, BtStatus.alloc⟩ :: post) = none := by
          refine insert_conflict ?_ (by simp) ?_
          · show bt.start = bt.start + size
            omega
          · intro x hx
            show x.start < bt.start + size
            have := hpreLT x hx
            omega
        rw [hconf] at hacc
        cases hacc
      have hinsNW : insertBtag ⟨bt.start + size, bt.size - size, BtStatus.free⟩
          (pre ++ ⟨bt.start, size, BtStatus.alloc⟩ :: post) =
          some (pre ++ ⟨bt.start, size, BtStatus.alloc⟩ ::
            ⟨bt.start + size, bt.size - size, BtStatus.free⟩ :: post) := by
        have h2 : insertBtag ⟨bt.start + size, bt.size - size, BtStatus.free⟩
            ((pre ++ [⟨bt.start, size, BtStatus.alloc⟩]) ++ post) =
            some ((pre ++ [⟨bt.start, size, BtStatus.alloc⟩]) ++
              ⟨bt.start + size, bt.size - size, BtStatus.free⟩ :: post) := by
          refine insert_between ?_ ?_
          · intro x hx
            show x.start < bt.start + size
            rcases List.mem_append.mp hx with hx | hx
            · have := hpreLT x hx
              omega
            · have : x = ⟨bt.start, size, BtStatus.alloc⟩ := by simpa using hx
              subst this
              show bt.start < bt.start + size
              omega
          · intro y hy
            show bt.start + size < y.start
            have h3 := hpostDisj y hy
            omega
        simpa using h2
      rw [hinsNW] at hacc
      replace hacc : some { sp with
          segs := pre ++ ⟨bt.start, size, BtStatus.alloc⟩ ::
            ⟨bt.start + size, bt.size - size, BtStatus.free⟩ :: post
          freeSegs := bucketPush sp.freeSegs ⟨bt.start + size, bt.size - size, BtStatus.free⟩
          allocHash := hashPush sp.allocHash bt.start
          amt_alloc_segs := sp.amt_alloc_segs + size
          nr_allocs := sp.nr_allocs + 1 } = some s1 := hacc
      injection hacc with hacc
      refine ⟨bt, rest, rfl, hfr, hstA, le_of_lt hlt, ?_⟩
      have hexA : extractAllocSeg a
          (pre ++ ⟨bt.start, size, BtStatus.alloc⟩ ::
            ⟨bt.start + size, bt.size - size, BtStatus.free⟩ :: post) =
          some (⟨bt.start, size, BtStatus.alloc⟩,
            pre ++ ⟨bt.start + size, bt.size - size, BtStatus.free⟩ :: post) :=
        extractAlloc_middle (A := ⟨bt.start, size, BtStatus.alloc⟩) hstA rfl
          fun x hx => by rw [← hstA]; exact Nat.ne_of_lt (hpreLT x hx)
      have hinsF : insertBtag ⟨bt.start, size, BtStatus.free⟩
          (pre ++ ⟨bt.start + size, bt.size - size, BtStatus.free⟩ :: post) =
          some (pre ++ ⟨bt.start, size, BtStatus.free⟩ ::
            ⟨bt.start + size, bt.size - size, BtStatus.free⟩ :: post) := by
        refine insert_between (fun x hx => hpreLT x hx) ?_
        intro y hy
        show bt.start < y.start
        rcases List.mem_cons.mp hy with rfl | hy
        · show bt.start < bt.start + size
          omega
        · exact hpostGT y hy
      have hcr : ∀ fsx, coalesceRight ⟨bt.start, size, BtStatus.free⟩
          (⟨bt.start + size, bt.size - size, BtStatus.free⟩ :: post) fsx =
          (⟨bt.start, size + (bt.size - size), BtStatus.free⟩, post,
           mergeBuckets fsx ⟨bt.start, size, BtStatus.free⟩
             ⟨bt.start + size, bt.size - size, BtStatus.free⟩) := by
        intro fsx
        have hok : mergeOk ⟨bt.start, size, BtStatus.free⟩
            ⟨bt.start + size, bt.size - size, BtStatus.free⟩ := ⟨rfl, rfl, rfl⟩
        simp [coalesceRight, hok]
      have hszEq : size + (bt.size - size) = bt.size := by omega
      have hcl : ∀ fsx, coalesceLeft pre.reverse
          ⟨bt.start, size + (bt.size - size), BtStatus.free⟩ fsx =
          (⟨bt.start, size + (bt.size - size), BtStatus.free⟩, pre.reverse, fsx) := by
        intro fsx
        cases hpc : pre.reverse with
        | nil => rfl
        | cons L Ls =>
          have hLmem : L ∈ pre := by
            have : L ∈ pre.reverse := by rw [hpc]; simp
            exact List.mem_reverse.mp this
          have hL : ¬ mergeOk L ⟨bt.start, size + (bt.size - size), BtStatus.free⟩ := by
            intro hc
            exact hNoML L hLmem ⟨hc.1, hc.2.2⟩
          simp [coalesceLeft, hL]
      have hcs : ∀ fsx, coalesceSpan pre.reverse
          ⟨bt.start, size + (bt.size - size), BtStatus.free⟩ post fsx =
          (pre ++ ⟨bt.start, size + (bt.size - size), BtStatus.free⟩ :: post, fsx, none) := by
        intro fsx
        cases hpc : pre.reverse with
        | nil =>
          have : pre = [] := by
            have := congrArg List.reverse hpc
            simpa using this
          subst this
          rfl
        | cons L Ls =>
          have hLmem : L ∈ pre := by
            have : L ∈ pre.reverse := by rw [hpc]; simp
            exact List.mem_reverse.mp this
          have hL : ¬ ((L.status = BtStatus.span) ∧ L.start = bt.start ∧
              L.size = size + (bt.size - size)) := by
            intro hc
            exact hnospan L (hmempre L hLmem) hc.1
          simp only [coalesceSpan, if_neg hL]
          rw [← hpc]
          simp
      have hsplit : splitSeg a (pre ++ ⟨bt.start, size, BtStatus.free⟩ ::
          ⟨bt.start + size, bt.size - size, BtStatus.free⟩ :: post) =
          some (pre, ⟨bt.start, size, BtStatus.free⟩,
            ⟨bt.start + size, bt.size - size, BtStatus.free⟩ :: post) :=
        split_middle (a := a) (F := ⟨bt.start, size, BtStatus.free⟩) hstA (by simp)
          fun x hx => by rw [← hstA]; exact Nat.ne_of_lt (hpreLT x hx)
      have hcoal : ∀ fsx, coalesce_free_seg
          (pre ++ ⟨bt.start, size, BtStatus.free⟩ ::
            ⟨bt.start + size, bt.size - size, BtStatus.free⟩ :: post) fsx a =
          some (pre ++ ⟨bt.start, size + (bt.size - size), BtStatus.free⟩ :: post,
            mergeBuckets fsx ⟨bt.start, size, BtStatus.free⟩
              ⟨bt.start + size, bt.size - size, BtStatus.free⟩, none) := by
        intro fsx
        unfold coalesce_free_seg
        rw [hsplit]
        dsimp only
        rw [hcr, hcl, hcs]
      have hbtEq : (⟨bt.start, size + (bt.size - size), BtStatus.free⟩ : Btag) = bt := by
        obtain ⟨s0, z0, st0⟩ := bt
        have h1 : size + (z0 - size) = z0 := hszEq
        show Btag.mk s0 (size + (z0 - size)) BtStatus.free = Btag.mk s0 z0 st0
        rw [h1, ← hfr]
      have hfree : free_from_arena s1 a size =
          some ({ s1 with
            segs := pre ++ ⟨bt.start, size + (bt.size - size), BtStatus.free⟩ :: post
            freeSegs := mergeBuckets (bucketPush s1.freeSegs ⟨bt.start, size, BtStatus.free⟩)
              ⟨bt.start, size, BtStatus.free⟩
              ⟨bt.start + size, bt.size - size, BtStatus.free⟩
            allocHash := hashRemove s1.allocHash a
            amt_alloc_segs := s1.amt_alloc_segs - size
            nr_allocs := s1.nr_allocs - 1
            amt_total_segs := s1.amt_total_segs - 0 }, none) := by
        unfold free_from_arena
        rw [← hacc]
        rw [if_pos hmem0, hexA]
        dsimp only
        rw [if_pos rfl, hinsF]
        dsimp only
        rw [hcoal]
      refine ⟨_, hfree, ?_, ?_, ?_, ?_, ?_, ?_, ?_, ?_, ?_⟩
      · show pre ++ ⟨bt.start, size + (bt.size - size), BtStatus.free⟩ :: post = sp.segs
        rw [hseg, hbtEq]
      · show mergeBuckets (bucketPush s1.freeSegs ⟨bt.start, size, BtStatus.free⟩)
            ⟨bt.start, size, BtStatus.free⟩
            ⟨bt.start + size, bt.size - size, BtStatus.free⟩ =
          bucketPush sp.freeSegs ⟨a, bt.size, BtStatus.free⟩
        rw [← hacc]
        show mergeBuckets (bucketPush (bucketPush sp.freeSegs
            ⟨bt.start + size, bt.size - size, BtStatus.free⟩) ⟨bt.start, size, BtStatus.free⟩)
            ⟨bt.start, size, BtStatus.free⟩
            ⟨bt.start + size, bt.size - size, BtStatus.free⟩ =
          bucketPush sp.freeSegs ⟨a, bt.size, BtStatus.free⟩
        unfold mergeBuckets
        rw [push_remove_cancel, push_remove_cancel]
        show bucketPush sp.freeSegs ⟨bt.start, size + (bt.size - size), BtStatus.free⟩ =
          bucketPush sp.freeSegs ⟨a, bt.size, BtStatus.free⟩
        rw [hstA, hszEq]
      · show hashRemove s1.allocHash a = sp.allocHash
        rw [← hacc]
        show hashRemove (hashPush sp.allocHash bt.start) a = sp.allocHash
        rw [hstA]
        exact hash_push_remove_cancel sp.allocHash a
      · have h1 := congrArg ArenaState.amt_total_segs hacc.symm
        replace h1 : s1.amt_total_segs = sp.amt_total_segs := h1
        show s1.amt_total_segs - 0 = sp.amt_total_segs
        omega
      · show s1.amt_alloc_segs - size = sp.amt_alloc_segs
        rw [← hacc]
        show sp.amt_alloc_segs + size - size = sp.amt_alloc_segs
        omega
      · show s1.nr_allocs - 1 = sp.nr_allocs
        rw [← hacc]
        show sp.nr_allocs + 1 - 1 = sp.nr_allocs
        omega
      · rw [← hacc]
      · rw [← hacc]
      · rfl

theorem rt_instantfit {s : ArenaState} {n : Nat} {f : MemFlags} {p : Nat} {s1 : ArenaState}
    (hwf : arenaWF s) (hstyle : f.style = AllocStyle.instantfit)
    (halloc : arena_alloc s n f [] = some (some p, s1)) :
    ∃ s2, arena_free s1 p n = some (s2, none) ∧ stateRestored s2 s := by
  obtain ⟨hsort, hdisj, hnospan, hnadj, hgeom, hbsound, hbcomp, hflen, hhlen⟩ := hwf
  unfold arena_alloc at halloc
  dsimp only at halloc
  by_cases hz : ROUNDUP n s.quantum % W = 0
  · rw [if_pos hz] at halloc; cases halloc
  rw [if_neg hz] at halloc
  unfold arenaAllocLoop at halloc
  cases ha : alloc_from_arena s (ROUNDUP n s.quantum % W) f with
  | none => rw [ha] at halloc; cases halloc
  | some q =>
    obtain ⟨p0, sA⟩ := q
    rw [ha] at halloc
    cases p0 with
    | none =>
      exfalso
      replace halloc : (match get_more_resources sA (ROUNDUP n s.quantum % W) f none with
        | none => none
        | some (_, s2) => some ((none : Option Nat), s2)) = some (some p, s1) := halloc
      cases hg : get_more_resources sA (ROUNDUP n s.quantum % W) f none with
      | none => rw [hg] at halloc; cases halloc
      | some q2 =>
        obtain ⟨g, sB⟩ := q2
        rw [hg] at halloc
        replace halloc : some ((none : Option Nat), sB) = some (some p, s1) := halloc
        injection halloc with halloc
        injection halloc with h1 h2
        cases h1
    | some pv =>
      replace halloc : some (some pv, sA) = some (some p, s1) := halloc
      injection halloc with halloc
      injection halloc with h1 h2
      injection h1 with h1
      subst pv
      subst sA
      unfold alloc_from_arena at ha
      rw [hstyle] at ha
      unfold alloc_instantfit at ha
      cases hg : getFromFreelists s.freeSegs (LOG2_UP (ROUNDUP n s.quantum % W)) with
      | none =>
        rw [hg] at ha
        replace ha : some ((none : Option Nat), s) = some (some p, s1) := ha
        injection ha with ha
        injection ha with h1 h2
        cases h1
      | some q2 =>
        obtain ⟨a, fs1⟩ := q2
        rw [hg] at ha
        dsimp only at ha
        cases hacc : account_alloc { s with freeSegs := fs1 } a (ROUNDUP n s.quantum % W) with
        | none => rw [hacc] at ha; cases ha
        | some sAcc =>
          rw [hacc] at ha
          replace ha : some (some a, sAcc) = some (some p, s1) := ha
          injection ha with ha
          injection ha with h1 h2
          injection h1 with h1
          subst a
          subst sAcc
          obtain ⟨j, hj1, hj2, ⟨tl, htl⟩, hfs1⟩ := getFromFreelists_spec hg
          obtain ⟨bt0, hbt0mem, hbt0st, hbt0fr, hbt0idx⟩ :=
            hbsound j hj2 p (by rw [htl]; exact List.mem_cons_self _ _)
          subst hfs1
          obtain ⟨bt, rest, hex, hfr, hstA, hsz, s2, hfree, hsegs, hfs, hhash,
            htot, hall, hnr, hqu, hsrc, hlnf⟩ :=
            @rt_core { s with freeSegs := listUpd s.freeSegs j List.tail } _ _ _
              hsort hdisj hnospan hnadj hhlen hacc
          have hq1 : s1.quantum = s.quantum := by
            obtain ⟨-, -, -, -, -, -, -, hq, -⟩ := account_alloc_spec hacc
            exact hq
          have hbtEq : bt = bt0 := by
            refine nonspan_unique hsort ?_ hbt0mem ?_ ?_ ?_
            · obtain ⟨pre2, post2, hseg2, -, -, -, -⟩ := extractSeg_eq hex
              rw [hseg2]
              exact List.mem_append_right _ (List.mem_cons_self _ _)
            · obtain ⟨-, -, -, -, -, -, hns⟩ := extractSeg_eq hex
              exact hns
            · rw [hbt0fr]; simp
            · rw [hstA, hbt0st]
          have hfsRestore : s2.freeSegs = s.freeSegs := by
            rw [hfs]
            show bucketPush (listUpd s.freeSegs j List.tail) ⟨p, bt.size, BtStatus.free⟩ =
              s.freeSegs
            unfold bucketPush
            have hidx : bucketIdx (⟨p, bt.size, BtStatus.free⟩ : Btag).size = j := by
              show bucketIdx bt.size = j
              rw [hbtEq, hbt0idx]
            rw [hidx, listUpd_listUpd]
            refine listUpd_self _ _ _ ?_
            intro x hx
            have hj3 : j < s.freeSegs.length := by rw [hflen]; exact hj2
            rw [get_eq_of_getBucket hj3] at hx
            injection hx with hx
            rw [← hx, htl]
            rfl
          refine ⟨s2, ?_, ?_⟩
          · show free_from_arena s1 p (ROUNDUP n s1.quantum % W) = some (s2, none)
            rw [hq1]
            exact hfree
          · refine ⟨?_, ?_, ?_, ?_, ?_, ?_⟩
            · rw [hsegs]
            · intro i hi
              rw [hfsRestore]
            · intro i hi
              replace hhash : s2.allocHash = s.allocHash := hhash
              rw [hhash]
            · replace htot : s2.amt_total_segs = s.amt_total_segs := htot
              exact htot
            · replace hall : s2.amt_alloc_segs = s.amt_alloc_segs := hall
              exact hall
            · replace hnr : s2.nr_allocs = s.nr_allocs := hnr
              exact hnr

theorem ROUNDUP_self {a n : Nat} (h : a % n = 0) : ROUNDUP a n = a := by
  unfold ROUNDUP
  by_cases hn : n = 0
  · rw [if_pos hn]
  · rw [if_neg hn]
    obtain ⟨k, hk⟩ := Nat.dvd_of_mod_eq_zero h
    subst hk
    have hn1 : 0 < n := Nat.pos_of_ne_zero hn
    have h1 : n * k + n - 1 = n * k + (n - 1) := by omega
    rw [h1, Nat.mul_add_div hn1, Nat.div_eq_of_lt (by omega), Nat.add_zero,
      Nat.mul_comm]

theorem fs_values {bs bsz size q : Nat} (hb : bs % q = 0) (hw : bs < W) :
    findSufficient bs bsz size q 0 0 = bs ∨ findSufficient bs bsz size q 0 0 = 0 := by
  unfold findSufficient findSufficientF
  have ht : (rup64 bs q + 0) % W = bs := by
    unfold rup64
    rw [ROUNDUP_self hb, Nat.add_zero]
    have h2 : bs % W = bs := Nat.mod_eq_of_lt hw
    rw [h2, h2]
  rw [ht]
  by_cases g1 : bs < bs
  · omega
  rw [if_neg g1]
  by_cases g2 : (bs + size) % W < bs
  · rw [if_pos g2]; exact Or.inr rfl
  rw [if_neg g2]
  by_cases g3 : (bs + bsz) % W < (bs + size) % W
  · rw [if_pos g3]; exact Or.inr rfl
  rw [if_neg g3]
  rw [if_pos rfl]
  exact Or.inl rfl

theorem account_cursor (sp : ArenaState) (v a size : Nat) :
    account_alloc { sp with last_nextfit_alloc := v } a size =
    (account_alloc sp a size).map fun x => { x with last_nextfit_alloc := v } := by
  unfold account_alloc
  dsimp only
  cases extractSeg a sp.segs with
  | none => rfl
  | some q =>
    obtain ⟨bt, rest⟩ := q
    by_cases hfr : bt.status = BtStatus.free
    swap
    · simp only [if_neg hfr]; rfl
    simp only [if_pos hfr]
    by_cases heq : bt.size = size
    · simp only [if_pos heq]
      cases insertBtag ⟨bt.start, bt.size, BtStatus.alloc⟩ rest with
      | none => rfl
      | some segs1 => rfl
    · simp only [if_neg heq]
      by_cases hlt : size < bt.size
      swap
      · simp only [if_neg hlt]; rfl
      simp only [if_pos hlt]
      cases insertBtag ⟨bt.start, size, BtStatus.alloc⟩ rest with
      | none => rfl
      | some segs1 =>
        dsimp only
        cases insertBtag ⟨bt.start + size, bt.size - size, BtStatus.free⟩ segs1 with
        | none => rfl
        | some segs2 => rfl

theorem walk_nextfit {s : ArenaState} {size : Nat} :
    ∀ {l : List Btag} {p : Nat} {s1 : ArenaState},
    (∀ bt ∈ l, bt.start % s.quantum = 0 ∧ bt.start < W) →
    xallocMinMaxWalk s size s.quantum 0 0 0 l = some (some p, s1) →
    ∃ bt, bt ∈ l ∧ bt.start = p ∧ bt.status = BtStatus.free ∧
      account_alloc { s with freeSegs := bucketRemove s.freeSegs bt } p size = some s1 := by
  intro l
  induction l with
  | nil =>
    intro p s1 h hw
    replace hw : some ((none : Option Nat), s) = some (some p, s1) := hw
    injection hw with hw
    injection hw with h1 h2
    cases h1
  | cons bt rest ih =>
    intro p s1 hg h
    unfold xallocMinMaxWalk at h
    by_cases ht0 : findSufficient bt.start bt.size size s.quantum 0 0 = 0
    · rw [if_pos ht0] at h
      obtain ⟨bt2, hm, h1, h2, h3⟩ := ih (fun x hx => hg x (List.mem_cons_of_mem _ hx)) h
      exact ⟨bt2, List.mem_cons_of_mem _ hm, h1, h2, h3⟩
    · rw [if_neg ht0] at h
      obtain ⟨hq, hw⟩ := hg bt (List.mem_cons_self _ _)
      have htEq : findSufficient bt.start bt.size size s.quantum 0 0 = bt.start := by
        rcases @fs_values _ bt.size size _ hq hw with h1 | h1
        · exact h1
        · exact absurd h1 ht0
      rw [htEq] at h
      have hmx : ¬ ((0 : Nat) ≠ 0 ∧ (0 : Nat) < bt.start + size) := by
        intro hc
        exact hc.1 rfl
      rw [if_neg hmx] at h
      by_cases hfr : bt.status = BtStatus.free
      swap
      · rw [if_neg hfr] at h; cases h
      rw [if_pos hfr] at h
      dsimp only at h
      rw [if_pos rfl] at h
      dsimp only at h
      cases hacc : account_alloc { s with freeSegs := bucketRemove s.freeSegs bt }
          bt.start size with
      | none => rw [hacc] at h; cases h
      | some sX =>
        rw [hacc] at h
        replace h : some (some bt.start, sX) = some (some p, s1) := h
        injection h with h
        injection h with h1 h2
        injection h1 with h1
        subst h2
        exact ⟨bt, List.mem_cons_self _ _, h1, hfr, by rw [h1] at hacc; exact hacc⟩

theorem minmax_nextfit_succ {s : ArenaState} {size minaddr p : Nat} {sX : ArenaState}
    (hgeom : ∀ x ∈ s.segs, x.start % s.quantum = 0 ∧ x.start + x.size < W)
    (h : xalloc_min_max s size s.quantum 0 0 minaddr 0 = some (some p, sX)) :
    ∃ bt, bt ∈ s.segs ∧ bt.start = p ∧ bt.status = BtStatus.free ∧
      account_alloc { s with freeSegs := bucketRemove s.freeSegs bt } p size = some sX := by
  unfold xalloc_min_max at h
  have hsub : (s.segs.dropWhile fun bt => bt.start < minaddr).Sublist s.segs :=
    List.dropWhile_sublist _
  obtain ⟨bt, hm, h1, h2, h3⟩ := walk_nextfit
    (fun x hx => by
      obtain ⟨hq, hw⟩ := hgeom x (hsub.mem hx)
      exact ⟨hq, by omega⟩) h
  exact ⟨bt, hsub.mem hm, h1, h2, h3⟩

theorem rt_nextfit_finish {s : ArenaState} {bt : Btag} {p nsize : Nat} {s1 : ArenaState}
    (hwf : arenaWF s) (hbt : bt ∈ s.segs) (hbst : bt.start = p)
    (hbfr : bt.status = BtStatus.free)
    (hacc2 : account_alloc { s with freeSegs := bucketRemove s.freeSegs bt, last_nextfit_alloc := p } p nsize = some s1) :
    ∃ s2, free_from_arena s1 p nsize = some (s2, none) ∧ stateRestored s2 s := by
  obtain ⟨hsort, hdisj, hnospan, hnadj, hgeom, hbsound, hbcomp, hflen, hhlen⟩ := hwf
  obtain ⟨bt2, rest, hex, hfr2, hst2, hsz2, s2, hfree, hsegs, hfs, hhash,
    htot, hall, hnr, hqu, hsrc, hlnf⟩ :=
    @rt_core { s with freeSegs := bucketRemove s.freeSegs bt, last_nextfit_alloc := p } _ _ _ hsort hdisj hnospan hnadj hhlen hacc2
  have hbt2mem : bt2 ∈ s.segs := by
    obtain ⟨pre2, post2, hseg2, -, -, -, -⟩ := extractSeg_eq hex
    replace hseg2 : s.segs = pre2 ++ bt2 :: post2 := hseg2
    rw [hseg2]
    exact List.mem_append_right _ (List.mem_cons_self _ _)
  have hbtEq : bt2 = bt := by
    obtain ⟨-, -, -, -, -, -, hns2⟩ := extractSeg_eq hex
    refine nonspan_unique hsort hbt2mem hbt ?_ ?_ ?_
    · exact hns2
    · rw [hbfr]; simp
    · rw [hst2, hbst]
  have hszW : bt.size < W := by
    obtain ⟨-, hw⟩ := hgeom bt hbt
    omega
  have hk : bucketIdx bt.size < ARENA_NR_FREE_LISTS := bucketIdx_lt hszW
  have hkl : bucketIdx bt.size < s.freeSegs.length := by rw [hflen]; exact hk
  have hpmem : p ∈ getBucket s.freeSegs (bucketIdx bt.size) := by
    rw [← hbst]
    exact hbcomp bt hbt hbfr
  refine ⟨s2, hfree, ?_, ?_, ?_, ?_, ?_, ?_⟩
  · rw [hsegs]
  · intro i hi
    replace hfs : s2.freeSegs = bucketPush (bucketRemove s.freeSegs bt)
      ⟨p, bt2.size, BtStatus.free⟩ := hfs
    rw [hfs, hbtEq]
    unfold bucketPush bucketRemove
    have hidx : bucketIdx (⟨p, bt.size, BtStatus.free⟩ : Btag).size = bucketIdx bt.size := rfl
    rw [hidx, ← hbst]
    rw [listUpd_listUpd]
    by_cases hik : i = bucketIdx bt.size
    · subst hik
      rw [getBucket_listUpd_same _ _ _ hkl]
      rw [hbst]
      exact cons_removeFirst_perm hpmem
    · rw [getBucket_listUpd_other _ _ _ _ hik]
  · intro i hi
    replace hhash : s2.allocHash = s.allocHash := hhash
    rw [hhash]
  · replace htot : s2.amt_total_segs = s.amt_total_segs := htot
    exact htot
  · replace hall : s2.amt_alloc_segs = s.amt_alloc_segs := hall
    exact hall
  · replace hnr : s2.nr_allocs = s.nr_allocs := hnr
    exact hnr

theorem rt_nextfit {s : ArenaState} {n : Nat} {f : MemFlags} {p : Nat} {s1 : ArenaState}
    (hwf : arenaWF s) (hstyle : f.style = AllocStyle.nextfit)
    (halloc : arena_alloc s n f [] = some (some p, s1)) :
    ∃ s2, arena_free s1 p n = some (s2, none) ∧ stateRestored s2 s := by
  unfold arena_alloc at halloc
  dsimp only at halloc
  by_cases hz : ROUNDUP n s.quantum % W = 0
  · rw [if_pos hz] at halloc; cases halloc
  rw [if_neg hz] at halloc
  unfold arenaAllocLoop at halloc
  cases ha : alloc_from_arena s (ROUNDUP n s.quantum % W) f with
  | none => rw [ha] at halloc; cases halloc
  | some q =>
    obtain ⟨p0, sA⟩ := q
    rw [ha] at halloc
    cases p0 with
    | none =>
      exfalso
      replace halloc : (match get_more_resources sA (ROUNDUP n s.quantum % W) f none with
        | none => none
        | some (_, s2) => some ((none : Option Nat), s2)) = some (some p, s1) := halloc
      cases hg : get_more_resources sA (ROUNDUP n s.quantum % W) f none with
      | none => rw [hg] at halloc; cases halloc
      | some q2 =>
        obtain ⟨g, sB⟩ := q2
        rw [hg] at halloc
        replace halloc : some ((none : Option Nat), sB) = some (some p, s1) := halloc
        injection halloc with halloc
        injection halloc with h1 h2
        cases h1
    | some pv =>
      replace halloc : some (some pv, sA) = some (some p, s1) := halloc
      injection halloc with halloc
      injection halloc with h1 h2
      injection h1 with h1
      subst pv
      subst sA
      unfold alloc_from_arena at ha
      rw [hstyle] at ha
      unfold xalloc_nextfit at ha
      have hgeom := hwf.2.2.2.2.1
      cases h1 : xalloc_min_max s (ROUNDUP n s.quantum % W) s.quantum 0 0
          ((s.last_nextfit_alloc + s.quantum) % W) 0 with
      | none => rw [h1] at ha; cases ha
      | some q1 =>
        obtain ⟨p1, sB⟩ := q1
        rw [h1] at ha
        cases p1 with
        | some pq =>
          replace ha : some (some pq, { sB with last_nextfit_alloc := pq }) =
              some (some p, s1) := ha
          injection ha with ha
          injection ha with hA hB
          injection hA with hA
          subst pq
          obtain ⟨bt, hm, hbst, hbfr, h3⟩ := minmax_nextfit_succ hgeom h1
          have hacc2 : account_alloc { s with freeSegs := bucketRemove s.freeSegs bt, last_nextfit_alloc := p } p (ROUNDUP n s.quantum % W) = some s1 := by
            have hcur := account_cursor { s with freeSegs := bucketRemove s.freeSegs bt }
              p p (ROUNDUP n s.quantum % W)
            rw [h3] at hcur
            replace hcur : account_alloc { s with freeSegs := bucketRemove s.freeSegs bt, last_nextfit_alloc := p } p (ROUNDUP n s.quantum % W) =
              some { sB with last_nextfit_alloc := p } := hcur
            rw [hB] at hcur
            exact hcur
          obtain ⟨s2, hfree, hrest⟩ := rt_nextfit_finish hwf hm hbst hbfr hacc2
          refine ⟨s2, ?_, hrest⟩
          show free_from_arena s1 p (ROUNDUP n s1.quantum % W) = some (s2, none)
          have hqq : s1.quantum = s.quantum := by
            obtain ⟨-, -, -, -, -, -, -, hq, -⟩ := account_alloc_spec hacc2
            exact hq
          rw [hqq]
          exact hfree
        | none =>
          dsimp only at ha
          cases h2 : xalloc_min_max s (ROUNDUP n s.quantum % W) s.quantum 0 0
              s.quantum 0 with
          | none => rw [h2] at ha; cases ha
          | some q2 =>
            obtain ⟨p2, sC⟩ := q2
            rw [h2] at ha
            cases p2 with
            | none =>
              replace ha : some ((none : Option Nat), sC) = some (some p, s1) := ha
              injection ha with ha
              injection ha with hA hB
              cases hA
            | some pq =>
              replace ha : some (some pq, { sC with last_nextfit_alloc := pq }) =
                  some (some p, s1) := ha
              injection ha with ha
              injection ha with hA hB
              injection hA with hA
              subst pq
              obtain ⟨bt, hm, hbst, hbfr, h3⟩ := minmax_nextfit_succ hgeom h2
              have hacc2 : account_alloc { s with freeSegs := bucketRemove s.freeSegs bt, last_nextfit_alloc := p } p (ROUNDUP n s.quantum % W) = some s1 := by
                have hcur := account_cursor { s with freeSegs := bucketRemove s.freeSegs bt }
                  p p (ROUNDUP n s.quantum % W)
                rw [h3] at hcur
                replace hcur : account_alloc { s with freeSegs := bucketRemove s.freeSegs bt, last_nextfit_alloc := p } p (ROUNDUP n s.quantum % W) =
                  some { sC with last_nextfit_alloc := p } := hcur
                rw [hB] at hcur
                exact hcur
              obtain ⟨s2, hfree, hrest⟩ := rt_nextfit_finish hwf hm hbst hbfr hacc2
              refine ⟨s2, ?_, hrest⟩
              show free_from_arena s1 p (ROUNDUP n s1.quantum % W) = some (s2, none)
              have hqq : s1.quantum = s.quantum := by
                obtain ⟨-, -, -, -, -, -, -, hq, -⟩ := account_alloc_spec hacc2
                exact hq
              rw [hqq]
              exact hfree

/-- C3 (amended): from a well-formed arena state (ordered, disjoint, span-free
segments with no two address-adjacent FREE tags, quantum-aligned starts, and
consistent free lists and hash), every successful INSTANTFIT or NEXTFIT
arena_alloc satisfied from the arena's present segments — the empty import
oracle: source.afunc is never called — is exactly undone by arena_free of
the returned address and the same size: the free succeeds without returning
a span, and the segment tree, the free-list buckets (as multisets), the
alloc hash and the three counters are restored.  The exclusions are forced
by the counterexample: adjacent FREE tags coalesce on free (the tree
shrinks), a BESTFIT allocation satisfied by the bucket scan leaves a stale
free-list entry, and an allocation that first imports a span from the
source is not undone either, because the free coalesces the freed segment
across the imported span's boundary with pre-existing free space. -/
theorem c3_round_trip_restores {s : ArenaState} {n : Nat} {f : MemFlags}
    {p : Nat} {s1 : ArenaState}
    (hwf : arenaWF s)
    (hstyle : f.style = AllocStyle.instantfit ∨ f.style = AllocStyle.nextfit)
    (halloc : arena_alloc s n f [] = some (some p, s1)) :
    ∃ s2, arena_free s1 p n = some (s2, none) ∧ stateRestored s2 s := by
  rcases hstyle with h | h
  · exact rt_instantfit hwf h halloc
  · exact rt_nextfit hwf h halloc

set_option maxRecDepth 8000 in
/-- C3 witness: a concrete 0x180-byte instant-fit allocation from the arena
with free segment [0x100, 0x1100) (quantum 0x100), freed again with the
caller size 0x180. -/
theorem c3_round_trip_restores_witness :
    ∃ s2, arena_free c3W1 0x100 0x180 = some (s2, none) ∧ stateRestored s2 c6ArenaS :=
  @c3_round_trip_restores c6ArenaS 0x180 fWait 0x100 c3W1
    (by decide) (Or.inl rfl) (by decide)

theorem log2w_le : ∀ (f n : Nat), log2w f n ≤ f := by
  intro f
  induction f with
  | zero => intro n; exact le_refl 0
  | succ g ih =>
    intro n
    unfold log2w
    by_cases h2 : 2 ≤ n
    · rw [if_pos h2]
      exact Nat.succ_le_succ (ih (n / 2))
    · rw [if_neg h2]
      omega

theorem pwr2_dvd_W {x : Nat} (h : IS_PWR2 x) : x ∣ W := by
  obtain ⟨hne, hpw⟩ := h
  rw [← hpw]
  show (2 : Nat) ^ LOG2_DOWN x ∣ 2 ^ 64
  exact pow_dvd_pow 2 (log2w_le 64 x)

theorem roundup_mod {a n : Nat} (hn : n ≠ 0) : ROUNDUP a n % n = 0 := by
  unfold ROUNDUP
  rw [if_neg hn]
  exact Nat.mul_mod_left _ _

theorem roundup_ge (a n : Nat) : a ≤ ROUNDUP a n := by
  unfold ROUNDUP
  by_cases hn : n = 0
  · rw [if_pos hn]
  · rw [if_neg hn]
    have h0 : 0 < n := Nat.pos_of_ne_zero hn
    by_cases ha : a = 0
    · subst ha; exact Nat.zero_le _
    · by_contra hlt
      push_neg at hlt
      have h1 : (a + n - 1) / n * n ≤ a - 1 := by omega
      have h2 : (a + n - 1) / n ≤ (a - 1) / n := by
        rw [Nat.le_div_iff_mul_le h0]
        exact h1
      have h3 : a + n - 1 = (a - 1) + n := by omega
      rw [h3, Nat.add_div_right _ h0] at h2
      omega

theorem roundup_le_of_dvd_ge {a n M : Nat} (hd : n ∣ M) (ha : a ≤ M) :
    ROUNDUP a n ≤ M := by
  unfold ROUNDUP
  by_cases hn : n = 0
  · rw [if_pos hn]; exact ha
  · rw [if_neg hn]
    have h0 : 0 < n := Nat.pos_of_ne_zero hn
    obtain ⟨k, hk⟩ := hd
    subst hk
    have h1 : (a + n - 1) / n ≤ k := by
      rw [Nat.div_le_iff_le_mul_add_pred h0]
      omega
    calc (a + n - 1) / n * n ≤ k * n := Nat.mul_le_mul_right n h1
    _ = n * k := Nat.mul_comm _ _

theorem W_pos : 0 < W := by
  show (0 : Nat) < 2 ^ 64
  exact pow_pos (by norm_num) 64

theorem sub64_eq {a b : Nat} (ha : a < W) (hb : b < W) :
    sub64 a b = if b ≤ a then a - b else a + W - b := by
  unfold sub64
  rw [Nat.mod_eq_of_lt ha, Nat.mod_eq_of_lt hb]
  by_cases h : b ≤ a
  · rw [if_pos h]
    have h1 : a + (W - b) = (a - b) + W := by omega
    rw [h1, Nat.add_mod_right, Nat.mod_eq_of_lt (by omega)]
  · rw [if_neg h]
    have h1 : a + (W - b) = a + W - b := by omega
    rw [h1, Nat.mod_eq_of_lt (by omega)]

theorem roundup_lt_add {a n : Nat} (hn : n ≠ 0) : ROUNDUP a n < a + n := by
  unfold ROUNDUP
  rw [if_neg hn]
  have h0 : 0 < n := Nat.pos_of_ne_zero hn
  calc (a + n - 1) / n * n ≤ a + n - 1 := Nat.div_mul_le_self _ _
  _ < a + n := by omega

theorem roundup_eq_succ {a n : Nat} (hn : n ≠ 0) (hr : a % n ≠ 0) :
    ROUNDUP a n = (a / n + 1) * n := by
  unfold ROUNDUP
  rw [if_neg hn]
  have h0 : 0 < n := Nat.pos_of_ne_zero hn
  have hd := Nat.div_add_mod a n
  have hm := Nat.mod_lt a h0
  have h1 : a + n - 1 = n * (a / n) + (a % n + n - 1) := by omega
  rw [h1, Nat.mul_add_div h0]
  have h2 : (a % n + n - 1) / n = 1 := by
    refine Nat.div_eq_of_lt_le (by omega) (by omega)
  rw [h2]

theorem pwr2_dvd_or {x y : Nat} (hx : IS_PWR2 x) (hy : IS_PWR2 y) : x ∣ y ∨ y ∣ x := by
  obtain ⟨-, hx2⟩ := hx
  obtain ⟨-, hy2⟩ := hy
  rcases le_total (LOG2_DOWN x) (LOG2_DOWN y) with h | h
  · left
    rw [← hx2, ← hy2]
    exact pow_dvd_pow 2 h
  · right
    rw [← hx2, ← hy2]
    exact pow_dvd_pow 2 h

theorem fsF_zero_nocross {fuel bs bsz size align phase : Nat}
    (h : findSufficientF (fuel + 1) bs bsz size align phase 0 ≠ 0) :
    findSufficientF (fuel + 1) bs bsz size align phase 0 =
      (rup64 bs align + phase) % W := by
  unfold findSufficientF at h ⊢
  by_cases g1 : (rup64 bs align + phase) % W < bs
  · rw [if_pos g1] at h; exact absurd rfl h
  rw [if_neg g1] at h ⊢
  by_cases g2 : ((rup64 bs align + phase) % W + size) % W < (rup64 bs align + phase) % W
  · rw [if_pos g2] at h; exact absurd rfl h
  rw [if_neg g2] at h ⊢
  by_cases g3 : (bs + bsz) % W < ((rup64 bs align + phase) % W + size) % W
  · rw [if_pos g3] at h; exact absurd rfl h
  rw [if_neg g3] at h ⊢
  rw [if_pos rfl]

theorem fsF_mod_align {align phase : Nat} (hal : IS_PWR2 align) :
    ∀ (fuel : Nat) {bs bsz size nocross : Nat},
    findSufficientF fuel bs bsz size align phase nocross ≠ 0 →
    findSufficientF fuel bs bsz size align phase nocross % align = phase % align := by
  have hdvd : align ∣ W := pwr2_dvd_W hal
  have hane : align ≠ 0 := hal.1
  have hkey : ∀ x, ((rup64 x align + phase) % W) % align = phase % align := by
    intro x
    rw [Nat.mod_mod_of_dvd _ hdvd]
    unfold rup64
    rw [Nat.add_mod, Nat.mod_mod_of_dvd _ hdvd, roundup_mod hane, Nat.zero_add,
      Nat.mod_mod_of_dvd phase (dvd_refl align)]
  intro fuel
  induction fuel with
  | zero => intro bs bsz size nocross h; exact absurd rfl h
  | succ g ih =>
    intro bs bsz size nocross h
    unfold findSufficientF at h ⊢
    by_cases g1 : (rup64 bs align + phase) % W < bs
    · rw [if_pos g1] at h; exact absurd rfl h
    rw [if_neg g1] at h ⊢
    by_cases g2 : ((rup64 bs align + phase) % W + size) % W < (rup64 bs align + phase) % W
    · rw [if_pos g2] at h; exact absurd rfl h
    rw [if_neg g2] at h ⊢
    by_cases g3 : (bs + bsz) % W < ((rup64 bs align + phase) % W + size) % W
    · rw [if_pos g3] at h; exact absurd rfl h
    rw [if_neg g3] at h ⊢
    by_cases g4 : nocross = 0
    · rw [if_pos g4] at h ⊢
      exact hkey bs
    rw [if_neg g4] at h ⊢
    by_cases g5 : (rup64 bs align + phase) % W + size ≤
        rup64 ((rup64 bs align + phase) % W) nocross
    · rw [if_pos g5] at h ⊢
      exact hkey bs
    rw [if_neg g5] at h ⊢
    by_cases g6 : bsz < sub64 bsz (sub64 (rup64 bs nocross) bs)
    · rw [if_pos g6] at h; exact absurd rfl h
    rw [if_neg g6] at h ⊢
    by_cases g7 : (rup64 bs nocross + sub64 bsz (sub64 (rup64 bs nocross) bs)) % W <
        rup64 bs nocross
    · rw [if_pos g7] at h; exact absurd rfl h
    rw [if_neg g7] at h ⊢
    exact ih h

theorem fsF_ge : ∀ (fuel : Nat) {bs bsz size align phase nocross : Nat},
    bs + bsz < W → (nocross = 0 ∨ IS_PWR2 nocross) →
    findSufficientF fuel bs bsz size align phase nocross ≠ 0 →
    bs ≤ findSufficientF fuel bs bsz size align phase nocross := by
  intro fuel
  induction fuel with
  | zero => intro bs bsz size align phase nocross hg hnc h; exact absurd rfl h
  | succ g ih =>
    intro bs bsz size align phase nocross hg hnc h
    unfold findSufficientF at h ⊢
    by_cases g1 : (rup64 bs align + phase) % W < bs
    · rw [if_pos g1] at h; exact absurd rfl h
    rw [if_neg g1] at h ⊢
    by_cases g2 : ((rup64 bs align + phase) % W + size) % W < (rup64 bs align + phase) % W
    · rw [if_pos g2] at h; exact absurd rfl h
    rw [if_neg g2] at h ⊢
    by_cases g3 : (bs + bsz) % W < ((rup64 bs align + phase) % W + size) % W
    · rw [if_pos g3] at h; exact absurd rfl h
    rw [if_neg g3] at h ⊢
    by_cases g4 : nocross = 0
    · rw [if_pos g4] at h ⊢; omega
    rw [if_neg g4] at h ⊢
    by_cases g5 : (rup64 bs align + phase) % W + size ≤
        rup64 ((rup64 bs align + phase) % W) nocross
    · rw [if_pos g5] at h ⊢; omega
    rw [if_neg g5] at h ⊢
    by_cases g6 : bsz < sub64 bsz (sub64 (rup64 bs nocross) bs)
    · rw [if_pos g6] at h; exact absurd rfl h
    rw [if_neg g6] at h ⊢
    by_cases g7 : (rup64 bs nocross + sub64 bsz (sub64 (rup64 bs nocross) bs)) % W <
        rup64 bs nocross
    · rw [if_pos g7] at h; exact absurd rfl h
    rw [if_neg g7] at h ⊢
    have hncp : IS_PWR2 nocross := hnc.resolve_left g4
    have hnne : nocross ≠ 0 := hncp.1
    have hbsW : bs < W := by omega
    have hR1 : bs ≤ ROUNDUP bs nocross := roundup_ge _ _
    have hR2 : ROUNDUP bs nocross < bs + nocross := roundup_lt_add hnne
    have hnW : nocross ≤ W := Nat.le_of_dvd W_pos (pwr2_dvd_W hncp)
    by_cases hwrap : ROUNDUP bs nocross < W
    · have ht2 : rup64 bs nocross = ROUNDUP bs nocross := by
        unfold rup64; exact Nat.mod_eq_of_lt hwrap
      have hdiff : sub64 (rup64 bs nocross) bs = ROUNDUP bs nocross - bs := by
        rw [ht2, sub64_eq hwrap hbsW, if_pos hR1]
      by_cases hd2 : ROUNDUP bs nocross - bs ≤ bsz
      · have htry : sub64 bsz (sub64 (rup64 bs nocross) bs) =
            bsz - (ROUNDUP bs nocross - bs) := by
          rw [hdiff, sub64_eq (by omega) (by omega), if_pos hd2]
        have hg2 : rup64 bs nocross + sub64 bsz (sub64 (rup64 bs nocross) bs) < W := by
          rw [htry, ht2]; omega
        have hih := ih hg2 (Or.inl rfl) h
        have hbs2 : bs ≤ rup64 bs nocross := by rw [ht2]; omega
        omega
      · exfalso
        have htry : sub64 bsz (sub64 (rup64 bs nocross) bs) =
            bsz + W - (ROUNDUP bs nocross - bs) := by
          rw [hdiff, sub64_eq (by omega) (by omega), if_neg (by omega)]
        exact g6 (by rw [htry]; omega)
    · exfalso
      have hW2 : ROUNDUP bs nocross < 2 * W := by omega
      have ht2 : rup64 bs nocross = ROUNDUP bs nocross - W := by
        unfold rup64
        have h1 : ROUNDUP bs nocross = (ROUNDUP bs nocross - W) + W := by omega
        rw [h1, Nat.add_mod_right, Nat.mod_eq_of_lt (by omega)]
        omega
      have hdiff : sub64 (rup64 bs nocross) bs = ROUNDUP bs nocross - bs := by
        rw [ht2, sub64_eq (by omega) hbsW, if_neg (by omega)]
        omega
      have htry : sub64 bsz (sub64 (rup64 bs nocross) bs) =
          bsz + W - (ROUNDUP bs nocross - bs) := by
        rw [hdiff, sub64_eq (by omega) (by omega), if_neg (by omega)]
      exact g6 (by rw [htry]; omega)

theorem fs_nocross {bs bsz size align phase nocross : Nat}
    (hsz : size ≠ 0) (hszW : size < W) (hal : IS_PWR2 align) (hnc : IS_PWR2 nocross)
    (hnx : phase + size ≤ nocross)
    (h : findSufficient bs bsz size align phase nocross ≠ 0) :
    findSufficient bs bsz size align phase nocross / nocross =
    (findSufficient bs bsz size align phase nocross + size - 1) / nocross := by
  have hnne : nocross ≠ 0 := hnc.1
  have hnd : nocross ∣ W := pwr2_dvd_W hnc
  have hnW : nocross ≤ W := Nat.le_of_dvd W_pos hnd
  have hane : align ≠ 0 := hal.1
  have hph : phase < nocross := by omega
  unfold findSufficient findSufficientF at h ⊢
  by_cases g1 : (rup64 bs align + phase) % W < bs
  · rw [if_pos g1] at h; exact absurd rfl h
  rw [if_neg g1] at h ⊢
  by_cases g2 : ((rup64 bs align + phase) % W + size) % W < (rup64 bs align + phase) % W
  · rw [if_pos g2] at h; exact absurd rfl h
  rw [if_neg g2] at h ⊢
  by_cases g3 : (bs + bsz) % W < ((rup64 bs align + phase) % W + size) % W
  · rw [if_pos g3] at h; exact absurd rfl h
  rw [if_neg g3] at h ⊢
  rw [if_neg hnne] at h ⊢
  by_cases g5 : (rup64 bs align + phase) % W + size ≤
      rup64 ((rup64 bs align + phase) % W) nocross
  · rw [if_pos g5] at h ⊢
    have ht : (rup64 bs align + phase) % W < W := Nat.mod_lt _ W_pos
    have hBle : ROUNDUP ((rup64 bs align + phase) % W) nocross ≤ W :=
      roundup_le_of_dvd_ge hnd (le_of_lt ht)
    by_cases hBW : ROUNDUP ((rup64 bs align + phase) % W) nocross = W
    · exfalso
      have h0 : rup64 ((rup64 bs align + phase) % W) nocross = 0 := by
        show ROUNDUP ((rup64 bs align + phase) % W) nocross % W = 0
        rw [hBW]
        exact Nat.mod_self W
      rw [h0] at g5
      omega
    have hBlt : ROUNDUP ((rup64 bs align + phase) % W) nocross < W := by omega
    have hrB : rup64 ((rup64 bs align + phase) % W) nocross =
        ROUNDUP ((rup64 bs align + phase) % W) nocross := by
      show ROUNDUP ((rup64 bs align + phase) % W) nocross % W = _
      exact Nat.mod_eq_of_lt hBlt
    rw [hrB] at g5
    by_cases hr0 : (rup64 bs align + phase) % W % nocross = 0
    · exfalso
      have hRs : ROUNDUP ((rup64 bs align + phase) % W) nocross =
          (rup64 bs align + phase) % W := ROUNDUP_self hr0
      rw [hRs] at g5
      omega
    have hBsucc : ROUNDUP ((rup64 bs align + phase) % W) nocross =
        ((rup64 bs align + phase) % W / nocross + 1) * nocross :=
      roundup_eq_succ hnne hr0
    obtain ⟨m, hm⟩ : ∃ m, (rup64 bs align + phase) % W / nocross * nocross = m := ⟨_, rfl⟩
    have hlow : m ≤ (rup64 bs align + phase) % W := by
      rw [← hm]; exact Nat.div_mul_le_self _ _
    have hupp : (rup64 bs align + phase) % W + size - 1 < m + nocross := by
      have h1 : ((rup64 bs align + phase) % W / nocross + 1) * nocross = m + nocross := by
        rw [← hm]; ring
      rw [hBsucc, h1] at g5
      omega
    refine (Nat.div_eq_of_lt_le ?_ ?_).symm
    · rw [hm]; omega
    · have h1 : ((rup64 bs align + phase) % W / nocross + 1) * nocross = m + nocross := by
        rw [← hm]; ring
      rw [h1]
      exact hupp
  · rw [if_neg g5] at h ⊢
    by_cases g6 : bsz < sub64 bsz (sub64 (rup64 bs nocross) bs)
    · rw [if_pos g6] at h; exact absurd rfl h
    rw [if_neg g6] at h ⊢
    by_cases g7 : (rup64 bs nocross + sub64 bsz (sub64 (rup64 bs nocross) bs)) % W <
        rup64 bs nocross
    · rw [if_pos g7] at h; exact absurd rfl h
    rw [if_neg g7] at h ⊢
    have hv := @fsF_zero_nocross 0 _ _ _ _ _ h
    rw [hv] at h ⊢
    have ht2m : rup64 bs nocross % nocross = 0 := by
      unfold rup64
      rw [Nat.mod_mod_of_dvd _ hnd]
      exact roundup_mod hnne
    have hAm : ROUNDUP (rup64 bs nocross) align % nocross = 0 := by
      rcases pwr2_dvd_or hal hnc with hdv | hdv
      · have h1 : align ∣ rup64 bs nocross :=
          dvd_trans hdv (Nat.dvd_of_mod_eq_zero ht2m)
        rw [ROUNDUP_self (Nat.eq_zero_of_dvd_of_lt h1 |> fun _ => Nat.mod_eq_zero_of_dvd h1)]
        exact ht2m
      · have h1 : align ∣ ROUNDUP (rup64 bs nocross) align :=
          Nat.dvd_of_mod_eq_zero (roundup_mod hane)
        exact Nat.mod_eq_zero_of_dvd (dvd_trans hdv h1)
    have hvm : ((rup64 (rup64 bs nocross) align + phase) % W) % nocross = phase := by
      rw [Nat.mod_mod_of_dvd _ hnd, Nat.add_mod]
      have h1 : rup64 (rup64 bs nocross) align % nocross = 0 := by
        show ROUNDUP (rup64 bs nocross) align % W % nocross = 0
        rw [Nat.mod_mod_of_dvd _ hnd]
        exact hAm
      rw [h1, Nat.zero_add, Nat.mod_mod_of_dvd phase (dvd_refl nocross),
        Nat.mod_eq_of_lt hph]
    have hdm := Nat.div_add_mod ((rup64 (rup64 bs nocross) align + phase) % W) nocross
    rw [hvm] at hdm
    obtain ⟨m, hm⟩ : ∃ m, nocross *
        ((rup64 (rup64 bs nocross) align + phase) % W / nocross) = m := ⟨_, rfl⟩
    rw [hm] at hdm
    refine (Nat.div_eq_of_lt_le ?_ ?_).symm
    · have h1 : (rup64 (rup64 bs nocross) align + phase) % W / nocross * nocross = m := by
        rw [← hm]; ring
      rw [h1]
      omega
    · have h1 : ((rup64 (rup64 bs nocross) align + phase) % W / nocross + 1) * nocross =
          m + nocross := by
        rw [← hm]; ring
      rw [h1]
      omega

theorem dropWhile_ge {m : Nat} : ∀ {l : List Btag}, SegsSorted l →
    ∀ x ∈ l.dropWhile (fun bt => bt.start < m), m ≤ x.start := by
  intro l
  induction l with
  | nil => intro hs x hx; cases hx
  | cons b t ih =>
    intro hs x hx
    simp only [List.dropWhile_cons, decide_eq_true_eq] at hx
    by_cases hh : b.start < m
    · rw [if_pos hh] at hx
      exact ih (List.pairwise_cons.mp hs).2 x hx
    · rw [if_neg hh] at hx
      rcases List.mem_cons.mp hx with rfl | hx
      · omega
      · rcases (List.pairwise_cons.mp hs).1 x hx with h1 | ⟨h1, -⟩ <;> omega

theorem walk_sat {s : ArenaState} {size align phase nocross maxaddr : Nat} :
    ∀ {l : List Btag} {p : Nat} {s1 : ArenaState},
    xallocMinMaxWalk s size align phase nocross maxaddr l = some (some p, s1) →
    ∃ bt, bt ∈ l ∧ p = findSufficient bt.start bt.size size align phase nocross ∧
      p ≠ 0 ∧ (maxaddr ≠ 0 → p + size ≤ maxaddr) := by
  intro l
  induction l with
  | nil =>
    intro p s1 h
    replace h : some ((none : Option Nat), s) = some (some p, s1) := h
    injection h with h
    injection h with h1 h2
    cases h1
  | cons bt rest ih =>
    intro p s1 h
    unfold xallocMinMaxWalk at h
    by_cases ht0 : findSufficient bt.start bt.size size align phase nocross = 0
    · rw [if_pos ht0] at h
      obtain ⟨bt2, hm, h1, h2, h3⟩ := ih h
      exact ⟨bt2, List.mem_cons_of_mem _ hm, h1, h2, h3⟩
    · rw [if_neg ht0] at h
      by_cases hmx : maxaddr ≠ 0 ∧
          maxaddr < findSufficient bt.start bt.size size align phase nocross + size
      · rw [if_pos hmx] at h
        replace h : some ((none : Option Nat), s) = some (some p, s1) := h
        injection h with h
        injection h with h1 h2
        cases h1
      · rw [if_neg hmx] at h
        by_cases hfr : bt.status = BtStatus.free
        swap
        · rw [if_neg hfr] at h; cases h
        rw [if_pos hfr] at h
        dsimp only at h
        cases hsp : (if findSufficient bt.start bt.size size align phase nocross = bt.start
            then some { s with freeSegs := bucketRemove s.freeSegs bt }
            else split_bt_at { s with freeSegs := bucketRemove s.freeSegs bt } bt.start
              (findSufficient bt.start bt.size size align phase nocross)) with
        | none => rw [hsp] at h; cases h
        | some s2 =>
          rw [hsp] at h
          dsimp only at h
          cases hacc : account_alloc s2
              (findSufficient bt.start bt.size size align phase nocross) size with
          | none => rw [hacc] at h; cases h
          | some s3 =>
            rw [hacc] at h
            replace h : some
                (some (findSufficient bt.start bt.size size align phase nocross), s3) =
                some (some p, s1) := h
            injection h with h
            injection h with h1 h2
            injection h1 with h1
            refine ⟨bt, List.mem_cons_self _ _, h1.symm, by rw [← h1]; exact ht0, ?_⟩
            intro hm0
            rw [← h1]
            push_neg at hmx
            exact hmx hm0

theorem minmax_sat {s : ArenaState} {size align phase nocross minaddr maxaddr p : Nat}
    {s1 : ArenaState} (hsort : SegsSorted s.segs)
    (h : xalloc_min_max s size align phase nocross minaddr maxaddr = some (some p, s1)) :
    ∃ bt, bt ∈ s.segs ∧ minaddr ≤ bt.start ∧
      p = findSufficient bt.start bt.size size align phase nocross ∧ p ≠ 0 ∧
      (maxaddr ≠ 0 → p + size ≤ maxaddr) := by
  unfold xalloc_min_max at h
  obtain ⟨bt, hm, h1, h2, h3⟩ := walk_sat h
  have hsub : (s.segs.dropWhile fun bt => bt.start < minaddr).Sublist s.segs :=
    List.dropWhile_sublist _
  exact ⟨bt, hsub.mem hm, dropWhile_ge hsort bt hm, h1, h2, h3⟩

theorem scanBucket_shape {segs : List Btag} {size align phase nocross : Nat} :
    ∀ {l : List Nat} {a t : Nat},
    xallocScanBucket segs size align phase nocross l = some (a, t) →
    ∃ bs bsz, t = findSufficient bs bsz size align phase nocross ∧ t ≠ 0 := by
  intro l
  induction l with
  | nil =>
    intro a t h
    replace h : (none : Option (Nat × Nat)) = some (a, t) := h
    cases h
  | cons x rest ih =>
    intro a t h
    unfold xallocScanBucket at h
    cases hf : findSeg x segs with
    | none => rw [hf] at h; exact ih h
    | some bt =>
      rw [hf] at h
      dsimp only at h
      by_cases ht : findSufficient bt.start bt.size size align phase nocross ≠ 0
      · rw [if_pos ht] at h
        replace h : some (x, findSufficient bt.start bt.size size align phase nocross) =
            some (a, t) := h
        injection h with h
        injection h with h1 h2
        exact ⟨bt.start, bt.size, h2.symm, by rw [← h2]; exact ht⟩
      · rw [if_neg ht] at h
        exact ih h

theorem scanAux_shape {segs : List Btag} {fs : List (List Nat)}
    {size align phase nocross : Nat} :
    ∀ {fuel i a t j : Nat},
    xallocScanAux segs fs size align phase nocross i fuel = some (a, t, j) →
    ∃ bs bsz, t = findSufficient bs bsz size align phase nocross ∧ t ≠ 0 := by
  intro fuel
  induction fuel with
  | zero =>
    intro i a t j h
    replace h : (none : Option (Nat × Nat × Nat)) = some (a, t, j) := h
    cases h
  | succ n ih =>
    intro i a t j h
    unfold xallocScanAux at h
    cases hb : xallocScanBucket segs size align phase nocross (fs.getD i []) with
    | some q =>
      obtain ⟨a0, t0⟩ := q
      rw [hb] at h
      replace h : some (a0, t0, i) = some (a, t, j) := h
      injection h with h
      injection h with h1 h2
      injection h2 with h2a h2b
      subst h2a
      exact scanBucket_shape hb
    | none =>
      rw [hb] at h
      exact ih h

theorem freelists_shape {s : ArenaState} {size align phase nocross : Nat} {ti : Bool}
    {p : Nat} {s1 : ArenaState}
    (h : xalloc_from_freelists s size align phase nocross ti = some (some p, s1)) :
    ∃ bs bsz, p = findSufficient bs bsz size align phase nocross ∧ p ≠ 0 := by
  unfold xalloc_from_freelists at h
  by_cases hlt : (rup64 size align + phase) % W < size
  · rw [if_pos hlt] at h
    replace h : some ((none : Option Nat), s) = some (some p, s1) := h
    injection h with h
    injection h with h1 h2
    cases h1
  · rw [if_neg hlt] at h
    dsimp only at h
    cases hsc : xallocScanAux s.segs s.freeSegs size align phase nocross
        (LOG2_DOWN ((rup64 size align + phase) % W) + if ti then 1 else 0)
        (ARENA_NR_FREE_LISTS -
          (LOG2_DOWN ((rup64 size align + phase) % W) + if ti then 1 else 0)) with
    | none =>
      rw [hsc] at h
      replace h : some ((none : Option Nat), s) = some (some p, s1) := h
      injection h with h
      injection h with h1 h2
      cases h1
    | some q =>
      obtain ⟨a, q2⟩ := q
      obtain ⟨t, i⟩ := q2
      rw [hsc] at h
      dsimp only at h
      cases hspl : (if t = a then
          some { s with freeSegs := listUpd s.freeSegs i (removeFirst a) }
        else split_bt_at { s with freeSegs := listUpd s.freeSegs i (removeFirst a) } a t) with
      | none => rw [hspl] at h; cases h
      | some s2 =>
        rw [hspl] at h
        dsimp only at h
        cases hac : account_alloc s2 t size with
        | none => rw [hac] at h; cases h
        | some s3 =>
          rw [hac] at h
          replace h : some (some t, s3) = some (some p, s1) := h
          injection h with h
          injection h with h1 h2
          injection h1 with h1
          subst h1
          exact scanAux_shape hsc

theorem nextfit_shape {s : ArenaState} {size align phase nocross p : Nat} {s1 : ArenaState}
    (h : xalloc_nextfit s size align phase nocross = some (some p, s1)) :
    ∃ bs bsz, p = findSufficient bs bsz size align phase nocross ∧ p ≠ 0 := by
  unfold xalloc_nextfit at h
  cases h1 : xalloc_min_max s size align phase nocross
      ((s.last_nextfit_alloc + s.quantum) % W) 0 with
  | none => rw [h1] at h; cases h
  | some q =>
    obtain ⟨p0, sA⟩ := q
    rw [h1] at h
    cases p0 with
    | some pv =>
      replace h : some (some pv, { sA with last_nextfit_alloc := pv }) =
          some (some p, s1) := h
      injection h with h
      injection h with hp hs2
      injection hp with hp
      subst hp
      unfold xalloc_min_max at h1
      obtain ⟨bt, hm, hsh, hnz, -⟩ := walk_sat h1
      exact ⟨bt.start, bt.size, hsh, hnz⟩
    | none =>
      dsimp only at h
      cases h2 : xalloc_min_max s size align phase nocross s.quantum 0 with
      | none => rw [h2] at h; cases h
      | some q2 =>
        obtain ⟨p0, sB⟩ := q2
        rw [h2] at h
        cases p0 with
        | some pv =>
          replace h : some (some pv, { sB with last_nextfit_alloc := pv }) =
              some (some p, s1) := h
          injection h with h
          injection h with hp hs2
          injection hp with hp
          subst hp
          unfold xalloc_min_max at h2
          obtain ⟨bt, hm, hsh, hnz, -⟩ := walk_sat h2
          exact ⟨bt.start, bt.size, hsh, hnz⟩
        | none =>
          replace h : some ((none : Option Nat), sB) = some (some p, s1) := h
          injection h with h
          injection h with hp hs2
          cases hp

theorem xfa_shape {s : ArenaState} {size align phase nocross minaddr maxaddr : Nat}
    {f : MemFlags} {p : Nat} {s1 : ArenaState}
    (h : xalloc_from_arena s size align phase nocross minaddr maxaddr f =
      some (some p, s1)) :
    ∃ bs bsz, p = findSufficient bs bsz size align phase nocross ∧ p ≠ 0 := by
  unfold xalloc_from_arena at h
  by_cases hb : minaddr ≠ 0 ∨ maxaddr ≠ 0
  · rw [if_pos hb] at h
    unfold xalloc_min_max at h
    obtain ⟨bt, hm, hsh, hnz, -⟩ := walk_sat h
    exact ⟨bt.start, bt.size, hsh, hnz⟩
  · rw [if_neg hb] at h
    cases hst : f.style with
    | bestfit => rw [hst] at h; exact freelists_shape h
    | nextfit => rw [hst] at h; exact nextfit_shape h
    | instantfit => rw [hst] at h; exact freelists_shape h

theorem xloop_some_call {size align phase nocross minaddr maxaddr : Nat} :
    ∀ {oracle : List Nat} {f : MemFlags} {s : ArenaState} {p : Nat} {s1 : ArenaState},
    arenaXallocLoop size align phase nocross minaddr maxaddr f s oracle =
      some (some p, s1) →
    ∃ s0 f0 sA, xalloc_from_arena s0 size align phase nocross minaddr maxaddr f0 =
      some (some p, sA) := by
  intro oracle
  induction oracle with
  | nil =>
    intro f s p s1 h
    unfold arenaXallocLoop at h
    cases ha : xalloc_from_arena s size align phase nocross minaddr maxaddr f with
    | none => rw [ha] at h; cases h
    | some q =>
      obtain ⟨p0, sA⟩ := q
      rw [ha] at h
      cases p0 with
      | some pv =>
        replace h : some (some pv, sA) = some (some p, s1) := h
        injection h with h
        injection h with h1 h2
        injection h1 with h1
        subst h1
        exact ⟨s, f, sA, ha⟩
      | none =>
        exfalso
        replace h : (if (size + align + phase) % W < size then none
          else match get_more_resources sA ((size + align + phase) % W) f none with
            | none => none
            | some (_, s2) => some ((none : Option Nat), s2)) = some (some p, s1) := h
        by_cases hov : (size + align + phase) % W < size
        · rw [if_pos hov] at h; cases h
        · rw [if_neg hov] at h
          cases hg : get_more_resources sA ((size + align + phase) % W) f none with
          | none => rw [hg] at h; cases h
          | some q2 =>
            obtain ⟨g, sB⟩ := q2
            rw [hg] at h
            replace h : some ((none : Option Nat), sB) = some (some p, s1) := h
            injection h with h
            injection h with h1 h2
            cases h1
  | cons a rest ih =>
    intro f s p s1 h
    unfold arenaXallocLoop at h
    cases ha : xalloc_from_arena s size align phase nocross minaddr maxaddr f with
    | none => rw [ha] at h; cases h
    | some q =>
      obtain ⟨p0, sA⟩ := q
      rw [ha] at h
      cases p0 with
      | some pv =>
        replace h : some (some pv, sA) = some (some p, s1) := h
        injection h with h
        injection h with h1 h2
        injection h1 with h1
        subst h1
        exact ⟨s, f, sA, ha⟩
      | none =>
        replace h : (if (size + align + phase) % W < size then none
          else match get_more_resources sA ((size + align + phase) % W) f (some a) with
            | none => none
            | some (false, s2) => some ((none : Option Nat), s2)
            | some (true, s2) =>
              arenaXallocLoop size align phase nocross minaddr maxaddr
                { f with style := AllocStyle.bestfit } s2 rest) = some (some p, s1) := h
        by_cases hov : (size + align + phase) % W < size
        · rw [if_pos hov] at h; cases h
        · rw [if_neg hov] at h
          cases hg : get_more_resources sA ((size + align + phase) % W) f (some a) with
          | none => rw [hg] at h; cases h
          | some q2 =>
            obtain ⟨g, sB⟩ := q2
            rw [hg] at h
            cases g with
            | false =>
              replace h : some ((none : Option Nat), sB) = some (some p, s1) := h
              injection h with h
              injection h with h1 h2
              cases h1
            | true => exact ih h

theorem account_hasSource {s s1 : ArenaState} {a n : Nat}
    (h : account_alloc s a n = some s1) : s1.hasSource = s.hasSource := by
  obtain ⟨-, -, -, -, -, -, -, -, hs, -⟩ := account_alloc_spec h
  exact hs

theorem split_hasSource {s s1 : ArenaState} {a m : Nat}
    (h : split_bt_at s a m = some s1) : s1.hasSource = s.hasSource := by
  unfold split_bt_at at h
  cases he : extractSeg a s.segs with
  | none => rw [he] at h; cases h
  | some q =>
    obtain ⟨bt, rest⟩ := q
    rw [he] at h
    dsimp only at h
    by_cases hr : bt.start < m ∧ m < bt.start + bt.size
    swap
    · rw [if_neg hr] at h; cases h
    rw [if_pos hr] at h
    cases h1 : insertBtag ⟨bt.start, m - bt.start, BtStatus.free⟩ rest with
    | none => rw [h1] at h; cases h
    | some segs1 =>
      rw [h1] at h
      dsimp only at h
      cases h2 : insertBtag ⟨m, bt.size - (m - bt.start), bt.status⟩ segs1 with
      | none => rw [h2] at h; cases h
      | some segs2 =>
        rw [h2] at h
        replace h : some ({ s with segs := segs2, freeSegs := bucketPush s.freeSegs ⟨bt.start, m - bt.start, BtStatus.free⟩ } : ArenaState) = some s1 := h
        injection h with h
        rw [← h]

theorem walk_hasSource {s : ArenaState} {size align phase nocross maxaddr : Nat} :
    ∀ {l : List Btag} {r : Option Nat} {s1 : ArenaState},
    xallocMinMaxWalk s size align phase nocross maxaddr l = some (r, s1) →
    s1.hasSource = s.hasSource := by
  intro l
  induction l with
  | nil =>
    intro r s1 h
    replace h : some ((none : Option Nat), s) = some (r, s1) := h
    injection h with h
    injection h with h1 h2
    rw [← h2]
  | cons bt rest ih =>
    intro r s1 h
    unfold xallocMinMaxWalk at h
    by_cases ht0 : findSufficient bt.start bt.size size align phase nocross = 0
    · rw [if_pos ht0] at h
      exact ih h
    · rw [if_neg ht0] at h
      by_cases hmx : maxaddr ≠ 0 ∧
          maxaddr < findSufficient bt.start bt.size size align phase nocross + size
      · rw [if_pos hmx] at h
        replace h : some ((none : Option Nat), s) = some (r, s1) := h
        injection h with h
        injection h with h1 h2
        rw [← h2]
      · rw [if_neg hmx] at h
        by_cases hfr : bt.status = BtStatus.free
        swap
        · rw [if_neg hfr] at h; cases h
        rw [if_pos hfr] at h
        dsimp only at h
        cases hsp : (if findSufficient bt.start bt.size size align phase nocross = bt.start
            then some { s with freeSegs := bucketRemove s.freeSegs bt }
            else split_bt_at { s with freeSegs := bucketRemove s.freeSegs bt } bt.start
              (findSufficient bt.start bt.size size align phase nocross)) with
        | none => rw [hsp] at h; cases h
        | some s2 =>
          rw [hsp] at h
          dsimp only at h
          cases hacc : account_alloc s2
              (findSufficient bt.start bt.size size align phase nocross) size with
          | none => rw [hacc] at h; cases h
          | some s3 =>
            rw [hacc] at h
            replace h : some
                (some (findSufficient bt.start bt.size size align phase nocross), s3) =
                some (r, s1) := h
            injection h with h
            injection h with h1 h2
            subst h2
            have hs2 : s2.hasSource = s.hasSource := by
              by_cases hts : findSufficient bt.start bt.size size align phase nocross =
                  bt.start
              · rw [if_pos hts] at hsp
                injection hsp with hsp
                rw [← hsp]
              · rw [if_neg hts] at hsp
                have h5 := split_hasSource hsp
                exact h5
            rw [account_hasSource hacc, hs2]

theorem freelists_hasSource {s : ArenaState} {size align phase nocross : Nat} {ti : Bool}
    {r : Option Nat} {s1 : ArenaState}
    (h : xalloc_from_freelists s size align phase nocross ti = some (r, s1)) :
    s1.hasSource = s.hasSource := by
  unfold xalloc_from_freelists at h
  by_cases hlt : (rup64 size align + phase) % W < size
  · rw [if_pos hlt] at h
    replace h : some ((none : Option Nat), s) = some (r, s1) := h
    injection h with h
    injection h with h1 h2
    rw [← h2]
  · rw [if_neg hlt] at h
    dsimp only at h
    cases hsc : xallocScanAux s.segs s.freeSegs size align phase nocross
        (LOG2_DOWN ((rup64 size align + phase) % W) + if ti then 1 else 0)
        (ARENA_NR_FREE_LISTS -
          (LOG2_DOWN ((rup64 size align + phase) % W) + if ti then 1 else 0)) with
    | none =>
      rw [hsc] at h
      replace h : some ((none : Option Nat), s) = some (r, s1) := h
      injection h with h
      injection h with h1 h2
      rw [← h2]
    | some q =>
      obtain ⟨a, q2⟩ := q
      obtain ⟨t, i⟩ := q2
      rw [hsc] at h
      dsimp only at h
      cases hspl : (if t = a then
          some { s with freeSegs := listUpd s.freeSegs i (removeFirst a) }
        else split_bt_at { s with freeSegs := listUpd s.freeSegs i (removeFirst a) } a t) with
      | none => rw [hspl] at h; cases h
      | some s2 =>
        rw [hspl] at h
        dsimp only at h
        cases hac : account_alloc s2 t size with
        | none => rw [hac] at h; cases h
        | some s3 =>
          rw [hac] at h
          replace h : some (some t, s3) = some (r, s1) := h
          injection h with h
          injection h with h1 h2
          subst h2
          have hs2 : s2.hasSource = s.hasSource := by
            by_cases hts : t = a
            · rw [if_pos hts] at hspl
              injection hspl with hspl
              rw [← hspl]
            · rw [if_neg hts] at hspl
              have h5 := split_hasSource hspl
              exact h5
          rw [account_hasSource hac, hs2]

theorem minmax_hasSource {s : ArenaState}
    {size align phase nocross minaddr maxaddr : Nat} {r : Option Nat} {s1 : ArenaState}
    (h : xalloc_min_max s size align phase nocross minaddr maxaddr = some (r, s1)) :
    s1.hasSource = s.hasSource :=
  walk_hasSource h

theorem nextfit_hasSource {s : ArenaState} {size align phase nocross : Nat}
    {r : Option Nat} {s1 : ArenaState}
    (h : xalloc_nextfit s size align phase nocross = some (r, s1)) :
    s1.hasSource = s.hasSource := by
  unfold xalloc_nextfit at h
  cases h1 : xalloc_min_max s size align phase nocross
      ((s.last_nextfit_alloc + s.quantum) % W) 0 with
  | none => rw [h1] at h; cases h
  | some q =>
    obtain ⟨p0, sA⟩ := q
    rw [h1] at h
    cases p0 with
    | some pv =>
      replace h : some (some pv, { sA with last_nextfit_alloc := pv }) = some (r, s1) := h
      injection h with h
      injection h with hp hs2
      have h5 : sA.hasSource = s.hasSource := minmax_hasSource h1
      rw [← hs2]
      exact h5
    | none =>
      dsimp only at h
      cases h2 : xalloc_min_max s size align phase nocross s.quantum 0 with
      | none => rw [h2] at h; cases h
      | some q2 =>
        obtain ⟨p0, sB⟩ := q2
        rw [h2] at h
        cases p0 with
        | some pv =>
          replace h : some (some pv, { sB with last_nextfit_alloc := pv }) =
              some (r, s1) := h
          injection h with h
          injection h with hp hs2
          have h5 : sB.hasSource = s.hasSource := minmax_hasSource h2
          rw [← hs2]
          exact h5
        | none =>
          replace h : some ((none : Option Nat), sB) = some (r, s1) := h
          injection h with h
          injection h with hp hs2
          have h5 : sB.hasSource = s.hasSource := minmax_hasSource h2
          rw [← hs2]
          exact h5

theorem xfa_hasSource {s : ArenaState} {size align phase nocross minaddr maxaddr : Nat}
    {f : MemFlags} {r : Option Nat} {s1 : ArenaState}
    (h : xalloc_from_arena s size align phase nocross minaddr maxaddr f = some (r, s1)) :
    s1.hasSource = s.hasSource := by
  unfold xalloc_from_arena at h
  by_cases hb : minaddr ≠ 0 ∨ maxaddr ≠ 0
  · rw [if_pos hb] at h
    exact minmax_hasSource h
  · rw [if_neg hb] at h
    cases hst : f.style with
    | bestfit => rw [hst] at h; exact freelists_hasSource h
    | nextfit => rw [hst] at h; exact nextfit_hasSource h
    | instantfit => rw [hst] at h; exact freelists_hasSource h

theorem xloop_no_source_first {size align phase nocross minaddr maxaddr : Nat} :
    ∀ {oracle : List Nat} {f : MemFlags} {s : ArenaState} {p : Nat} {s1 : ArenaState},
    s.hasSource = false →
    arenaXallocLoop size align phase nocross minaddr maxaddr f s oracle =
      some (some p, s1) →
    ∃ sA, xalloc_from_arena s size align phase nocross minaddr maxaddr f =
      some (some p, sA) := by
  intro oracle
  induction oracle with
  | nil =>
    intro f s p s1 hsrc h
    unfold arenaXallocLoop at h
    cases ha : xalloc_from_arena s size align phase nocross minaddr maxaddr f with
    | none => rw [ha] at h; cases h
    | some q =>
      obtain ⟨p0, sA⟩ := q
      rw [ha] at h
      cases p0 with
      | some pv =>
        replace h : some (some pv, sA) = some (some p, s1) := h
        injection h with h
        injection h with h1 h2
        injection h1 with h1
        subst h1
        exact ⟨sA, rfl⟩
      | none =>
        exfalso
        replace h : (if (size + align + phase) % W < size then none
          else match get_more_resources sA ((size + align + phase) % W) f none with
            | none => none
            | some (_, s2) => some ((none : Option Nat), s2)) = some (some p, s1) := h
        by_cases hov : (size + align + phase) % W < size
        · rw [if_pos hov] at h; cases h
        · rw [if_neg hov] at h
          cases hg : get_more_resources sA ((size + align + phase) % W) f none with
          | none => rw [hg] at h; cases h
          | some q2 =>
            obtain ⟨g, sB⟩ := q2
            rw [hg] at h
            replace h : some ((none : Option Nat), sB) = some (some p, s1) := h
            injection h with h
            injection h with h1 h2
            cases h1
  | cons a rest ih =>
    intro f s p s1 hsrc h
    unfold arenaXallocLoop at h
    cases ha : xalloc_from_arena s size align phase nocross minaddr maxaddr f with
    | none => rw [ha] at h; cases h
    | some q =>
      obtain ⟨p0, sA⟩ := q
      rw [ha] at h
      cases p0 with
      | some pv =>
        replace h : some (some pv, sA) = some (some p, s1) := h
        injection h with h
        injection h with h1 h2
        injection h1 with h1
        subst h1
        exact ⟨sA, rfl⟩
      | none =>
        exfalso
        have hsA : sA.hasSource = false := by
          rw [xfa_hasSource ha]
          exact hsrc
        replace h : (if (size + align + phase) % W < size then none
          else match get_more_resources sA ((size + align + phase) % W) f (some a) with
            | none => none
            | some (false, s2) => some ((none : Option Nat), s2)
            | some (true, s2) =>
              arenaXallocLoop size align phase nocross minaddr maxaddr
                { f with style := AllocStyle.bestfit } s2 rest) = some (some p, s1) := h
        by_cases hov : (size + align + phase) % W < size
        · rw [if_pos hov] at h; cases h
        · rw [if_neg hov] at h
          unfold get_more_resources at h
          rw [hsA] at h
          rw [if_neg Bool.false_ne_true] at h
          by_cases hat : f.atomic
          · rw [if_pos hat] at h
            dsimp only at h
            replace h : some ((none : Option Nat), sA) = some (some p, s1) := h
            injection h with h
            injection h with h1 h2
            cases h1
          · rw [if_neg hat] at h
            cases h

theorem arena_xalloc_guards {s : ArenaState}
    {size0 align phase nocross minaddr maxaddr : Nat} {f : MemFlags}
    {oracle : List Nat} {r : Option Nat × ArenaState}
    (h : arena_xalloc s size0 align phase nocross minaddr maxaddr f oracle = some r) :
    ROUNDUP size0 s.quantum % W ≠ 0 ∧ IS_PWR2 align ∧
    (nocross ≠ 0 → IS_PWR2 nocross) ∧
    ¬(s.hasSource = true ∧ (nocross ≠ 0 ∨ minaddr ≠ 0 ∨ maxaddr ≠ 0)) := by
  unfold arena_xalloc at h
  dsimp only at h
  by_cases g1 : ROUNDUP size0 s.quantum % W = 0
  · rw [if_pos g1] at h; cases h
  rw [if_neg g1] at h
  by_cases g2 : ¬ IS_PWR2 align
  · rw [if_pos g2] at h; cases h
  rw [if_neg g2] at h
  by_cases g3 : nocross ≠ 0 ∧ ¬ IS_PWR2 nocross
  · rw [if_pos g3] at h; cases h
  rw [if_neg g3] at h
  by_cases g4 : ¬ (align % s.quantum = 0)
  · rw [if_pos g4] at h; cases h
  rw [if_neg g4] at h
  by_cases g5 : ¬ (nocross % s.quantum = 0)
  · rw [if_pos g5] at h; cases h
  rw [if_neg g5] at h
  by_cases g6 : ¬ (phase % s.quantum = 0)
  · rw [if_pos g6] at h; cases h
  rw [if_neg g6] at h
  by_cases g7 : (ROUNDUP size0 s.quantum % W + align) % W < ROUNDUP size0 s.quantum % W
  · rw [if_pos g7] at h; cases h
  rw [if_neg g7] at h
  by_cases g8 : (ROUNDUP size0 s.quantum % W + phase) % W < ROUNDUP size0 s.quantum % W
  · rw [if_pos g8] at h; cases h
  rw [if_neg g8] at h
  by_cases g9 : (align + phase) % W < align
  · rw [if_pos g9] at h; cases h
  rw [if_neg g9] at h
  by_cases g10 : s.hasSource ∧ (nocross ≠ 0 ∨ minaddr ≠ 0 ∨ maxaddr ≠ 0)
  · rw [if_pos g10] at h; cases h
  rw [if_neg g10] at h
  refine ⟨g1, not_not.mp g2, ?_, g10⟩
  intro hn
  by_contra hp
  exact g3 ⟨hn, hp⟩

/-- C1 (amended): on an ordered arena whose segments fit in the address
space, every non-null arena_xalloc return p satisfies p = phase (mod align),
minaddr ≤ p when minaddr is set, and p + size ≤ maxaddr when maxaddr is set
(size the request rounded up to the quantum), unconditionally; the nocross
guarantee additionally requires phase + size ≤ nocross, the condition
violated by the counterexample (the retry in __find_sufficient restarts from
a nocross boundary without re-checking nocross). -/
theorem c1_xalloc_constraints {s : ArenaState}
    {size0 align phase nocross minaddr maxaddr : Nat} {f : MemFlags}
    {oracle : List Nat} {p : Nat} {s1 : ArenaState}
    (hsort : SegsSorted s.segs)
    (hgeom : ∀ x ∈ s.segs, x.start + x.size < W)
    (h : arena_xalloc s size0 align phase nocross minaddr maxaddr f oracle =
      some (some p, s1)) :
    xallocSat p (ROUNDUP size0 s.quantum % W) align phase 0 minaddr maxaddr ∧
    (nocross ≠ 0 → phase + ROUNDUP size0 s.quantum % W ≤ nocross →
      p / nocross = (p + ROUNDUP size0 s.quantum % W - 1) / nocross) := by
  obtain ⟨hsz, hal, hncg, hsrcg⟩ := arena_xalloc_guards h
  have hloop := arena_xalloc_eq_loop h
  have hncor : nocross = 0 ∨ IS_PWR2 nocross := by
    by_cases hn : nocross = 0
    · exact Or.inl hn
    · exact Or.inr (hncg hn)
  obtain ⟨s0, f0, sA, hxfa⟩ := xloop_some_call hloop
  obtain ⟨bs, bsz, hshape, hnz⟩ := xfa_shape hxfa
  refine ⟨⟨?_, ?_, ?_, ?_⟩, ?_⟩
  · rw [hshape]
    have hnzf : findSufficient bs bsz (ROUNDUP size0 s.quantum % W) align phase nocross ≠ 0 :=
      hshape ▸ hnz
    exact fsF_mod_align hal 2 hnzf
  · intro hm
    have hsrc : s.hasSource = false := by
      cases hsv : s.hasSource
      · rfl
      · exact absurd ⟨hsv, Or.inr (Or.inl hm)⟩ hsrcg
    obtain ⟨sB, hfirst⟩ := xloop_no_source_first hsrc hloop
    unfold xalloc_from_arena at hfirst
    rw [if_pos (Or.inl hm)] at hfirst
    obtain ⟨bt, hmem, hmin, hsh2, hnz2, -⟩ := minmax_sat hsort hfirst
    have hnzf : findSufficient bt.start bt.size (ROUNDUP size0 s.quantum % W)
        align phase nocross ≠ 0 := hsh2 ▸ hnz2
    have hge : bt.start ≤ p := by
      rw [hsh2]
      exact fsF_ge 2 (hgeom bt hmem) hncor hnzf
    omega
  · intro hM
    have hsrc : s.hasSource = false := by
      cases hsv : s.hasSource
      · rfl
      · exact absurd ⟨hsv, Or.inr (Or.inr hM)⟩ hsrcg
    obtain ⟨sB, hfirst⟩ := xloop_no_source_first hsrc hloop
    unfold xalloc_from_arena at hfirst
    rw [if_pos (Or.inr hM)] at hfirst
    obtain ⟨bt, hmem, hmin, hsh2, hnz2, hmax⟩ := minmax_sat hsort hfirst
    exact hmax hM
  · intro h0
    exact absurd rfl h0
  · intro hn hpn
    rw [hshape]
    exact fs_nocross hsz (Nat.mod_lt _ W_pos) hal (hncg hn) hpn (hshape ▸ hnz)

/-- C1 witness: the constrained request xalloc(size=0x800, align=0x100,
phase=0, nocross=0x1000) on the ordered arena with free segment
[0x1000, 0x4000) returns 0x1000, which satisfies the alignment and address
bound constraints, and (phase + size = 0x800 ≤ nocross here) crosses no
0x1000 boundary. -/
theorem c1_xalloc_constraints_witness :
    xallocSat 0x1000 0x800 0x100 0 0 0 0 ∧
    (0x1000 : Nat) / 0x1000 = (0x1000 + 0x800 - 1) / 0x1000 :=
  ⟨(@c1_xalloc_constraints c7ArenaS 0x800 0x100 0 0x1000 0 0 fWait [] 0x1000 c1WS
      (by decide) (by decide) (by decide)).1,
   (@c1_xalloc_constraints c7ArenaS 0x800 0x100 0 0x1000 0 0 fWait [] 0x1000 c1WS
      (by decide) (by decide) (by decide)).2 (by decide) (by decide)⟩

theorem tiles_le : ∀ {l : List Btag} {a b : Nat}, tiles a l b → a ≤ b := by
  intro l
  induction l with
  | nil =>
    intro a b h
    simp only [tiles] at h
    omega
  | cons t ts ih =>
    intro a b h
    simp only [tiles] at h
    have := ih h.2.2.2
    omega

theorem tiles_mem : ∀ {l : List Btag} {a b : Nat}, tiles a l b →
    ∀ t ∈ l, a ≤ t.start ∧ t.start + t.size ≤ b ∧ t.status ≠ BtStatus.span ∧ 0 < t.size := by
  intro l
  induction l with
  | nil =>
    intro a b h t ht
    cases ht
  | cons u us ih =>
    intro a b h t ht
    simp only [tiles] at h
    obtain ⟨h1, h2, h3, h4⟩ := h
    rcases List.mem_cons.mp ht with rfl | ht2
    · have hle := tiles_le h4
      exact ⟨le_of_eq h1.symm, by omega, h2, h3⟩
    · obtain ⟨g1, g2, g3, g4⟩ := ih h4 t ht2
      exact ⟨by omega, g2, g3, g4⟩

theorem tiles_append_split : ∀ {L R : List Btag} {a b : Nat},
    tiles a (L ++ R) b → ∃ m, tiles a L m ∧ tiles m R b := by
  intro L
  induction L with
  | nil =>
    intro R a b h
    exact ⟨a, by simp only [tiles], h⟩
  | cons t ts ih =>
    intro R a b h
    simp only [List.cons_append, tiles] at h
    obtain ⟨h1, h2, h3, h4⟩ := h
    obtain ⟨m, hm1, hm2⟩ := ih h4
    exact ⟨m, ⟨h1, h2, h3, hm1⟩, hm2⟩

theorem tiles_single {a b : Nat} {t : Btag} (h : tiles a [t] b) :
    t.start = a ∧ t.status ≠ BtStatus.span ∧ 0 < t.size ∧ a + t.size = b := by
  simp only [tiles] at h
  exact h

theorem list_snoc_cases {α : Type} (l : List α) : l = [] ∨ ∃ L x, l = L ++ [x] := by
  induction l with
  | nil => exact Or.inl rfl
  | cons a as ih =>
    rcases ih with rfl | ⟨L, x, rfl⟩
    · exact Or.inr ⟨[], a, rfl⟩
    · exact Or.inr ⟨a :: L, x, rfl⟩

theorem coalesceRight_pos {b0 n : Btag} {post1 : List Btag} {fs : List (List Nat)}
    (h : mergeOk b0 n) :
    coalesceRight b0 (n :: post1) fs =
      (⟨b0.start, b0.size + n.size, BtStatus.free⟩, post1, mergeBuckets fs b0 n) := by
  simp only [coalesceRight, if_pos h]

theorem coalesceRight_neg {b0 n : Btag} {post1 : List Btag} {fs : List (List Nat)}
    (h : ¬ mergeOk b0 n) :
    coalesceRight b0 (n :: post1) fs = (b0, n :: post1, fs) := by
  simp only [coalesceRight, if_neg h]

theorem coalesceLeft_pos {p b1 : Btag} {preR1 : List Btag} {fs1 : List (List Nat)}
    (h : mergeOk p b1) :
    coalesceLeft (p :: preR1) b1 fs1 =
      (⟨p.start, p.size + b1.size, BtStatus.free⟩, preR1, mergeBuckets fs1 p b1) := by
  simp only [coalesceLeft, if_pos h]

theorem coalesceLeft_neg {p b1 : Btag} {preR1 : List Btag} {fs1 : List (List Nat)}
    (h : ¬ mergeOk p b1) :
    coalesceLeft (p :: preR1) b1 fs1 = (b1, p :: preR1, fs1) := by
  simp only [coalesceLeft, if_neg h]

theorem coalesceSpan_pos {sp b2 : Btag} {preR2 post : List Btag} {fs2 : List (List Nat)}
    (h : sp.status = BtStatus.span ∧ sp.start = b2.start ∧ sp.size = b2.size) :
    coalesceSpan (sp :: preR2) b2 post fs2 =
      (preR2.reverse ++ post, bucketRemove fs2 b2, some (sp.start, sp.size)) := by
  simp only [coalesceSpan, if_pos h]

theorem coalesceSpan_neg {sp b2 : Btag} {preR2 post : List Btag} {fs2 : List (List Nat)}
    (h : ¬ (sp.status = BtStatus.span ∧ sp.start = b2.start ∧ sp.size = b2.size)) :
    coalesceSpan (sp :: preR2) b2 post fs2 =
      ((sp :: preR2).reverse ++ b2 :: post, fs2, none) := by
  simp only [coalesceSpan, if_neg h]

theorem extractAlloc_mid2 {a : Nat} {A : Btag} (hA : A.start = a)
    (hAs : A.status = BtStatus.alloc) :
    ∀ {pre post : List Btag},
    (∀ x ∈ pre, ¬ (x.start = a ∧ x.status = BtStatus.alloc)) →
    extractAllocSeg a (pre ++ A :: post) = some (A, pre ++ post) := by
  intro pre
  induction pre with
  | nil =>
    intro post hpre
    simp [extractAllocSeg, hA, hAs]
  | cons x xs ih =>
    intro post hpre
    have hx : ¬ (x.start = a ∧ x.status = BtStatus.alloc) := hpre x (by simp)
    simp only [List.cons_append, extractAllocSeg, if_neg hx, List.append_eq]
    rw [ih fun z hz => hpre z (by simp [hz])]
    rfl

theorem insert_between2 {b : Btag} :
    ∀ {pre post : List Btag},
    (∀ x ∈ pre, x.start < b.start ∨ (x.start = b.start ∧ x.status = BtStatus.span)) →
    (∀ y ∈ post, b.start < y.start) →
    insertBtag b (pre ++ post) = some (pre ++ b :: post) := by
  intro pre
  induction pre with
  | nil =>
    intro post hpre hpost
    cases post with
    | nil => rfl
    | cons y ys =>
      have := hpost y (by simp)
      simp [insertBtag, this]
  | cons x xs ih =>
    intro post hpre hpost
    rcases hpre x (by simp) with hx | ⟨hx1, hx2⟩
    · have h1 : ¬ b.start < x.start := by omega
      simp only [List.cons_append, insertBtag, if_neg h1, if_pos hx, List.append_eq]
      rw [ih (fun z hz => hpre z (by simp [hz])) hpost]
      rfl
    · have h1 : ¬ b.start < x.start := by omega
      have h2 : ¬ x.start < b.start := by omega
      simp only [List.cons_append, insertBtag, if_neg h1, if_neg h2, if_pos hx2,
        List.append_eq]
      rw [ih (fun z hz => hpre z (by simp [hz])) hpost]
      rfl

theorem split_mid2 {a : Nat} {F : Btag} (hF : F.start = a)
    (hFs : F.status ≠ BtStatus.span) :
    ∀ {pre post : List Btag}, (∀ x ∈ pre, x.start = a → x.status = BtStatus.span) →
    splitSeg a (pre ++ F :: post) = some (pre, F, post) := by
  intro pre
  induction pre with
  | nil =>
    intro post hpre
    simp [splitSeg, hF, hFs]
  | cons x xs ih =>
    intro post hpre
    have hx : ¬ (x.start = a ∧ x.status ≠ BtStatus.span) := by
      intro hc
      exact hc.2 (hpre x (by simp) hc.1)
    simp only [List.cons_append, splitSeg, if_neg hx, List.append_eq]
    rw [ih fun z hz => hpre z (by simp [hz])]
    rfl

theorem c4_left_span {pre0 innerL : List Btag} {sp b1 : Btag} {post : List Btag}
    {fs1 : List (List Nat)} {addr : Nat}
    (hsp : sp.status = BtStatus.span)
    (hb1 : b1.start = addr) (hb1st : b1.status = BtStatus.free)
    (htL : tiles sp.start innerL addr)
    (hadjL : noAdjFree innerL) :
    ((∀ t ∈ innerL, t.status = BtStatus.free) → addr + b1.size = sp.start + sp.size →
      ∃ b2 preR fs2 fs3,
        coalesceLeft (pre0 ++ sp :: innerL).reverse b1 fs1 = (b2, preR, fs2) ∧
        coalesceSpan preR b2 post fs2 = (pre0 ++ post, fs3, some (sp.start, sp.size))) ∧
    (¬ ((∀ t ∈ innerL, t.status = BtStatus.free) ∧ addr + b1.size = sp.start + sp.size) →
      ∃ b2 preR fs2 segs2 fs3,
        coalesceLeft (pre0 ++ sp :: innerL).reverse b1 fs1 = (b2, preR, fs2) ∧
        coalesceSpan preR b2 post fs2 = (segs2, fs3, none)) := by
  rcases list_snoc_cases innerL with rfl | ⟨L1, p, rfl⟩
  · -- no tag between the span start and the freed tag
    have hspa : sp.start = addr := htL
    have hrev : (pre0 ++ sp :: ([] : List Btag)).reverse = sp :: pre0.reverse := by simp
    have hnm : ¬ mergeOk sp b1 := by
      intro hm
      have h1 := hm.1
      rw [hsp] at h1
      cases h1
    constructor
    · intro hallf hext
      refine ⟨b1, sp :: pre0.reverse, fs1, bucketRemove fs1 b1, ?_, ?_⟩
      · rw [hrev]
        exact coalesceLeft_neg hnm
      · have hcond : sp.status = BtStatus.span ∧ sp.start = b1.start ∧ sp.size = b1.size :=
          ⟨hsp, by omega, by omega⟩
        rw [coalesceSpan_pos hcond]
        simp
    · intro hneg
      have hext : ¬ (addr + b1.size = sp.start + sp.size) := by
        intro hc
        have hnile : ∀ t ∈ ([] : List Btag), t.status = BtStatus.free := by
          intro t ht
          cases ht
        exact hneg ⟨hnile, hc⟩
      refine ⟨b1, sp :: pre0.reverse, fs1, (sp :: pre0.reverse).reverse ++ b1 :: post,
        fs1, ?_, ?_⟩
      · rw [hrev]
        exact coalesceLeft_neg hnm
      · have hcond : ¬ (sp.status = BtStatus.span ∧ sp.start = b1.start ∧
            sp.size = b1.size) := by
          intro hc
          exact hext (by omega)
        rw [coalesceSpan_neg hcond]
  · -- a tag p sits immediately before the freed tag
    obtain ⟨m2, htL1, htp⟩ := tiles_append_split htL
    obtain ⟨hps, hpns, hppos, hpend⟩ := tiles_single htp
    have hrev : (pre0 ++ sp :: (L1 ++ [p])).reverse =
        p :: (L1.reverse ++ sp :: pre0.reverse) := by simp
    by_cases hpf : p.status = BtStatus.free
    · have hm : mergeOk p b1 := ⟨hpf, hb1st, by omega⟩
      rcases list_snoc_cases L1 with rfl | ⟨L2, p2, rfl⟩
      · -- the span starts at p
        have hspm : sp.start = m2 := htL1
        constructor
        · intro hallf hext
          refine ⟨⟨p.start, p.size + b1.size, BtStatus.free⟩, sp :: pre0.reverse,
            mergeBuckets fs1 p b1,
            bucketRemove (mergeBuckets fs1 p b1) ⟨p.start, p.size + b1.size, BtStatus.free⟩,
            ?_, ?_⟩
          · rw [hrev]
            exact coalesceLeft_pos hm
          · have hcond : sp.status = BtStatus.span ∧ sp.start = p.start ∧
                sp.size = p.size + b1.size := ⟨hsp, by omega, by omega⟩
            rw [coalesceSpan_pos hcond]
            simp
        · intro hneg
          have hext : ¬ (addr + b1.size = sp.start + sp.size) := by
            intro hc
            refine hneg ⟨?_, hc⟩
            intro t ht
            have hts : t = p := by simpa using ht
            rw [hts]
            exact hpf
          refine ⟨⟨p.start, p.size + b1.size, BtStatus.free⟩, sp :: pre0.reverse,
            mergeBuckets fs1 p b1,
            (sp :: pre0.reverse).reverse ++ ⟨p.start, p.size + b1.size, BtStatus.free⟩ :: post,
            mergeBuckets fs1 p b1, ?_, ?_⟩
          · rw [hrev]
            exact coalesceLeft_pos hm
          · have hcond : ¬ (sp.status = BtStatus.span ∧ sp.start = p.start ∧
                sp.size = p.size + b1.size) := by
              intro hc
              exact hext (by omega)
            rw [coalesceSpan_neg hcond]
      · -- a further tag p2 sits before p, so the merged tag cannot reach the span tag
        obtain ⟨m3, htL2, htp2⟩ := tiles_append_split htL1
        obtain ⟨hp2s, hp2ns, hp2pos, hp2end⟩ := tiles_single htp2
        constructor
        · intro hallf hext
          exfalso
          have hp2f : p2.status = BtStatus.free := hallf p2 (by simp)
          exact hadjL p2 (by simp) p (by simp) hp2f hpf (by omega)
        · intro hneg
          have hre : (((L2 ++ [p2]).reverse ++ sp :: pre0.reverse) : List Btag) =
              p2 :: (L2.reverse ++ sp :: pre0.reverse) := by simp
          refine ⟨⟨p.start, p.size + b1.size, BtStatus.free⟩,
            (L2 ++ [p2]).reverse ++ sp :: pre0.reverse, mergeBuckets fs1 p b1,
            (p2 :: (L2.reverse ++ sp :: pre0.reverse)).reverse ++
              ⟨p.start, p.size + b1.size, BtStatus.free⟩ :: post,
            mergeBuckets fs1 p b1, ?_, ?_⟩
          · rw [hrev]
            exact coalesceLeft_pos hm
          · rw [hre]
            have hcond : ¬ (p2.status = BtStatus.span ∧
                p2.start = (⟨p.start, p.size + b1.size, BtStatus.free⟩ : Btag).start ∧
                p2.size = (⟨p.start, p.size + b1.size, BtStatus.free⟩ : Btag).size) :=
              fun hc => hp2ns hc.1
            rw [coalesceSpan_neg hcond]
    · -- the tag before the freed one is not FREE: no merge, no span return
      have hnm : ¬ mergeOk p b1 := fun hm => hpf hm.1
      constructor
      · intro hallf hext
        exact absurd (hallf p (by simp)) hpf
      · intro hneg
        refine ⟨b1, p :: (L1.reverse ++ sp :: pre0.reverse), fs1,
          (p :: (L1.reverse ++ sp :: pre0.reverse)).reverse ++ b1 :: post, fs1, ?_, ?_⟩
        · rw [hrev]
          exact coalesceLeft_neg hnm
        · have hcond : ¬ (p.status = BtStatus.span ∧ p.start = b1.start ∧
              p.size = b1.size) := fun hc => hpns hc.1
          rw [coalesceSpan_neg hcond]

theorem c4_coalesce {pre0 innerL innerR post0 : List Btag} {sp F : Btag}
    {fs : List (List Nat)} {addr : Nat}
    (hsp : sp.status = BtStatus.span)
    (hF : F.start = addr) (hFst : F.status = BtStatus.free)
    (htL : tiles sp.start innerL addr)
    (htR : tiles (addr + F.size) innerR (sp.start + sp.size))
    (hpre0 : ∀ x ∈ pre0, x.start = addr → x.status = BtStatus.span)
    (hpost : ∀ n, post0.head? = some n → n.status = BtStatus.span)
    (hadjL : noAdjFree innerL) (hadjR : noAdjFree innerR) :
    ((∀ t ∈ innerL, t.status = BtStatus.free) ∧ (∀ t ∈ innerR, t.status = BtStatus.free) →
      ∃ fs2, coalesce_free_seg ((pre0 ++ sp :: innerL) ++ F :: (innerR ++ post0)) fs addr =
        some (pre0 ++ post0, fs2, some (sp.start, sp.size))) ∧
    (¬ ((∀ t ∈ innerL, t.status = BtStatus.free) ∧
        (∀ t ∈ innerR, t.status = BtStatus.free)) →
      ∃ segs2 fs2,
        coalesce_free_seg ((pre0 ++ sp :: innerL) ++ F :: (innerR ++ post0)) fs addr =
          some (segs2, fs2, none)) := by
  have hFns : F.status ≠ BtStatus.span := by
    rw [hFst]
    decide
  have hpreSplit : ∀ x ∈ pre0 ++ sp :: innerL, x.start = addr → x.status = BtStatus.span := by
    intro x hx hxa
    rcases List.mem_append.mp hx with hx1 | hx2
    · exact hpre0 x hx1 hxa
    · rcases List.mem_cons.mp hx2 with rfl | hx3
      · exact hsp
      · obtain ⟨g1, g2, g3, g4⟩ := tiles_mem htL x hx3
        omega
  have hsplit : splitSeg addr ((pre0 ++ sp :: innerL) ++ F :: (innerR ++ post0)) =
      some (pre0 ++ sp :: innerL, F, innerR ++ post0) :=
    split_mid2 hF hFns hpreSplit
  rcases innerR with _ | ⟨n, innerR2⟩
  · -- the freed tag is the last tile of the span
    have hR : coalesceRight F (([] : List Btag) ++ post0) fs = (F, post0, fs) := by
      rw [List.nil_append]
      cases post0 with
      | nil => rfl
      | cons q rest =>
        have hq := hpost q rfl
        refine coalesceRight_neg ?_
        intro hm
        have h2 := hm.2.1
        rw [hq] at h2
        cases h2
    have hext : addr + F.size = sp.start + sp.size := htR
    obtain ⟨hLS1, hLS2⟩ := @c4_left_span pre0 innerL sp F post0 fs addr hsp hF hFst htL hadjL
    constructor
    · rintro ⟨hallL, -⟩
      obtain ⟨b2, preR, fs2, fs3, hLeq, hSeq⟩ := hLS1 hallL hext
      refine ⟨fs3, ?_⟩
      unfold coalesce_free_seg
      rw [hsplit]
      dsimp only
      rw [hR]
      dsimp only
      rw [hLeq]
      dsimp only
      rw [hSeq]
    · intro hneg
      have hnegL : ¬ ((∀ t ∈ innerL, t.status = BtStatus.free) ∧
          addr + F.size = sp.start + sp.size) := by
        intro hc
        have hnile : ∀ t ∈ ([] : List Btag), t.status = BtStatus.free := by
          intro t ht
          cases ht
        exact hneg ⟨hc.1, hnile⟩
      obtain ⟨b2, preR, fs2, segs2, fs3, hLeq, hSeq⟩ := hLS2 hnegL
      refine ⟨segs2, fs3, ?_⟩
      unfold coalesce_free_seg
      rw [hsplit]
      dsimp only
      rw [hR]
      dsimp only
      rw [hLeq]
      dsimp only
      rw [hSeq]
  · -- a tile n sits immediately after the freed tag
    simp only [tiles] at htR
    obtain ⟨hns, hnns, hnpos, htR2⟩ := htR
    by_cases hnf : n.status = BtStatus.free
    · have hm : mergeOk F n := ⟨hFst, hnf, by omega⟩
      have hR : coalesceRight F ((n :: innerR2) ++ post0) fs =
          (⟨F.start, F.size + n.size, BtStatus.free⟩, innerR2 ++ post0,
            mergeBuckets fs F n) := by
        rw [List.cons_append]
        exact coalesceRight_pos hm
      obtain ⟨hLS1, hLS2⟩ := @c4_left_span pre0 innerL sp
        ⟨F.start, F.size + n.size, BtStatus.free⟩ (innerR2 ++ post0)
        (mergeBuckets fs F n) addr hsp hF rfl htL hadjL
      rcases innerR2 with _ | ⟨t2, R3⟩
      · -- the span ends right after n
        have hext0 : addr + F.size + n.size = sp.start + sp.size := htR2
        have hext : addr + (⟨F.start, F.size + n.size, BtStatus.free⟩ : Btag).size =
            sp.start + sp.size := by
          show addr + (F.size + n.size) = sp.start + sp.size
          omega
        constructor
        · rintro ⟨hallL, -⟩
          obtain ⟨b2, preR, fs2, fs3, hLeq, hSeq⟩ := hLS1 hallL hext
          refine ⟨fs3, ?_⟩
          unfold coalesce_free_seg
          rw [hsplit]
          dsimp only
          rw [hR]
          dsimp only
          rw [hLeq]
          dsimp only
          rw [hSeq]
          simp
        · intro hneg
          have hnegL : ¬ ((∀ t ∈ innerL, t.status = BtStatus.free) ∧
              addr + (⟨F.start, F.size + n.size, BtStatus.free⟩ : Btag).size =
                sp.start + sp.size) := by
            intro hc
            refine hneg ⟨hc.1, ?_⟩
            intro t ht
            have hts : t = n := by simpa using ht
            rw [hts]
            exact hnf
          obtain ⟨b2, preR, fs2, segs2, fs3, hLeq, hSeq⟩ := hLS2 hnegL
          refine ⟨segs2, fs3, ?_⟩
          unfold coalesce_free_seg
          rw [hsplit]
          dsimp only
          rw [hR]
          dsimp only
          rw [hLeq]
          dsimp only
          rw [hSeq]
      · -- more tiles follow n inside the span
        simp only [tiles] at htR2
        obtain ⟨ht2s, ht2ns, ht2pos, htR3⟩ := htR2
        have hle3 := tiles_le htR3
        have hextne : ¬ (addr + (⟨F.start, F.size + n.size, BtStatus.free⟩ : Btag).size =
            sp.start + sp.size) := by
          show ¬ (addr + (F.size + n.size) = sp.start + sp.size)
          omega
        constructor
        · rintro ⟨-, hallR⟩
          exfalso
          exact hadjR n (by simp) t2 (by simp) hnf (hallR t2 (by simp)) (by omega)
        · intro hneg
          obtain ⟨b2, preR, fs2, segs2, fs3, hLeq, hSeq⟩ :=
            hLS2 (fun hc => hextne hc.2)
          refine ⟨segs2, fs3, ?_⟩
          unfold coalesce_free_seg
          rw [hsplit]
          dsimp only
          rw [hR]
          dsimp only
          rw [hLeq]
          dsimp only
          rw [hSeq]
    · -- the tile after the freed tag is not FREE: no merge, no span return
      have hR : coalesceRight F ((n :: innerR2) ++ post0) fs =
          (F, n :: (innerR2 ++ post0), fs) := by
        rw [List.cons_append]
        exact coalesceRight_neg (fun hm => hnf hm.2.1)
      obtain ⟨hLS1, hLS2⟩ := @c4_left_span pre0 innerL sp F (n :: (innerR2 ++ post0))
        fs addr hsp hF hFst htL hadjL
      have hle2 := tiles_le htR2
      have hextne : ¬ (addr + F.size = sp.start + sp.size) := by omega
      constructor
      · rintro ⟨-, hallR⟩
        exact absurd (hallR n (by simp)) hnf
      · intro hneg
        obtain ⟨b2, preR, fs2, segs2, fs3, hLeq, hSeq⟩ := hLS2 (fun hc => hextne hc.2)
        refine ⟨segs2, fs3, ?_⟩
        unfold coalesce_free_seg
        rw [hsplit]
        dsimp only
        rw [hR]
        dsimp only
        rw [hLeq]
        dsimp only
        rw [hSeq]

/-- C4 (amended): on an ordered arena state whose span tag sp covers exactly
the tiles between it and the following segments, freeing the allocated tag
at addr reports the deferred source.ffunc call (the second component of
free_from_arena) if and only if every other tag inside the span is FREE;
when it does, the call carries exactly the span tag start and size, and
afterwards neither the SPAN tag nor any tag covering the span extent remains
in the tree. -/
theorem c4_span_return {s : ArenaState} {addr size : Nat}
    {pre0 inner post0 : List Btag} {sp bt : Btag}
    {s2 : ArenaState} {ret : Option (Nat × Nat)}
    (hsegs : s.segs = pre0 ++ sp :: inner ++ post0)
    (hsp : sp.status = BtStatus.span)
    (hsp0 : sp.start ≠ 0)
    (hsort : SegsSorted s.segs)
    (htile : tiles sp.start inner (sp.start + sp.size))
    (hpost : ∀ n, post0.head? = some n → n.status = BtStatus.span)
    (hnadj : noAdjFree inner)
    (hout : ∀ t ∈ pre0 ++ post0, t.start + t.size ≤ sp.start ∨ sp.start + sp.size ≤ t.start)
    (hbt : bt ∈ inner) (hba : bt.start = addr) (hbst : bt.status = BtStatus.alloc)
    (hbsz : bt.size = size)
    (h : free_from_arena s addr size = some (s2, ret)) :
    (ret ≠ none ↔ ∀ t ∈ inner, t.start ≠ addr → t.status = BtStatus.free) ∧
    (∀ a z, ret = some (a, z) → a = sp.start ∧ z = sp.size ∧
      s2.segs = pre0 ++ post0 ∧
      ∀ t ∈ s2.segs, t.start + t.size ≤ sp.start ∨ sp.start + sp.size ≤ t.start) := by
  obtain ⟨innerL, innerR, hin⟩ := List.append_of_mem hbt
  subst hin
  obtain ⟨mL, htL0, htRc⟩ := tiles_append_split htile
  simp only [tiles] at htRc
  obtain ⟨hbs, hbns, hbpos, htR2⟩ := htRc
  have hmL : mL = addr := by omega
  rw [hmL] at htL0 htR2
  rw [hsegs] at hsort
  rw [SegsSorted, List.pairwise_append] at hsort
  obtain ⟨hpA, -, hpCross⟩ := hsort
  rw [List.pairwise_append] at hpA
  obtain ⟨-, -, hp3⟩ := hpA
  have hpre_bt : ∀ x ∈ pre0, segBefore x bt := by
    intro x hx
    exact hp3 x hx bt (by simp)
  have hpre_bt2 : ∀ x ∈ pre0,
      x.start < bt.start ∨ (x.start = bt.start ∧ x.status = BtStatus.span) := hpre_bt
  have hbt_post : ∀ y ∈ post0, segBefore bt y := by
    intro y hy
    exact hpCross bt (by simp) y hy
  have hbt_post2 : ∀ y ∈ post0,
      bt.start < y.start ∨ (bt.start = y.start ∧ bt.status = BtStatus.span) := hbt_post
  have hLlt : ∀ t ∈ innerL, t.start < addr := by
    intro t ht
    obtain ⟨g1, g2, g3, g4⟩ := tiles_mem htL0 t ht
    omega
  have hRgt : ∀ t ∈ innerR, addr < t.start := by
    intro t ht
    obtain ⟨g1, g2, g3, g4⟩ := tiles_mem htR2 t ht
    omega
  have hexpre : ∀ x ∈ pre0 ++ sp :: innerL,
      ¬ (x.start = addr ∧ x.status = BtStatus.alloc) := by
    intro x hx hc
    obtain ⟨hca, hcs⟩ := hc
    rcases List.mem_append.mp hx with hx1 | hx2
    · rcases hpre_bt2 x hx1 with hlt | ⟨heq, hsp2⟩
      · omega
      · rw [hsp2] at hcs
        exact absurd hcs (by decide)
    · rcases List.mem_cons.mp hx2 with rfl | hx3
      · rw [hsp] at hcs
        exact absurd hcs (by decide)
      · exact absurd hca (Nat.ne_of_lt (hLlt x hx3))
  have hsple : sp.start ≤ addr := tiles_le htL0
  have hinspre : ∀ x ∈ pre0 ++ sp :: innerL,
      x.start < bt.start ∨ (x.start = bt.start ∧ x.status = BtStatus.span) := by
    intro x hx
    rcases List.mem_append.mp hx with hx1 | hx2
    · exact hpre_bt2 x hx1
    · rcases List.mem_cons.mp hx2 with rfl | hx3
      · rcases Nat.lt_or_ge x.start addr with hlt | hge
        · exact Or.inl (by omega)
        · exact Or.inr ⟨by omega, hsp⟩
      · have := hLlt x hx3
        exact Or.inl (by omega)
  have hpostgt : ∀ y ∈ innerR ++ post0, bt.start < y.start := by
    intro y hy
    rcases List.mem_append.mp hy with hy1 | hy2
    · have := hRgt y hy1
      omega
    · rcases hbt_post2 y hy2 with hlt | ⟨heq, hsp2⟩
      · exact hlt
      · rw [hbst] at hsp2
        exact absurd hsp2 (by decide)
  unfold free_from_arena at h
  by_cases hh : addr ∈ getBucket s.allocHash (hashIdx addr)
  case neg =>
    rw [if_neg hh] at h
    cases h
  rw [if_pos hh] at h
  have hsegs2 : s.segs = (pre0 ++ sp :: innerL) ++ bt :: (innerR ++ post0) := by
    rw [hsegs]
    simp
  rw [hsegs2, extractAlloc_mid2 hba hbst hexpre] at h
  dsimp only at h
  rw [if_pos hbsz] at h
  have hbF : (⟨bt.start, bt.size, BtStatus.free⟩ : Btag).start = bt.start := rfl
  have hins : insertBtag ⟨bt.start, bt.size, BtStatus.free⟩
      ((pre0 ++ sp :: innerL) ++ (innerR ++ post0)) =
      some ((pre0 ++ sp :: innerL) ++
        ⟨bt.start, bt.size, BtStatus.free⟩ :: (innerR ++ post0)) := by
    refine insert_between2 ?_ ?_
    · intro x hx
      rw [hbF]
      exact hinspre x hx
    · intro y hy
      rw [hbF]
      exact hpostgt y hy
  rw [hins] at h
  dsimp only at h
  have hadjL2 : noAdjFree innerL := by
    intro t ht u hu
    exact hnadj t (by simp [ht]) u (by simp [hu])
  have hadjR2 : noAdjFree innerR := by
    intro t ht u hu
    exact hnadj t (by simp [ht]) u (by simp [hu])
  have hpre0x : ∀ x ∈ pre0, x.start = addr → x.status = BtStatus.span := by
    intro x hx hxa
    rcases hpre_bt2 x hx with hlt | ⟨heq, hsp2⟩
    · omega
    · exact hsp2
  have hc4 := @c4_coalesce pre0 innerL innerR post0 sp ⟨bt.start, bt.size, BtStatus.free⟩
    (bucketPush s.freeSegs ⟨bt.start, bt.size, BtStatus.free⟩) addr hsp hba rfl htL0 htR2
    hpre0x hpost hadjL2 hadjR2
  by_cases hAF : (∀ t ∈ innerL, t.status = BtStatus.free) ∧
      (∀ t ∈ innerR, t.status = BtStatus.free)
  · obtain ⟨fs2, hco⟩ := hc4.1 hAF
    rw [hco] at h
    dsimp only at h
    rw [if_pos hsp0] at h
    rw [Option.some.injEq, Prod.mk.injEq] at h
    obtain ⟨hX, hY⟩ := h
    have hS2 : s2.segs = pre0 ++ post0 := by rw [← hX]
    constructor
    · rw [← hY]
      constructor
      · intro hne t ht hta
        rcases List.mem_append.mp ht with h1 | h2
        · exact hAF.1 t h1
        · rcases List.mem_cons.mp h2 with rfl | h3
          · exact absurd hba hta
          · exact hAF.2 t h3
      · intro hAll
        simp
    · intro a z hr
      rw [← hY] at hr
      rw [Option.some.injEq, Prod.mk.injEq] at hr
      refine ⟨hr.1.symm, hr.2.symm, hS2, ?_⟩
      intro t ht
      rw [hS2] at ht
      exact hout t ht
  · obtain ⟨segs2, fs2, hco⟩ := hc4.2 hAF
    rw [hco] at h
    dsimp only at h
    rw [Option.some.injEq, Prod.mk.injEq] at h
    obtain ⟨hX, hY⟩ := h
    constructor
    · rw [← hY]
      constructor
      · intro hne
        exact absurd rfl hne
      · intro hAll
        exfalso
        refine hAF ⟨?_, ?_⟩
        · intro t ht
          exact hAll t (by simp [ht]) (Nat.ne_of_lt (hLlt t ht))
        · intro t ht
          exact hAll t (by simp [ht]) (ne_of_gt (hRgt t ht))
    · intro a z hr
      rw [← hY] at hr
      cases hr

set_option maxRecDepth 8000 in
/-- C4 witness: on the sourced arena whose only span [0x1000, 0x1100) is
fully allocated by one tag, freeing that tag reports the deferred ffunc
call (0x1000, 0x100) and leaves the tree empty. -/
theorem c4_span_return_witness :
    ((some (0x1000, 0x100) : Option (Nat × Nat)) ≠ none ↔
      ∀ t ∈ [Btag.mk 0x1000 0x100 BtStatus.alloc], t.start ≠ 0x1000 →
        t.status = BtStatus.free) ∧
    (∀ a z, (some (0x1000, 0x100) : Option (Nat × Nat)) = some (a, z) →
      a = 0x1000 ∧ z = 0x100 ∧ c4S2.segs = [] ∧
      ∀ t ∈ c4S2.segs, t.start + t.size ≤ 0x1000 ∨ 0x1000 + 0x100 ≤ t.start) :=
  @c4_span_return c4Arena 0x1000 0x100 [] [Btag.mk 0x1000 0x100 BtStatus.alloc] []
    (Btag.mk 0x1000 0x100 BtStatus.span) (Btag.mk 0x1000 0x100 BtStatus.alloc) c4S2
    (some (0x1000, 0x100)) (by decide) rfl (by decide) (by decide) (by decide)
    (fun n hn => nomatch hn) (by decide) (by decide) (by decide) rfl rfl rfl (by decide)

theorem pairwise_mid_elim {R : Btag → Btag → Prop} {pre post : List Btag} {x : Btag}
    (h : List.Pairwise R (pre ++ x :: post)) :
    List.Pairwise R pre ∧ List.Pairwise R post ∧
    (∀ a ∈ pre, ∀ b ∈ post, R a b) ∧ (∀ a ∈ pre, R a x) ∧ (∀ b ∈ post, R x b) := by
  rw [List.pairwise_append] at h
  obtain ⟨h1, h2, h3⟩ := h
  rw [List.pairwise_cons] at h2
  obtain ⟨h2a, h2b⟩ := h2
  refine ⟨h1, h2b, ?_, ?_, h2a⟩
  · intro a ha b hb
    exact h3 a ha b (by simp [hb])
  · intro a ha
    exact h3 a ha x (by simp)

theorem pairwise_mid1 {R : Btag → Btag → Prop} {pre post : List Btag} {x : Btag}
    (hp : List.Pairwise R pre) (hq : List.Pairwise R post)
    (hcross : ∀ a ∈ pre, ∀ b ∈ post, R a b)
    (hx : ∀ a ∈ pre, R a x) (hxp : ∀ b ∈ post, R x b) :
    List.Pairwise R (pre ++ x :: post) := by
  rw [List.pairwise_append]
  refine ⟨hp, ?_, ?_⟩
  · rw [List.pairwise_cons]
    exact ⟨hxp, hq⟩
  · intro a ha b hb
    rcases List.mem_cons.mp hb with rfl | hb2
    · exact hx a ha
    · exact hcross a ha b hb2

theorem pairwise_mid2 {R : Btag → Btag → Prop} {pre post : List Btag} {x y : Btag}
    (hp : List.Pairwise R pre) (hq : List.Pairwise R post)
    (hcross : ∀ a ∈ pre, ∀ b ∈ post, R a b)
    (hx : ∀ a ∈ pre, R a x) (hy : ∀ a ∈ pre, R a y)
    (hxy : R x y) (hxp : ∀ b ∈ post, R x b) (hyp : ∀ b ∈ post, R y b) :
    List.Pairwise R (pre ++ x :: y :: post) := by
  rw [List.pairwise_append]
  refine ⟨hp, ?_, ?_⟩
  · rw [List.pairwise_cons]
    refine ⟨?_, ?_⟩
    · intro b hb
      rcases List.mem_cons.mp hb with rfl | hb2
      · exact hxy
      · exact hxp b hb2
    · rw [List.pairwise_cons]
      exact ⟨hyp, hq⟩
  · intro a ha b hb
    rcases List.mem_cons.mp hb with rfl | hb2
    · exact hx a ha
    · rcases List.mem_cons.mp hb2 with rfl | hb3
      · exact hy a ha
      · exact hcross a ha b hb3

theorem extractSeg_mid2 {a : Nat} {A : Btag} (hA : A.start = a)
    (hAs : A.status ≠ BtStatus.span) :
    ∀ {pre post : List Btag},
    (∀ x ∈ pre, ¬ (x.start = a ∧ x.status ≠ BtStatus.span)) →
    extractSeg a (pre ++ A :: post) = some (A, pre ++ post) := by
  intro pre
  induction pre with
  | nil =>
    intro post hpre
    simp [extractSeg, hA, hAs]
  | cons x xs ih =>
    intro post hpre
    have hx : ¬ (x.start = a ∧ x.status ≠ BtStatus.span) := hpre x (by simp)
    simp only [List.cons_append, extractSeg, if_neg hx, List.append_eq]
    rw [ih fun z hz => hpre z (by simp [hz])]
    rfl

theorem account_segs_shape {s s1 : ArenaState} {a n : Nat} {pre post : List Btag}
    {bt : Btag}
    (hseg : s.segs = pre ++ bt :: post)
    (hba : bt.start = a) (hbns : bt.status ≠ BtStatus.span)
    (hprea : ∀ x ∈ pre, x.start < a)
    (hposta : ∀ y ∈ post, bt.start + bt.size ≤ y.start ∧ a < y.start)
    (h : account_alloc s a n = some s1) :
    bt.status = BtStatus.free ∧ n ≤ bt.size ∧
    s1.hasSource = s.hasSource ∧ s1.quantum = s.quantum ∧
    s1.last_nextfit_alloc = s.last_nextfit_alloc ∧
    ((bt.size = n ∧ s1.segs = pre ++ ⟨a, n, BtStatus.alloc⟩ :: post) ∨
     (0 < n ∧ n < bt.size ∧
       s1.segs = pre ++ ⟨a, n, BtStatus.alloc⟩ ::
         ⟨a + n, bt.size - n, BtStatus.free⟩ :: post)) := by
  have hexm : extractSeg a s.segs = some (bt, pre ++ post) := by
    rw [hseg]
    exact extractSeg_mid2 hba hbns fun x hx hc =>
      absurd hc.1 (Nat.ne_of_lt (hprea x hx))
  unfold account_alloc at h
  rw [hexm] at h
  dsimp only at h
  by_cases hfr : bt.status = BtStatus.free
  swap
  · rw [if_neg hfr] at h
    cases h
  rw [if_pos hfr] at h
  by_cases hsz : bt.size = n
  · rw [if_pos hsz] at h
    have hinsA : insertBtag ⟨bt.start, bt.size, BtStatus.alloc⟩ (pre ++ post) =
        some (pre ++ ⟨bt.start, bt.size, BtStatus.alloc⟩ :: post) := by
      refine insert_between ?_ ?_
      · intro x hx
        show x.start < bt.start
        have := hprea x hx
        omega
      · intro y hy
        show bt.start < y.start
        have := (hposta y hy).2
        omega
    rw [hinsA] at h
    replace h : some { s with
        segs := pre ++ ⟨bt.start, bt.size, BtStatus.alloc⟩ :: post
        allocHash := hashPush s.allocHash bt.start
        amt_alloc_segs := s.amt_alloc_segs + n
        nr_allocs := s.nr_allocs + 1 } = some s1 := h
    injection h with h
    subst h
    refine ⟨hfr, hsz.ge, rfl, rfl, rfl, Or.inl ⟨hsz, ?_⟩⟩
    rw [hba, hsz]
  · rw [if_neg hsz] at h
    by_cases hlt : n < bt.size
    swap
    · rw [if_neg hlt] at h
      cases h
    rw [if_pos hlt] at h
    have hinsA : insertBtag ⟨bt.start, n, BtStatus.alloc⟩ (pre ++ post) =
        some (pre ++ ⟨bt.start, n, BtStatus.alloc⟩ :: post) := by
      refine insert_between ?_ ?_
      · intro x hx
        show x.start < bt.start
        have := hprea x hx
        omega
      · intro y hy
        show bt.start < y.start
        have := (hposta y hy).2
        omega
    rw [hinsA] at h
    dsimp only at h
    by_cases hn0 : n = 0
    · subst hn0
      have hconf : insertBtag ⟨bt.start + 0, bt.size - 0, BtStatus.free⟩
          (pre ++ ⟨bt.start, 0, BtStatus.alloc⟩ :: post) = none := by
        refine insert_conflict ?_ ?_ ?_
        · show (⟨bt.start, 0, BtStatus.alloc⟩ : Btag).start =
            (⟨bt.start + 0, bt.size - 0, BtStatus.free⟩ : Btag).start
          simp
        · intro hc
          cases hc
        · intro x hx
          show x.start < bt.start + 0
          have := hprea x hx
          omega
      rw [hconf] at h
      cases h
    have hinsN : insertBtag ⟨bt.start + n, bt.size - n, BtStatus.free⟩
        (pre ++ ⟨bt.start, n, BtStatus.alloc⟩ :: post) =
        some (pre ++ ⟨bt.start, n, BtStatus.alloc⟩ ::
          ⟨bt.start + n, bt.size - n, BtStatus.free⟩ :: post) := by
      have hmid : (pre ++ ⟨bt.start, n, BtStatus.alloc⟩ :: post) =
          (pre ++ [⟨bt.start, n, BtStatus.alloc⟩]) ++ post := by
        simp
      rw [hmid]
      have hres : (pre ++ [⟨bt.start, n, BtStatus.alloc⟩]) ++
          ⟨bt.start + n, bt.size - n, BtStatus.free⟩ :: post =
          pre ++ ⟨bt.start, n, BtStatus.alloc⟩ ::
            ⟨bt.start + n, bt.size - n, BtStatus.free⟩ :: post := by
        simp
      rw [← hres] at *
      refine insert_between ?_ ?_
      · intro x hx
        rcases List.mem_append.mp hx with hx1 | hx2
        · have := hprea x hx1
          show x.start < bt.start + n
          omega
        · have hxe : x = ⟨bt.start, n, BtStatus.alloc⟩ := by simpa using hx2
          rw [hxe]
          show bt.start < bt.start + n
          omega
      · intro y hy
        have := (hposta y hy).1
        show bt.start + n < y.start
        omega
    rw [hinsN] at h
    replace h : some { s with
        segs := pre ++ ⟨bt.start, n, BtStatus.alloc⟩ ::
          ⟨bt.start + n, bt.size - n, BtStatus.free⟩ :: post
        freeSegs := bucketPush s.freeSegs ⟨bt.start + n, bt.size - n, BtStatus.free⟩
        allocHash := hashPush s.allocHash bt.start
        amt_alloc_segs := s.amt_alloc_segs + n
        nr_allocs := s.nr_allocs + 1 } = some s1 := h
    injection h with h
    subst h
    refine ⟨hfr, le_of_lt hlt, rfl, rfl, rfl, Or.inr ⟨by omega, hlt, ?_⟩⟩
    rw [hba]

theorem split_segs_shape {s s1 : ArenaState} {a t : Nat} {pre post : List Btag}
    {bt : Btag}
    (hseg : s.segs = pre ++ bt :: post)
    (hba : bt.start = a) (hbns : bt.status ≠ BtStatus.span)
    (hprea : ∀ x ∈ pre, x.start < a)
    (hposta : ∀ y ∈ post, bt.start + bt.size ≤ y.start)
    (h : split_bt_at s a t = some s1) :
    a < t ∧ t < a + bt.size ∧
    s1.segs = pre ++ ⟨a, t - a, BtStatus.free⟩ ::
      ⟨t, bt.size - (t - a), bt.status⟩ :: post ∧
    s1.hasSource = s.hasSource ∧ s1.quantum = s.quantum ∧
    s1.last_nextfit_alloc = s.last_nextfit_alloc := by
  have hexm : extractSeg a s.segs = some (bt, pre ++ post) := by
    rw [hseg]
    exact extractSeg_mid2 hba hbns fun x hx hc =>
      absurd hc.1 (Nat.ne_of_lt (hprea x hx))
  unfold split_bt_at at h
  rw [hexm] at h
  dsimp only at h
  by_cases hg : bt.start < t ∧ t < bt.start + bt.size
  swap
  · rw [if_neg hg] at h
    cases h
  rw [if_pos hg] at h
  have hinsF : insertBtag ⟨bt.start, t - bt.start, BtStatus.free⟩ (pre ++ post) =
      some (pre ++ ⟨bt.start, t - bt.start, BtStatus.free⟩ :: post) := by
    refine insert_between ?_ ?_
    · intro x hx
      show x.start < bt.start
      have := hprea x hx
      omega
    · intro y hy
      show bt.start < y.start
      have := hposta y hy
      omega
  rw [hinsF] at h
  dsimp only at h
  have hinsM : insertBtag ⟨t, bt.size - (t - bt.start), bt.status⟩
      (pre ++ ⟨bt.start, t - bt.start, BtStatus.free⟩ :: post) =
      some (pre ++ ⟨bt.start, t - bt.start, BtStatus.free⟩ ::
        ⟨t, bt.size - (t - bt.start), bt.status⟩ :: post) := by
    have hmid : (pre ++ ⟨bt.start, t - bt.start, BtStatus.free⟩ :: post) =
        (pre ++ [⟨bt.start, t - bt.start, BtStatus.free⟩]) ++ post := by
      simp
    have hres : (pre ++ [⟨bt.start, t - bt.start, BtStatus.free⟩]) ++
        ⟨t, bt.size - (t - bt.start), bt.status⟩ :: post =
        pre ++ ⟨bt.start, t - bt.start, BtStatus.free⟩ ::
          ⟨t, bt.size - (t - bt.start), bt.status⟩ :: post := by
      simp
    rw [hmid, ← hres]
    refine insert_between ?_ ?_
    · intro x hx
      show x.start < t
      rcases List.mem_append.mp hx with hx1 | hx2
      · have := hprea x hx1
        omega
      · have hxe : x = ⟨bt.start, t - bt.start, BtStatus.free⟩ := by simpa using hx2
        rw [hxe]
        show bt.start < t
        omega
    · intro y hy
      show t < y.start
      have := hposta y hy
      omega
  rw [hinsM] at h
  replace h : some { s with
      segs := pre ++ ⟨bt.start, t - bt.start, BtStatus.free⟩ ::
        ⟨t, bt.size - (t - bt.start), bt.status⟩ :: post
      freeSegs := bucketPush s.freeSegs ⟨bt.start, t - bt.start, BtStatus.free⟩ } =
      some s1 := h
  injection h with h
  subst h
  refine ⟨by omega, by omega, ?_, rfl, rfl, rfl⟩
  rw [hba]

theorem okay_account {s s1 : ArenaState} {a n : Nat}
    (hok : segsOkay s) (h : account_alloc s a n = some s1) :
    segsOkay s1 ∧ s1.hasSource = s.hasSource ∧ s1.quantum = s.quantum ∧
    s1.last_nextfit_alloc = s.last_nextfit_alloc := by
  obtain ⟨hsort, hdisj, hns, hpos, hnadj⟩ := hok
  have hexq : ∃ bt rest, extractSeg a s.segs = some (bt, rest) := by
    unfold account_alloc at h
    cases hex : extractSeg a s.segs with
    | none => rw [hex] at h; cases h
    | some p => exact ⟨p.1, p.2, rfl⟩
  obtain ⟨bt, rest, hex⟩ := hexq
  obtain ⟨pre, post, e1, e2, hfail, hstart, hnspan⟩ := extractSeg_eq hex
  have hsortL : List.Pairwise segBefore (pre ++ bt :: post) := by
    rw [← e1]
    exact hsort
  have hdisjL : List.Pairwise (fun x y => x.start + x.size ≤ y.start)
      (pre ++ bt :: post) := by
    rw [← e1]
    exact hdisj
  obtain ⟨sPre, sPost, sCross, sPreX, sPostX⟩ := pairwise_mid_elim hsortL
  obtain ⟨dPre, dPost, dCross, dPreX, dPostX⟩ := pairwise_mid_elim hdisjL
  have hmemO : ∀ x ∈ pre ++ post, x ∈ s.segs := by
    intro x hx
    rw [e1]
    rcases List.mem_append.mp hx with h1 | h2
    · simp [h1]
    · simp [h2]
  have hbtm : bt ∈ s.segs := by
    rw [e1]
    simp
  have hprea : ∀ x ∈ pre, x.start < a := by
    intro x hx
    rcases (sPreX x hx : x.start < bt.start ∨
        (x.start = bt.start ∧ x.status = BtStatus.span)) with h1 | ⟨h1, h2⟩
    · omega
    · exact absurd h2 (hns x (hmemO x (by simp [hx])))
  have hposta : ∀ y ∈ post, bt.start + bt.size ≤ y.start ∧ a < y.start := by
    intro y hy
    refine ⟨dPostX y hy, ?_⟩
    rcases (sPostX y hy : bt.start < y.start ∨
        (bt.start = y.start ∧ bt.status = BtStatus.span)) with h1 | ⟨h1, h2⟩
    · omega
    · exact absurd h2 hnspan
  obtain ⟨hfr, hle, hsrc, hq, hlnf, hcases⟩ :=
    account_segs_shape e1 hstart hnspan hprea hposta h
  refine ⟨?_, hsrc, hq, hlnf⟩
  rcases hcases with ⟨hszn, hsegs1⟩ | ⟨hn0, hnlt, hsegs1⟩
  · refine ⟨?_, ?_, ?_, ?_, ?_⟩
    · show SegsSorted s1.segs
      rw [hsegs1]
      exact pairwise_mid1 sPre sPost sCross
        (fun x hx => Or.inl (hprea x hx))
        (fun y hy => Or.inl (hposta y hy).2)
    · rw [hsegs1]
      refine pairwise_mid1 dPre dPost dCross ?_ ?_
      · intro x hx
        show x.start + x.size ≤ a
        have := dPreX x hx
        omega
      · intro y hy
        show a + n ≤ y.start
        have := (hposta y hy).1
        omega
    · rw [hsegs1]
      intro x hx
      rcases List.mem_append.mp hx with h1 | h2
      · exact hns x (hmemO x (by simp [h1]))
      · rcases List.mem_cons.mp h2 with rfl | h3
        · intro hc
          cases hc
        · exact hns x (hmemO x (by simp [h3]))
    · rw [hsegs1]
      intro x hx
      rcases List.mem_append.mp hx with h1 | h2
      · exact hpos x (hmemO x (by simp [h1]))
      · rcases List.mem_cons.mp h2 with rfl | h3
        · show 0 < n
          have := hpos bt hbtm
          omega
        · exact hpos x (hmemO x (by simp [h3]))
    · rw [hsegs1]
      intro t ht u hu htf huf
      have htc : t ∈ pre ++ post := by
        rcases List.mem_append.mp ht with h1 | h2
        · simp [h1]
        · rcases List.mem_cons.mp h2 with rfl | h3
          · cases htf
          · simp [h3]
      have huc : u ∈ pre ++ post := by
        rcases List.mem_append.mp hu with h1 | h2
        · simp [h1]
        · rcases List.mem_cons.mp h2 with rfl | h3
          · cases huf
          · simp [h3]
      exact hnadj t (hmemO t htc) u (hmemO u huc) htf huf
  · refine ⟨?_, ?_, ?_, ?_, ?_⟩
    · show SegsSorted s1.segs
      rw [hsegs1]
      refine pairwise_mid2 sPre sPost sCross
        (fun x hx => Or.inl (hprea x hx))
        (fun x hx => Or.inl (show x.start < a + n by have := hprea x hx; omega))
        (Or.inl (show a < a + n by omega))
        (fun y hy => Or.inl (hposta y hy).2)
        (fun y hy => Or.inl (show a + n < y.start by
          have := (hposta y hy).1
          omega))
    · rw [hsegs1]
      refine pairwise_mid2 dPre dPost dCross ?_ ?_ ?_ ?_ ?_
      · intro x hx
        show x.start + x.size ≤ a
        have := dPreX x hx
        omega
      · intro x hx
        show x.start + x.size ≤ a + n
        have := dPreX x hx
        omega
      · show a + n ≤ a + n
        omega
      · intro y hy
        show a + n ≤ y.start
        have := (hposta y hy).1
        omega
      · intro y hy
        show a + n + (bt.size - n) ≤ y.start
        have := (hposta y hy).1
        omega
    · rw [hsegs1]
      intro x hx
      rcases List.mem_append.mp hx with h1 | h2
      · exact hns x (hmemO x (by simp [h1]))
      · rcases List.mem_cons.mp h2 with rfl | h3
        · intro hc
          cases hc
        · rcases List.mem_cons.mp h3 with rfl | h4
          · intro hc
            cases hc
          · exact hns x (hmemO x (by simp [h4]))
    · rw [hsegs1]
      intro x hx
      rcases List.mem_append.mp hx with h1 | h2
      · exact hpos x (hmemO x (by simp [h1]))
      · rcases List.mem_cons.mp h2 with rfl | h3
        · exact hn0
        · rcases List.mem_cons.mp h3 with rfl | h4
          · show 0 < bt.size - n
            omega
          · exact hpos x (hmemO x (by simp [h4]))
    · rw [hsegs1]
      intro t ht u hu htf huf
      have htc : t ∈ pre ++ post ∨ t = ⟨a + n, bt.size - n, BtStatus.free⟩ := by
        rcases List.mem_append.mp ht with h1 | h2
        · exact Or.inl (by simp [h1])
        · rcases List.mem_cons.mp h2 with rfl | h3
          · cases htf
          · rcases List.mem_cons.mp h3 with rfl | h4
            · exact Or.inr rfl
            · exact Or.inl (by simp [h4])
      have huc : u ∈ pre ++ post ∨ u = ⟨a + n, bt.size - n, BtStatus.free⟩ := by
        rcases List.mem_append.mp hu with h1 | h2
        · exact Or.inl (by simp [h1])
        · rcases List.mem_cons.mp h2 with rfl | h3
          · cases huf
          · rcases List.mem_cons.mp h3 with rfl | h4
            · exact Or.inr rfl
            · exact Or.inl (by simp [h4])
      rcases htc with ht1 | rfl
      · rcases huc with hu1 | rfl
        · exact hnadj t (hmemO t ht1) u (hmemO u hu1) htf huf
        · show t.start + t.size ≠ a + n
          rcases List.mem_append.mp ht1 with h1 | h2
          · have := dPreX t h1
            omega
          · have := (hposta t h2).1
            have := hpos t (hmemO t ht1)
            omega
      · rcases huc with hu1 | rfl
        · show a + n + (bt.size - n) ≠ u.start
          have := hnadj bt hbtm u (hmemO u hu1) hfr huf
          omega
        · show a + n + (bt.size - n) ≠ a + n
          omega

theorem pairwise_mid3 {R : Btag → Btag → Prop} {pre post : List Btag} {x y z : Btag}
    (hp : List.Pairwise R pre) (hq : List.Pairwise R post)
    (hcross : ∀ a ∈ pre, ∀ b ∈ post, R a b)
    (hx : ∀ a ∈ pre, R a x) (hy : ∀ a ∈ pre, R a y) (hz : ∀ a ∈ pre, R a z)
    (hxy : R x y) (hxz : R x z) (hyz : R y z)
    (hxp : ∀ b ∈ post, R x b) (hyp : ∀ b ∈ post, R y b) (hzp : ∀ b ∈ post, R z b) :
    List.Pairwise R (pre ++ x :: y :: z :: post) := by
  rw [List.pairwise_append]
  refine ⟨hp, ?_, ?_⟩
  · rw [List.pairwise_cons]
    refine ⟨?_, ?_⟩
    · intro b hb
      rcases List.mem_cons.mp hb with rfl | hb2
      · exact hxy
      · rcases List.mem_cons.mp hb2 with rfl | hb3
        · exact hxz
        · exact hxp b hb3
    · rw [List.pairwise_cons]
      refine ⟨?_, ?_⟩
      · intro b hb
        rcases List.mem_cons.mp hb with rfl | hb2
        · exact hyz
        · exact hyp b hb2
      · rw [List.pairwise_cons]
        exact ⟨hzp, hq⟩
  · intro a ha b hb
    rcases List.mem_cons.mp hb with rfl | hb2
    · exact hx a ha
    · rcases List.mem_cons.mp hb2 with rfl | hb3
      · exact hy a ha
      · rcases List.mem_cons.mp hb3 with rfl | hb4
        · exact hz a ha
        · exact hcross a ha b hb4

theorem okay_split_account {s s2 s3 : ArenaState} {a t n : Nat}
    (hok : segsOkay s)
    (hsp : (if t = a then some s else split_bt_at s a t) = some s2)
    (hac : account_alloc s2 t n = some s3) :
    segsOkay s3 ∧ s3.hasSource = s.hasSource ∧ s3.quantum = s.quantum ∧
    s3.last_nextfit_alloc = s.last_nextfit_alloc := by
  by_cases hta : t = a
  · rw [if_pos hta] at hsp
    injection hsp with hsp
    subst hsp
    exact okay_account hok hac
  rw [if_neg hta] at hsp
  obtain ⟨hsort, hdisj, hns, hpos, hnadj⟩ := hok
  have hexq : ∃ bt rest, extractSeg a s.segs = some (bt, rest) := by
    unfold split_bt_at at hsp
    cases hex : extractSeg a s.segs with
    | none => rw [hex] at hsp; cases hsp
    | some p => exact ⟨p.1, p.2, rfl⟩
  obtain ⟨bt, rest, hex⟩ := hexq
  obtain ⟨pre, post, e1, e2, hfail, hstart, hnspan⟩ := extractSeg_eq hex
  have hsortL : List.Pairwise segBefore (pre ++ bt :: post) := by
    rw [← e1]
    exact hsort
  have hdisjL : List.Pairwise (fun x y => x.start + x.size ≤ y.start)
      (pre ++ bt :: post) := by
    rw [← e1]
    exact hdisj
  obtain ⟨sPre, sPost, sCross, sPreX, sPostX⟩ := pairwise_mid_elim hsortL
  obtain ⟨dPre, dPost, dCross, dPreX, dPostX⟩ := pairwise_mid_elim hdisjL
  have hmemO : ∀ x ∈ pre ++ post, x ∈ s.segs := by
    intro x hx
    rw [e1]
    rcases List.mem_append.mp hx with h1 | h2
    · simp [h1]
    · simp [h2]
  have hbtm : bt ∈ s.segs := by
    rw [e1]
    simp
  have hprea : ∀ x ∈ pre, x.start < a := by
    intro x hx
    rcases (sPreX x hx : x.start < bt.start ∨
        (x.start = bt.start ∧ x.status = BtStatus.span)) with h1 | ⟨h1, h2⟩
    · omega
    · exact absurd h2 (hns x (hmemO x (by simp [hx])))
  have hposta : ∀ y ∈ post, bt.start + bt.size ≤ y.start := fun y hy => dPostX y hy
  obtain ⟨hat, htb, hs2segs, hs2src, hs2q, hs2lnf⟩ :=
    split_segs_shape e1 hstart hnspan hprea hposta hsp
  have hs2segs2 : s2.segs = (pre ++ [⟨a, t - a, BtStatus.free⟩]) ++
      (⟨t, bt.size - (t - a), bt.status⟩ : Btag) :: post := by
    rw [hs2segs]
    simp
  have hprea2 : ∀ x ∈ pre ++ [(⟨a, t - a, BtStatus.free⟩ : Btag)], x.start < t := by
    intro x hx
    rcases List.mem_append.mp hx with h1 | h2
    · have := hprea x h1
      omega
    · have hxe : x = ⟨a, t - a, BtStatus.free⟩ := by simpa using h2
      rw [hxe]
      show a < t
      omega
  have hposta2 : ∀ y ∈ post,
      (⟨t, bt.size - (t - a), bt.status⟩ : Btag).start +
        (⟨t, bt.size - (t - a), bt.status⟩ : Btag).size ≤ y.start ∧ t < y.start := by
    intro y hy
    have := hposta y hy
    constructor
    · show t + (bt.size - (t - a)) ≤ y.start
      omega
    · omega
  obtain ⟨hfr2, hle2, hsrc2, hq2, hlnf2, hcases⟩ :=
    account_segs_shape hs2segs2 rfl hnspan hprea2 hposta2 hac
  have hfr : bt.status = BtStatus.free := hfr2
  refine ⟨?_, by rw [hsrc2, hs2src], by rw [hq2, hs2q], by rw [hlnf2, hs2lnf]⟩
  have hS : (⟨t, bt.size - (t - a), bt.status⟩ : Btag).size = bt.size - (t - a) := rfl
  rw [hS] at hcases
  have hpostf : ∀ y ∈ post, a + bt.size ≤ y.start := by
    intro y hy
    have := hposta y hy
    omega
  rcases hcases with ⟨hszn, hsegs3⟩ | ⟨hn0, hnlt, hsegs3⟩
  · -- the allocation takes the whole back part of the split tag
    have hsegs3b : s3.segs = pre ++ (⟨a, t - a, BtStatus.free⟩ : Btag) ::
        (⟨t, n, BtStatus.alloc⟩ : Btag) :: post := by
      rw [hsegs3]
      simp
    refine ⟨?_, ?_, ?_, ?_, ?_⟩
    · show SegsSorted s3.segs
      rw [hsegs3b]
      refine pairwise_mid2 sPre sPost sCross
        (fun x hx => Or.inl (show x.start < a from hprea x hx))
        (fun x hx => Or.inl (show x.start < t by have := hprea x hx; omega))
        (Or.inl (show a < t by omega))
        (fun y hy => Or.inl (show a < y.start by have := hpostf y hy; omega))
        (fun y hy => Or.inl (show t < y.start by have := hpostf y hy; omega))
    · rw [hsegs3b]
      refine pairwise_mid2 dPre dPost dCross ?_ ?_ ?_ ?_ ?_
      · intro x hx
        show x.start + x.size ≤ a
        have := dPreX x hx
        omega
      · intro x hx
        show x.start + x.size ≤ t
        have := dPreX x hx
        omega
      · show a + (t - a) ≤ t
        omega
      · intro y hy
        show a + (t - a) ≤ y.start
        have := hpostf y hy
        omega
      · intro y hy
        show t + n ≤ y.start
        have := hpostf y hy
        omega
    · rw [hsegs3b]
      intro x hx
      rcases List.mem_append.mp hx with h1 | h2
      · exact hns x (hmemO x (by simp [h1]))
      · rcases List.mem_cons.mp h2 with rfl | h3
        · intro hc
          cases hc
        · rcases List.mem_cons.mp h3 with rfl | h4
          · intro hc
            cases hc
          · exact hns x (hmemO x (by simp [h4]))
    · rw [hsegs3b]
      intro x hx
      rcases List.mem_append.mp hx with h1 | h2
      · exact hpos x (hmemO x (by simp [h1]))
      · rcases List.mem_cons.mp h2 with rfl | h3
        · show 0 < t - a
          omega
        · rcases List.mem_cons.mp h3 with rfl | h4
          · show 0 < n
            have := hpos bt hbtm
            omega
          · exact hpos x (hmemO x (by simp [h4]))
    · rw [hsegs3b]
      intro u hu v hv huf hvf
      have huc : u ∈ pre ++ post ∨ u = ⟨a, t - a, BtStatus.free⟩ := by
        rcases List.mem_append.mp hu with h1 | h2
        · exact Or.inl (by simp [h1])
        · rcases List.mem_cons.mp h2 with rfl | h3
          · exact Or.inr rfl
          · rcases List.mem_cons.mp h3 with rfl | h4
            · cases huf
            · exact Or.inl (by simp [h4])
      have hvc : v ∈ pre ++ post ∨ v = ⟨a, t - a, BtStatus.free⟩ := by
        rcases List.mem_append.mp hv with h1 | h2
        · exact Or.inl (by simp [h1])
        · rcases List.mem_cons.mp h2 with rfl | h3
          · exact Or.inr rfl
          · rcases List.mem_cons.mp h3 with rfl | h4
            · cases hvf
            · exact Or.inl (by simp [h4])
      rcases huc with hu1 | rfl
      · rcases hvc with hv1 | rfl
        · exact hnadj u (hmemO u hu1) v (hmemO v hv1) huf hvf
        · show u.start + u.size ≠ a
          rcases List.mem_append.mp hu1 with h1 | h2
          · intro heq
            exact hnadj u (hmemO u hu1) bt hbtm huf hfr (by omega)
          · have := hpostf u h2
            have := hpos u (hmemO u hu1)
            omega
      · rcases hvc with hv1 | rfl
        · show a + (t - a) ≠ v.start
          rcases List.mem_append.mp hv1 with h1 | h2
          · have h5 := dPreX v h1
            have h6 := hpos v (hmemO v hv1)
            omega
          · have := hpostf v h2
            omega
        · show a + (t - a) ≠ a
          omega
  · -- the allocation splits the back part again, leaving a trailing FREE tag
    have hsegs3b : s3.segs = pre ++ (⟨a, t - a, BtStatus.free⟩ : Btag) ::
        (⟨t, n, BtStatus.alloc⟩ : Btag) ::
        (⟨t + n, bt.size - (t - a) - n, BtStatus.free⟩ : Btag) :: post := by
      rw [hsegs3]
      simp
    refine ⟨?_, ?_, ?_, ?_, ?_⟩
    · show SegsSorted s3.segs
      rw [hsegs3b]
      refine pairwise_mid3 sPre sPost sCross
        (fun x hx => Or.inl (show x.start < a from hprea x hx))
        (fun x hx => Or.inl (show x.start < t by have := hprea x hx; omega))
        (fun x hx => Or.inl (show x.start < t + n by have := hprea x hx; omega))
        (Or.inl (show a < t by omega))
        (Or.inl (show a < t + n by omega))
        (Or.inl (show t < t + n by omega))
        (fun y hy => Or.inl (show a < y.start by have := hpostf y hy; omega))
        (fun y hy => Or.inl (show t < y.start by have := hpostf y hy; omega))
        (fun y hy => Or.inl (show t + n < y.start by have := hpostf y hy; omega))
    · rw [hsegs3b]
      refine pairwise_mid3 dPre dPost dCross ?_ ?_ ?_ ?_ ?_ ?_ ?_ ?_ ?_
      · intro x hx
        show x.start + x.size ≤ a
        have := dPreX x hx
        omega
      · intro x hx
        show x.start + x.size ≤ t
        have := dPreX x hx
        omega
      · intro x hx
        show x.start + x.size ≤ t + n
        have := dPreX x hx
        omega
      · show a + (t - a) ≤ t
        omega
      · show a + (t - a) ≤ t + n
        omega
      · show t + n ≤ t + n
        omega
      · intro y hy
        show a + (t - a) ≤ y.start
        have := hpostf y hy
        omega
      · intro y hy
        show t + n ≤ y.start
        have := hpostf y hy
        omega
      · intro y hy
        show t + n + (bt.size - (t - a) - n) ≤ y.start
        have := hpostf y hy
        omega
    · rw [hsegs3b]
      intro x hx
      rcases List.mem_append.mp hx with h1 | h2
      · exact hns x (hmemO x (by simp [h1]))
      · rcases List.mem_cons.mp h2 with rfl | h3
        · intro hc
          cases hc
        · rcases List.mem_cons.mp h3 with rfl | h4
          · intro hc
            cases hc
          · rcases List.mem_cons.mp h4 with rfl | h5
            · intro hc
              cases hc
            · exact hns x (hmemO x (by simp [h5]))
    · rw [hsegs3b]
      intro x hx
      rcases List.mem_append.mp hx with h1 | h2
      · exact hpos x (hmemO x (by simp [h1]))
      · rcases List.mem_cons.mp h2 with rfl | h3
        · show 0 < t - a
          omega
        · rcases List.mem_cons.mp h3 with rfl | h4
          · exact hn0
          · rcases List.mem_cons.mp h4 with rfl | h5
            · show 0 < bt.size - (t - a) - n
              omega
            · exact hpos x (hmemO x (by simp [h5]))
    · rw [hsegs3b]
      intro u hu v hv huf hvf
      have huc : u ∈ pre ++ post ∨ u = ⟨a, t - a, BtStatus.free⟩ ∨
          u = ⟨t + n, bt.size - (t - a) - n, BtStatus.free⟩ := by
        rcases List.mem_append.mp hu with h1 | h2
        · exact Or.inl (by simp [h1])
        · rcases List.mem_cons.mp h2 with rfl | h3
          · exact Or.inr (Or.inl rfl)
          · rcases List.mem_cons.mp h3 with rfl | h4
            · cases huf
            · rcases List.mem_cons.mp h4 with rfl | h5
              · exact Or.inr (Or.inr rfl)
              · exact Or.inl (by simp [h5])
      have hvc : v ∈ pre ++ post ∨ v = ⟨a, t - a, BtStatus.free⟩ ∨
          v = ⟨t + n, bt.size - (t - a) - n, BtStatus.free⟩ := by
        rcases List.mem_append.mp hv with h1 | h2
        · exact Or.inl (by simp [h1])
        · rcases List.mem_cons.mp h2 with rfl | h3
          · exact Or.inr (Or.inl rfl)
          · rcases List.mem_cons.mp h3 with rfl | h4
            · cases hvf
            · rcases List.mem_cons.mp h4 with rfl | h5
              · exact Or.inr (Or.inr rfl)
              · exact Or.inl (by simp [h5])
      rcases huc with hu1 | rfl | rfl
      · rcases hvc with hv1 | rfl | rfl
        · exact hnadj u (hmemO u hu1) v (hmemO v hv1) huf hvf
        · show u.start + u.size ≠ a
          rcases List.mem_append.mp hu1 with h1 | h2
          · intro heq
            exact hnadj u (hmemO u hu1) bt hbtm huf hfr (by omega)
          · have := hpostf u h2
            have := hpos u (hmemO u hu1)
            omega
        · show u.start + u.size ≠ t + n
          rcases List.mem_append.mp hu1 with h1 | h2
          · have := dPreX u h1
            omega
          · have := hpostf u h2
            have := hpos u (hmemO u hu1)
            omega
      · rcases hvc with hv1 | rfl | rfl
        · show a + (t - a) ≠ v.start
          rcases List.mem_append.mp hv1 with h1 | h2
          · have h5 := dPreX v h1
            have h6 := hpos v (hmemO v hv1)
            omega
          · have := hpostf v h2
            omega
        · show a + (t - a) ≠ a
          omega
        · show a + (t - a) ≠ t + n
          omega
      · rcases hvc with hv1 | rfl | rfl
        · show t + n + (bt.size - (t - a) - n) ≠ v.start
          intro heq
          exact hnadj bt hbtm v (hmemO v hv1) hfr hvf (by omega)
        · show t + n + (bt.size - (t - a) - n) ≠ a
          omega
        · show t + n + (bt.size - (t - a) - n) ≠ t + n
          omega

theorem coalesceRight_nil (b0 : Btag) (fs : List (List Nat)) :
    coalesceRight b0 [] fs = (b0, [], fs) := rfl

theorem coalesceLeft_nil (b1 : Btag) (fs1 : List (List Nat)) :
    coalesceLeft [] b1 fs1 = (b1, [], fs1) := rfl

theorem coalesceSpanNoSpan {preR : List Btag} {b2 : Btag} {post : List Btag}
    {fs : List (List Nat)} (hns : ∀ x ∈ preR, x.status ≠ BtStatus.span) :
    coalesceSpan preR b2 post fs = (preR.reverse ++ b2 :: post, fs, none) := by
  cases preR with
  | nil => rfl
  | cons sp preR2 =>
    have hcond : ¬ (sp.status = BtStatus.span ∧ sp.start = b2.start ∧ sp.size = b2.size) :=
      fun hc => hns sp (by simp) hc.1
    exact coalesceSpan_neg hcond

theorem okay_free_rebuild {preO postO : List Btag} {M : Btag}
    (sPre : List.Pairwise segBefore preO) (sPost : List.Pairwise segBefore postO)
    (sCross : ∀ x ∈ preO, ∀ y ∈ postO, segBefore x y)
    (dPre : List.Pairwise (fun x y => x.start + x.size ≤ y.start) preO)
    (dPost : List.Pairwise (fun x y => x.start + x.size ≤ y.start) postO)
    (dCross : ∀ x ∈ preO, ∀ y ∈ postO, x.start + x.size ≤ y.start)
    (hMfree : M.status = BtStatus.free) (hMpos : 0 < M.size)
    (hpreM : ∀ x ∈ preO, x.start + x.size ≤ M.start ∧ x.status ≠ BtStatus.span ∧ 0 < x.size)
    (hpostM : ∀ y ∈ postO,
      M.start + M.size ≤ y.start ∧ y.status ≠ BtStatus.span ∧ 0 < y.size)
    (hnadjO : ∀ t ∈ preO ++ postO, ∀ u ∈ preO ++ postO,
      t.status = BtStatus.free → u.status = BtStatus.free → t.start + t.size ≠ u.start)
    (hleft : ∀ t ∈ preO, t.status = BtStatus.free → t.start + t.size ≠ M.start)
    (hright : ∀ u ∈ postO, u.status = BtStatus.free → M.start + M.size ≠ u.start) :
    SegsSorted (preO ++ M :: postO) ∧
    List.Pairwise (fun x y => x.start + x.size ≤ y.start) (preO ++ M :: postO) ∧
    (∀ x ∈ preO ++ M :: postO, x.status ≠ BtStatus.span) ∧
    (∀ x ∈ preO ++ M :: postO, 0 < x.size) ∧
    noAdjFree (preO ++ M :: postO) := by
  refine ⟨?_, ?_, ?_, ?_, ?_⟩
  · exact pairwise_mid1 sPre sPost sCross
      (fun x hx => Or.inl (by
        have h1 := (hpreM x hx).1
        have h2 := (hpreM x hx).2.2
        omega))
      (fun y hy => Or.inl (by
        have h1 := (hpostM y hy).1
        omega))
  · exact pairwise_mid1 dPre dPost dCross
      (fun x hx => (hpreM x hx).1)
      (fun y hy => (hpostM y hy).1)
  · intro x hx
    rcases List.mem_append.mp hx with h1 | h2
    · exact (hpreM x h1).2.1
    · rcases List.mem_cons.mp h2 with rfl | h3
      · rw [hMfree]
        intro hc
        cases hc
      · exact (hpostM x h3).2.1
  · intro x hx
    rcases List.mem_append.mp hx with h1 | h2
    · exact (hpreM x h1).2.2
    · rcases List.mem_cons.mp h2 with rfl | h3
      · exact hMpos
      · exact (hpostM x h3).2.2
  · intro t ht u hu htf huf
    have htc : t ∈ preO ++ postO ∨ t = M := by
      rcases List.mem_append.mp ht with h1 | h2
      · exact Or.inl (by simp [h1])
      · rcases List.mem_cons.mp h2 with rfl | h3
        · exact Or.inr rfl
        · exact Or.inl (by simp [h3])
    have huc : u ∈ preO ++ postO ∨ u = M := by
      rcases List.mem_append.mp hu with h1 | h2
      · exact Or.inl (by simp [h1])
      · rcases List.mem_cons.mp h2 with rfl | h3
        · exact Or.inr rfl
        · exact Or.inl (by simp [h3])
    rcases htc with ht1 | rfl
    · rcases huc with hu1 | rfl
      · exact hnadjO t ht1 u hu1 htf huf
      · rcases List.mem_append.mp ht1 with h1 | h2
        · exact hleft t h1 htf
        · have h3 := (hpostM t h2).1
          have h4 := (hpostM t h2).2.2
          omega
    · rcases huc with hu1 | rfl
      · rcases List.mem_append.mp hu1 with h1 | h2
        · have h3 := (hpreM u h1).1
          have h4 := (hpreM u h1).2.2
          omega
        · exact hright u h2 huf
      · omega

theorem okay_free_finish {pre postO : List Btag} {bt B1 : Btag}
    {fs1 : List (List Nat)}
    (sPre : List.Pairwise segBefore pre)
    (dPre : List.Pairwise (fun x y => x.start + x.size ≤ y.start) pre)
    (hpreF : ∀ x ∈ pre, x.start + x.size ≤ bt.start ∧ x.start < bt.start ∧
      x.status ≠ BtStatus.span ∧ 0 < x.size)
    (hB1s : B1.start = bt.start) (hB1f : B1.status = BtStatus.free) (hB1pos : 0 < B1.size)
    (sPost : List.Pairwise segBefore postO)
    (dPost : List.Pairwise (fun x y => x.start + x.size ≤ y.start) postO)
    (hpostF : ∀ y ∈ postO, B1.start + B1.size ≤ y.start ∧ y.status ≠ BtStatus.span ∧
      0 < y.size)
    (hcrossS : ∀ x ∈ pre, ∀ y ∈ postO, segBefore x y)
    (hcrossD : ∀ x ∈ pre, ∀ y ∈ postO, x.start + x.size ≤ y.start)
    (hright : ∀ u ∈ postO, u.status = BtStatus.free → B1.start + B1.size ≠ u.start)
    (hnadjO : ∀ t ∈ pre ++ postO, ∀ u ∈ pre ++ postO,
      t.status = BtStatus.free → u.status = BtStatus.free → t.start + t.size ≠ u.start) :
    ∃ b2 preR fs2 segs2 fs3,
      coalesceLeft pre.reverse B1 fs1 = (b2, preR, fs2) ∧
      coalesceSpan preR b2 postO fs2 = (segs2, fs3, none) ∧
      SegsSorted segs2 ∧
      List.Pairwise (fun x y => x.start + x.size ≤ y.start) segs2 ∧
      (∀ x ∈ segs2, x.status ≠ BtStatus.span) ∧
      (∀ x ∈ segs2, 0 < x.size) ∧
      noAdjFree segs2 := by
  rcases list_snoc_cases pre with rfl | ⟨pre1, p, rfl⟩
  · -- nothing before the freed tag
    refine ⟨B1, [], fs1, B1 :: postO, fs1, ?_, rfl, ?_⟩
    · rw [List.reverse_nil]
      exact coalesceLeft_nil B1 fs1
    · have h5 := @okay_free_rebuild [] postO B1
        List.Pairwise.nil sPost (fun x hx => absurd hx (List.not_mem_nil x))
        List.Pairwise.nil dPost (fun x hx => absurd hx (List.not_mem_nil x))
        hB1f hB1pos (fun x hx => absurd hx (List.not_mem_nil x))
        (fun y hy => hpostF y hy)
        (fun t ht u hu => hnadjO t ht u hu)
        (fun t ht => absurd ht (List.not_mem_nil t))
        (fun u hu => hright u hu)
      simpa using h5
  · -- a tag p sits immediately before the freed tag
    have hrev : ((pre1 ++ [p] : List Btag)).reverse = p :: pre1.reverse := by simp
    obtain ⟨sPre1, -, -, sPre1p, -⟩ :=
      pairwise_mid_elim (show List.Pairwise segBefore (pre1 ++ p :: []) by
        simpa using sPre)
    obtain ⟨dPre1, -, -, dPre1p, -⟩ :=
      pairwise_mid_elim (show List.Pairwise (fun x y => x.start + x.size ≤ y.start)
        (pre1 ++ p :: []) by simpa using dPre)
    have hpmem : p ∈ pre1 ++ [p] := by simp
    have hp1mem : ∀ x ∈ pre1, x ∈ pre1 ++ [p] := by
      intro x hx
      simp [hx]
    by_cases hmL : mergeOk p B1
    · -- p is FREE and adjacent: it merges into the freed tag
      have hpf : p.status = BtStatus.free := hmL.1
      have hadjL : p.start + p.size = B1.start := hmL.2.2
      have hns2 : ∀ x ∈ pre1.reverse, x.status ≠ BtStatus.span := by
        intro x hx
        exact (hpreF x (hp1mem x (List.mem_reverse.mp hx))).2.2.1
      refine ⟨⟨p.start, p.size + B1.size, BtStatus.free⟩, pre1.reverse,
        mergeBuckets fs1 p B1,
        pre1 ++ (⟨p.start, p.size + B1.size, BtStatus.free⟩ : Btag) :: postO,
        mergeBuckets fs1 p B1, ?_, ?_, ?_⟩
      · rw [hrev]
        exact coalesceLeft_pos hmL
      · rw [coalesceSpanNoSpan hns2]
        simp
      · refine okay_free_rebuild sPre1 sPost ?_ dPre1 dPost ?_ rfl ?_ ?_ ?_ ?_ ?_ ?_
        · intro x hx y hy
          exact hcrossS x (hp1mem x hx) y hy
        · intro x hx y hy
          exact hcrossD x (hp1mem x hx) y hy
        · show 0 < p.size + B1.size
          omega
        · intro x hx
          refine ⟨?_, (hpreF x (hp1mem x hx)).2.2.1, (hpreF x (hp1mem x hx)).2.2.2⟩
          show x.start + x.size ≤ p.start
          exact dPre1p x hx
        · intro y hy
          obtain ⟨g1, g2, g3⟩ := hpostF y hy
          refine ⟨?_, g2, g3⟩
          show p.start + (p.size + B1.size) ≤ y.start
          omega
        · intro t ht u hu htf huf
          refine hnadjO t ?_ u ?_ htf huf
          · rcases List.mem_append.mp ht with h1 | h2
            · exact List.mem_append.mpr (Or.inl (hp1mem t h1))
            · exact List.mem_append.mpr (Or.inr h2)
          · rcases List.mem_append.mp hu with h1 | h2
            · exact List.mem_append.mpr (Or.inl (hp1mem u h1))
            · exact List.mem_append.mpr (Or.inr h2)
        · intro t ht htf
          show t.start + t.size ≠ p.start
          exact hnadjO t (List.mem_append.mpr (Or.inl (hp1mem t ht)))
            p (List.mem_append.mpr (Or.inl hpmem)) htf hpf
        · intro u hu huf
          show p.start + (p.size + B1.size) ≠ u.start
          have := hright u hu huf
          omega
    · -- no merge to the left
      have hns2 : ∀ x ∈ p :: pre1.reverse, x.status ≠ BtStatus.span := by
        intro x hx
        rcases List.mem_cons.mp hx with rfl | h2
        · exact (hpreF x hpmem).2.2.1
        · exact (hpreF x (hp1mem x (List.mem_reverse.mp h2))).2.2.1
      refine ⟨B1, p :: pre1.reverse, fs1, (pre1 ++ [p]) ++ B1 :: postO, fs1, ?_, ?_, ?_⟩
      · rw [hrev]
        exact coalesceLeft_neg hmL
      · rw [coalesceSpanNoSpan hns2]
        simp
      · have h5 := @okay_free_rebuild (pre1 ++ [p]) postO B1
          sPre sPost hcrossS dPre dPost hcrossD hB1f hB1pos
          (fun x hx => ⟨by
            have := (hpreF x hx).1
            omega, (hpreF x hx).2.2.1, (hpreF x hx).2.2.2⟩)
          (fun y hy => hpostF y hy)
          (fun t ht u hu => hnadjO t ht u hu)
          ?_ (fun u hu => hright u hu)
        · obtain ⟨g1, g2, g3, g4, g5⟩ := h5
          have he : (pre1 ++ [p]) ++ B1 :: postO = (pre1 ++ [p]) ++ B1 :: postO := rfl
          exact ⟨g1, g2, g3, g4, g5⟩
        · intro t ht htf
          show t.start + t.size ≠ B1.start
          rcases List.mem_append.mp ht with h1 | h2
          · have g1 := dPre1p t h1
            have g2 := (hpreF p hpmem).2.1
            omega
          · have hte : t = p := by simpa using h2
            subst hte
            intro heq
            exact hmL ⟨htf, hB1f, heq⟩

theorem okay_free {s s1 : ArenaState} {addr size : Nat} {ret : Option (Nat × Nat)}
    (hok : segsOkay s) (h : free_from_arena s addr size = some (s1, ret)) :
    segsOkay s1 ∧ s1.hasSource = s.hasSource ∧ s1.quantum = s.quantum ∧
    s1.last_nextfit_alloc = s.last_nextfit_alloc := by
  obtain ⟨hsort, hdisj, hns, hpos, hnadj⟩ := hok
  unfold free_from_arena at h
  by_cases hmem : addr ∈ getBucket s.allocHash (hashIdx addr)
  swap
  · rw [if_neg hmem] at h
    cases h
  rw [if_pos hmem] at h
  cases hex : extractAllocSeg addr s.segs with
  | none => rw [hex] at h; cases h
  | some pq =>
  obtain ⟨bt, rest⟩ := pq
  rw [hex] at h
  dsimp only at h
  obtain ⟨pre, post, e1, e2, hfail, hstart, halloc⟩ := extractAllocSeg_eq hex
  by_cases hsz : bt.size = size
  swap
  · rw [if_neg hsz] at h
    cases h
  rw [if_pos hsz] at h
  have hsortL : List.Pairwise segBefore (pre ++ bt :: post) := by
    rw [← e1]
    exact hsort
  have hdisjL : List.Pairwise (fun x y => x.start + x.size ≤ y.start)
      (pre ++ bt :: post) := by
    rw [← e1]
    exact hdisj
  obtain ⟨sPre, sPost, sCross, sPreX, sPostX⟩ := pairwise_mid_elim hsortL
  obtain ⟨dPre, dPost, dCross, dPreX, dPostX⟩ := pairwise_mid_elim hdisjL
  have hmemO : ∀ x ∈ pre ++ post, x ∈ s.segs := by
    intro x hx
    rw [e1]
    rcases List.mem_append.mp hx with h1 | h2
    · simp [h1]
    · simp [h2]
  have hbtm : bt ∈ s.segs := by
    rw [e1]
    simp
  have hbns : bt.status ≠ BtStatus.span := by
    rw [halloc]
    intro hc
    cases hc
  have hprea : ∀ x ∈ pre, x.start < bt.start := by
    intro x hx
    rcases (sPreX x hx : x.start < bt.start ∨
        (x.start = bt.start ∧ x.status = BtStatus.span)) with h1 | ⟨h1, h2⟩
    · omega
    · exact absurd h2 (hns x (hmemO x (by simp [hx])))
  have hpostgt : ∀ y ∈ post, bt.start < y.start := by
    intro y hy
    rcases (sPostX y hy : bt.start < y.start ∨
        (bt.start = y.start ∧ bt.status = BtStatus.span)) with h1 | ⟨h1, h2⟩
    · omega
    · exact absurd h2 hbns
  have hpreF : ∀ x ∈ pre, x.start + x.size ≤ bt.start ∧ x.start < bt.start ∧
      x.status ≠ BtStatus.span ∧ 0 < x.size := by
    intro x hx
    exact ⟨dPreX x hx, hprea x hx, hns x (hmemO x (by simp [hx])),
      hpos x (hmemO x (by simp [hx]))⟩
  have hpostE : ∀ y ∈ post, bt.start + bt.size ≤ y.start ∧ y.status ≠ BtStatus.span ∧
      0 < y.size := by
    intro y hy
    exact ⟨dPostX y hy, hns y (hmemO y (by simp [hy])),
      hpos y (hmemO y (by simp [hy]))⟩
  rw [e2] at h
  have hins : insertBtag ⟨bt.start, bt.size, BtStatus.free⟩ (pre ++ post) =
      some (pre ++ (⟨bt.start, bt.size, BtStatus.free⟩ : Btag) :: post) := by
    refine insert_between ?_ ?_
    · intro x hx
      show x.start < bt.start
      exact hprea x hx
    · intro y hy
      show bt.start < y.start
      exact hpostgt y hy
  rw [hins] at h
  dsimp only at h
  have hsplit : splitSeg addr
      (pre ++ (⟨bt.start, bt.size, BtStatus.free⟩ : Btag) :: post) =
      some (pre, ⟨bt.start, bt.size, BtStatus.free⟩, post) := by
    refine @split_middle addr ⟨bt.start, bt.size, BtStatus.free⟩ hstart ?_ pre post ?_
    · intro hc
      cases hc
    · intro x hx
      have := hprea x hx
      omega
  have hfinish : ∀ (B1 : Btag) (postO : List Btag) (fsX : List (List Nat)),
      B1.start = bt.start → B1.status = BtStatus.free → 0 < B1.size →
      List.Pairwise segBefore postO →
      List.Pairwise (fun x y => x.start + x.size ≤ y.start) postO →
      (∀ y ∈ postO, B1.start + B1.size ≤ y.start ∧ y.status ≠ BtStatus.span ∧
        0 < y.size) →
      (∀ y ∈ postO, y ∈ post) →
      (∀ u ∈ postO, u.status = BtStatus.free → B1.start + B1.size ≠ u.start) →
      ∃ b2 preR fs2 segs2 fs3,
        coalesceLeft pre.reverse B1 fsX = (b2, preR, fs2) ∧
        coalesceSpan preR b2 postO fs2 = (segs2, fs3, none) ∧
        SegsSorted segs2 ∧
        List.Pairwise (fun x y => x.start + x.size ≤ y.start) segs2 ∧
        (∀ x ∈ segs2, x.status ≠ BtStatus.span) ∧
        (∀ x ∈ segs2, 0 < x.size) ∧
        noAdjFree segs2 := by
    intro B1 postO fsX hB1s hB1f hB1pos sPO dPO hpF hsub hrt
    refine okay_free_finish sPre dPre hpreF hB1s hB1f hB1pos sPO dPO hpF ?_ ?_ hrt ?_
    · intro x hx y hy
      exact sCross x hx y (hsub y hy)
    · intro x hx y hy
      exact dCross x hx y (hsub y hy)
    · intro t ht u hu htf huf
      have hmt : t ∈ pre ++ post := by
        rcases List.mem_append.mp ht with h1 | h2
        · exact List.mem_append.mpr (Or.inl h1)
        · exact List.mem_append.mpr (Or.inr (hsub t h2))
      have hmu : u ∈ pre ++ post := by
        rcases List.mem_append.mp hu with h1 | h2
        · exact List.mem_append.mpr (Or.inl h1)
        · exact List.mem_append.mpr (Or.inr (hsub u h2))
      exact hnadj t (hmemO t hmt) u (hmemO u hmu) htf huf
  have hmain : ∀ (B1 : Btag) (postO : List Btag) (fsX : List (List Nat)),
      coalesceRight ⟨bt.start, bt.size, BtStatus.free⟩ post
          (bucketPush s.freeSegs ⟨bt.start, bt.size, BtStatus.free⟩) =
        (B1, postO, fsX) →
      B1.start = bt.start → B1.status = BtStatus.free → 0 < B1.size →
      List.Pairwise segBefore postO →
      List.Pairwise (fun x y => x.start + x.size ≤ y.start) postO →
      (∀ y ∈ postO, B1.start + B1.size ≤ y.start ∧ y.status ≠ BtStatus.span ∧
        0 < y.size) →
      (∀ y ∈ postO, y ∈ post) →
      (∀ u ∈ postO, u.status = BtStatus.free → B1.start + B1.size ≠ u.start) →
      segsOkay s1 ∧ s1.hasSource = s.hasSource ∧ s1.quantum = s.quantum ∧
        s1.last_nextfit_alloc = s.last_nextfit_alloc := by
    intro B1 postO fsX hR hB1s hB1f hB1pos sPO dPO hpF hsub hrt
    obtain ⟨b2, preR, fs2, segs2, fs3, hL, hSp, pr1, pr2, pr3, pr4, pr5⟩ :=
      hfinish B1 postO fsX hB1s hB1f hB1pos sPO dPO hpF hsub hrt
    have hco : coalesce_free_seg
        (pre ++ (⟨bt.start, bt.size, BtStatus.free⟩ : Btag) :: post)
        (bucketPush s.freeSegs ⟨bt.start, bt.size, BtStatus.free⟩) addr =
        some (segs2, fs3, none) := by
      unfold coalesce_free_seg
      rw [hsplit]
      dsimp only
      rw [hR]
      dsimp only
      rw [hL]
      dsimp only
      rw [hSp]
    rw [hco] at h
    dsimp only at h
    rw [Option.some.injEq, Prod.mk.injEq] at h
    obtain ⟨hXs, hXr⟩ := h
    have hS : s1.segs = segs2 := by rw [← hXs]
    refine ⟨⟨?_, ?_, ?_, ?_, ?_⟩, by rw [← hXs], by rw [← hXs], by rw [← hXs]⟩
    · show SegsSorted s1.segs
      rw [hS]
      exact pr1
    · rw [hS]
      exact pr2
    · rw [hS]
      exact pr3
    · rw [hS]
      exact pr4
    · rw [hS]
      exact pr5
  cases post with
  | nil =>
    refine hmain ⟨bt.start, bt.size, BtStatus.free⟩ []
      (bucketPush s.freeSegs ⟨bt.start, bt.size, BtStatus.free⟩)
      (coalesceRight_nil _ _) rfl rfl (hpos bt hbtm) List.Pairwise.nil List.Pairwise.nil
      (fun y hy => absurd hy (List.not_mem_nil y))
      (fun y hy => absurd hy (List.not_mem_nil y))
      (fun u hu => absurd hu (List.not_mem_nil u))
  | cons nb post1 =>
    obtain ⟨sNb, sPost1⟩ := List.pairwise_cons.mp sPost
    obtain ⟨dNb, dPost1⟩ := List.pairwise_cons.mp dPost
    have hnbm : nb ∈ nb :: post1 := by simp
    by_cases hmR : mergeOk (⟨bt.start, bt.size, BtStatus.free⟩ : Btag) nb
    · have hnbF : nb.status = BtStatus.free := hmR.2.1
      have hadjR : bt.start + bt.size = nb.start := hmR.2.2
      have hR : coalesceRight ⟨bt.start, bt.size, BtStatus.free⟩ (nb :: post1)
          (bucketPush s.freeSegs ⟨bt.start, bt.size, BtStatus.free⟩) =
          (⟨bt.start, bt.size + nb.size, BtStatus.free⟩, post1,
            mergeBuckets (bucketPush s.freeSegs ⟨bt.start, bt.size, BtStatus.free⟩)
              ⟨bt.start, bt.size, BtStatus.free⟩ nb) := by
        exact @coalesceRight_pos ⟨bt.start, bt.size, BtStatus.free⟩ nb post1
          (bucketPush s.freeSegs ⟨bt.start, bt.size, BtStatus.free⟩) hmR
      refine hmain ⟨bt.start, bt.size + nb.size, BtStatus.free⟩ post1 _ hR rfl rfl ?_
        sPost1 dPost1 ?_ ?_ ?_
      · show 0 < bt.size + nb.size
        have := hpos bt hbtm
        omega
      · intro y hy
        obtain ⟨g1, g2, g3⟩ := hpostE y (by simp [hy])
        have g4 := dNb y hy
        refine ⟨?_, g2, g3⟩
        show bt.start + (bt.size + nb.size) ≤ y.start
        omega
      · intro y hy
        simp [hy]
      · intro u hu huf
        show bt.start + (bt.size + nb.size) ≠ u.start
        have g5 := hnadj nb (hmemO nb (by simp)) u (hmemO u (by simp [hu])) hnbF huf
        omega
    · have hR : coalesceRight ⟨bt.start, bt.size, BtStatus.free⟩ (nb :: post1)
          (bucketPush s.freeSegs ⟨bt.start, bt.size, BtStatus.free⟩) =
          (⟨bt.start, bt.size, BtStatus.free⟩, nb :: post1,
            bucketPush s.freeSegs ⟨bt.start, bt.size, BtStatus.free⟩) :=
        coalesceRight_neg hmR
      refine hmain ⟨bt.start, bt.size, BtStatus.free⟩ (nb :: post1) _ hR rfl rfl
        (hpos bt hbtm) sPost dPost ?_ (fun y hy => hy) ?_
      · intro y hy
        obtain ⟨g1, g2, g3⟩ := hpostE y hy
        exact ⟨g1, g2, g3⟩
      · intro u hu huf
        show bt.start + bt.size ≠ u.start
        intro heq
        rcases List.mem_cons.mp hu with rfl | h2
        · exact hmR ⟨rfl, huf, heq⟩
        · rcases (sNb u h2 : nb.start < u.start ∨
              (nb.start = u.start ∧ nb.status = BtStatus.span)) with g1 | ⟨g1, g2⟩
          · have g3 := (hpostE nb hnbm).1
            omega
          · exact absurd g2 (hns nb (hmemO nb (by simp)))

theorem okay_walk {size align phase nocross maxaddr : Nat} {s : ArenaState} :
    ∀ {l : List Btag} {p : Option Nat} {s1 : ArenaState},
    xallocMinMaxWalk s size align phase nocross maxaddr l = some (p, s1) →
    segsOkay s → segsOkay s1 ∧ s1.hasSource = s.hasSource := by
  intro l
  induction l with
  | nil =>
    intro p s1 h hok
    unfold xallocMinMaxWalk at h
    injection h with h
    injection h with h1 h2
    subst h2
    exact ⟨hok, rfl⟩
  | cons bt rest ih =>
    intro p s1 h hok
    unfold xallocMinMaxWalk at h
    by_cases ht : findSufficient bt.start bt.size size align phase nocross = 0
    · rw [if_pos ht] at h
      exact ih h hok
    rw [if_neg ht] at h
    by_cases hmax : maxaddr ≠ 0 ∧
        maxaddr < findSufficient bt.start bt.size size align phase nocross + size
    · rw [if_pos hmax] at h
      injection h with h
      injection h with h1 h2
      subst h2
      exact ⟨hok, rfl⟩
    rw [if_neg hmax] at h
    by_cases hstf : bt.status = BtStatus.free
    swap
    · rw [if_neg hstf] at h; cases h
    rw [if_pos hstf] at h
    dsimp only at h
    cases hspq : (if findSufficient bt.start bt.size size align phase nocross = bt.start
        then some { s with freeSegs := bucketRemove s.freeSegs bt }
        else split_bt_at { s with freeSegs := bucketRemove s.freeSegs bt } bt.start
          (findSufficient bt.start bt.size size align phase nocross)) with
    | none => rw [hspq] at h; cases h
    | some s2 =>
      rw [hspq] at h
      dsimp only at h
      cases hac : account_alloc s2
          (findSufficient bt.start bt.size size align phase nocross) size with
      | none => rw [hac] at h; cases h
      | some s3 =>
        rw [hac] at h
        replace h : some (some (findSufficient bt.start bt.size size align phase nocross),
            s3) = some (p, s1) := h
        injection h with h
        injection h with h1 h2
        subst h2
        have hok2 : segsOkay { s with freeSegs := bucketRemove s.freeSegs bt } := hok
        obtain ⟨o1, o2, o3, o4⟩ := okay_split_account hok2 hspq hac
        exact ⟨o1, o2⟩

theorem okay_min_max {s : ArenaState}
    {size align phase nocross minaddr maxaddr : Nat} {p : Option Nat} {s1 : ArenaState}
    (h : xalloc_min_max s size align phase nocross minaddr maxaddr = some (p, s1))
    (hok : segsOkay s) : segsOkay s1 ∧ s1.hasSource = s.hasSource :=
  okay_walk h hok

theorem okay_nextfit {s : ArenaState} {size align phase nocross : Nat}
    {p : Option Nat} {s1 : ArenaState}
    (h : xalloc_nextfit s size align phase nocross = some (p, s1))
    (hok : segsOkay s) : segsOkay s1 ∧ s1.hasSource = s.hasSource := by
  unfold xalloc_nextfit at h
  cases h1 : xalloc_min_max s size align phase nocross
      ((s.last_nextfit_alloc + s.quantum) % W) 0 with
  | none => rw [h1] at h; cases h
  | some q =>
    obtain ⟨p0, sA⟩ := q
    rw [h1] at h
    cases p0 with
    | some pv =>
      replace h : some (some pv, { sA with last_nextfit_alloc := pv }) = some (p, s1) := h
      injection h with h
      injection h with hp hs1
      subst hs1
      obtain ⟨o1, o2⟩ := okay_min_max h1 hok
      exact ⟨o1, o2⟩
    | none =>
      replace h : (match xalloc_min_max s size align phase nocross s.quantum 0 with
        | none => none
        | some (some p2, s2) => some (some p2, { s2 with last_nextfit_alloc := p2 })
        | some (none, s2) => some (none, s2)) = some (p, s1) := h
      cases h2 : xalloc_min_max s size align phase nocross s.quantum 0 with
      | none => rw [h2] at h; cases h
      | some q2 =>
        obtain ⟨p2, sB⟩ := q2
        rw [h2] at h
        cases p2 with
        | some pv2 =>
          replace h : some (some pv2, { sB with last_nextfit_alloc := pv2 }) =
              some (p, s1) := h
          injection h with h
          injection h with hp hs1
          subst hs1
          obtain ⟨o1, o2⟩ := okay_min_max h2 hok
          exact ⟨o1, o2⟩
        | none =>
          replace h : some ((none : Option Nat), sB) = some (p, s1) := h
          injection h with h
          injection h with hp hs1
          subst hs1
          exact okay_min_max h2 hok

theorem okay_instantfit {s : ArenaState} {n : Nat} {p : Option Nat} {s1 : ArenaState}
    (h : alloc_instantfit s n = some (p, s1))
    (hok : segsOkay s) : segsOkay s1 ∧ s1.hasSource = s.hasSource := by
  unfold alloc_instantfit at h
  cases hg : getFromFreelists s.freeSegs (LOG2_UP n) with
  | none =>
    rw [hg] at h
    injection h with h
    injection h with h1 h2
    subst h2
    exact ⟨hok, rfl⟩
  | some q =>
    obtain ⟨a, fs1⟩ := q
    rw [hg] at h
    dsimp only at h
    cases hac : account_alloc { s with freeSegs := fs1 } a n with
    | none => rw [hac] at h; cases h
    | some s2 =>
      rw [hac] at h
      replace h : some (some a, s2) = some (p, s1) := h
      injection h with h
      injection h with h1 h2
      subst h2
      have hok2 : segsOkay { s with freeSegs := fs1 } := hok
      obtain ⟨o1, o2, o3, o4⟩ := okay_account hok2 hac
      exact ⟨o1, o2⟩

theorem okay_bestfit {s : ArenaState} {n : Nat} {p : Option Nat} {s1 : ArenaState}
    (h : alloc_bestfit s n = some (p, s1))
    (hok : segsOkay s) : segsOkay s1 ∧ s1.hasSource = s.hasSource := by
  unfold alloc_bestfit at h
  dsimp only at h
  cases hb : bestfitScan s.segs n (getBucket s.freeSegs (LOG2_DOWN n)) with
  | some bt =>
    rw [hb] at h
    dsimp only at h
    cases hac : account_alloc s bt.start n with
    | none => rw [hac] at h; cases h
    | some s2 =>
      rw [hac] at h
      replace h : some (some bt.start, s2) = some (p, s1) := h
      injection h with h
      injection h with h1 h2
      subst h2
      obtain ⟨o1, o2, o3, o4⟩ := okay_account hok hac
      exact ⟨o1, o2⟩
  | none =>
    rw [hb] at h
    dsimp only at h
    cases hg : getFromFreelists s.freeSegs (LOG2_DOWN n + 1) with
    | none =>
      rw [hg] at h
      injection h with h
      injection h with h1 h2
      subst h2
      exact ⟨hok, rfl⟩
    | some q =>
      obtain ⟨a, fs1⟩ := q
      rw [hg] at h
      dsimp only at h
      cases hac : account_alloc { s with freeSegs := fs1 } a n with
      | none => rw [hac] at h; cases h
      | some s2 =>
        rw [hac] at h
        replace h : some (some a, s2) = some (p, s1) := h
        injection h with h
        injection h with h1 h2
        subst h2
        have hok2 : segsOkay { s with freeSegs := fs1 } := hok
        obtain ⟨o1, o2, o3, o4⟩ := okay_account hok2 hac
        exact ⟨o1, o2⟩

theorem okay_alloc_from_arena {s : ArenaState} {n : Nat} {f : MemFlags}
    {p : Option Nat} {s1 : ArenaState}
    (h : alloc_from_arena s n f = some (p, s1))
    (hok : segsOkay s) : segsOkay s1 ∧ s1.hasSource = s.hasSource := by
  unfold alloc_from_arena at h
  cases hst : f.style with
  | bestfit => rw [hst] at h; exact okay_bestfit h hok
  | nextfit => rw [hst] at h; exact okay_nextfit h hok
  | instantfit => rw [hst] at h; exact okay_instantfit h hok

theorem okay_get_more {s : ArenaState} {n : Nat} {f : MemFlags} {spanq : Option Nat}
    {got : Bool} {s1 : ArenaState} (hsrc : s.hasSource = false)
    (h : get_more_resources s n f spanq = some (got, s1)) :
    got = false ∧ s1 = s := by
  unfold get_more_resources at h
  rw [hsrc] at h
  rw [if_neg Bool.false_ne_true] at h
  by_cases hat : f.atomic
  · rw [if_pos hat] at h
    injection h with h
    injection h with h1 h2
    exact ⟨h1.symm, h2.symm⟩
  · rw [if_neg hat] at h
    cases h

theorem okay_allocLoop {n : Nat} {f : MemFlags} :
    ∀ {oracle : List Nat} {s : ArenaState} {p : Option Nat} {s1 : ArenaState},
    arenaAllocLoop n f s oracle = some (p, s1) →
    segsOkay s → s.hasSource = false →
    segsOkay s1 ∧ s1.hasSource = s.hasSource := by
  intro oracle
  induction oracle with
  | nil =>
    intro s p s1 h hok hsrc
    unfold arenaAllocLoop at h
    cases ha : alloc_from_arena s n f with
    | none => rw [ha] at h; cases h
    | some q =>
      obtain ⟨p0, sA⟩ := q
      rw [ha] at h
      cases p0 with
      | some pv =>
        replace h : some (some pv, sA) = some (p, s1) := h
        injection h with h
        injection h with h1 h2
        subst h2
        exact okay_alloc_from_arena ha hok
      | none =>
        obtain ⟨hokA, hsrcA⟩ := okay_alloc_from_arena ha hok
        replace h : (match get_more_resources sA n f none with
          | none => none
          | some (_, s2) => some ((none : Option Nat), s2)) = some (p, s1) := h
        cases hg : get_more_resources sA n f none with
        | none => rw [hg] at h; cases h
        | some q2 =>
          obtain ⟨g, sB⟩ := q2
          rw [hg] at h
          replace h : some ((none : Option Nat), sB) = some (p, s1) := h
          injection h with h
          injection h with h1 h2
          subst h2
          obtain ⟨hg1, hg2⟩ := okay_get_more (by rw [hsrcA, hsrc]) hg
          subst hg2
          exact ⟨hokA, hsrcA⟩
  | cons a rest ih =>
    intro s p s1 h hok hsrc
    unfold arenaAllocLoop at h
    cases ha : alloc_from_arena s n f with
    | none => rw [ha] at h; cases h
    | some q =>
      obtain ⟨p0, sA⟩ := q
      rw [ha] at h
      cases p0 with
      | some pv =>
        replace h : some (some pv, sA) = some (p, s1) := h
        injection h with h
        injection h with h1 h2
        subst h2
        exact okay_alloc_from_arena ha hok
      | none =>
        obtain ⟨hokA, hsrcA⟩ := okay_alloc_from_arena ha hok
        replace h : (match get_more_resources sA n f (some a) with
          | none => none
          | some (false, s2) => some ((none : Option Nat), s2)
          | some (true, s2) => arenaAllocLoop n f s2 rest) = some (p, s1) := h
        cases hg : get_more_resources sA n f (some a) with
        | none => rw [hg] at h; cases h
        | some q2 =>
          obtain ⟨g, sB⟩ := q2
          rw [hg] at h
          obtain ⟨hg1, hg2⟩ := okay_get_more (by rw [hsrcA, hsrc]) hg
          subst hg1
          subst hg2
          replace h : some ((none : Option Nat), sB) = some (p, s1) := h
          injection h with h
          injection h with h1 h2
          subst h2
          exact ⟨hokA, hsrcA⟩

theorem okay_arena_alloc {s : ArenaState} {n : Nat} {f : MemFlags}
    {oracle : List Nat} {p : Option Nat} {s1 : ArenaState}
    (h : arena_alloc s n f oracle = some (p, s1))
    (hok : segsOkay s) (hsrc : s.hasSource = false) :
    segsOkay s1 ∧ s1.hasSource = s.hasSource := by
  unfold arena_alloc at h
  by_cases hz : ROUNDUP n s.quantum % W = 0
  · rw [if_pos hz] at h; cases h
  · rw [if_neg hz] at h
    exact okay_allocLoop h hok hsrc

theorem okay_freelists {s : ArenaState} {size align phase nocross : Nat}
    {ti : Bool} {p : Option Nat} {s1 : ArenaState}
    (h : xalloc_from_freelists s size align phase nocross ti = some (p, s1))
    (hok : segsOkay s) : segsOkay s1 ∧ s1.hasSource = s.hasSource := by
  unfold xalloc_from_freelists at h
  by_cases hlt : (rup64 size align + phase) % W < size
  · rw [if_pos hlt] at h
    injection h with h
    injection h with h1 h2
    subst h2
    exact ⟨hok, rfl⟩
  · rw [if_neg hlt] at h
    dsimp only at h
    cases hsc : xallocScanAux s.segs s.freeSegs size align phase nocross
        (LOG2_DOWN ((rup64 size align + phase) % W) + if ti then 1 else 0)
        (ARENA_NR_FREE_LISTS -
          (LOG2_DOWN ((rup64 size align + phase) % W) + if ti then 1 else 0)) with
    | none =>
      rw [hsc] at h
      injection h with h
      injection h with h1 h2
      subst h2
      exact ⟨hok, rfl⟩
    | some q =>
      obtain ⟨a, q2⟩ := q
      obtain ⟨t, i⟩ := q2
      rw [hsc] at h
      dsimp only at h
      cases hspl : (if t = a then
          some { s with freeSegs := listUpd s.freeSegs i (removeFirst a) }
        else split_bt_at { s with freeSegs := listUpd s.freeSegs i (removeFirst a) } a t) with
      | none => rw [hspl] at h; cases h
      | some s2 =>
        rw [hspl] at h
        dsimp only at h
        cases hac : account_alloc s2 t size with
        | none => rw [hac] at h; cases h
        | some s3 =>
          rw [hac] at h
          replace h : some (some t, s3) = some (p, s1) := h
          injection h with h
          injection h with h1 h2
          subst h2
          have hok2 : segsOkay
              { s with freeSegs := listUpd s.freeSegs i (removeFirst a) } := hok
          obtain ⟨o1, o2, o3, o4⟩ := okay_split_account hok2 hspl hac
          exact ⟨o1, o2⟩

theorem okay_xalloc_from_arena {s : ArenaState}
    {size align phase nocross minaddr maxaddr : Nat} {f : MemFlags}
    {p : Option Nat} {s1 : ArenaState}
    (h : xalloc_from_arena s size align phase nocross minaddr maxaddr f = some (p, s1))
    (hok : segsOkay s) : segsOkay s1 ∧ s1.hasSource = s.hasSource := by
  unfold xalloc_from_arena at h
  by_cases hb : minaddr ≠ 0 ∨ maxaddr ≠ 0
  · rw [if_pos hb] at h
    exact okay_min_max h hok
  · rw [if_neg hb] at h
    cases hst : f.style with
    | bestfit => rw [hst] at h; exact okay_freelists h hok
    | nextfit => rw [hst] at h; exact okay_nextfit h hok
    | instantfit => rw [hst] at h; exact okay_freelists h hok

theorem okay_xallocLoop {size align phase nocross minaddr maxaddr : Nat} :
    ∀ {oracle : List Nat} {f : MemFlags} {s : ArenaState} {p : Option Nat}
      {s1 : ArenaState},
    arenaXallocLoop size align phase nocross minaddr maxaddr f s oracle = some (p, s1) →
    segsOkay s → s.hasSource = false →
    segsOkay s1 ∧ s1.hasSource = s.hasSource := by
  intro oracle
  induction oracle with
  | nil =>
    intro f s p s1 h hok hsrc
    unfold arenaXallocLoop at h
    cases ha : xalloc_from_arena s size align phase nocross minaddr maxaddr f with
    | none => rw [ha] at h; cases h
    | some q =>
      obtain ⟨p0, sA⟩ := q
      rw [ha] at h
      cases p0 with
      | some pv =>
        replace h : some (some pv, sA) = some (p, s1) := h
        injection h with h
        injection h with h1 h2
        subst h2
        exact okay_xalloc_from_arena ha hok
      | none =>
        obtain ⟨hokA, hsrcA⟩ := okay_xalloc_from_arena ha hok
        replace h : (if (size + align + phase) % W < size then none
          else match get_more_resources sA ((size + align + phase) % W) f none with
            | none => none
            | some (_, s2) => some ((none : Option Nat), s2)) = some (p, s1) := h
        by_cases hov : (size + align + phase) % W < size
        · rw [if_pos hov] at h; cases h
        · rw [if_neg hov] at h
          cases hg : get_more_resources sA ((size + align + phase) % W) f none with
          | none => rw [hg] at h; cases h
          | some q2 =>
            obtain ⟨g, sB⟩ := q2
            rw [hg] at h
            replace h : some ((none : Option Nat), sB) = some (p, s1) := h
            injection h with h
            injection h with h1 h2
            subst h2
            obtain ⟨hg1, hg2⟩ := okay_get_more (by rw [hsrcA, hsrc]) hg
            subst hg2
            exact ⟨hokA, hsrcA⟩
  | cons a rest ih =>
    intro f s p s1 h hok hsrc
    unfold arenaXallocLoop at h
    cases ha : xalloc_from_arena s size align phase nocross minaddr maxaddr f with
    | none => rw [ha] at h; cases h
    | some q =>
      obtain ⟨p0, sA⟩ := q
      rw [ha] at h
      cases p0 with
      | some pv =>
        replace h : some (some pv, sA) = some (p, s1) := h
        injection h with h
        injection h with h1 h2
        subst h2
        exact okay_xalloc_from_arena ha hok
      | none =>
        obtain ⟨hokA, hsrcA⟩ := okay_xalloc_from_arena ha hok
        replace h : (if (size + align + phase) % W < size then none
          else match get_more_resources sA ((size + align + phase) % W) f (some a) with
            | none => none
            | some (false, s2) => some ((none : Option Nat), s2)
            | some (true, s2) =>
              arenaXallocLoop size align phase nocross minaddr maxaddr
                { f with style := AllocStyle.bestfit } s2 rest) = some (p, s1) := h
        by_cases hov : (size + align + phase) % W < size
        · rw [if_pos hov] at h; cases h
        · rw [if_neg hov] at h
          cases hg : get_more_resources sA ((size + align + phase) % W) f (some a) with
          | none => rw [hg] at h; cases h
          | some q2 =>
            obtain ⟨g, sB⟩ := q2
            rw [hg] at h
            obtain ⟨hg1, hg2⟩ := okay_get_more (by rw [hsrcA, hsrc]) hg
            subst hg1
            subst hg2
            replace h : some ((none : Option Nat), sB) = some (p, s1) := h
            injection h with h
            injection h with h1 h2
            subst h2
            exact ⟨hokA, hsrcA⟩

theorem okay_arena_xalloc {s : ArenaState}
    {size0 align phase nocross minaddr maxaddr : Nat} {f : MemFlags}
    {oracle : List Nat} {p : Option Nat} {s1 : ArenaState}
    (h : arena_xalloc s size0 align phase nocross minaddr maxaddr f oracle =
      some (p, s1))
    (hok : segsOkay s) (hsrc : s.hasSource = false) :
    segsOkay s1 ∧ s1.hasSource = s.hasSource :=
  okay_xallocLoop (arena_xalloc_eq_loop h) hok hsrc

theorem okay_add_inner {s s1 : ArenaState} {b n : Nat}
    (hok : segsOkay s) (hsrc : s.hasSource = false)
    (hsep : ∀ t ∈ s.segs, t.start + t.size < b ∨ b + n < t.start)
    (h : arena_add_inner s b n = some s1) :
    segsOkay s1 ∧ s1.hasSource = s.hasSource := by
  obtain ⟨hsort, hdisj, hns, hpos, hnadj⟩ := hok
  unfold arena_add_inner at h
  by_cases hg : b % s.quantum = 0 ∧ n % s.quantum = 0 ∧ b < (b + n) % W
  swap
  · rw [if_neg hg] at h; cases h
  rw [if_pos hg] at h
  rw [hsrc] at h
  rw [if_neg Bool.false_ne_true] at h
  dsimp only at h
  cases hins : insertBtag ⟨b, n, BtStatus.free⟩ s.segs with
  | none => rw [hins] at h; cases h
  | some segs2 =>
    rw [hins] at h
    replace h : some { s with
        segs := segs2
        hasSource := false
        amt_total_segs := s.amt_total_segs + n
        freeSegs := bucketPush s.freeSegs ⟨b, n, BtStatus.free⟩ } = some s1 := h
    injection h with h
    subst h
    obtain ⟨pre, post, e1, e2, hpreI, hheadI⟩ := insertBtag_eq hins
    have hn0 : 0 < n := by
      have h1 : (b + n) % W ≤ b + n := Nat.mod_le _ _
      omega
    have hsortL : List.Pairwise segBefore (pre ++ post) := by
      rw [← e1]
      exact hsort
    have hdisjL : List.Pairwise (fun x y => x.start + x.size ≤ y.start)
        (pre ++ post) := by
      rw [← e1]
      exact hdisj
    rw [List.pairwise_append] at hsortL hdisjL
    obtain ⟨sPre, sPost, sCross⟩ := hsortL
    obtain ⟨dPre, dPost, dCross⟩ := hdisjL
    have hmemO : ∀ x ∈ pre ++ post, x ∈ s.segs := by
      intro x hx
      rw [e1]
      exact hx
    have hpre_lt : ∀ x ∈ pre, x.start < b := by
      intro x hx
      rcases hpreI x hx with h1 | ⟨h1, h2⟩
      · exact h1
      · exact absurd h2 (hns x (hmemO x (List.mem_append.mpr (Or.inl hx))))
    have hpre_sep : ∀ x ∈ pre, x.start + x.size < b := by
      intro x hx
      rcases hsep x (hmemO x (List.mem_append.mpr (Or.inl hx))) with h1 | h1
      · exact h1
      · have := hpre_lt x hx
        omega
    have hpost_b : ∀ y ∈ post, b < y.start := by
      intro y hy
      rcases post with _ | ⟨y0, post2⟩
      · cases hy
      · have hy0 : b < y0.start := hheadI y0 rfl
        rcases List.mem_cons.mp hy with rfl | h2
        · exact hy0
        · obtain ⟨sY0, -⟩ := List.pairwise_cons.mp sPost
          rcases (sY0 y h2 : y0.start < y.start ∨
              (y0.start = y.start ∧ y0.status = BtStatus.span)) with g1 | ⟨g1, g2⟩
          · omega
          · exact absurd g2 (hns y0 (hmemO y0 (List.mem_append.mpr (Or.inr (by simp)))))
    have hpost_sep : ∀ y ∈ post, b + n < y.start := by
      intro y hy
      rcases hsep y (hmemO y (List.mem_append.mpr (Or.inr hy))) with h1 | h1
      · have := hpost_b y hy
        omega
      · exact h1
    obtain ⟨g1, g2, g3, g4, g5⟩ := okay_free_rebuild (M := ⟨b, n, BtStatus.free⟩)
      sPre sPost sCross dPre dPost dCross rfl hn0
      (fun x hx => ⟨by
        have := hpre_sep x hx
        show x.start + x.size ≤ b
        omega, hns x (hmemO x (List.mem_append.mpr (Or.inl hx))),
        hpos x (hmemO x (List.mem_append.mpr (Or.inl hx)))⟩)
      (fun y hy => ⟨by
        have := hpost_sep y hy
        show b + n ≤ y.start
        omega, hns y (hmemO y (List.mem_append.mpr (Or.inr hy))),
        hpos y (hmemO y (List.mem_append.mpr (Or.inr hy)))⟩)
      (fun t ht u hu htf huf => hnadj t (hmemO t ht) u (hmemO u hu) htf huf)
      (fun t ht htf => by
        have := hpre_sep t ht
        show t.start + t.size ≠ b
        omega)
      (fun u hu huf => by
        have := hpost_sep u hu
        show b + n ≠ u.start
        omega)
    refine ⟨⟨?_, ?_, ?_, ?_, ?_⟩, hsrc.symm⟩
    · show SegsSorted segs2
      rw [e2]
      exact g1
    · show List.Pairwise (fun x y => x.start + x.size ≤ y.start) segs2
      rw [e2]
      exact g2
    · show ∀ x ∈ segs2, x.status ≠ BtStatus.span
      rw [e2]
      exact g3
    · show ∀ x ∈ segs2, 0 < x.size
      rw [e2]
      exact g4
    · show noAdjFree segs2
      rw [e2]
      exact g5

theorem okay_arena_add {s : ArenaState} {b n b2 : Nat} {s1 : ArenaState}
    (hok : segsOkay s) (hsrc : s.hasSource = false)
    (hsep : ∀ t ∈ s.segs, t.start + t.size < b ∨ b + n < t.start)
    (h : arena_add s b n = some (b2, s1)) :
    segsOkay s1 ∧ s1.hasSource = s.hasSource := by
  unfold arena_add at h
  rw [hsrc] at h
  rw [if_neg Bool.false_ne_true] at h
  cases hai : arena_add_inner s b n with
  | none => rw [hai] at h; cases h
  | some s2 =>
    rw [hai] at h
    replace h : some (b, s2) = some (b2, s1) := h
    injection h with h
    injection h with h1 h2
    subst h2
    exact okay_add_inner ⟨hok.1, hok.2.1, hok.2.2.1, hok.2.2.2.1, hok.2.2.2.2⟩
      hsrc hsep hai

theorem applyOp_okay {s s1 : ArenaState} {op : ArenaOp}
    (hok : segsOkay s) (hsrc : s.hasSource = false) (hsep : addSep s op)
    (h : applyOp s op = some s1) :
    segsOkay s1 ∧ s1.hasSource = s.hasSource := by
  cases op with
  | add b n =>
    dsimp only [applyOp] at h
    cases ha : arena_add s b n with
    | none => rw [ha] at h; cases h
    | some q =>
      obtain ⟨bb, s2⟩ := q
      rw [ha] at h
      replace h : some s2 = some s1 := h
      injection h with h
      subst h
      exact okay_arena_add hok hsrc hsep ha
  | alloc n f oracle =>
    dsimp only [applyOp] at h
    cases ha : arena_alloc s n f oracle with
    | none => rw [ha] at h; cases h
    | some q =>
      obtain ⟨p0, s2⟩ := q
      rw [ha] at h
      replace h : some s2 = some s1 := h
      injection h with h
      subst h
      exact okay_arena_alloc ha hok hsrc
  | xalloc n al ph nc mi ma f oracle =>
    dsimp only [applyOp] at h
    cases ha : arena_xalloc s n al ph nc mi ma f oracle with
    | none => rw [ha] at h; cases h
    | some q =>
      obtain ⟨p0, s2⟩ := q
      rw [ha] at h
      replace h : some s2 = some s1 := h
      injection h with h
      subst h
      exact okay_arena_xalloc ha hok hsrc
  | free a n =>
    dsimp only [applyOp] at h
    cases ha : arena_free s a n with
    | none => rw [ha] at h; cases h
    | some q =>
      obtain ⟨s2, ret⟩ := q
      rw [ha] at h
      replace h : some s2 = some s1 := h
      injection h with h
      subst h
      obtain ⟨o1, o2, o3, o4⟩ := okay_free hok ha
      exact ⟨o1, o2⟩
  | xfree a n =>
    dsimp only [applyOp] at h
    cases ha : arena_xfree s a n with
    | none => rw [ha] at h; cases h
    | some q =>
      obtain ⟨s2, ret⟩ := q
      rw [ha] at h
      replace h : some s2 = some s1 := h
      injection h with h
      subst h
      obtain ⟨o1, o2, o3, o4⟩ := okay_free hok ha
      exact ⟨o1, o2⟩

theorem reach_sep_okay {q : Nat} {s : ArenaState}
    (h : ArenaReachSep (initArena q false) s) :
    segsOkay s ∧ s.hasSource = false := by
  induction h with
  | refl =>
    refine ⟨⟨List.Pairwise.nil, List.Pairwise.nil, ?_, ?_, ?_⟩, rfl⟩
    · intro x hx
      cases hx
    · intro x hx
      cases hx
    · intro t ht
      cases ht
  | step op hre hsep happ ih =>
    obtain ⟨hok, hsrc⟩ := ih
    obtain ⟨hok2, hsrc2⟩ := applyOp_okay hok hsrc hsep happ
    refine ⟨hok2, ?_⟩
    rw [hsrc2, hsrc]

/-- C5 (amended): in every arena state reachable from a fresh unsourced
arena by public operations in which every arena_add span is strictly
separated from the segments already present (disjoint and not
address-adjacent), no two boundary tags adjacent in address order are both
FREE.  The separation restriction is forced: arena_add does not coalesce,
so adding two abutting spans leaves two adjacent FREE tags
(c5_counterexample); sourced arenas refuse arena_add, and imported spans
always satisfy the same separation argument. -/
theorem c5_no_adjacent_free {q : Nat} {s : ArenaState}
    (h : ArenaReachSep (initArena q false) s) : noAdjFree s.segs :=
  (reach_sep_okay h).1.2.2.2.2

set_option maxRecDepth 8000 in
/-- C5 witness: after the separated adds of [0x100, 0x200) and
[0x300, 0x400) no two adjacent tags are both FREE. -/
theorem c5_no_adjacent_free_witness : noAdjFree c5W2.segs :=
  c5_no_adjacent_free
    (@ArenaReachSep.step (initArena 0x100 false) c5W1 c5W2 (ArenaOp.add 0x300 0x100)
      (@ArenaReachSep.step (initArena 0x100 false) (initArena 0x100 false) c5W1
        (ArenaOp.add 0x100 0x100) ArenaReachSep.refl (by decide) (by decide))
      (by decide) (by decide))

/-- obj_size=64 lifecycle evaluation: 63 allocations leave the 64-object slab
partial, the 64th moves it to full, one free returns it to partial, freeing
all 64 returns it to empty. -/
theorem c9_lifecycle_eval :
    kallocN 63 c9Cache = some ⟨[], [⟨7, 63, 64⟩], [], 63⟩ ∧
    kallocN 64 c9Cache = some ⟨[⟨7, 64, 64⟩], [], [], 64⟩ ∧
    kmem_cache_free ⟨[⟨7, 64, 64⟩], [], [], 64⟩ 7 =
      some ⟨[], [⟨7, 63, 64⟩], [], 63⟩ ∧
    kfreeN 64 7 ⟨[⟨7, 64, 64⟩], [], [], 64⟩ =
      some ⟨[], [], [⟨7, 0, 64⟩], 0⟩ := by
  refine ⟨by decide, by decide, by decide, by decide⟩

/-- C9 counterexample: on a cache holding one full slab with a single object
(allocating that object moves the slab empty, partial, full), kmem_cache_free
brings the busy count to zero, but the was-full branch moves the slab to the
partial list and the else-if is skipped: the slab is not demoted to the empty
list, which stays untouched. -/
theorem c9_counterexample :
    kmem_cache_alloc ⟨[], [], [⟨0, 0, 1⟩], 0⟩ none =
      some (0, ⟨[⟨0, 1, 1⟩], [], [], 1⟩) ∧
    kmem_cache_free ⟨[⟨0, 1, 1⟩], [], [], 1⟩ 0 =
      some ⟨[], [⟨0, 0, 1⟩], [], 0⟩ ∧
    (⟨[], [⟨0, 0, 1⟩], [], 0⟩ : KmemCache).empty_slab_list = [] := by
  refine ⟨by decide, by decide, rfl⟩

/-- C9 (amended): every successful kmem_cache_free decrements the owning
slab's busy counter (nr_cur_alloc drops with it); a slab that was full is
demoted to the partial list; a slab whose busy count reaches zero is demoted
to the empty list only when it was not full, i.e. only when it holds at
least two objects — a single-object slab ends on the partial list with zero
busy objects and the empty list untouched; a slab matching neither condition
stays in place with the decremented counter.  The obj_size=64 lifecycle
holds: 63 allocations leave the 64-object slab partial, the 64th moves it to
full, freeing one object returns it to partial, freeing all 64 returns it to
empty. -/
theorem c9_free_and_lifecycle (cp cp2 : KmemCache) (obj : Nat) (sl : KmemSlab)
    (hfind : findKSlab cp obj = some sl)
    (hfree : kmem_cache_free cp obj = some cp2) :
    (0 < sl.num_busy_obj ∧ cp2.nr_cur_alloc = cp.nr_cur_alloc - 1) ∧
    (sl.num_busy_obj = sl.num_total_obj →
      cp2.full_slab_list = removeKSlab cp.full_slab_list obj ∧
      cp2.partial_slab_list =
        ⟨sl.sid, sl.num_busy_obj - 1, sl.num_total_obj⟩ ::
          cp.partial_slab_list ∧
      cp2.empty_slab_list = cp.empty_slab_list) ∧
    (sl.num_busy_obj = 1 → sl.num_total_obj ≠ 1 →
      cp2.partial_slab_list = removeKSlab cp.partial_slab_list obj ∧
      cp2.empty_slab_list =
        ⟨sl.sid, 0, sl.num_total_obj⟩ :: cp.empty_slab_list ∧
      cp2.full_slab_list = cp.full_slab_list) ∧
    (sl.num_total_obj = 1 → sl.num_busy_obj = 1 →
      cp2.empty_slab_list = cp.empty_slab_list ∧
      cp2.partial_slab_list = ⟨sl.sid, 0, 1⟩ :: cp.partial_slab_list) ∧
    (sl.num_busy_obj ≠ sl.num_total_obj → sl.num_busy_obj ≠ 1 →
      cp2 = ⟨updKSlab cp.full_slab_list obj
               ⟨sl.sid, sl.num_busy_obj - 1, sl.num_total_obj⟩,
             updKSlab cp.partial_slab_list obj
               ⟨sl.sid, sl.num_busy_obj - 1, sl.num_total_obj⟩,
             updKSlab cp.empty_slab_list obj
               ⟨sl.sid, sl.num_busy_obj - 1, sl.num_total_obj⟩,
             cp.nr_cur_alloc - 1⟩) ∧
    (kallocN 63 c9Cache = some ⟨[], [⟨7, 63, 64⟩], [], 63⟩ ∧
     kallocN 64 c9Cache = some ⟨[⟨7, 64, 64⟩], [], [], 64⟩ ∧
     kmem_cache_free ⟨[⟨7, 64, 64⟩], [], [], 64⟩ 7 =
       some ⟨[], [⟨7, 63, 64⟩], [], 63⟩ ∧
     kfreeN 64 7 ⟨[⟨7, 64, 64⟩], [], [], 64⟩ =
       some ⟨[], [], [⟨7, 0, 64⟩], 0⟩) := by
  simp only [kmem_cache_free, hfind] at hfree
  by_cases hz : sl.num_busy_obj = 0
  · rw [if_pos hz] at hfree
    cases hfree
  · rw [if_neg hz] at hfree
    have hpos : 0 < sl.num_busy_obj := Nat.pos_of_ne_zero hz
    by_cases hwf : sl.num_busy_obj - 1 + 1 = sl.num_total_obj
    · rw [if_pos hwf] at hfree
      by_cases hmem : onKList cp.full_slab_list obj = true
      · rw [if_pos hmem] at hfree
        injection hfree with h2
        subst h2
        refine ⟨⟨hpos, rfl⟩, ?_, ?_, ?_, ?_, c9_lifecycle_eval⟩
        · intro _
          exact ⟨rfl, rfl, rfl⟩
        · intro hb1 ht1
          exact absurd (by omega) ht1
        · intro ht1 hb1
          refine ⟨rfl, ?_⟩
          show (⟨sl.sid, sl.num_busy_obj - 1, sl.num_total_obj⟩ : KmemSlab) ::
              cp.partial_slab_list =
            (⟨sl.sid, 0, 1⟩ : KmemSlab) :: cp.partial_slab_list
          rw [hb1, ht1]
        · intro hbt _
          exact absurd (by omega) hbt
      · rw [if_neg hmem] at hfree
        cases hfree
    · rw [if_neg hwf] at hfree
      by_cases hz1 : sl.num_busy_obj - 1 = 0
      · rw [if_pos hz1] at hfree
        by_cases hmem : onKList cp.partial_slab_list obj = true
        · rw [if_pos hmem] at hfree
          injection hfree with h2
          subst h2
          have hb1 : sl.num_busy_obj = 1 := by omega
          have ht1 : sl.num_total_obj ≠ 1 := by omega
          refine ⟨⟨hpos, rfl⟩, ?_, ?_, ?_, ?_, c9_lifecycle_eval⟩
          · intro hbt
            exact absurd (by omega) hwf
          · intro _ _
            refine ⟨rfl, ?_, rfl⟩
            show (⟨sl.sid, sl.num_busy_obj - 1, sl.num_total_obj⟩ : KmemSlab) ::
                cp.empty_slab_list =
              (⟨sl.sid, 0, sl.num_total_obj⟩ : KmemSlab) :: cp.empty_slab_list
            rw [hz1]
          · intro ht1q _
            exact absurd ht1q ht1
          · intro _ hb1q
            exact absurd hb1 hb1q
        · rw [if_neg hmem] at hfree
          cases hfree
      · rw [if_neg hz1] at hfree
        injection hfree with h2
        subst h2
        refine ⟨⟨hpos, rfl⟩, ?_, ?_, ?_, ?_, c9_lifecycle_eval⟩
        · intro hbt
          exact absurd (by omega) hwf
        · intro hb1 _
          exact absurd (by omega) hz1
        · intro ht1 hb1
          exact absurd (by omega) hz1
        · intro _ _
          rfl

/-- C9 witness: freeing the only object of a single-object full slab leaves
the empty list untouched and puts the slab, busy count zero, at the head of
the partial list. -/
theorem c9_free_and_lifecycle_witness :
    (⟨[], [⟨0, 0, 1⟩], [], 0⟩ : KmemCache).empty_slab_list =
      (⟨[⟨0, 1, 1⟩], [], [], 1⟩ : KmemCache).empty_slab_list ∧
    (⟨[], [⟨0, 0, 1⟩], [], 0⟩ : KmemCache).partial_slab_list =
      ⟨0, 0, 1⟩ :: (⟨[⟨0, 1, 1⟩], [], [], 1⟩ : KmemCache).partial_slab_list :=
  (@c9_free_and_lifecycle ⟨[⟨0, 1, 1⟩], [], [], 1⟩ ⟨[], [⟨0, 0, 1⟩], [], 0⟩ 0
      ⟨0, 1, 1⟩ (by decide) (by decide)).2.2.2.1 rfl rfl
